import Mathlib

/-!
# Depth-first dual-tree traversal (`fastlib/thor/dfs_impl.h`)

A shallow embedding of `DualTreeDepthFirst<GNP>`: `Doit`, `Begin_`,
`PushDownPostprocess_`, `Pair_` and `BaseCase_`.

* The template parameter `GNP` (the algorithm policy) is a record of types and
  pure functions; a C++ method that mutates its receiver or writes through a
  pointer argument becomes a function returning the new values.
* Tree nodes live in caches addressed by index (`q_nodes_`, `r_nodes_`), the
  per-node mutable state in `q_mutables_`, the per-point results in
  `q_results_`.  A node pointer is represented by the index of the node.
* The recursion follows child indices stored in the nodes, so the recursive
  procedures carry a recursion budget; a run that exhausts it is reported as
  `Outcome.outOfFuel` together with the state reached so far.
* Every state carries a log of the calls the engine has made (policy
  callbacks, cache reads, and the `DEBUG_MSG` lines of the source).  The log is
  never read by the engine.
* Of `fastlib2/contrib/dongryel/multitree_template/multitree_dfs_impl.h` the
  file embeds `Heuristic_`, `LeaveOneOutTuplesBase_`,
  `RecursiveLeaveOneOutTuples_` and `MultiTreeDepthFirstBase_`; of
  `fastlib/u/dongryel/series_expansion/series_expansion_aux.cc` the functions
  `Init` and `ComputeMultiindexPosition`.
-/

namespace Thor

/-- Tree node as the engine sees it: an index range, a leaf flag, two child
indices and a policy specific payload.  The node class itself is declared
outside `dfs_impl.h`; the engine only uses `begin()`, `end()`, `count()`,
`is_leaf()` and `child(k)`. -/
structure Node (Info : Type) where
  begin : Nat
  count : Nat
  is_leaf : Bool
  child0 : Nat
  child1 : Nat
  info : Info

/-- One past the last point index of the node: `end()`. -/
def Node.end_ {Info : Type} (n : Node Info) : Nat := n.begin + n.count

/-- Child index `child(k)` for `k = 0, 1`. -/
def Node.child {Info : Type} (n : Node Info) (k : Nat) : Nat :=
  if k = 0 then n.child0 else n.child1

/-- Values written by `ConsiderPairIntrinsic`: the returned flag, the delta
written through `&delta`, and the new contents of `*global_result` and
`*postponed`. -/
structure IntrinsicOut (Delta GlobalResult QPostponed : Type) where
  explore : Bool
  delta : Delta
  global_result : GlobalResult
  postponed : QPostponed

/-- Values written by `ConsiderQueryTermination` and `ConsiderPairExtrinsic`:
the returned flag and the new contents of `*postponed`. -/
structure TestOut (QPostponed : Type) where
  explore : Bool
  postponed : QPostponed

/-- Values written by `StartVisitingQueryPoint`: the returned flag, the
visitor itself and the contents of `*q_result` and `*global_result`. -/
structure StartOut (PairVisitor QResult GlobalResult : Type) where
  visit : Bool
  visitor : PairVisitor
  q_result : QResult
  global_result : GlobalResult

/-- Values written by `FinishVisitingQueryPoint`. -/
structure FinishOut (PairVisitor QResult GlobalResult : Type) where
  visitor : PairVisitor
  q_result : QResult
  global_result : GlobalResult

/-- The policy `GNP`: its types and the operations `dfs_impl.h` calls on them.
`Score` with `Score_gt` stands for the `double` returned by `Heuristic` and
the comparison `heur1 > heur2`. -/
structure GNP where
  Param : Type
  QPoint : Type
  RPoint : Type
  QInfo : Type
  RInfo : Type
  Delta : Type
  QSummaryResult : Type
  QPostponed : Type
  QResult : Type
  GlobalResult : Type
  PairVisitor : Type
  Score : Type
  Score_gt : Score → Score → Bool
  /-- A default constructed `Delta` on which `Init` has not been called. -/
  Delta_default : Delta
  Delta_Init : Param → Delta
  QSummaryResult_Init : Param → QSummaryResult
  QSummaryResult_ApplyPostponed :
    Param → QPostponed → Node QInfo → QSummaryResult → QSummaryResult
  QSummaryResult_ApplySummaryResult :
    Param → QSummaryResult → QSummaryResult → QSummaryResult
  QSummaryResult_ApplyDelta : Param → Delta → QSummaryResult → QSummaryResult
  QSummaryResult_StartReaccumulate :
    Param → Node QInfo → QSummaryResult → QSummaryResult
  /-- The overload `Accumulate(param, q_result)` used by `BaseCase_`. -/
  QSummaryResult_Accumulate : Param → QResult → QSummaryResult → QSummaryResult
  /-- The overload `Accumulate(param, summary, n_points)` used by the query
  split. -/
  QSummaryResult_AccumulateN :
    Param → QSummaryResult → Nat → QSummaryResult → QSummaryResult
  QSummaryResult_FinishReaccumulate :
    Param → Node QInfo → QSummaryResult → QSummaryResult
  QPostponed_Init : Param → QPostponed
  /-- The call `self.ApplyPostponed(param, other)`; arguments are `other`, then
  `self`. -/
  QPostponed_ApplyPostponed : Param → QPostponed → QPostponed → QPostponed
  QPostponed_Reset : Param → QPostponed → QPostponed
  QResult_ApplyPostponed :
    Param → QPostponed → QPoint → Nat → QResult → QResult
  QResult_Postprocess : Param → QPoint → Nat → Node RInfo → QResult → QResult
  GlobalResult_Init : Param → GlobalResult
  GlobalResult_UndoDelta : Param → Delta → GlobalResult → GlobalResult
  GlobalResult_ApplyResult :
    Param → QPoint → Nat → QResult → GlobalResult → GlobalResult
  Algorithm_ConsiderPairIntrinsic :
    Param → Node QInfo → Node RInfo → Delta → GlobalResult → QPostponed →
      IntrinsicOut Delta GlobalResult QPostponed
  Algorithm_ConsiderQueryTermination :
    Param → Node QInfo → QSummaryResult → GlobalResult → QPostponed →
      TestOut QPostponed
  Algorithm_ConsiderPairExtrinsic :
    Param → Node QInfo → Node RInfo → Delta → QSummaryResult → GlobalResult →
      QPostponed → TestOut QPostponed
  Algorithm_Heuristic : Param → Node QInfo → Node RInfo → Delta → Score
  PairVisitor_Init : Param → PairVisitor
  PairVisitor_StartVisitingQueryPoint :
    Param → QPoint → Nat → Node RInfo → QSummaryResult → QResult →
      GlobalResult → PairVisitor → StartOut PairVisitor QResult GlobalResult
  PairVisitor_VisitPair :
    Param → QPoint → Nat → RPoint → Nat → PairVisitor → PairVisitor
  PairVisitor_FinishVisitingQueryPoint :
    Param → QPoint → Nat → Node RInfo → QSummaryResult → QResult →
      GlobalResult → PairVisitor → FinishOut PairVisitor QResult GlobalResult

/-- Per query node working state: `QMutables`. -/
structure QMutables (G : GNP) where
  summary_result : G.QSummaryResult
  postponed : G.QPostponed

/-- Calls made by the engine, in the order they are made.  Node arguments are
given by node index, point arguments by point index. -/
inductive Event (G : GNP) where
  /-- Entry of `Pair_` (the `Checking` message). -/
  | Checking (q_i r_i : Nat) (delta : G.Delta) (unvisited : G.QSummaryResult)
  | ConsiderPairIntrinsic (q_i r_i : Nat) (postponed_in postponed_out : G.QPostponed)
      (explore : Bool) (delta : G.Delta)
  | ConsiderQueryTermination (q_i : Nat) (postponed_in postponed_out : G.QPostponed)
      (explore : Bool)
  | ConsiderPairExtrinsic (q_i r_i : Nat) (postponed_in postponed_out : G.QPostponed)
      (explore : Bool)
  | TerminationPrune (q_i r_i : Nat)
  | ExtrinsicPrune (q_i r_i : Nat)
  | UndoDelta (delta : G.Delta)
  | SplittingQ (q_i r_i : Nat)
  | SplittingR (q_i r_i : Nat)
  /-- Entry of `BaseCase_`. -/
  | BaseCase (q_i r_i : Nat)
  /-- The call `q_result->ApplyPostponed` for point `q_i`. -/
  | ApplyPostponed (q_i : Nat) (postponed : G.QPostponed)
  | StartVisitingQueryPoint (q_i r_i : Nat) (visit : Bool)
  | VisitPair (q_i r_i : Nat)
  | FinishVisitingQueryPoint (q_i r_i : Nat)
  /-- Entry of `PushDownPostprocess_`. -/
  | PushDown (q_i : Nat)
  | Postprocess (q_i : Nat)
  | ApplyResult (q_i : Nat)
  | StartRead (r_i : Nat)
  | StopRead (r_i : Nat)

/-- The data members of the solver that are fixed during a traversal. -/
structure Engine (G : GNP) where
  param_ : G.Param
  q_nodes_ : Nat → Node G.QInfo
  r_nodes_ : Nat → Node G.RInfo
  q_points_ : Nat → G.QPoint
  r_points_ : Nat → G.RPoint
  do_naive_ : Bool
  /-- Width of `index_t`; its arithmetic is taken modulo `2 ^ index_bits`. -/
  index_bits : Nat

/-- The reference root `r_root_`, read from index `0` of the reference node
cache. -/
def Engine.r_root_ {G : GNP} (E : Engine G) : Node G.RInfo := E.r_nodes_ 0

/-- The data members of the solver that a traversal changes, and the log. -/
structure State (G : GNP) where
  q_mutables_ : Nat → QMutables G
  q_results_ : Nat → G.QResult
  global_result_ : G.GlobalResult
  log : List (Event G)

/-- Append one call to the log. -/
def State.emit {G : GNP} (s : State G) (e : Event G) : State G :=
  { s with log := s.log ++ [e] }

/-- Overwrite `q_mutables_[i].summary_result`. -/
def State.setSummary {G : GNP} (s : State G) (i : Nat) (x : G.QSummaryResult) :
    State G :=
  { s with q_mutables_ :=
      Function.update s.q_mutables_ i { s.q_mutables_ i with summary_result := x } }

/-- Overwrite `q_mutables_[i].postponed`. -/
def State.setPostponed {G : GNP} (s : State G) (i : Nat) (x : G.QPostponed) :
    State G :=
  { s with q_mutables_ :=
      Function.update s.q_mutables_ i { s.q_mutables_ i with postponed := x } }

/-- Overwrite `q_results_[i]`. -/
def State.setResult {G : GNP} (s : State G) (i : Nat) (x : G.QResult) : State G :=
  { s with q_results_ := Function.update s.q_results_ i x }

/-- Overwrite `global_result_`. -/
def State.setGlobal {G : GNP} (s : State G) (x : G.GlobalResult) : State G :=
  { s with global_result_ := x }

/-- Result of running a recursive procedure with a recursion budget. -/
inductive Outcome (σ : Type) where
  /-- The procedure returned in state `s`. -/
  | done (s : σ)
  /-- The budget ran out; `s` is the state reached until then. -/
  | outOfFuel (s : σ)

/-- The state carried by an outcome. -/
def Outcome.state {σ : Type} : Outcome σ → σ
  | .done s => s
  | .outOfFuel s => s

/-- Whether the procedure returned. -/
def Outcome.returned {σ : Type} : Outcome σ → Bool
  | .done _ => true
  | .outOfFuel _ => false

/-- Sequencing: continue with `f` when the first part returned. -/
def Outcome.andThen {σ : Type} (o : Outcome σ) (f : σ → Outcome σ) : Outcome σ :=
  match o with
  | .done s => f s
  | .outOfFuel s => .outOfFuel s

/-- The value of `--r_left` for an `index_t` of `bits` bits. -/
def decr (bits : Nat) (r_left : Nat) : Nat := (r_left + 2 ^ bits - 1) % 2 ^ bits

/-- The reference loop of `BaseCase_`, `for (;;) { VisitPair; if (--r_left == 0)
break; r_i++; ... }`.  The first argument is the value `--r_left` will have at
the end of the current iteration. -/
def VisitLoop {G : GNP} (E : Engine G) (q_i : Nat) :
    Nat → Nat → G.PairVisitor → State G → G.PairVisitor × State G
  | 0, r_i, visitor, s =>
      (G.PairVisitor_VisitPair E.param_ (E.q_points_ q_i) q_i (E.r_points_ r_i) r_i visitor,
        s.emit (.VisitPair q_i r_i))
  | r_left + 1, r_i, visitor, s =>
      VisitLoop E q_i r_left (r_i + 1)
        (G.PairVisitor_VisitPair E.param_ (E.q_points_ q_i) q_i (E.r_points_ r_i) r_i visitor)
        (s.emit (.VisitPair q_i r_i))

/-- The visitor calls made by `BaseCase_` for query point `q_i`:
`StartVisitingQueryPoint` and, when it returns true, the reference loop and
`FinishVisitingQueryPoint`. -/
def VisitQueryPoint {G : GNP} (E : Engine G) (r_node_i : Nat)
    (unvisited : G.QSummaryResult) (q_i : Nat) (visitor : G.PairVisitor) (s : State G) :
    G.PairVisitor × State G :=
  let r_node := E.r_nodes_ r_node_i
  let q_point := E.q_points_ q_i
  let st := G.PairVisitor_StartVisitingQueryPoint E.param_ q_point q_i r_node unvisited
      (s.q_results_ q_i) s.global_result_ visitor
  let s2 := ((s.setResult q_i st.q_result).setGlobal st.global_result).emit
      (.StartVisitingQueryPoint q_i r_node_i st.visit)
  if st.visit then
    let lp := VisitLoop E q_i (decr E.index_bits r_node.count) r_node.begin st.visitor s2
    let fin := G.PairVisitor_FinishVisitingQueryPoint E.param_ q_point q_i r_node unvisited
        (lp.2.q_results_ q_i) lp.2.global_result_ lp.1
    (fin.visitor,
      ((lp.2.setResult q_i fin.q_result).setGlobal fin.global_result).emit
        (.FinishVisitingQueryPoint q_i r_node_i))
  else (st.visitor, s2)

/-- One iteration of the query loop of `BaseCase_`, for query point `q_i`. -/
def BaseCasePoint {G : GNP} (E : Engine G) (q_node_i r_node_i : Nat)
    (unvisited : G.QSummaryResult) (vs : G.PairVisitor × State G) (q_i : Nat) :
    G.PairVisitor × State G :=
  let s0 := vs.2
  let s1 := (s0.setResult q_i
      (G.QResult_ApplyPostponed E.param_ (s0.q_mutables_ q_node_i).postponed
        (E.q_points_ q_i) q_i (s0.q_results_ q_i))).emit
      (.ApplyPostponed q_i (s0.q_mutables_ q_node_i).postponed)
  let vs3 := VisitQueryPoint E r_node_i unvisited q_i vs.1 s1
  (vs3.1, vs3.2.setSummary q_node_i
    (G.QSummaryResult_Accumulate E.param_ (vs3.2.q_results_ q_i)
      (vs3.2.q_mutables_ q_node_i).summary_result))

/-- The procedure `BaseCase_(q_node, r_node, unvisited, q_node_mut)`. -/
def BaseCase_ {G : GNP} (E : Engine G) (q_node_i r_node_i : Nat)
    (unvisited : G.QSummaryResult) (s : State G) : State G :=
  let q_node := E.q_nodes_ q_node_i
  let s0 := s.emit (.BaseCase q_node_i r_node_i)
  let s1 := s0.setSummary q_node_i
      (G.QSummaryResult_StartReaccumulate E.param_ q_node
        (s0.q_mutables_ q_node_i).summary_result)
  let vs := (List.range' q_node.begin (q_node.end_ - q_node.begin)).foldl
      (BaseCasePoint E q_node_i r_node_i unvisited) (G.PairVisitor_Init E.param_, s1)
  let s2 := vs.2.setSummary q_node_i
      (G.QSummaryResult_FinishReaccumulate E.param_ q_node
        (vs.2.q_mutables_ q_node_i).summary_result)
  s2.setPostponed q_node_i (G.QPostponed_Reset E.param_ (s2.q_mutables_ q_node_i).postponed)

/-- The type of `Pair_` once the recursion budget is fixed. -/
abbrev PairFn (G : GNP) : Type :=
  Nat → Nat → G.Delta → G.QSummaryResult → State G → Outcome (State G)

/-- Body of the loop `for (k = 0; k < 2; k++)` of the query split; `pair` is
the recursive call. -/
def SplitQChild {G : GNP} (E : Engine G) (pair : PairFn G) (q_node_i r_node_i : Nat)
    (delta : G.Delta) (unvisited : G.QSummaryResult) (k : Nat) (s : State G) :
    Outcome (State G) :=
  let q_node := E.q_nodes_ q_node_i
  let q_child_i := q_node.child k
  let q_child := E.q_nodes_ q_child_i
  let child_delta := G.Delta_Init E.param_
  let s1 := s.setPostponed q_child_i
      (G.QPostponed_ApplyPostponed E.param_ (s.q_mutables_ q_node_i).postponed
        (s.q_mutables_ q_child_i).postponed)
  let c := G.Algorithm_ConsiderPairIntrinsic E.param_ q_child (E.r_nodes_ r_node_i)
      child_delta s1.global_result_ (s1.q_mutables_ q_child_i).postponed
  let s2 := ((s1.setGlobal c.global_result).setPostponed q_child_i c.postponed).emit
      (.ConsiderPairIntrinsic q_child_i r_node_i (s1.q_mutables_ q_child_i).postponed
        c.postponed c.explore c.delta)
  (if c.explore then pair q_child_i r_node_i delta unvisited s2 else .done s2).andThen
    fun s3 =>
      let tmp_result := G.QSummaryResult_ApplyPostponed E.param_
          (s3.q_mutables_ q_child_i).postponed q_child
          (s3.q_mutables_ q_child_i).summary_result
      .done (s3.setSummary q_node_i
        (G.QSummaryResult_AccumulateN E.param_ tmp_result q_node.count
          (s3.q_mutables_ q_node_i).summary_result))

/-- The branch `Splitting Q` of `Pair_`. -/
def SplitQ {G : GNP} (E : Engine G) (pair : PairFn G) (q_node_i r_node_i : Nat)
    (delta : G.Delta) (unvisited : G.QSummaryResult) (s : State G) :
    Outcome (State G) :=
  let q_node := E.q_nodes_ q_node_i
  let s0 := s.emit (.SplittingQ q_node_i r_node_i)
  let s1 := s0.setSummary q_node_i
      (G.QSummaryResult_StartReaccumulate E.param_ q_node
        (s0.q_mutables_ q_node_i).summary_result)
  ((SplitQChild E pair q_node_i r_node_i delta unvisited 0 s1).andThen
    (SplitQChild E pair q_node_i r_node_i delta unvisited 1)).andThen
    fun s2 =>
      let s3 := s2.setSummary q_node_i
          (G.QSummaryResult_FinishReaccumulate E.param_ q_node
            (s2.q_mutables_ q_node_i).summary_result)
      .done (s3.setPostponed q_node_i
        (G.QPostponed_Reset E.param_ (s3.q_mutables_ q_node_i).postponed))

/-- The branch `Splitting R` of `Pair_`. -/
def SplitR {G : GNP} (E : Engine G) (pair : PairFn G) (q_node_i r_node_i : Nat)
    (unvisited : G.QSummaryResult) (s : State G) : Outcome (State G) :=
  let q_node := E.q_nodes_ q_node_i
  let r_node := E.r_nodes_ r_node_i
  let r_child1_i := r_node.child 0
  let r_child2_i := r_node.child 1
  let r_child1 := E.r_nodes_ r_child1_i
  let r_child2 := E.r_nodes_ r_child2_i
  let s0 := ((s.emit (.SplittingR q_node_i r_node_i)).emit (.StartRead r_child1_i)).emit
      (.StartRead r_child2_i)
  let c1 := G.Algorithm_ConsiderPairIntrinsic E.param_ q_node r_child1
      (G.Delta_Init E.param_) s0.global_result_ (s0.q_mutables_ q_node_i).postponed
  let s1 := ((s0.setGlobal c1.global_result).setPostponed q_node_i c1.postponed).emit
      (.ConsiderPairIntrinsic q_node_i r_child1_i (s0.q_mutables_ q_node_i).postponed
        c1.postponed c1.explore c1.delta)
  let c2 := G.Algorithm_ConsiderPairIntrinsic E.param_ q_node r_child2
      (G.Delta_Init E.param_) s1.global_result_ (s1.q_mutables_ q_node_i).postponed
  let s2 := ((s1.setGlobal c2.global_result).setPostponed q_node_i c2.postponed).emit
      (.ConsiderPairIntrinsic q_node_i r_child2_i (s1.q_mutables_ q_node_i).postponed
        c2.postponed c2.explore c2.delta)
  let delta1 := c1.delta
  let delta2 := c2.delta
  let explored : Outcome (State G) :=
    if !c1.explore then
      if c2.explore then pair q_node_i r_child2_i delta2 unvisited s2 else .done s2
    else if !c2.explore then pair q_node_i r_child1_i delta1 unvisited s2
    else
      let heur1 := G.Algorithm_Heuristic E.param_ q_node r_child1 delta1
      let heur2 := G.Algorithm_Heuristic E.param_ q_node r_child2 delta2
      if !(G.Score_gt heur1 heur2) then
        let unvisited_for_r1 := G.QSummaryResult_ApplyDelta E.param_ delta2 unvisited
        (pair q_node_i r_child1_i delta1 unvisited_for_r1 s2).andThen
          (pair q_node_i r_child2_i delta2 unvisited)
      else
        let unvisited_for_r2 := G.QSummaryResult_ApplyDelta E.param_ delta1 unvisited
        (pair q_node_i r_child2_i delta2 unvisited_for_r2 s2).andThen
          (pair q_node_i r_child1_i delta1 unvisited)
  explored.andThen fun s3 =>
    .done ((s3.emit (.StopRead r_child1_i)).emit (.StopRead r_child2_i))

/-- The working summary `mu` computed at the start of `Pair_`: a copy of the
node summary with the node postponed, `unvisited` and `delta` applied, in this
order. -/
def Pair_mu {G : GNP} (E : Engine G) (q_node_i : Nat) (delta : G.Delta)
    (unvisited : G.QSummaryResult) (s : State G) : G.QSummaryResult :=
  G.QSummaryResult_ApplyDelta E.param_ delta
    (G.QSummaryResult_ApplySummaryResult E.param_ unvisited
      (G.QSummaryResult_ApplyPostponed E.param_ (s.q_mutables_ q_node_i).postponed
        (E.q_nodes_ q_node_i) (s.q_mutables_ q_node_i).summary_result))

/-- The call of `ConsiderQueryTermination` made by `Pair_` entered in state
`s`. -/
def Pair_termination {G : GNP} (E : Engine G) (q_node_i : Nat) (delta : G.Delta)
    (unvisited : G.QSummaryResult) (s : State G) : TestOut G.QPostponed :=
  G.Algorithm_ConsiderQueryTermination E.param_ (E.q_nodes_ q_node_i)
    (Pair_mu E q_node_i delta unvisited s) s.global_result_
    (s.q_mutables_ q_node_i).postponed

/-- The call of `ConsiderPairExtrinsic` made by `Pair_` entered in state `s`,
when the termination test did not prune: the postponed it receives is the one
left by `ConsiderQueryTermination`, `mu` is the one computed on entry. -/
def Pair_extrinsic {G : GNP} (E : Engine G) (q_node_i r_node_i : Nat) (delta : G.Delta)
    (unvisited : G.QSummaryResult) (s : State G) : TestOut G.QPostponed :=
  G.Algorithm_ConsiderPairExtrinsic E.param_ (E.q_nodes_ q_node_i) (E.r_nodes_ r_node_i)
    delta (Pair_mu E q_node_i delta unvisited s) s.global_result_
    (Pair_termination E q_node_i delta unvisited s).postponed

/-- Body of `Pair_(q_node, r_node, delta, unvisited, q_node_mut)`; `pair` is
the recursive call. -/
def PairBody {G : GNP} (E : Engine G) (pair : PairFn G) (q_node_i r_node_i : Nat)
    (delta : G.Delta) (unvisited : G.QSummaryResult) (s : State G) :
    Outcome (State G) :=
  let q_node := E.q_nodes_ q_node_i
  let r_node := E.r_nodes_ r_node_i
  let s0 := s.emit (.Checking q_node_i r_node_i delta unvisited)
  let t := Pair_termination E q_node_i delta unvisited s
  let s1 := (s0.setPostponed q_node_i t.postponed).emit
      (.ConsiderQueryTermination q_node_i (s.q_mutables_ q_node_i).postponed t.postponed
        t.explore)
  if !t.explore then
    .done ((s1.setSummary q_node_i
      (G.QSummaryResult_ApplyDelta E.param_ delta
        (s1.q_mutables_ q_node_i).summary_result)).emit
      (.TerminationPrune q_node_i r_node_i))
  else
    let x := Pair_extrinsic E q_node_i r_node_i delta unvisited s
    let s2 := (s1.setPostponed q_node_i x.postponed).emit
        (.ConsiderPairExtrinsic q_node_i r_node_i t.postponed x.postponed x.explore)
    if !x.explore then
      .done (s2.emit (.ExtrinsicPrune q_node_i r_node_i))
    else
      let s3 := (s2.setGlobal
          (G.GlobalResult_UndoDelta E.param_ delta s2.global_result_)).emit
          (.UndoDelta delta)
      if q_node.is_leaf && r_node.is_leaf then
        .done (BaseCase_ E q_node_i r_node_i unvisited s3)
      else if r_node.is_leaf
          || (decide (q_node.count ≥ r_node.count) && !q_node.is_leaf) then
        SplitQ E pair q_node_i r_node_i delta unvisited s3
      else
        SplitR E pair q_node_i r_node_i unvisited s3

/-- The procedure `Pair_`, with a bound on the depth of the recursion. -/
def Pair_ {G : GNP} (E : Engine G) : Nat → PairFn G
  | 0 => fun _ _ _ _ s => .outOfFuel s
  | fuel + 1 => PairBody E (Pair_ E fuel)

/-- One iteration of the point loop in the leaf branch of
`PushDownPostprocess_`. -/
def PushDownPoint {G : GNP} (E : Engine G) (q_node_i : Nat) (s : State G) (q_i : Nat) :
    State G :=
  let q_point := E.q_points_ q_i
  let s1 := (s.setResult q_i
      (G.QResult_ApplyPostponed E.param_ (s.q_mutables_ q_node_i).postponed q_point q_i
        (s.q_results_ q_i))).emit (.ApplyPostponed q_i (s.q_mutables_ q_node_i).postponed)
  let s2 := (s1.setResult q_i
      (G.QResult_Postprocess E.param_ q_point q_i E.r_root_ (s1.q_results_ q_i))).emit
      (.Postprocess q_i)
  (s2.setGlobal
    (G.GlobalResult_ApplyResult E.param_ q_point q_i (s2.q_results_ q_i)
      s2.global_result_)).emit (.ApplyResult q_i)

/-- Body of the loop over the two children in `PushDownPostprocess_`; `push`
is the recursive call. -/
def PushDownChild {G : GNP} (E : Engine G) (push : Nat → State G → Outcome (State G))
    (q_node_i : Nat) (k : Nat) (s : State G) : Outcome (State G) :=
  let q_child_i := (E.q_nodes_ q_node_i).child k
  push q_child_i (s.setPostponed q_child_i
    (G.QPostponed_ApplyPostponed E.param_ (s.q_mutables_ q_node_i).postponed
      (s.q_mutables_ q_child_i).postponed))

/-- The procedure `PushDownPostprocess_(q_node_i, q_node_mut)`, with a bound
on the depth of the recursion. -/
def PushDownPostprocess_ {G : GNP} (E : Engine G) :
    Nat → Nat → State G → Outcome (State G)
  | 0, _, s => .outOfFuel s
  | fuel + 1, q_node_i, s =>
      let q_node := E.q_nodes_ q_node_i
      let s0 := s.emit (.PushDown q_node_i)
      if q_node.is_leaf then
        .done ((List.range' q_node.begin (q_node.end_ - q_node.begin)).foldl
          (PushDownPoint E q_node_i) s0)
      else
        (PushDownChild E (PushDownPostprocess_ E fuel) q_node_i 0 s0).andThen
          (PushDownChild E (PushDownPostprocess_ E fuel) q_node_i 1)

/-- The procedure `Begin_(q_root_index)`. -/
def Begin_ {G : GNP} (E : Engine G) (fuel : Nat) (q_root_index : Nat) (s : State G) :
    Outcome (State G) :=
  let q_root := E.q_nodes_ q_root_index
  let c := G.Algorithm_ConsiderPairIntrinsic E.param_ q_root E.r_root_ G.Delta_default
      s.global_result_ (s.q_mutables_ q_root_index).postponed
  let s1 := ((s.setGlobal c.global_result).setPostponed q_root_index c.postponed).emit
      (.ConsiderPairIntrinsic q_root_index 0 (s.q_mutables_ q_root_index).postponed
        c.postponed c.explore c.delta)
  let explored : Outcome (State G) :=
    if c.explore then
      let empty_summary_result := G.QSummaryResult_Init E.param_
      if E.do_naive_ then
        .done (BaseCase_ E q_root_index 0 empty_summary_result s1)
      else
        Pair_ E fuel q_root_index 0 c.delta empty_summary_result s1
    else .done s1
  explored.andThen (PushDownPostprocess_ E fuel q_root_index)

/-- The solver as configured by `Doit`: the caches it is given, the copied
parameter, and `do_naive_ = false`. -/
def DoitEngine (G : GNP) (index_bits : Nat) (param_in : G.Param)
    (q_points : Nat → G.QPoint) (q_nodes : Nat → Node G.QInfo)
    (r_points : Nat → G.RPoint) (r_nodes : Nat → Node G.RInfo) : Engine G :=
  { param_ := param_in, q_nodes_ := q_nodes, r_nodes_ := r_nodes,
    q_points_ := q_points, r_points_ := r_points, do_naive_ := false,
    index_bits := index_bits }

/-- The state set up by `Doit` before it calls `Begin_`: every `QMutables` is
the default one, the global result is initialised, the results are those of
the result cache passed in. -/
def DoitState (G : GNP) (param_in : G.Param) (q_results : Nat → G.QResult) : State G :=
  { q_mutables_ := fun _ =>
      { summary_result := G.QSummaryResult_Init param_in,
        postponed := G.QPostponed_Init param_in },
    q_results_ := q_results,
    global_result_ := G.GlobalResult_Init param_in,
    log := [] }

/-- The procedure `Doit`. -/
def Doit (G : GNP) (index_bits : Nat) (fuel : Nat) (param_in : G.Param)
    (q_root_index : Nat) (q_points : Nat → G.QPoint) (q_nodes : Nat → Node G.QInfo)
    (r_points : Nat → G.RPoint) (r_nodes : Nat → Node G.RInfo)
    (q_results : Nat → G.QResult) : Outcome (State G) :=
  Begin_ (DoitEngine G index_bits param_in q_points q_nodes r_points r_nodes) fuel
    q_root_index (DoitState G param_in q_results)


/-! ## Trees in a node cache -/

/-- The shape of a binary tree whose nodes are named by their cache index. -/
inductive Shape where
  | leaf (i : Nat)
  | split (i : Nat) (l r : Shape)

/-- Index of the root node. -/
def Shape.root : Shape → Nat
  | .leaf i => i
  | .split i _ _ => i

/-- Indices of all nodes below the root. -/
def Shape.descendants : Shape → List Nat
  | .leaf _ => []
  | .split _ l r => (l.root :: l.descendants) ++ (r.root :: r.descendants)

/-- Indices of all nodes, root first. -/
def Shape.indices (t : Shape) : List Nat := t.root :: t.descendants

/-- Number of nodes on the longest path from the root to a leaf. -/
def Shape.height : Shape → Nat
  | .leaf _ => 1
  | .split _ l r => max l.height r.height + 1

/-- The leaves from left to right, each with the list of its proper ancestors
from the root downwards. -/
def Shape.leafPaths : Shape → List (List Nat × Nat)
  | .leaf i => [([], i)]
  | .split i l r => (l.leafPaths ++ r.leafPaths).map (fun p => (i :: p.1, p.2))

/-- The node cache `nodes` holds the tree `t`: leaves are flagged as leaves,
and the child indices of an internal node are the roots of its two
subtrees. -/
def Represents {Info : Type} (nodes : Nat → Node Info) : Shape → Prop
  | .leaf i => (nodes i).is_leaf = true
  | .split i l r =>
      (nodes i).is_leaf = false ∧ (nodes i).child 0 = l.root ∧ (nodes i).child 1 = r.root ∧
        Represents nodes l ∧ Represents nodes r

/-- The two children of every internal node cut its point range in two: the
first child starts where the parent starts, the second starts where the first
ends and ends where the parent ends. -/
def Partitions {Info : Type} (nodes : Nat → Node Info) : Shape → Prop
  | .leaf _ => True
  | .split i l r =>
      (nodes l.root).begin = (nodes i).begin ∧
        (nodes r.root).begin = (nodes l.root).end_ ∧
        (nodes r.root).end_ = (nodes i).end_ ∧
        Partitions nodes l ∧ Partitions nodes r

/-- The calls made by `PushDownPostprocess_`: its own entry and the three
per point calls of its leaf loop. -/
def Event.isPushDownCall {G : GNP} : Event G → Bool
  | .PushDown _ => true
  | .ApplyPostponed _ _ => true
  | .Postprocess _ => true
  | .ApplyResult _ => true
  | _ => false

/-- The entry of `Pair_` or of `BaseCase_`. -/
def Event.isPairOrBaseCase {G : GNP} : Event G → Bool
  | .Checking _ _ _ _ => true
  | .BaseCase _ _ => true
  | _ => false

/-- The log of `s1` is the log of `s` followed by calls that all satisfy `P`. -/
def LogAdds {G : GNP} (P : Event G → Bool) (s s1 : State G) : Prop :=
  ∃ rest, s1.log = s.log ++ rest ∧ ∀ e ∈ rest, P e = true

/-- The state in which `Pair_` starts exploring once both prune tests have let
the pair through: the postponed of the node is the one left by the two tests,
`UndoDelta` has been applied to the global result. -/
def Pair_committed {G : GNP} (E : Engine G) (q_node_i r_node_i : Nat) (delta : G.Delta)
    (unvisited : G.QSummaryResult) (s : State G) : State G :=
  ((((((s.emit (.Checking q_node_i r_node_i delta unvisited)).setPostponed q_node_i
    (Pair_termination E q_node_i delta unvisited s).postponed).emit
    (.ConsiderQueryTermination q_node_i (s.q_mutables_ q_node_i).postponed
      (Pair_termination E q_node_i delta unvisited s).postponed
      (Pair_termination E q_node_i delta unvisited s).explore)).setPostponed q_node_i
    (Pair_extrinsic E q_node_i r_node_i delta unvisited s).postponed).emit
    (.ConsiderPairExtrinsic q_node_i r_node_i
      (Pair_termination E q_node_i delta unvisited s).postponed
      (Pair_extrinsic E q_node_i r_node_i delta unvisited s).postponed
      (Pair_extrinsic E q_node_i r_node_i delta unvisited s).explore)).setGlobal
    (G.GlobalResult_UndoDelta E.param_ delta s.global_result_)).emit (.UndoDelta delta)

/-- The intrinsic check of the reference split on the first reference child,
made when the split is entered in state `s`. -/
def SplitR_intrinsic1 {G : GNP} (E : Engine G) (q_node_i r_node_i : Nat) (s : State G) :
    IntrinsicOut G.Delta G.GlobalResult G.QPostponed :=
  G.Algorithm_ConsiderPairIntrinsic E.param_ (E.q_nodes_ q_node_i)
    (E.r_nodes_ ((E.r_nodes_ r_node_i).child 0)) (G.Delta_Init E.param_) s.global_result_
    (s.q_mutables_ q_node_i).postponed

/-- The intrinsic check of the reference split on the second reference child;
it sees the global result and the postponed left by the first check. -/
def SplitR_intrinsic2 {G : GNP} (E : Engine G) (q_node_i r_node_i : Nat) (s : State G) :
    IntrinsicOut G.Delta G.GlobalResult G.QPostponed :=
  G.Algorithm_ConsiderPairIntrinsic E.param_ (E.q_nodes_ q_node_i)
    (E.r_nodes_ ((E.r_nodes_ r_node_i).child 1)) (G.Delta_Init E.param_)
    (SplitR_intrinsic1 E q_node_i r_node_i s).global_result
    (SplitR_intrinsic1 E q_node_i r_node_i s).postponed

/-- The state of the reference split after both intrinsic checks. -/
def SplitR_checked {G : GNP} (E : Engine G) (q_node_i r_node_i : Nat) (s : State G) :
    State G :=
  ((((((((s.emit (.SplittingR q_node_i r_node_i)).emit
    (.StartRead ((E.r_nodes_ r_node_i).child 0))).emit
    (.StartRead ((E.r_nodes_ r_node_i).child 1))).setGlobal
    (SplitR_intrinsic1 E q_node_i r_node_i s).global_result).setPostponed q_node_i
    (SplitR_intrinsic1 E q_node_i r_node_i s).postponed).emit
    (.ConsiderPairIntrinsic q_node_i ((E.r_nodes_ r_node_i).child 0)
      (s.q_mutables_ q_node_i).postponed (SplitR_intrinsic1 E q_node_i r_node_i s).postponed
      (SplitR_intrinsic1 E q_node_i r_node_i s).explore
      (SplitR_intrinsic1 E q_node_i r_node_i s).delta)).setGlobal
    (SplitR_intrinsic2 E q_node_i r_node_i s).global_result).setPostponed q_node_i
    (SplitR_intrinsic2 E q_node_i r_node_i s).postponed).emit
    (.ConsiderPairIntrinsic q_node_i ((E.r_nodes_ r_node_i).child 1)
      (SplitR_intrinsic1 E q_node_i r_node_i s).postponed
      (SplitR_intrinsic2 E q_node_i r_node_i s).postponed
      (SplitR_intrinsic2 E q_node_i r_node_i s).explore
      (SplitR_intrinsic2 E q_node_i r_node_i s).delta)

/-- The two `StopRead` calls that end the reference split. -/
def SplitR_release {G : GNP} (E : Engine G) (r_node_i : Nat) (s : State G) :
    Outcome (State G) :=
  .done ((s.emit (.StopRead ((E.r_nodes_ r_node_i).child 0))).emit
    (.StopRead ((E.r_nodes_ r_node_i).child 1)))

/-- The condition under which a `Pair_` invocation takes the branch
`Splitting Q`: no test prunes, the nodes are not both leaves, and the
reference node is a leaf or the query node is internal with at least as many
points. -/
def Pair_splitsQ {G : GNP} (E : Engine G) (q_node_i r_node_i : Nat) (delta : G.Delta)
    (unvisited : G.QSummaryResult) (s : State G) : Prop :=
  (Pair_termination E q_node_i delta unvisited s).explore = true ∧
    (Pair_extrinsic E q_node_i r_node_i delta unvisited s).explore = true ∧
    ((E.q_nodes_ q_node_i).is_leaf && (E.r_nodes_ r_node_i).is_leaf) = false ∧
    ((E.r_nodes_ r_node_i).is_leaf
      || (decide ((E.q_nodes_ q_node_i).count ≥ (E.r_nodes_ r_node_i).count)
        && !(E.q_nodes_ q_node_i).is_leaf)) = true

/-- The condition under which a `Pair_` invocation takes the branch
`Splitting R`: no test prunes and neither the base case nor the query split
applies. -/
def Pair_splitsR {G : GNP} (E : Engine G) (q_node_i r_node_i : Nat) (delta : G.Delta)
    (unvisited : G.QSummaryResult) (s : State G) : Prop :=
  (Pair_termination E q_node_i delta unvisited s).explore = true ∧
    (Pair_extrinsic E q_node_i r_node_i delta unvisited s).explore = true ∧
    ((E.q_nodes_ q_node_i).is_leaf && (E.r_nodes_ r_node_i).is_leaf) = false ∧
    ((E.r_nodes_ r_node_i).is_leaf
      || (decide ((E.q_nodes_ q_node_i).count ≥ (E.r_nodes_ r_node_i).count)
        && !(E.q_nodes_ q_node_i).is_leaf)) = false

/-- The procedure `MultiTreeDepthFirst::Heuristic_(nd, nd1, nd2, &partner1,
&partner2)` of `multitree_dfs_impl.h`; the result is the pair
`(partner1, partner2)`.  `MinDistanceSq nd x` stands for
`nd->bound().MinDistanceSq(x->bound())` and `le` for `<=` on its values. -/
def MultiTreeDepthFirst.Heuristic_ {Tree Dist : Type} (MinDistanceSq : Tree → Tree → Dist)
    (le : Dist → Dist → Bool) (nd nd1 nd2 : Tree) : Tree × Tree :=
  let d1 := MinDistanceSq nd nd1
  let d2 := MinDistanceSq nd nd2
  if le d1 d2 then (nd1, nd2) else (nd2, nd1)

/-- The state in which `Pair_` returns after a termination prune. -/
def Pair_termination_pruned {G : GNP} (E : Engine G) (q_node_i r_node_i : Nat)
    (delta : G.Delta) (unvisited : G.QSummaryResult) (s : State G) : State G :=
  ((((s.emit (.Checking q_node_i r_node_i delta unvisited)).setPostponed q_node_i
    (Pair_termination E q_node_i delta unvisited s).postponed).emit
    (.ConsiderQueryTermination q_node_i (s.q_mutables_ q_node_i).postponed
      (Pair_termination E q_node_i delta unvisited s).postponed
      (Pair_termination E q_node_i delta unvisited s).explore)).setSummary q_node_i
    (G.QSummaryResult_ApplyDelta E.param_ delta (s.q_mutables_ q_node_i).summary_result)).emit
    (.TerminationPrune q_node_i r_node_i)

/-- The state in which `Pair_` returns after an extrinsic prune. -/
def Pair_extrinsic_pruned {G : GNP} (E : Engine G) (q_node_i r_node_i : Nat)
    (delta : G.Delta) (unvisited : G.QSummaryResult) (s : State G) : State G :=
  (((((s.emit (.Checking q_node_i r_node_i delta unvisited)).setPostponed q_node_i
    (Pair_termination E q_node_i delta unvisited s).postponed).emit
    (.ConsiderQueryTermination q_node_i (s.q_mutables_ q_node_i).postponed
      (Pair_termination E q_node_i delta unvisited s).postponed
      (Pair_termination E q_node_i delta unvisited s).explore)).setPostponed q_node_i
    (Pair_extrinsic E q_node_i r_node_i delta unvisited s).postponed).emit
    (.ConsiderPairExtrinsic q_node_i r_node_i
      (Pair_termination E q_node_i delta unvisited s).postponed
      (Pair_extrinsic E q_node_i r_node_i delta unvisited s).postponed
      (Pair_extrinsic E q_node_i r_node_i delta unvisited s).explore)).emit
    (.ExtrinsicPrune q_node_i r_node_i)

/-- The state of the query split before its loop over the two children. -/
def SplitQ_entered {G : GNP} (E : Engine G) (q_node_i r_node_i : Nat) (s : State G) :
    State G :=
  (s.emit (.SplittingQ q_node_i r_node_i)).setSummary q_node_i
    (G.QSummaryResult_StartReaccumulate E.param_ (E.q_nodes_ q_node_i)
      (s.q_mutables_ q_node_i).summary_result)

/-- The intrinsic check of the query split on child `k`, made when the loop
body is entered in state `s`: the postponed it is given is that of the child
with the postponed of the parent applied. -/
def SplitQChild_intrinsic {G : GNP} (E : Engine G) (q_node_i r_node_i k : Nat)
    (s : State G) : IntrinsicOut G.Delta G.GlobalResult G.QPostponed :=
  G.Algorithm_ConsiderPairIntrinsic E.param_ (E.q_nodes_ ((E.q_nodes_ q_node_i).child k))
    (E.r_nodes_ r_node_i) (G.Delta_Init E.param_) s.global_result_
    (G.QPostponed_ApplyPostponed E.param_ (s.q_mutables_ q_node_i).postponed
      (s.q_mutables_ ((E.q_nodes_ q_node_i).child k)).postponed)

/-- The state of the loop body of the query split after the intrinsic check
on child `k`. -/
def SplitQChild_checked {G : GNP} (E : Engine G) (q_node_i r_node_i k : Nat)
    (s : State G) : State G :=
  (((s.setPostponed ((E.q_nodes_ q_node_i).child k)
    (G.QPostponed_ApplyPostponed E.param_ (s.q_mutables_ q_node_i).postponed
      (s.q_mutables_ ((E.q_nodes_ q_node_i).child k)).postponed)).setGlobal
    (SplitQChild_intrinsic E q_node_i r_node_i k s).global_result).setPostponed
    ((E.q_nodes_ q_node_i).child k)
    (SplitQChild_intrinsic E q_node_i r_node_i k s).postponed).emit
    (.ConsiderPairIntrinsic ((E.q_nodes_ q_node_i).child k) r_node_i
      (G.QPostponed_ApplyPostponed E.param_ (s.q_mutables_ q_node_i).postponed
        (s.q_mutables_ ((E.q_nodes_ q_node_i).child k)).postponed)
      (SplitQChild_intrinsic E q_node_i r_node_i k s).postponed
      (SplitQChild_intrinsic E q_node_i r_node_i k s).explore
      (SplitQChild_intrinsic E q_node_i r_node_i k s).delta)

/-- The end of the loop body of the query split for child `k`: the summary of
the child, with the postponed of the child applied, is accumulated into the
summary of the parent. -/
def SplitQChild_accumulated {G : GNP} (E : Engine G) (q_node_i k : Nat) (s : State G) :
    State G :=
  s.setSummary q_node_i
    (G.QSummaryResult_AccumulateN E.param_
      (G.QSummaryResult_ApplyPostponed E.param_
        (s.q_mutables_ ((E.q_nodes_ q_node_i).child k)).postponed
        (E.q_nodes_ ((E.q_nodes_ q_node_i).child k))
        (s.q_mutables_ ((E.q_nodes_ q_node_i).child k)).summary_result)
      (E.q_nodes_ q_node_i).count (s.q_mutables_ q_node_i).summary_result)

/-- The end of the query split: `FinishReaccumulate` on the summary of the
parent and `Reset` of its postponed. -/
def SplitQ_finished {G : GNP} (E : Engine G) (q_node_i : Nat) (s : State G) : State G :=
  (s.setSummary q_node_i
    (G.QSummaryResult_FinishReaccumulate E.param_ (E.q_nodes_ q_node_i)
      (s.q_mutables_ q_node_i).summary_result)).setPostponed q_node_i
    (G.QPostponed_Reset E.param_ (s.q_mutables_ q_node_i).postponed)

/-- The calls made by `BaseCase_`: its entry and the per point calls of its
loop. -/
def Event.isBaseCaseCall {G : GNP} : Event G → Bool
  | .BaseCase _ _ => true
  | .ApplyPostponed _ _ => true
  | .StartVisitingQueryPoint _ _ _ => true
  | .VisitPair _ _ => true
  | .FinishVisitingQueryPoint _ _ => true
  | _ => false

/-- The change a call makes to the number of open read handles on reference
node `i`: `StartRead i` opens one, `StopRead i` closes one. -/
def Event.readDelta {G : GNP} (i : Nat) : Event G → Int
  | .StartRead j => if j = i then 1 else 0
  | .StopRead j => if j = i then -1 else 0
  | _ => 0

/-- The number of read handles on reference node `i` that the calls of a log
have opened and not closed. -/
def openReads {G : GNP} (i : Nat) (log : List (Event G)) : Int :=
  (log.map (Event.readDelta i)).sum

/-- Whether an event is the call of `VisitPair` on the pair of point indices
`(q_i, r_i)`. -/
def Event.isVisitPair {G : GNP} (q_i r_i : Nat) : Event G → Bool
  | .VisitPair q r => decide (q = q_i) && decide (r = r_i)
  | _ => false

/-- Number of calls of `VisitPair` on `(q_i, r_i)` in a log. -/
def visitCount {G : GNP} (q_i r_i : Nat) (log : List (Event G)) : Nat :=
  log.countP (Event.isVisitPair q_i r_i)

/-- Whether the point index `i` lies in the range `[begin, end)` of a node. -/
def Node.covers {Info : Type} (n : Node Info) (i : Nat) : Bool :=
  decide (n.begin ≤ i ∧ i < n.end_)

/-- One when `(q_i, r_i)` lies in the product of the ranges of the two nodes,
zero otherwise. -/
def pairOnce {A B : Type} (q : Node A) (r : Node B) (q_i r_i : Nat) : Nat :=
  if (q.covers q_i && r.covers r_i) = true then 1 else 0

/-- A policy that never prunes: the three tests always allow exploration and
`StartVisitingQueryPoint` always returns true. -/
def NeverPrunes (G : GNP) (p : G.Param) : Prop :=
  (∀ q r d g post, (G.Algorithm_ConsiderPairIntrinsic p q r d g post).explore = true) ∧
  (∀ q mu g post, (G.Algorithm_ConsiderQueryTermination p q mu g post).explore = true) ∧
  (∀ q r d mu g post, (G.Algorithm_ConsiderPairExtrinsic p q r d mu g post).explore = true) ∧
  (∀ pt i rn un res g v,
    (G.PairVisitor_StartVisitingQueryPoint p pt i rn un res g v).visit = true)

/-- Every leaf of the tree holds at least one point, and its count is a value
of an `index_t` of `bits` bits. -/
def LeavesNonEmpty {Info : Type} (nodes : Nat → Node Info) (bits : Nat) : Shape → Prop
  | .leaf i => 0 < (nodes i).count ∧ (nodes i).count < 2 ^ bits
  | .split _ l r => LeavesNonEmpty nodes bits l ∧ LeavesNonEmpty nodes bits r

/-- Modelled from the spec: the helper `nchoosek(n, k)` is not among the
sources; it is taken to be the binomial coefficient `C(n, k)`, in which the
size of the table is stated. -/
def SeriesExpansionAux.nchoosek (n k : Nat) : Nat := Nat.choose n k

/-- The accessor `get_n_choose_k(n, k)`: the entry `(n, k)` of the table
`n_choose_k_`, which `Init` fills with `nchoosek(j, k)`. -/
def SeriesExpansionAux.get_n_choose_k (n k : Nat) : Nat := SeriesExpansionAux.nchoosek n k

/-- The function `ComputeMultiindexPosition(multiindex)`: the first loop sums
the components, the second adds one binomial coefficient per component while
taking that component off the running sum. -/
def SeriesExpansionAux.ComputeMultiindexPosition (multiindex : List Nat) : Nat :=
  let dim := multiindex.length
  let mapping_sum := (List.range dim).foldl (fun acc j => acc + multiindex.getD j 0) 0
  ((List.range dim).foldl
    (fun (st : Nat × Nat) j =>
      (st.1 + SeriesExpansionAux.get_n_choose_k (st.2 + dim - j - 1) (dim - j),
        st.2 - multiindex.getD j 0))
    (0, mapping_sum)).1

/-- The part of the state of `Init` that the multi-index table depends on:
the array `heads` and the entries of `multiindex_mapping_` written so far,
whose number is the counter `t`. -/
structure SeriesExpansionAux.InitState where
  heads : List Nat
  multiindex_mapping_ : List (List Nat)

/-- The entry written at position `t` by the innermost loop of `Init`: a copy
of entry `j` with component `i` increased by one. -/
def SeriesExpansionAux.Init_entry (table : List (List Nat)) (i j : Nat) : List Nat :=
  (table.getD j []).set i ((table.getD j []).getD i 0 + 1)

/-- The body of the loop over `i` in `Init`: `head = heads[i]; heads[i] = t;`
followed by the loop `for (j = head; j < tail; j++, t++)`. -/
def SeriesExpansionAux.Init_phase (tail : Nat) (st : SeriesExpansionAux.InitState)
    (i : Nat) : SeriesExpansionAux.InitState :=
  { heads := st.heads.set i st.multiindex_mapping_.length,
    multiindex_mapping_ :=
      (List.range' (st.heads.getD i 0) (tail - st.heads.getD i 0)).foldl
        (fun tb j => tb ++ [SeriesExpansionAux.Init_entry tb i j]) st.multiindex_mapping_ }

/-- The body of the loop over the order `k` in `Init`; `tail` is the value of
`t` when the body is entered. -/
def SeriesExpansionAux.Init_order (dim : Nat) (st : SeriesExpansionAux.InitState) :
    SeriesExpansionAux.InitState :=
  (List.range dim).foldl (SeriesExpansionAux.Init_phase st.multiindex_mapping_.length) st

/-- The multi-index part of `Init(max_order, dim)`. -/
def SeriesExpansionAux.Init (max_order dim : Nat) : SeriesExpansionAux.InitState :=
  (List.range max_order).foldl (fun st _ => SeriesExpansionAux.Init_order dim st)
    { heads := List.replicate dim 0 ++ [2147483647],
      multiindex_mapping_ := [List.replicate dim 0] }

/-- A multi-index with its first component increased by one. -/
def incrHead : List Nat → List Nat
  | [] => []
  | a :: rest => (a + 1) :: rest

/-- The multi-indices with `n` components of sum `k`, in the order in which
`Init` generates them. -/
def compositions : Nat → Nat → List (List Nat)
  | 0, n => [List.replicate n 0]
  | _ + 1, 0 => []
  | k + 1, n + 1 =>
      (compositions k (n + 1)).map incrHead ++ (compositions (k + 1) n).map (fun y => 0 :: y)

/-- The position formula of `ComputeMultiindexPosition`, by recursion on the
multi-index. -/
def position : List Nat → Nat
  | [] => 0
  | a :: rest => Nat.choose (a + rest.sum + rest.length) (rest.length + 1) + position rest

/-- The multi-indices of order at most `K` with `dim` components, order by
order. -/
def tableUpTo (dim : Nat) : Nat → List (List Nat)
  | 0 => compositions 0 dim
  | K + 1 => tableUpTo dim K ++ compositions (K + 1) dim

/-- A multi-index with component `i` increased by one, as `Init` writes it. -/
def incrAt (i : Nat) (m : List Nat) : List Nat := m.set i (m.getD i 0 + 1)

/-- The multi-indices of `l`, each with `i` zero components put in front. -/
def padded (i : Nat) (l : List (List Nat)) : List (List Nat) :=
  l.map (fun x => List.replicate i 0 ++ x)

/-- The tokens that a prune test recorded in the log adds to the postponed it
is given, counted by `μ`, when the test is made on a query node selected by
`covers`; every other event adds none. -/
def Event.credit {G : GNP} (μ : G.QPostponed → ℤ) (covers : Nat → Bool) : Event G → ℤ
  | .ConsiderPairIntrinsic n _ pin pout _ _ => if covers n = true then μ pout - μ pin else 0
  | .ConsiderQueryTermination n pin pout _ => if covers n = true then μ pout - μ pin else 0
  | .ConsiderPairExtrinsic n _ pin pout _ => if covers n = true then μ pout - μ pin else 0
  | _ => 0

/-- The tokens added by all the prune tests of a log on the nodes selected by
`covers`. -/
def ledger {G : GNP} (μ : G.QPostponed → ℤ) (covers : Nat → Bool) (log : List (Event G)) :
    ℤ :=
  (log.map (Event.credit μ covers)).sum

/-- The tokens held by the postponed of the nodes strictly below the root of
`t` on the way down to the leaf whose range contains the point `q`. -/
def pendingBelow {G : GNP} (E : Engine G) (μ : G.QPostponed → ℤ) (s : State G) (q : Nat) :
    Shape → ℤ
  | .leaf _ => 0
  | .split _ l r =>
      if (E.q_nodes_ l.root).covers q = true then
        μ (s.q_mutables_ l.root).postponed + pendingBelow E μ s q l
      else μ (s.q_mutables_ r.root).postponed + pendingBelow E μ s q r

/-- The tokens held by the postponed of the nodes on the path from the root
of `t` to the leaf whose range contains the point `q`. -/
def pending {G : GNP} (E : Engine G) (μ : G.QPostponed → ℤ) (s : State G) (q : Nat)
    (t : Shape) : ℤ :=
  μ (s.q_mutables_ t.root).postponed + pendingBelow E μ s q t

/-- What makes `μ` and `ρ` counts of a token: applying a postponed adds its
tokens, to a postponed as to a result, a reset postponed holds none, and the
visitor and `Postprocess` neither add nor remove tokens of a result. -/
structure TokenLaws (G : GNP) (p : G.Param) (μ : G.QPostponed → ℤ) (ρ : G.QResult → ℤ) :
    Prop where
  apply_postponed : ∀ other self, μ (G.QPostponed_ApplyPostponed p other self) = μ self + μ other
  reset : ∀ x, μ (G.QPostponed_Reset p x) = 0
  result_apply : ∀ post pt i res, ρ (G.QResult_ApplyPostponed p post pt i res) = ρ res + μ post
  start : ∀ pt i rn un res g v,
    ρ (G.PairVisitor_StartVisitingQueryPoint p pt i rn un res g v).q_result = ρ res
  finish : ∀ pt i rn un res g v,
    ρ (G.PairVisitor_FinishVisitingQueryPoint p pt i rn un res g v).q_result = ρ res
  postprocess : ∀ pt i rn res, ρ (G.QResult_Postprocess p pt i rn res) = ρ res

/-- The conservation law of a step from `s` to `sf` for the point `q` and the
subtree `t`: when the range of the root of `t` contains `q`, the tokens of the
result of `q` and of the path to its leaf grow by what the tests added on the
way; otherwise the result of `q` and the tokens added for `q` are unchanged. -/
def Keeps {G : GNP} (E : Engine G) (μ : G.QPostponed → ℤ) (ρ : G.QResult → ℤ) (q : Nat)
    (t : Shape) (s sf : State G) : Prop :=
  ((E.q_nodes_ t.root).covers q = true →
    ρ (sf.q_results_ q) + pending E μ sf q t -
        ledger μ (fun n => (E.q_nodes_ n).covers q) sf.log =
      ρ (s.q_results_ q) + pending E μ s q t -
        ledger μ (fun n => (E.q_nodes_ n).covers q) s.log) ∧
  ((E.q_nodes_ t.root).covers q = false →
    sf.q_results_ q = s.q_results_ q ∧
      ledger μ (fun n => (E.q_nodes_ n).covers q) sf.log =
        ledger μ (fun n => (E.q_nodes_ n).covers q) s.log)

/-- Parameter of the policy `Tally`: whether the intrinsic test prunes the
reference leaves, whether `Postprocess` merges the two counts of a result,
and whether the visitor weighs the reference points by their index and the
order in which they come. -/
structure TallyParam where
  prune : Bool
  merge : Bool
  ordered : Bool

/-- A policy that counts, for every query point, the reference points: a
result is the pair of the number counted by `VisitPair` and the number
received through postponed values. When `prune` is set the intrinsic test
prunes every reference leaf and adds its number of points to the postponed of
the query node. -/
@[reducible] def Tally : GNP where
  Param := TallyParam
  QPoint := Unit
  RPoint := Unit
  QInfo := Unit
  RInfo := Unit
  Delta := Nat
  QSummaryResult := Nat
  QPostponed := Nat
  QResult := Nat × Nat
  GlobalResult := Nat
  PairVisitor := Nat
  Score := Nat
  Score_gt := fun a b => decide (b < a)
  Delta_default := 0
  Delta_Init := fun _ => 0
  QSummaryResult_Init := fun _ => 0
  QSummaryResult_ApplyPostponed := fun _ _ _ x => x
  QSummaryResult_ApplySummaryResult := fun _ _ x => x
  QSummaryResult_ApplyDelta := fun _ _ x => x
  QSummaryResult_StartReaccumulate := fun _ _ _ => 0
  QSummaryResult_Accumulate := fun _ _ x => x
  QSummaryResult_AccumulateN := fun _ _ _ x => x
  QSummaryResult_FinishReaccumulate := fun _ _ x => x
  QPostponed_Init := fun _ => 0
  QPostponed_ApplyPostponed := fun _ other self => self + other
  QPostponed_Reset := fun _ _ => 0
  QResult_ApplyPostponed := fun _ post _ _ res => (res.1, res.2 + post)
  QResult_Postprocess := fun p _ _ _ res => if p.merge then (res.1 + res.2, 0) else res
  GlobalResult_Init := fun _ => 0
  GlobalResult_UndoDelta := fun _ _ g => g
  GlobalResult_ApplyResult := fun _ _ _ _ g => g
  Algorithm_ConsiderPairIntrinsic := fun p _ r d g post =>
    if p.prune && r.is_leaf then
      { explore := false, delta := d, global_result := g, postponed := post + r.count }
    else { explore := true, delta := d, global_result := g, postponed := post }
  Algorithm_ConsiderQueryTermination := fun _ _ _ _ post =>
    { explore := true, postponed := post }
  Algorithm_ConsiderPairExtrinsic := fun _ _ _ _ _ _ post =>
    { explore := true, postponed := post }
  Algorithm_Heuristic := fun _ _ _ _ => 0
  PairVisitor_Init := fun _ => 0
  PairVisitor_StartVisitingQueryPoint := fun _ _ _ _ _ res g _ =>
    { visit := true, visitor := 0, q_result := res, global_result := g }
  PairVisitor_VisitPair := fun p _ _ _ r_i v => if p.ordered then v + r_i else v + 1
  PairVisitor_FinishVisitingQueryPoint := fun p _ _ _ _ res g v =>
    { visitor := v, q_result := (if p.ordered then 2 * res.1 + v else res.1 + v, res.2),
      global_result := g }

/-- An engine for `Tally` with 32 bit indices. -/
def tallyEngine (p : TallyParam) (q_nodes r_nodes : Nat → Node Unit) (naive : Bool) :
    Engine Tally :=
  { param_ := p, q_nodes_ := q_nodes, r_nodes_ := r_nodes, q_points_ := fun _ => (),
    r_points_ := fun _ => (), do_naive_ := naive, index_bits := 32 }

/-- The state `Doit` sets up for `Tally`, all results zero. -/
def tallyState (p : TallyParam) : State Tally := DoitState Tally p (fun _ => (0, 0))

/-- The intrinsic test that `Begin_` makes on the two roots. -/
def Begin_intrinsic {G : GNP} (E : Engine G) (q_root_index : Nat) (s : State G) :
    IntrinsicOut G.Delta G.GlobalResult G.QPostponed :=
  G.Algorithm_ConsiderPairIntrinsic E.param_ (E.q_nodes_ q_root_index) E.r_root_
    G.Delta_default s.global_result_ (s.q_mutables_ q_root_index).postponed

/-- The state of `Begin_` after its intrinsic test on the two roots. -/
def Begin_checked {G : GNP} (E : Engine G) (q_root_index : Nat) (s : State G) : State G :=
  ((s.setGlobal (Begin_intrinsic E q_root_index s).global_result).setPostponed q_root_index
    (Begin_intrinsic E q_root_index s).postponed).emit
    (.ConsiderPairIntrinsic q_root_index 0 (s.q_mutables_ q_root_index).postponed
      (Begin_intrinsic E q_root_index s).postponed (Begin_intrinsic E q_root_index s).explore
      (Begin_intrinsic E q_root_index s).delta)

/-- The total `W q n` that the reference node `n` contributes to the query
point `q` is, at every internal node of the reference tree, the sum of the
totals of its two children. -/
def WSplits (W : Nat → Nat → ℤ) : Shape → Prop
  | .leaf _ => True
  | .split i l r => (∀ q, W q i = W q l.root + W q r.root) ∧ WSplits W l ∧ WSplits W r

/-- The laws of a policy whose prunes are exact, for a count `μ` on postponed
values, a count `ρ` on results and the totals `W`: applying a postponed adds
its count, a reset postponed counts zero, a test that lets a pair through
leaves the count of the postponed as it is, an intrinsic or extrinsic test
that prunes the pair of a query node and a reference node adds to the
postponed what the reference node contributes to every point of the query
node, and a termination test prunes only where nothing is contributed. -/
structure ExactLaws {G : GNP} (E : Engine G) (μ : G.QPostponed → ℤ) (ρ : G.QResult → ℤ)
    (W : Nat → Nat → ℤ) : Prop where
  apply_postponed : ∀ other self,
    μ (G.QPostponed_ApplyPostponed E.param_ other self) = μ self + μ other
  reset : ∀ x, μ (G.QPostponed_Reset E.param_ x) = 0
  result_apply : ∀ post pt i res,
    ρ (G.QResult_ApplyPostponed E.param_ post pt i res) = ρ res + μ post
  intrinsic : ∀ qn rn d g post q, (E.q_nodes_ qn).covers q = true →
    μ (G.Algorithm_ConsiderPairIntrinsic E.param_ (E.q_nodes_ qn) (E.r_nodes_ rn) d g
        post).postponed =
      μ post + if (G.Algorithm_ConsiderPairIntrinsic E.param_ (E.q_nodes_ qn) (E.r_nodes_ rn)
        d g post).explore = true then 0 else W q rn
  termination : ∀ qn mu g post,
    μ (G.Algorithm_ConsiderQueryTermination E.param_ (E.q_nodes_ qn) mu g post).postponed =
        μ post ∧
      ((G.Algorithm_ConsiderQueryTermination E.param_ (E.q_nodes_ qn) mu g post).explore =
          false →
        ∀ q rn, (E.q_nodes_ qn).covers q = true → W q rn = 0)
  extrinsic : ∀ qn rn d mu g post q, (E.q_nodes_ qn).covers q = true →
    μ (G.Algorithm_ConsiderPairExtrinsic E.param_ (E.q_nodes_ qn) (E.r_nodes_ rn) d mu g
        post).postponed =
      μ post + if (G.Algorithm_ConsiderPairExtrinsic E.param_ (E.q_nodes_ qn)
        (E.r_nodes_ rn) d mu g post).explore = true then 0 else W q rn

/-- The visitor law of an exact policy on the reference node `n`: the calls
`StartVisitingQueryPoint`, `VisitPair` over the node and
`FinishVisitingQueryPoint` for the query point `q` add `W q n` to the count
of the result of `q`. -/
def VisitAdds {G : GNP} (E : Engine G) (ρ : G.QResult → ℤ) (W : Nat → Nat → ℤ) (n : Nat) :
    Prop :=
  ∀ (u : G.QSummaryResult) (q : Nat) (v : G.PairVisitor) (s : State G),
    ρ ((VisitQueryPoint E n u q v s).2.q_results_ q) = ρ (s.q_results_ q) + W q n

/-- The effect of a step from `s` to `sf` on the point `q` with respect to the
subtree `t`: when the range of the root of `t` contains `q`, the count of the
result of `q` together with the counts pending on the path to its leaf grows
by `w`; otherwise the result of `q` is unchanged. -/
def Gains {G : GNP} (E : Engine G) (μ : G.QPostponed → ℤ) (ρ : G.QResult → ℤ) (q : Nat)
    (t : Shape) (w : ℤ) (s sf : State G) : Prop :=
  ((E.q_nodes_ t.root).covers q = true →
    ρ (sf.q_results_ q) + pending E μ sf q t = ρ (s.q_results_ q) + pending E μ s q t + w) ∧
  ((E.q_nodes_ t.root).covers q = false → sf.q_results_ q = s.q_results_ q)

/-- Whether a call respects the leaf flags of the nodes it names: the entry
of the branch `Splitting Q`, which reads `q_node->child(k)`, names an internal
query node, and the entry of the branch `Splitting R`, which reads
`r_node->child(0)` and `r_node->child(1)`, names an internal reference node.
Every other call is accepted. -/
def Event.splitsInternal {G : GNP} (E : Engine G) : Event G → Bool
  | .SplittingQ q_i _ => !(E.q_nodes_ q_i).is_leaf
  | .SplittingR _ r_i => !(E.r_nodes_ r_i).is_leaf
  | _ => true

/-- Whether a call is `global_result_.UndoDelta` with a delta selected by
`p`. -/
def Event.undoes {G : GNP} (p : G.Delta → Bool) : Event G → Bool
  | .UndoDelta d => p d
  | _ => false

/-- Whether a call is a `ConsiderPairIntrinsic` that wrote a delta selected by
`p`. -/
def Event.produces {G : GNP} (p : G.Delta → Bool) : Event G → Bool
  | .ConsiderPairIntrinsic _ _ _ _ _ d => p d
  | _ => false

/-- The array `list_total_num_coeffs_` filled by the first loop of `Init`:
entry `p` is `nchoosek(p + dim, dim)`, for `p = 0, ..., max_order`. -/
def SeriesExpansionAux.list_total_num_coeffs_ (max_order dim : Nat) : List Nat :=
  (List.range (max_order + 1)).map (fun p => SeriesExpansionAux.nchoosek (p + dim) dim)

/-- The accessor `get_total_num_coeffs(order)` after `Init(max_order, dim)`. -/
def SeriesExpansionAux.get_total_num_coeffs (max_order dim order : Nat) : Nat :=
  (SeriesExpansionAux.list_total_num_coeffs_ max_order dim).getD order 0

/-- The running values of the first loop of `LeaveOneOutTuplesBase_`:
`current_node`, `numerator`, `denominator` and `total_num_tuples`. -/
structure MultiTreeDepthFirst.TupleCount where
  current_node : Nat
  numerator : ℤ
  denominator : ℤ
  total_num_tuples : ℚ

/-- The first loop of `LeaveOneOutTuplesBase_`, run over the nodes `nodes[i]`
for `i = 1, ..., order - 1`.  A node is named by its index in the node store
`tree`, so that pointer equality is equality of indices; the `double`
arithmetic is exact.  The value `none` stands for the early `return` of the
loop, which returns zero. -/
def MultiTreeDepthFirst.CountTuples {Info : Type} (tree : Nat → Node Info) :
    List Nat → MultiTreeDepthFirst.TupleCount → Option MultiTreeDepthFirst.TupleCount
  | [], st => some st
  | node_i :: rest, st =>
      if st.current_node = node_i then
        if st.numerator = 1 then none
        else
          MultiTreeDepthFirst.CountTuples tree rest
            { current_node := st.current_node,
              numerator := st.numerator - 1,
              denominator := st.denominator + 1,
              total_num_tuples := st.total_num_tuples *
                (((st.numerator - 1 : ℤ) : ℚ) / ((st.denominator + 1 : ℤ) : ℚ)) }
      else
        MultiTreeDepthFirst.CountTuples tree rest
          { current_node := node_i,
            numerator := ((tree node_i).count : ℤ),
            denominator := 1,
            total_num_tuples := st.total_num_tuples *
              ((((tree node_i).count : ℤ) : ℚ) / ((1 : ℤ) : ℚ)) }

/-- The value of `equal_count` computed by the second loop of
`LeaveOneOutTuplesBase_` for position `i`: the number of positions `j = i,
i - 1, ...` and `j = i + 1, i + 2, ...` that hold the node `nodes[i]`, each
scan stopping at the first other node. -/
def MultiTreeDepthFirst.equal_count (nodes : List Nat) (i : Nat) : Nat :=
  ((nodes.take (i + 1)).reverse.takeWhile (fun n => decide (n = nodes.getD i 0))).length +
    ((nodes.drop (i + 1)).takeWhile (fun n => decide (n = nodes.getD i 0))).length

/-- The function `LeaveOneOutTuplesBase_(nodes)`; `order` stands for
`MultiTreeProblem::order`.  The result is the returned value and the new
contents of the member `total_n_minus_one_tuples_`, which the early return
leaves untouched. -/
def MultiTreeDepthFirst.LeaveOneOutTuplesBase_ {Info : Type} (tree : Nat → Node Info)
    (order : Nat) (nodes : List Nat) (total_n_minus_one_tuples_ : Nat → ℚ) :
    ℚ × (Nat → ℚ) :=
  match MultiTreeDepthFirst.CountTuples tree
      ((List.range' 1 (order - 1)).map (fun i => nodes.getD i 0))
      { current_node := nodes.getD 0 0,
        numerator := ((tree (nodes.getD 0 0)).count : ℤ),
        denominator := 1,
        total_num_tuples := (((tree (nodes.getD 0 0)).count : ℤ) : ℚ) } with
  | none => (0, total_n_minus_one_tuples_)
  | some st =>
      (st.total_num_tuples,
        (List.range order).foldl
          (fun tot i => Function.update tot i
            (tot i + st.total_num_tuples / (((tree (nodes.getD i 0)).count : ℤ) : ℚ) *
              (MultiTreeDepthFirst.equal_count nodes i : ℚ)))
          total_n_minus_one_tuples_)

/-- Modelled from the spec: the helper
`first_node_indices_strictly_surround_second_node_indices_` is not among the
sources; by its name it holds when the index range of the first node contains
the index range of the second and is larger at one end at least. -/
def MultiTreeDepthFirst.first_node_indices_strictly_surround_second_node_indices_
    {Info : Type} (first_node second_node : Node Info) : Bool :=
  (decide (first_node.begin < second_node.begin) &&
      decide (first_node.end_ ≥ second_node.end_)) ||
    (decide (first_node.begin ≤ second_node.begin) &&
      decide (first_node.end_ > second_node.end_))

/-- The loop of `RecursiveLeaveOneOutTuples_` over the positions
`i = examine_index_start + 1, ..., order - 1`, on the pair
`(examine_index_start, equal_or_disjoint_flag)`; `surround` is the helper that
compares two nodes.  The value `none` stands for the `return 0` inside the
loop. -/
def MultiTreeDepthFirst.ExamineLoop {Info : Type} (surround : Node Info → Node Info → Bool)
    (tree : Nat → Node Info) (nodes : List Nat) : List Nat → Nat × Bool → Option (Nat × Bool)
  | [], st => some st
  | i :: rest, st =>
      if (tree (nodes.getD i 0)).end_ ≤ (tree (nodes.getD (i - 1) 0)).begin then none
      else
        MultiTreeDepthFirst.ExamineLoop surround tree nodes rest
          (if st.2 then
            if surround (tree (nodes.getD (i - 1) 0)) (tree (nodes.getD i 0)) then (i - 1, false)
            else if surround (tree (nodes.getD i 0)) (tree (nodes.getD (i - 1) 0)) then
              (i, false)
            else st
          else st)

/-- The function `RecursiveLeaveOneOutTuples_(nodes, examine_index_start)`,
with a bound on the depth of the recursion (`none` when it is exhausted).  The
result is the returned value, the contents of the array `nodes` on return and
the new contents of `total_n_minus_one_tuples_`; `left()` and `right()` of a
node are its two children. -/
def MultiTreeDepthFirst.RecursiveLeaveOneOutTuples_ {Info : Type}
    (surround : Node Info → Node Info → Bool) (tree : Nat → Node Info) (order : Nat) :
    Nat → List Nat → Nat → (Nat → ℚ) → Option (ℚ × List Nat × (Nat → ℚ))
  | 0, _, _, _ => none
  | fuel + 1, nodes, examine_index_start, total_n_minus_one_tuples_ =>
      match MultiTreeDepthFirst.ExamineLoop surround tree nodes
          (List.range' (examine_index_start + 1) (order - (examine_index_start + 1)))
          (examine_index_start, true) with
      | none => some (0, nodes, total_n_minus_one_tuples_)
      | some (_, true) =>
          some ((MultiTreeDepthFirst.LeaveOneOutTuplesBase_ tree order nodes
              total_n_minus_one_tuples_).1, nodes,
            (MultiTreeDepthFirst.LeaveOneOutTuplesBase_ tree order nodes
              total_n_minus_one_tuples_).2)
      | some (examine_index, false) =>
          let node_saved := nodes.getD examine_index 0
          match MultiTreeDepthFirst.RecursiveLeaveOneOutTuples_ surround tree order fuel
              (nodes.set examine_index (tree node_saved).child0) examine_index
              total_n_minus_one_tuples_ with
          | none => none
          | some (left_count, nodes1, tuples1) =>
              match MultiTreeDepthFirst.RecursiveLeaveOneOutTuples_ surround tree order fuel
                  (nodes1.set examine_index (tree node_saved).child1) examine_index
                  tuples1 with
              | none => none
              | some (right_count, nodes2, tuples2) =>
                  some (left_count + right_count, nodes2.set examine_index node_saved,
                    tuples2)

/-- The maximal runs of consecutive equal entries of a list, each as the pair
of the entry and the length of the run. -/
def runs : List Nat → List (Nat × Nat)
  | [] => []
  | a :: rest =>
      match runs rest with
      | [] => [(a, 1)]
      | (b, k) :: more => if a = b then (a, k + 1) :: more else (a, 1) :: (b, k) :: more

/-- The number of index tuples `i_0 < i_1 < ...` with `lo <= i_0` and `i_j` in
the range `[begin, end)` of the `j`-th node of the list. -/
def increasingTuples {Info : Type} (tree : Nat → Node Info) : List Nat → Nat → Nat
  | [], _ => 1
  | n :: rest, lo =>
      (((List.range' (tree n).begin (tree n).count).filter (fun i => decide (lo ≤ i))).map
        (fun i => increasingTuples tree rest (i + 1))).sum

/-- The object `MultiTreeQueryResult` as far as the engine touches its
members: the array `n_pruned`, and everything else. -/
structure MultiTreeQueryResult (Data : Type) where
  n_pruned : Nat → ℚ
  data : Data

/-- The template parameter `MultiTreeProblem` as far as
`MultiTreeDepthFirstBase_` uses it: the arity `order`, the types of the
postponed and summary statistics kept in the nodes and of the query results,
and the operations called on them. -/
structure MultiTreeProblem where
  Data : Type
  Postponed : Type
  Summary : Type
  order : Nat
  /-- The call `query_results.ApplyPostponed(postponed, q)`. -/
  ApplyPostponed : Postponed → Nat → MultiTreeQueryResult Data → MultiTreeQueryResult Data
  /-- The call `summary.StartReaccumulate()`. -/
  StartReaccumulate : Summary → Summary
  /-- The call `summary.Accumulate(query_results, q)`. -/
  Accumulate : MultiTreeQueryResult Data → Nat → Summary → Summary
  /-- The call `postponed.SetZero()`. -/
  SetZero : Postponed → Postponed

/-- The statistics `stat()` of a tree node. -/
structure MultiTreeStat (P : MultiTreeProblem) where
  summary : P.Summary
  postponed : P.Postponed

/-- What `MultiTreeDepthFirstBase_` reads and writes: the statistics of the
nodes, by node index, and the query results. -/
structure MultiTreeState (P : MultiTreeProblem) where
  stat : Nat → MultiTreeStat P
  query_results : MultiTreeQueryResult P.Data

/-- The body of the loop over the points `q` of `qnode` in
`MultiTreeDepthFirstBase_`; `pruned` is `total_n_minus_one_tuples_[i]`. -/
def MultiTreeDepthFirst.BasePoint (P : MultiTreeProblem) (qnode : Nat) (pruned : ℚ)
    (s : MultiTreeState P) (q : Nat) : MultiTreeState P :=
  let applied := P.ApplyPostponed (s.stat qnode).postponed q s.query_results
  { stat := Function.update s.stat qnode
      { summary := P.Accumulate applied q (s.stat qnode).summary,
        postponed := (s.stat qnode).postponed },
    query_results :=
      { n_pruned := Function.update applied.n_pruned q (applied.n_pruned q + pruned),
        data := applied.data } }

/-- The body of the loop over the positions `i` of the tuple in
`MultiTreeDepthFirstBase_`. -/
def MultiTreeDepthFirst.BaseNode {Info : Type} (P : MultiTreeProblem)
    (tree : Nat → Node Info) (nodes : List Nat) (total_n_minus_one_tuples_ : Nat → ℚ)
    (s : MultiTreeState P) (i : Nat) : MultiTreeState P :=
  if 0 < i ∧ nodes.getD i 0 = nodes.getD (i - 1) 0 then s
  else
    let qnode := nodes.getD i 0
    let s1 : MultiTreeState P :=
      { stat := Function.update s.stat qnode
          { summary := P.StartReaccumulate (s.stat qnode).summary,
            postponed := (s.stat qnode).postponed },
        query_results := s.query_results }
    let s2 := (List.range' (tree qnode).begin ((tree qnode).end_ - (tree qnode).begin)).foldl
      (MultiTreeDepthFirst.BasePoint P qnode (total_n_minus_one_tuples_ i)) s1
    { stat := Function.update s2.stat qnode
        { summary := (s2.stat qnode).summary,
          postponed := P.SetZero (s2.stat qnode).postponed },
      query_results := s2.query_results }

/-- The procedure `MultiTreeDepthFirstBase_(sets, nodes, query_results,
total_num_tuples)`.  The helper `MultiTreeHelper_<0, order>::NestedLoop` is
not among the sources and is passed in as `NestedLoop`; it is given the tuple
and may change the query results and, through the node pointers, the
statistics. -/
def MultiTreeDepthFirst.MultiTreeDepthFirstBase_ {Info : Type} (P : MultiTreeProblem)
    (NestedLoop : List Nat → MultiTreeState P → MultiTreeState P)
    (tree : Nat → Node Info) (nodes : List Nat) (total_n_minus_one_tuples_ : Nat → ℚ)
    (s : MultiTreeState P) : MultiTreeState P :=
  (List.range P.order).foldl
    (MultiTreeDepthFirst.BaseNode P tree nodes total_n_minus_one_tuples_)
    (NestedLoop nodes s)

/-- A problem of arity three whose results count, for every point, the
postponed amounts applied to it. -/
@[reducible] def tupleTally : MultiTreeProblem where
  Data := Nat → Nat
  Postponed := Nat
  Summary := Nat
  order := 3
  ApplyPostponed := fun post q r =>
    { n_pruned := r.n_pruned, data := Function.update r.data q (r.data q + post) }
  StartReaccumulate := fun _ => 0
  Accumulate := fun r q x => x + r.data q
  SetZero := fun _ => 0

/-- A state for `tupleTally` in which node `n` holds the postponed `10 + n`
and every result is zero. -/
def tupleTallyState : MultiTreeState tupleTally :=
  { stat := fun n => { summary := 0, postponed := 10 + n },
    query_results := { n_pruned := fun _ => 0, data := fun _ => 0 } }

/-- The two calls that `BaseCase_` makes for a query point before the
reference loop, as they appear in a log: `q_result->ApplyPostponed` with the
point and the postponed it is given (left), and `StartVisitingQueryPoint` with
the point (right).  Every other call is dropped. -/
def Event.pointEntry {G : GNP} : Event G → Option ((Nat × G.QPostponed) ⊕ Nat)
  | .ApplyPostponed q_i post => some (.inl (q_i, post))
  | .StartVisitingQueryPoint q_i _ _ => some (.inr q_i)
  | _ => none

/-! ## A small concrete policy

Every type is `Nat`; the parameter fixes what the pruning tests answer and by
how much the callbacks change their arguments. -/

/-- Parameter of the policy `Toy`. -/
structure ToyParam where
  /-- Answer of `ConsiderPairIntrinsic`. -/
  intrinsic : Bool
  /-- Answer of `ConsiderQueryTermination`. -/
  termination : Bool
  /-- Answer of `ConsiderPairExtrinsic`. -/
  extrinsic : Bool
  /-- Answer of `StartVisitingQueryPoint`. -/
  start : Bool
  /-- Amount `ConsiderPairIntrinsic` adds to the postponed it is given. -/
  intrinsic_postponed : Nat
  /-- Amount `Postprocess` adds to a result. -/
  postprocess : Nat
  /-- Amount `ApplyResult` adds to the global result. -/
  apply_result : Nat
  /-- Whether `ApplyPostponed` adds the postponed amount to a result. -/
  use_postponed : Bool
  /-- Whether `ConsiderQueryTermination` declares every leaf query node
  satisfied, whatever `termination` says. -/
  prune_leaves : Bool

/-- A policy that counts: a result is the number of reference points visited
plus the postponed amounts applied to it. -/
@[reducible] def Toy : GNP where
  Param := ToyParam
  QPoint := Unit
  RPoint := Unit
  QInfo := Unit
  RInfo := Unit
  Delta := Nat
  QSummaryResult := Nat
  QPostponed := Nat
  QResult := Nat
  GlobalResult := Nat
  PairVisitor := Nat
  Score := Nat
  Score_gt := fun a b => decide (b < a)
  Delta_default := 0
  Delta_Init := fun _ => 1
  QSummaryResult_Init := fun _ => 0
  QSummaryResult_ApplyPostponed := fun _ post _ x => x + post
  QSummaryResult_ApplySummaryResult := fun _ u x => x + u
  QSummaryResult_ApplyDelta := fun _ d x => x + d
  QSummaryResult_StartReaccumulate := fun _ _ _ => 0
  QSummaryResult_Accumulate := fun _ res x => x + res
  QSummaryResult_AccumulateN := fun _ y _ x => x + y
  QSummaryResult_FinishReaccumulate := fun _ _ x => x
  QPostponed_Init := fun _ => 0
  QPostponed_ApplyPostponed := fun _ other self => self + other
  QPostponed_Reset := fun _ _ => 0
  QResult_ApplyPostponed := fun p post _ _ res => if p.use_postponed then res + post else res
  QResult_Postprocess := fun p _ _ _ res => res + p.postprocess
  GlobalResult_Init := fun _ => 0
  GlobalResult_UndoDelta := fun _ d g => g - d
  GlobalResult_ApplyResult := fun p _ _ _ g => g + p.apply_result
  Algorithm_ConsiderPairIntrinsic := fun p q r _ g post =>
    { explore := p.intrinsic, delta := 1000 + 100 * q.count + 10 * q.begin + r.begin,
      global_result := g,
      postponed := post + p.intrinsic_postponed }
  Algorithm_ConsiderQueryTermination := fun p q _ _ post =>
    { explore := p.termination && !(p.prune_leaves && q.is_leaf), postponed := post }
  Algorithm_ConsiderPairExtrinsic := fun p _ _ _ _ _ post =>
    { explore := p.extrinsic, postponed := post }
  Algorithm_Heuristic := fun _ _ r _ => r.begin
  PairVisitor_Init := fun _ => 0
  PairVisitor_StartVisitingQueryPoint := fun p _ _ _ _ res g _ =>
    { visit := p.start, visitor := 0, q_result := res, global_result := g }
  PairVisitor_VisitPair := fun _ _ _ _ _ v => v + 1
  PairVisitor_FinishVisitingQueryPoint := fun _ _ _ _ _ res g v =>
    { visitor := v, q_result := res + v, global_result := g }

/-- A leaf node over `[b, b + c)`. -/
def toyLeaf (b c : Nat) : Node Unit :=
  { begin := b, count := c, is_leaf := true, child0 := 0, child1 := 0, info := () }

/-- An internal node over `[b, b + c)` with children `l` and `r`. -/
def toySplit (b c l r : Nat) : Node Unit :=
  { begin := b, count := c, is_leaf := false, child0 := l, child1 := r, info := () }

/-- A node cache holding the listed nodes at indices `0, 1, ...`. -/
def toyNodes (l : List (Node Unit)) : Nat → Node Unit :=
  fun i => l.getD i (toyLeaf 0 0)

/-- A tree with one leaf holding `c` points. -/
def toyTree1 (c : Nat) : Nat → Node Unit := toyNodes [toyLeaf 0 c]

/-- A tree over four points with a single split into two leaves of two
points. -/
def toyTree3 : Nat → Node Unit := toyNodes [toySplit 0 4 1 2, toyLeaf 0 2, toyLeaf 2 2]

/-- The tree `toyTree3` with the two children of its root exchanged. -/
def toyTree3Swapped : Nat → Node Unit :=
  toyNodes [toySplit 0 4 2 1, toyLeaf 0 2, toyLeaf 2 2]

/-- An engine for `Toy` with 32 bit indices. -/
def toyEngine (p : ToyParam) (q_nodes r_nodes : Nat → Node Unit) (naive : Bool) :
    Engine Toy :=
  { param_ := p, q_nodes_ := q_nodes, r_nodes_ := r_nodes, q_points_ := fun _ => (),
    r_points_ := fun _ => (), do_naive_ := naive, index_bits := 32 }

/-- The state `Doit` sets up for `Toy`, all results zero. -/
def toyState (p : ToyParam) : State Toy := DoitState Toy p (fun _ => 0)

/-- A parameter under which no test prunes and nothing is added anywhere. -/
def toyExplore : ToyParam :=
  { intrinsic := true, termination := true, extrinsic := true, start := true,
    intrinsic_postponed := 0, postprocess := 0, apply_result := 0, use_postponed := true,
    prune_leaves := false }

/-- The policy `Toy` with a `StartReaccumulate` that keeps the summary it is
called on. -/
@[reducible] def ToyKeep : GNP :=
  { Toy with QSummaryResult_StartReaccumulate := fun _ _ x => x }

/-- An engine for `ToyKeep` with 32 bit indices. -/
def toyKeepEngine (p : ToyParam) (q_nodes r_nodes : Nat → Node Unit) (naive : Bool) :
    Engine ToyKeep :=
  { param_ := p, q_nodes_ := q_nodes, r_nodes_ := r_nodes, q_points_ := fun _ => (),
    r_points_ := fun _ => (), do_naive_ := naive, index_bits := 32 }

/-- The state `Doit` sets up for `ToyKeep`, all results zero. -/
def toyKeepState (p : ToyParam) : State ToyKeep := DoitState ToyKeep p (fun _ => 0)

/-! ## Basic facts about states, outcomes and the log -/

section Basics

variable {G : GNP}

@[simp] theorem State.emit_q_mutables (s : State G) (e : Event G) :
    (s.emit e).q_mutables_ = s.q_mutables_ := rfl

@[simp] theorem State.emit_q_results (s : State G) (e : Event G) :
    (s.emit e).q_results_ = s.q_results_ := rfl

@[simp] theorem State.emit_global (s : State G) (e : Event G) :
    (s.emit e).global_result_ = s.global_result_ := rfl

@[simp] theorem State.emit_log (s : State G) (e : Event G) :
    (s.emit e).log = s.log ++ [e] := rfl

@[simp] theorem State.setSummary_q_results (s : State G) (i : Nat) (x : G.QSummaryResult) :
    (s.setSummary i x).q_results_ = s.q_results_ := rfl

@[simp] theorem State.setSummary_global (s : State G) (i : Nat) (x : G.QSummaryResult) :
    (s.setSummary i x).global_result_ = s.global_result_ := rfl

@[simp] theorem State.setSummary_log (s : State G) (i : Nat) (x : G.QSummaryResult) :
    (s.setSummary i x).log = s.log := rfl

@[simp] theorem State.setPostponed_q_results (s : State G) (i : Nat) (x : G.QPostponed) :
    (s.setPostponed i x).q_results_ = s.q_results_ := rfl

@[simp] theorem State.setPostponed_global (s : State G) (i : Nat) (x : G.QPostponed) :
    (s.setPostponed i x).global_result_ = s.global_result_ := rfl

@[simp] theorem State.setPostponed_log (s : State G) (i : Nat) (x : G.QPostponed) :
    (s.setPostponed i x).log = s.log := rfl

@[simp] theorem State.setResult_q_mutables (s : State G) (i : Nat) (x : G.QResult) :
    (s.setResult i x).q_mutables_ = s.q_mutables_ := rfl

@[simp] theorem State.setResult_global (s : State G) (i : Nat) (x : G.QResult) :
    (s.setResult i x).global_result_ = s.global_result_ := rfl

@[simp] theorem State.setResult_log (s : State G) (i : Nat) (x : G.QResult) :
    (s.setResult i x).log = s.log := rfl

@[simp] theorem State.setResult_q_results (s : State G) (i : Nat) (x : G.QResult) :
    (s.setResult i x).q_results_ = Function.update s.q_results_ i x := rfl

@[simp] theorem State.setGlobal_q_mutables (s : State G) (x : G.GlobalResult) :
    (s.setGlobal x).q_mutables_ = s.q_mutables_ := rfl

@[simp] theorem State.setGlobal_q_results (s : State G) (x : G.GlobalResult) :
    (s.setGlobal x).q_results_ = s.q_results_ := rfl

@[simp] theorem State.setGlobal_global (s : State G) (x : G.GlobalResult) :
    (s.setGlobal x).global_result_ = x := rfl

@[simp] theorem State.setGlobal_log (s : State G) (x : G.GlobalResult) :
    (s.setGlobal x).log = s.log := rfl

@[simp] theorem State.setSummary_postponed (s : State G) (i j : Nat)
    (x : G.QSummaryResult) :
    ((s.setSummary i x).q_mutables_ j).postponed = (s.q_mutables_ j).postponed := by
  by_cases h : j = i
  · subst h; simp [State.setSummary]
  · simp [State.setSummary, Function.update_noteq h]

@[simp] theorem State.setSummary_summary_same (s : State G) (i : Nat)
    (x : G.QSummaryResult) :
    ((s.setSummary i x).q_mutables_ i).summary_result = x := by
  simp [State.setSummary]

theorem State.setSummary_summary_other (s : State G) {i j : Nat} (h : j ≠ i)
    (x : G.QSummaryResult) :
    ((s.setSummary i x).q_mutables_ j).summary_result =
      (s.q_mutables_ j).summary_result := by
  simp [State.setSummary, Function.update_noteq h]

@[simp] theorem State.setPostponed_summary (s : State G) (i j : Nat) (x : G.QPostponed) :
    ((s.setPostponed i x).q_mutables_ j).summary_result =
      (s.q_mutables_ j).summary_result := by
  by_cases h : j = i
  · subst h; simp [State.setPostponed]
  · simp [State.setPostponed, Function.update_noteq h]

@[simp] theorem State.setPostponed_postponed_same (s : State G) (i : Nat)
    (x : G.QPostponed) :
    ((s.setPostponed i x).q_mutables_ i).postponed = x := by
  simp [State.setPostponed]

theorem State.setPostponed_postponed_other (s : State G) {i j : Nat} (h : j ≠ i)
    (x : G.QPostponed) :
    ((s.setPostponed i x).q_mutables_ j).postponed = (s.q_mutables_ j).postponed := by
  simp [State.setPostponed, Function.update_noteq h]

@[simp] theorem Outcome.state_done {σ : Type} (s : σ) : (Outcome.done s).state = s := rfl

@[simp] theorem Outcome.state_outOfFuel {σ : Type} (s : σ) :
    (Outcome.outOfFuel s).state = s := rfl

@[simp] theorem Outcome.returned_done {σ : Type} (s : σ) :
    (Outcome.done s).returned = true := rfl

@[simp] theorem Outcome.returned_outOfFuel {σ : Type} (s : σ) :
    (Outcome.outOfFuel s).returned = false := rfl

@[simp] theorem Outcome.done_andThen {σ : Type} (s : σ) (f : σ → Outcome σ) :
    (Outcome.done s).andThen f = f s := rfl

@[simp] theorem Outcome.outOfFuel_andThen {σ : Type} (s : σ) (f : σ → Outcome σ) :
    (Outcome.outOfFuel s).andThen f = Outcome.outOfFuel s := rfl

theorem Outcome.eq_done_of_returned {σ : Type} {o : Outcome σ} (h : o.returned = true) :
    o = Outcome.done o.state := by
  cases o <;> simp_all

@[simp] theorem Node.end_sub_begin {Info : Type} (n : Node Info) :
    n.end_ - n.begin = n.count := by
  simp [Node.end_]

/-- A step of the engine only ever appends to the log. -/
theorem Outcome.andThen_log_grows {s : State G} {o : Outcome (State G)}
    {f : State G → Outcome (State G)} (h1 : s.log <+: o.state.log)
    (h2 : ∀ s1, s1.log <+: (f s1).state.log) :
    s.log <+: (o.andThen f).state.log := by
  cases o with
  | done s1 => exact h1.trans (h2 s1)
  | outOfFuel s1 => exact h1

theorem foldl_log_grows {α β : Type} (proj : β → State G) (f : β → α → β)
    (h : ∀ b a, (proj b).log <+: (proj (f b a)).log) (l : List α) (b : β) :
    (proj b).log <+: (proj (l.foldl f b)).log := by
  induction l generalizing b with
  | nil => exact List.prefix_refl _
  | cons a l ih => exact (h b a).trans (ih (f b a))

theorem VisitLoop_log (E : Engine G) (q_i : Nat) (n r_i : Nat) (v : G.PairVisitor)
    (s : State G) :
    (VisitLoop E q_i n r_i v s).2.log =
      s.log ++ (List.range' r_i (n + 1)).map (fun r => Event.VisitPair q_i r) := by
  induction n generalizing r_i v s with
  | zero => simp [VisitLoop]
  | succ n ih =>
    rw [VisitLoop, ih]
    simp [List.range'_succ]

theorem VisitLoop_q_results (E : Engine G) (q_i : Nat) (n r_i : Nat) (v : G.PairVisitor)
    (s : State G) : (VisitLoop E q_i n r_i v s).2.q_results_ = s.q_results_ := by
  induction n generalizing r_i v s with
  | zero => simp [VisitLoop]
  | succ n ih => rw [VisitLoop, ih]; simp

theorem VisitLoop_q_mutables (E : Engine G) (q_i : Nat) (n r_i : Nat) (v : G.PairVisitor)
    (s : State G) : (VisitLoop E q_i n r_i v s).2.q_mutables_ = s.q_mutables_ := by
  induction n generalizing r_i v s with
  | zero => simp [VisitLoop]
  | succ n ih => rw [VisitLoop, ih]; simp

theorem VisitLoop_global (E : Engine G) (q_i : Nat) (n r_i : Nat) (v : G.PairVisitor)
    (s : State G) : (VisitLoop E q_i n r_i v s).2.global_result_ = s.global_result_ := by
  induction n generalizing r_i v s with
  | zero => simp [VisitLoop]
  | succ n ih => rw [VisitLoop, ih]; simp

theorem VisitLoop_visitor (E : Engine G) (q_i : Nat) (n r_i : Nat) (v : G.PairVisitor)
    (s : State G) :
    (VisitLoop E q_i n r_i v s).1 =
      (List.range' r_i (n + 1)).foldl
        (fun w r => G.PairVisitor_VisitPair E.param_ (E.q_points_ q_i) q_i (E.r_points_ r) r w)
        v := by
  induction n generalizing r_i v s with
  | zero => simp [VisitLoop]
  | succ n ih =>
    rw [VisitLoop, ih]
    simp [List.range'_succ]

theorem decr_of_pos {bits count : Nat} (h0 : 0 < count) (h1 : count < 2 ^ bits) :
    decr bits count + 1 = count := by
  unfold decr
  have h2 : count + 2 ^ bits - 1 = (count - 1) + 2 ^ bits := by omega
  rw [h2, Nat.add_mod_right, Nat.mod_eq_of_lt (by omega)]
  omega

theorem decr_zero (bits : Nat) : decr bits 0 + 1 = 2 ^ bits := by
  unfold decr
  have hpos : 0 < 2 ^ bits := Nat.pow_pos (by decide)
  rw [Nat.zero_add, Nat.mod_eq_of_lt (by omega)]
  omega

theorem VisitQueryPoint_log_grows (E : Engine G) (r_node_i : Nat)
    (unvisited : G.QSummaryResult) (q_i : Nat) (v : G.PairVisitor) (s : State G) :
    s.log <+: (VisitQueryPoint E r_node_i unvisited q_i v s).2.log := by
  unfold VisitQueryPoint
  simp only []
  split
  · simp [VisitLoop_log, List.append_assoc]
  · simp

theorem BaseCasePoint_log_grows (E : Engine G) (q_node_i r_node_i : Nat)
    (unvisited : G.QSummaryResult) (vs : G.PairVisitor × State G) (q_i : Nat) :
    vs.2.log <+: (BaseCasePoint E q_node_i r_node_i unvisited vs q_i).2.log := by
  unfold BaseCasePoint
  simp only [State.setSummary_log]
  refine List.IsPrefix.trans ?_ (VisitQueryPoint_log_grows E r_node_i unvisited q_i _ _)
  simp

theorem BaseCase_log_grows (E : Engine G) (q_node_i r_node_i : Nat)
    (unvisited : G.QSummaryResult) (s : State G) :
    (s.emit (.BaseCase q_node_i r_node_i)).log <+:
      (BaseCase_ E q_node_i r_node_i unvisited s).log := by
  unfold BaseCase_
  simp only [State.setPostponed_log, State.setSummary_log]
  have h := foldl_log_grows (fun vs : G.PairVisitor × State G => vs.2)
    (BaseCasePoint E q_node_i r_node_i unvisited)
    (BaseCasePoint_log_grows E q_node_i r_node_i unvisited)
    (List.range' (E.q_nodes_ q_node_i).begin
      ((E.q_nodes_ q_node_i).end_ - (E.q_nodes_ q_node_i).begin))
    (G.PairVisitor_Init E.param_,
      (s.emit (.BaseCase q_node_i r_node_i)).setSummary q_node_i
        (G.QSummaryResult_StartReaccumulate E.param_ (E.q_nodes_ q_node_i)
          ((s.emit (.BaseCase q_node_i r_node_i)).q_mutables_ q_node_i).summary_result))
  simpa using h

theorem SplitQChild_log_grows (E : Engine G) (pair : PairFn G)
    (hp : ∀ q r d u s, s.log <+: (pair q r d u s).state.log)
    (q_node_i r_node_i : Nat) (delta : G.Delta) (unvisited : G.QSummaryResult) (k : Nat)
    (s : State G) :
    s.log <+: (SplitQChild E pair q_node_i r_node_i delta unvisited k s).state.log := by
  unfold SplitQChild
  simp only []
  apply Outcome.andThen_log_grows
  · split
    · refine List.IsPrefix.trans ?_ (hp _ _ _ _ _)
      simp
    · simp
  · intro s1
    simp

theorem SplitQ_log_grows (E : Engine G) (pair : PairFn G)
    (hp : ∀ q r d u s, s.log <+: (pair q r d u s).state.log)
    (q_node_i r_node_i : Nat) (delta : G.Delta) (unvisited : G.QSummaryResult)
    (s : State G) :
    (s.emit (.SplittingQ q_node_i r_node_i)).log <+:
      (SplitQ E pair q_node_i r_node_i delta unvisited s).state.log := by
  unfold SplitQ
  simp only []
  apply Outcome.andThen_log_grows
  · apply Outcome.andThen_log_grows
    · refine List.IsPrefix.trans ?_ (SplitQChild_log_grows E pair hp _ _ _ _ _ _)
      simp
    · intro s1
      exact SplitQChild_log_grows E pair hp _ _ _ _ _ _
  · intro s1
    simp

theorem SplitR_log_grows (E : Engine G) (pair : PairFn G)
    (hp : ∀ q r d u s, s.log <+: (pair q r d u s).state.log)
    (q_node_i r_node_i : Nat) (unvisited : G.QSummaryResult) (s : State G) :
    (s.emit (.SplittingR q_node_i r_node_i)).log <+:
      (SplitR E pair q_node_i r_node_i unvisited s).state.log := by
  unfold SplitR
  simp only []
  apply Outcome.andThen_log_grows
  · split
    · split
      · refine List.IsPrefix.trans ?_ (hp _ _ _ _ _)
        simp [List.append_assoc]
      · simp [List.append_assoc]
    · split
      · refine List.IsPrefix.trans ?_ (hp _ _ _ _ _)
        simp [List.append_assoc]
      · split
        · apply Outcome.andThen_log_grows
          · refine List.IsPrefix.trans ?_ (hp _ _ _ _ _)
            simp [List.append_assoc]
          · intro s1
            exact hp _ _ _ _ _
        · apply Outcome.andThen_log_grows
          · refine List.IsPrefix.trans ?_ (hp _ _ _ _ _)
            simp [List.append_assoc]
          · intro s1
            exact hp _ _ _ _ _
  · intro s1
    simp [List.append_assoc]

theorem PairBody_log_grows (E : Engine G) (pair : PairFn G)
    (hp : ∀ q r d u s, s.log <+: (pair q r d u s).state.log)
    (q_node_i r_node_i : Nat) (delta : G.Delta) (unvisited : G.QSummaryResult)
    (s : State G) :
    s.log <+: (PairBody E pair q_node_i r_node_i delta unvisited s).state.log := by
  unfold PairBody
  simp only []
  split
  · simp [List.append_assoc]
  · split
    · simp [List.append_assoc]
    · split
      · refine List.IsPrefix.trans ?_ (BaseCase_log_grows E _ _ _ _)
        simp [List.append_assoc]
      · split
        · refine List.IsPrefix.trans ?_ (SplitQ_log_grows E pair hp _ _ _ _ _)
          simp [List.append_assoc]
        · refine List.IsPrefix.trans ?_ (SplitR_log_grows E pair hp _ _ _ _)
          simp [List.append_assoc]

theorem Pair_log_grows (E : Engine G) (fuel : Nat) (q_node_i r_node_i : Nat)
    (delta : G.Delta) (unvisited : G.QSummaryResult) (s : State G) :
    s.log <+: (Pair_ E fuel q_node_i r_node_i delta unvisited s).state.log := by
  induction fuel generalizing q_node_i r_node_i delta unvisited s with
  | zero => simp [Pair_]
  | succ fuel ih =>
    rw [Pair_]
    exact PairBody_log_grows E _ (fun q r d u s => ih q r d u s) _ _ _ _ _

end Basics

/-! ## Relations kept by every step -/

section Rel
variable {G : GNP}

theorem Outcome.andThen_rel {σ : Type} (R : σ → σ → Prop)
    (htrans : ∀ a b c, R a b → R b c → R a c) {s : σ} {o : Outcome σ}
    {f : σ → Outcome σ} (h1 : R s o.state) (h2 : ∀ s1, R s1 (f s1).state) :
    R s (o.andThen f).state := by
  cases o with
  | done s1 => exact htrans _ _ _ h1 (h2 s1)
  | outOfFuel s1 => exact h1

theorem foldl_rel {α σ : Type} (R : σ → σ → Prop) (hrefl : ∀ a, R a a)
    (htrans : ∀ a b c, R a b → R b c → R a c) {f : σ → α → σ}
    (h : ∀ b a, R b (f b a)) (l : List α) (b : σ) : R b (l.foldl f b) := by
  induction l generalizing b with
  | nil => exact hrefl b
  | cons a l ih => exact htrans _ _ _ (h b a) (ih (f b a))

theorem LogAdds.refl {P : Event G → Bool} (s : State G) : LogAdds P s s :=
  ⟨[], by simp, by simp⟩

theorem LogAdds.trans {P : Event G → Bool} {a b c : State G} (h1 : LogAdds P a b)
    (h2 : LogAdds P b c) : LogAdds P a c := by
  obtain ⟨r1, e1, p1⟩ := h1
  obtain ⟨r2, e2, p2⟩ := h2
  refine ⟨r1 ++ r2, by rw [e2, e1, List.append_assoc], ?_⟩
  intro e he
  rcases List.mem_append.1 he with he | he
  · exact p1 e he
  · exact p2 e he

theorem LogAdds.emit {P : Event G → Bool} {s : State G} {e : Event G} (h : P e = true) :
    LogAdds P s (s.emit e) :=
  ⟨[e], rfl, by simpa using h⟩

theorem LogAdds.of_log_eq {P : Event G → Bool} {s s1 : State G} (h : s1.log = s.log) :
    LogAdds P s s1 :=
  ⟨[], by simp [h], by simp⟩

end Rel

/-! ## The prune checks and the choice of branch in `Pair_` -/

section PairHead

variable {G : GNP}

/-- The calls with which a `Pair_` invocation starts when neither test prunes:
its entry, the two tests, `UndoDelta` with the delta it was given, and then
the entry of exactly one of the three branches. -/
theorem Pair_committed_branch (E : Engine G) (fuel q_node_i r_node_i : Nat)
    (delta : G.Delta) (unvisited : G.QSummaryResult) (s : State G)
    (ht : (Pair_termination E q_node_i delta unvisited s).explore = true)
    (hx : (Pair_extrinsic E q_node_i r_node_i delta unvisited s).explore = true) :
    ∃ rest, (Pair_ E (fuel + 1) q_node_i r_node_i delta unvisited s).state.log =
      s.log ++ [Event.Checking q_node_i r_node_i delta unvisited,
        Event.ConsiderQueryTermination q_node_i (s.q_mutables_ q_node_i).postponed
          (Pair_termination E q_node_i delta unvisited s).postponed true,
        Event.ConsiderPairExtrinsic q_node_i r_node_i
          (Pair_termination E q_node_i delta unvisited s).postponed
          (Pair_extrinsic E q_node_i r_node_i delta unvisited s).postponed true,
        Event.UndoDelta delta,
        if (E.q_nodes_ q_node_i).is_leaf = true ∧ (E.r_nodes_ r_node_i).is_leaf = true then
          Event.BaseCase q_node_i r_node_i
        else if (E.r_nodes_ r_node_i).is_leaf = true ∨
            ((E.r_nodes_ r_node_i).count ≤ (E.q_nodes_ q_node_i).count ∧
              (E.q_nodes_ q_node_i).is_leaf = false) then
          Event.SplittingQ q_node_i r_node_i
        else Event.SplittingR q_node_i r_node_i] ++ rest := by
  have hp : ∀ q r d u s1, s1.log <+: (Pair_ E fuel q r d u s1).state.log :=
    fun q r d u s1 => Pair_log_grows E fuel q r d u s1
  rw [Pair_]
  unfold PairBody
  simp only [ht, hx, Bool.not_true, Bool.false_eq_true, if_false]
  by_cases hl : (E.q_nodes_ q_node_i).is_leaf = true ∧ (E.r_nodes_ r_node_i).is_leaf = true
  · have hl2 : ((E.q_nodes_ q_node_i).is_leaf && (E.r_nodes_ r_node_i).is_leaf) = true := by
      simp [hl.1, hl.2]
    rw [if_pos hl2, if_pos hl]
    obtain ⟨rest, hrest⟩ := BaseCase_log_grows E q_node_i r_node_i unvisited
      (((((s.emit (.Checking q_node_i r_node_i delta unvisited)).setPostponed q_node_i
        (Pair_termination E q_node_i delta unvisited s).postponed).emit
        (.ConsiderQueryTermination q_node_i (s.q_mutables_ q_node_i).postponed
          (Pair_termination E q_node_i delta unvisited s).postponed true)).setPostponed q_node_i
        (Pair_extrinsic E q_node_i r_node_i delta unvisited s).postponed).emit
        (.ConsiderPairExtrinsic q_node_i r_node_i
          (Pair_termination E q_node_i delta unvisited s).postponed
          (Pair_extrinsic E q_node_i r_node_i delta unvisited s).postponed true) |>.setGlobal
        (G.GlobalResult_UndoDelta E.param_ delta s.global_result_) |>.emit (.UndoDelta delta))
    refine ⟨rest, ?_⟩
    simp only [Outcome.state_done]
    simp at hrest ⊢
    rw [← hrest]
  · have hl2 : ¬ (((E.q_nodes_ q_node_i).is_leaf && (E.r_nodes_ r_node_i).is_leaf) = true) := by
      simpa using hl
    rw [if_neg hl2, if_neg hl]
    by_cases hq : (E.r_nodes_ r_node_i).is_leaf = true ∨
        ((E.r_nodes_ r_node_i).count ≤ (E.q_nodes_ q_node_i).count ∧
          (E.q_nodes_ q_node_i).is_leaf = false)
    · have hq2 : ((E.r_nodes_ r_node_i).is_leaf
          || (decide ((E.q_nodes_ q_node_i).count ≥ (E.r_nodes_ r_node_i).count)
            && !(E.q_nodes_ q_node_i).is_leaf)) = true := by
        simpa using hq
      rw [if_pos hq2, if_pos hq]
      obtain ⟨rest, hrest⟩ := SplitQ_log_grows E (Pair_ E fuel) hp q_node_i r_node_i delta
        unvisited
        (((((s.emit (.Checking q_node_i r_node_i delta unvisited)).setPostponed q_node_i
          (Pair_termination E q_node_i delta unvisited s).postponed).emit
          (.ConsiderQueryTermination q_node_i (s.q_mutables_ q_node_i).postponed
            (Pair_termination E q_node_i delta unvisited s).postponed true)).setPostponed
          q_node_i (Pair_extrinsic E q_node_i r_node_i delta unvisited s).postponed).emit
          (.ConsiderPairExtrinsic q_node_i r_node_i
            (Pair_termination E q_node_i delta unvisited s).postponed
            (Pair_extrinsic E q_node_i r_node_i delta unvisited s).postponed true) |>.setGlobal
          (G.GlobalResult_UndoDelta E.param_ delta s.global_result_) |>.emit
          (.UndoDelta delta))
      refine ⟨rest, ?_⟩
      simp at hrest ⊢
      rw [← hrest]
    · have hq2 : ¬ (((E.r_nodes_ r_node_i).is_leaf
          || (decide ((E.q_nodes_ q_node_i).count ≥ (E.r_nodes_ r_node_i).count)
            && !(E.q_nodes_ q_node_i).is_leaf)) = true) := by
        simpa using hq
      rw [if_neg hq2, if_neg hq]
      obtain ⟨rest, hrest⟩ := SplitR_log_grows E (Pair_ E fuel) hp q_node_i r_node_i
        unvisited
        (((((s.emit (.Checking q_node_i r_node_i delta unvisited)).setPostponed q_node_i
          (Pair_termination E q_node_i delta unvisited s).postponed).emit
          (.ConsiderQueryTermination q_node_i (s.q_mutables_ q_node_i).postponed
            (Pair_termination E q_node_i delta unvisited s).postponed true)).setPostponed
          q_node_i (Pair_extrinsic E q_node_i r_node_i delta unvisited s).postponed).emit
          (.ConsiderPairExtrinsic q_node_i r_node_i
            (Pair_termination E q_node_i delta unvisited s).postponed
            (Pair_extrinsic E q_node_i r_node_i delta unvisited s).postponed true) |>.setGlobal
          (G.GlobalResult_UndoDelta E.param_ delta s.global_result_) |>.emit
          (.UndoDelta delta))
      refine ⟨rest, ?_⟩
      simp at hrest ⊢
      rw [← hrest]

/-- The first four calls of a `Pair_` invocation that is not pruned. -/
theorem Pair_committed_log (E : Engine G) (fuel q_node_i r_node_i : Nat)
    (delta : G.Delta) (unvisited : G.QSummaryResult) (s : State G)
    (ht : (Pair_termination E q_node_i delta unvisited s).explore = true)
    (hx : (Pair_extrinsic E q_node_i r_node_i delta unvisited s).explore = true) :
    ∃ rest, (Pair_ E (fuel + 1) q_node_i r_node_i delta unvisited s).state.log =
      s.log ++ [Event.Checking q_node_i r_node_i delta unvisited,
        Event.ConsiderQueryTermination q_node_i (s.q_mutables_ q_node_i).postponed
          (Pair_termination E q_node_i delta unvisited s).postponed true,
        Event.ConsiderPairExtrinsic q_node_i r_node_i
          (Pair_termination E q_node_i delta unvisited s).postponed
          (Pair_extrinsic E q_node_i r_node_i delta unvisited s).postponed true,
        Event.UndoDelta delta] ++ rest := by
  obtain ⟨rest, hrest⟩ := Pair_committed_branch E fuel q_node_i r_node_i delta unvisited s ht hx
  rw [hrest]
  refine ⟨(if (E.q_nodes_ q_node_i).is_leaf = true ∧ (E.r_nodes_ r_node_i).is_leaf = true then
      Event.BaseCase q_node_i r_node_i
    else if (E.r_nodes_ r_node_i).is_leaf = true ∨
        ((E.r_nodes_ r_node_i).count ≤ (E.q_nodes_ q_node_i).count ∧
          (E.q_nodes_ q_node_i).is_leaf = false) then
      Event.SplittingQ q_node_i r_node_i
    else Event.SplittingR q_node_i r_node_i) :: rest, ?_⟩
  simp

/-- C5: when `ConsiderQueryTermination` answers that the query subtree is
already satisfied, `Pair_` returns, the stored summary of the node is the old
summary with the delta of the pair applied by `ApplyDelta`, and the only calls
logged are the entry of this `Pair_`, the termination test and the prune
message: no further `Pair_` and no `BaseCase_`. -/
theorem Pair_termination_prune (E : Engine G) (fuel q_node_i r_node_i : Nat)
    (delta : G.Delta) (unvisited : G.QSummaryResult) (s : State G)
    (h : (Pair_termination E q_node_i delta unvisited s).explore = false) :
    (Pair_ E (fuel + 1) q_node_i r_node_i delta unvisited s).returned = true ∧
    ((Pair_ E (fuel + 1) q_node_i r_node_i delta unvisited s).state.q_mutables_
        q_node_i).summary_result =
      G.QSummaryResult_ApplyDelta E.param_ delta (s.q_mutables_ q_node_i).summary_result ∧
    (Pair_ E (fuel + 1) q_node_i r_node_i delta unvisited s).state.log =
      s.log ++ [Event.Checking q_node_i r_node_i delta unvisited,
        Event.ConsiderQueryTermination q_node_i (s.q_mutables_ q_node_i).postponed
          (Pair_termination E q_node_i delta unvisited s).postponed false,
        Event.TerminationPrune q_node_i r_node_i] := by
  simp [Pair_, PairBody, h]

/-- The parameter of the witness of C5: the termination test prunes. -/
theorem Pair_termination_prune_witness :
    (Pair_termination (toyEngine { toyExplore with termination := false }
        toyTree3 toyTree3 false) 0 7 0 (toyState toyExplore)).explore = false ∧
    ((Pair_ (toyEngine { toyExplore with termination := false } toyTree3 toyTree3 false)
        (0 + 1) 0 0 7 0 (toyState toyExplore)).returned = true ∧
    ((Pair_ (toyEngine { toyExplore with termination := false } toyTree3 toyTree3 false)
        (0 + 1) 0 0 7 0 (toyState toyExplore)).state.q_mutables_ 0).summary_result =
      Toy.QSummaryResult_ApplyDelta
        (toyEngine { toyExplore with termination := false } toyTree3 toyTree3 false).param_
        7 ((toyState toyExplore).q_mutables_ 0).summary_result ∧
    (Pair_ (toyEngine { toyExplore with termination := false } toyTree3 toyTree3 false)
        (0 + 1) 0 0 7 0 (toyState toyExplore)).state.log =
      (toyState toyExplore).log ++ [Event.Checking 0 0 7 0,
        Event.ConsiderQueryTermination 0 ((toyState toyExplore).q_mutables_ 0).postponed
          (Pair_termination (toyEngine { toyExplore with termination := false }
            toyTree3 toyTree3 false) 0 7 0 (toyState toyExplore)).postponed false,
        Event.TerminationPrune 0 0]) :=
  ⟨rfl, Pair_termination_prune _ 0 0 0 7 0 _ rfl⟩

/-- C7, as stated, fails: with a query node and a reference node that are both
internal and hold four points each, the query node is not larger than the
reference node and the reference node is not a leaf, yet `Pair_` splits the
query node. -/
theorem Pair_equal_counts_splits_query :
    (Pair_ (toyEngine { toyExplore with intrinsic := false } toyTree3 toyTree3 false)
        1 0 0 7 0 (toyState toyExplore)).state.log =
      [Event.Checking 0 0 7 0, Event.ConsiderQueryTermination 0 0 0 true,
        Event.ConsiderPairExtrinsic 0 0 0 0 true, Event.UndoDelta 7,
        Event.SplittingQ 0 0,
        Event.ConsiderPairIntrinsic 1 0 0 0 false 1200,
        Event.ConsiderPairIntrinsic 2 0 0 0 false 1220] ∧
    ¬ ((toyTree3 0).is_leaf = true ∨
        ((toyTree3 0).is_leaf = false ∧ (toyTree3 0).count < (toyTree3 0).count)) :=
  ⟨rfl, by decide⟩

/-- C7, amended: after the commit (`UndoDelta`), `Pair_` enters the base case
exactly when both nodes are leaves; otherwise it splits the query node exactly
when the reference node is a leaf, or the query node is not a leaf and holds at
least as many points as the reference node; in every remaining case it splits
the reference node. -/
theorem Pair_branch_choice (E : Engine G) (fuel q_node_i r_node_i : Nat)
    (delta : G.Delta) (unvisited : G.QSummaryResult) (s : State G)
    (ht : (Pair_termination E q_node_i delta unvisited s).explore = true)
    (hx : (Pair_extrinsic E q_node_i r_node_i delta unvisited s).explore = true) :
    ∃ rest, (Pair_ E (fuel + 1) q_node_i r_node_i delta unvisited s).state.log =
      s.log ++ [Event.Checking q_node_i r_node_i delta unvisited,
        Event.ConsiderQueryTermination q_node_i (s.q_mutables_ q_node_i).postponed
          (Pair_termination E q_node_i delta unvisited s).postponed true,
        Event.ConsiderPairExtrinsic q_node_i r_node_i
          (Pair_termination E q_node_i delta unvisited s).postponed
          (Pair_extrinsic E q_node_i r_node_i delta unvisited s).postponed true,
        Event.UndoDelta delta,
        if (E.q_nodes_ q_node_i).is_leaf = true ∧ (E.r_nodes_ r_node_i).is_leaf = true then
          Event.BaseCase q_node_i r_node_i
        else if (E.r_nodes_ r_node_i).is_leaf = true ∨
            ((E.r_nodes_ r_node_i).count ≤ (E.q_nodes_ q_node_i).count ∧
              (E.q_nodes_ q_node_i).is_leaf = false) then
          Event.SplittingQ q_node_i r_node_i
        else Event.SplittingR q_node_i r_node_i] ++ rest :=
  Pair_committed_branch E fuel q_node_i r_node_i delta unvisited s ht hx

/-- Witness of C7 (amended): a three point query node against a four point
reference node, both internal, so the reference node is split. -/
theorem Pair_branch_choice_witness :
    (Pair_termination (toyEngine { toyExplore with intrinsic := false }
        (toyNodes [toySplit 0 3 1 2, toyLeaf 0 1, toyLeaf 1 2]) toyTree3 false)
        0 7 0 (toyState toyExplore)).explore = true ∧
    (Pair_extrinsic (toyEngine { toyExplore with intrinsic := false }
        (toyNodes [toySplit 0 3 1 2, toyLeaf 0 1, toyLeaf 1 2]) toyTree3 false)
        0 0 7 0 (toyState toyExplore)).explore = true ∧
    ∃ rest, (Pair_ (toyEngine { toyExplore with intrinsic := false }
        (toyNodes [toySplit 0 3 1 2, toyLeaf 0 1, toyLeaf 1 2]) toyTree3 false)
        (0 + 1) 0 0 7 0 (toyState toyExplore)).state.log =
      (toyState toyExplore).log ++ [Event.Checking 0 0 7 0,
        Event.ConsiderQueryTermination 0 0 0 true,
        Event.ConsiderPairExtrinsic 0 0 0 0 true,
        Event.UndoDelta 7, Event.SplittingR 0 0] ++ rest :=
  ⟨rfl, rfl, Pair_branch_choice _ 0 0 0 7 0 _ rfl rfl⟩

/-- C8 fails in the query split: `ConsiderPairIntrinsic` computes the delta
`1200` for the pair (query child 1, reference root) and `1220` for the pair
(query child 2, reference root), but both `Pair_` invocations are entered with
`1400`, the delta of the parent pair. -/
theorem Pair_query_split_passes_parent_delta :
    (Begin_ (toyEngine { toyExplore with prune_leaves := true } toyTree3 (toyTree1 2) false)
        2 0 (toyState toyExplore)).state.log.take 14 =
      [Event.ConsiderPairIntrinsic 0 0 0 0 true 1400,
        Event.Checking 0 0 1400 0,
        Event.ConsiderQueryTermination 0 0 0 true,
        Event.ConsiderPairExtrinsic 0 0 0 0 true,
        Event.UndoDelta 1400,
        Event.SplittingQ 0 0,
        Event.ConsiderPairIntrinsic 1 0 0 0 true 1200,
        Event.Checking 1 0 1400 0,
        Event.ConsiderQueryTermination 1 0 0 false,
        Event.TerminationPrune 1 0,
        Event.ConsiderPairIntrinsic 2 0 0 0 true 1220,
        Event.Checking 2 0 1400 0,
        Event.ConsiderQueryTermination 2 0 0 false,
        Event.TerminationPrune 2 0] := by
  simp [Begin_, PushDownPostprocess_, PushDownChild, PushDownPoint, Pair_, PairBody, SplitQ,
    SplitQChild, Pair_termination, Pair_extrinsic, Pair_mu, Engine.r_root_,
    toyEngine, toyState, DoitState, toyTree3, toyTree1, toyNodes, toyLeaf, toySplit, toyExplore,
    Node.child, Node.end_, State.emit, State.setPostponed, State.setSummary, State.setGlobal,
    State.setResult, Function.update, Outcome.andThen, List.range']

end PairHead


/-! ## The visitor protocol of `BaseCase_` -/

section Visiting

variable {G : GNP}

/-- The calls made for one query point: `StartVisitingQueryPoint`, then, if it
returned true, one `VisitPair` per iteration of the reference loop followed by
`FinishVisitingQueryPoint`. -/
theorem VisitQueryPoint_log (E : Engine G) (r_node_i : Nat)
    (unvisited : G.QSummaryResult) (q_i : Nat) (v : G.PairVisitor) (s : State G) :
    (VisitQueryPoint E r_node_i unvisited q_i v s).2.log =
      s.log ++ Event.StartVisitingQueryPoint q_i r_node_i
          (G.PairVisitor_StartVisitingQueryPoint E.param_ (E.q_points_ q_i) q_i
            (E.r_nodes_ r_node_i) unvisited (s.q_results_ q_i) s.global_result_ v).visit ::
        (if (G.PairVisitor_StartVisitingQueryPoint E.param_ (E.q_points_ q_i) q_i
            (E.r_nodes_ r_node_i) unvisited (s.q_results_ q_i) s.global_result_ v).visit = true
        then
          (List.range' (E.r_nodes_ r_node_i).begin
              (decr E.index_bits (E.r_nodes_ r_node_i).count + 1)).map
            (fun r => Event.VisitPair q_i r) ++ [Event.FinishVisitingQueryPoint q_i r_node_i]
        else []) := by
  unfold VisitQueryPoint
  simp only []
  split
  · simp [VisitLoop_log, List.append_assoc]
  · simp

/-- The log of `BaseCase_` on a query node that holds a single point. -/
theorem BaseCase_single_point_log (E : Engine G) (q_node_i r_node_i : Nat)
    (unvisited : G.QSummaryResult) (s : State G) (hq : (E.q_nodes_ q_node_i).count = 1) :
    (BaseCase_ E q_node_i r_node_i unvisited s).log =
      s.log ++ Event.BaseCase q_node_i r_node_i ::
        Event.ApplyPostponed (E.q_nodes_ q_node_i).begin (s.q_mutables_ q_node_i).postponed ::
        Event.StartVisitingQueryPoint (E.q_nodes_ q_node_i).begin r_node_i
          (G.PairVisitor_StartVisitingQueryPoint E.param_
            (E.q_points_ (E.q_nodes_ q_node_i).begin) (E.q_nodes_ q_node_i).begin
            (E.r_nodes_ r_node_i) unvisited
            (G.QResult_ApplyPostponed E.param_ (s.q_mutables_ q_node_i).postponed
              (E.q_points_ (E.q_nodes_ q_node_i).begin) (E.q_nodes_ q_node_i).begin
              (s.q_results_ (E.q_nodes_ q_node_i).begin))
            s.global_result_ (G.PairVisitor_Init E.param_)).visit ::
        (if (G.PairVisitor_StartVisitingQueryPoint E.param_
            (E.q_points_ (E.q_nodes_ q_node_i).begin) (E.q_nodes_ q_node_i).begin
            (E.r_nodes_ r_node_i) unvisited
            (G.QResult_ApplyPostponed E.param_ (s.q_mutables_ q_node_i).postponed
              (E.q_points_ (E.q_nodes_ q_node_i).begin) (E.q_nodes_ q_node_i).begin
              (s.q_results_ (E.q_nodes_ q_node_i).begin))
            s.global_result_ (G.PairVisitor_Init E.param_)).visit = true
        then
          (List.range' (E.r_nodes_ r_node_i).begin
              (decr E.index_bits (E.r_nodes_ r_node_i).count + 1)).map
            (fun r => Event.VisitPair (E.q_nodes_ q_node_i).begin r) ++
            [Event.FinishVisitingQueryPoint (E.q_nodes_ q_node_i).begin r_node_i]
        else []) := by
  unfold BaseCase_
  simp only [Node.end_sub_begin, hq, List.range'_one, List.foldl_cons, List.foldl_nil,
    State.setPostponed_log, State.setSummary_log]
  unfold BaseCasePoint
  simp only [State.setSummary_log, VisitQueryPoint_log]
  simp [List.append_assoc]

/-- An empty reference leaf is still visited: `BaseCase_` on a one point query
leaf and a reference leaf with `count = 0` calls `VisitPair` for reference
index `0` and goes on until `r_left` has wrapped around, `2 ^ 32` calls in
all. -/
theorem BaseCase_empty_reference_visits :
    (BaseCase_ (toyEngine toyExplore (toyTree1 1) (toyTree1 0) false) 0 0 0
        (toyState toyExplore)).log =
      [Event.BaseCase 0 0, Event.ApplyPostponed 0 0,
        Event.StartVisitingQueryPoint 0 0 true] ++
      ((List.range' 0 (2 ^ 32)).map (fun r => Event.VisitPair 0 r) ++
      [Event.FinishVisitingQueryPoint 0 0]) := by
  have h := BaseCase_single_point_log (toyEngine toyExplore (toyTree1 1) (toyTree1 0) false)
    0 0 0 (toyState toyExplore) rfl
  have hd : decr (toyEngine toyExplore (toyTree1 1) (toyTree1 0) false).index_bits
      ((toyEngine toyExplore (toyTree1 1) (toyTree1 0) false).r_nodes_ 0).count + 1 =
        2 ^ 32 := decr_zero 32
  rw [hd] at h
  exact h

end Visiting

/-! ## `PushDownPostprocess_` and the pruned root pair -/

section PushDown

variable {G : GNP}

theorem PushDownPoint_log (E : Engine G) (q_node_i : Nat) (s : State G) (q_i : Nat) :
    (PushDownPoint E q_node_i s q_i).log =
      s.log ++ [Event.ApplyPostponed q_i (s.q_mutables_ q_node_i).postponed,
        Event.Postprocess q_i, Event.ApplyResult q_i] := by
  simp [PushDownPoint]

theorem PushDownPoint_q_mutables (E : Engine G) (q_node_i : Nat) (s : State G) (q_i : Nat) :
    (PushDownPoint E q_node_i s q_i).q_mutables_ = s.q_mutables_ := by
  simp [PushDownPoint]

/-- A relation between states that holds across every elementary step of
`PushDownPostprocess_` holds between the state it is entered with and the state
it ends in. -/
theorem PushDown_rel (E : Engine G) (R : State G → State G → Prop)
    (hrefl : ∀ a, R a a) (htrans : ∀ a b c, R a b → R b c → R a c)
    (hemit : ∀ a q, R a (a.emit (.PushDown q)))
    (hpoint : ∀ a q q_i, R a (PushDownPoint E q a q_i))
    (hpost : ∀ a i x, R a (a.setPostponed i x))
    (fuel q_node_i : Nat) (s : State G) :
    R s (PushDownPostprocess_ E fuel q_node_i s).state := by
  induction fuel generalizing q_node_i s with
  | zero => simpa [PushDownPostprocess_] using hrefl s
  | succ fuel ih =>
    rw [PushDownPostprocess_]
    split
    · refine htrans _ _ _ (hemit s q_node_i) ?_
      simp only [Outcome.state_done]
      exact foldl_rel R hrefl htrans (fun a q_i => hpoint a q_node_i q_i) _ _
    · refine htrans _ _ _ (hemit s q_node_i) ?_
      refine Outcome.andThen_rel R htrans ?_ ?_
      · exact htrans _ _ _ (hpost _ _ _) (ih _ _)
      · intro s1
        exact htrans _ _ _ (hpost _ _ _) (ih _ _)

/-- The log of a run of `PushDownPostprocess_` is the log it started from
followed by calls of the push-down only. -/
theorem PushDown_log_calls (E : Engine G) (fuel q_node_i : Nat) (s : State G) :
    LogAdds Event.isPushDownCall s (PushDownPostprocess_ E fuel q_node_i s).state := by
  refine PushDown_rel E (LogAdds Event.isPushDownCall) LogAdds.refl
    (fun _ _ _ => LogAdds.trans) ?_ ?_ ?_ fuel q_node_i s
  · intro a q
    exact LogAdds.emit rfl
  · intro a q q_i
    refine ⟨_, PushDownPoint_log E q a q_i, ?_⟩
    intro e he
    simp at he
    rcases he with he | he | he <;> subst he <;> rfl
  · intro a i x
    exact ⟨[], by simp, by simp⟩

/-- When `ApplyPostponed` and `Postprocess` leave a result as it is,
`PushDownPostprocess_` leaves all results as they are. -/
theorem PushDown_q_results_of_identity (E : Engine G)
    (hap : ∀ post pt i res, G.QResult_ApplyPostponed E.param_ post pt i res = res)
    (hpp : ∀ pt i rn res, G.QResult_Postprocess E.param_ pt i rn res = res)
    (fuel q_node_i : Nat) (s : State G) :
    (PushDownPostprocess_ E fuel q_node_i s).state.q_results_ = s.q_results_ := by
  refine PushDown_rel E (fun a b => b.q_results_ = a.q_results_) (fun _ => rfl)
    (fun _ _ _ h1 h2 => h2.trans h1) ?_ ?_ ?_ fuel q_node_i s
  · intro a q; rfl
  · intro a q q_i
    simp [PushDownPoint, hap, hpp]
  · intro a i x; rfl

/-- When `ApplyResult` leaves the global result as it is,
`PushDownPostprocess_` leaves it as it is. -/
theorem PushDown_global_of_identity (E : Engine G)
    (har : ∀ pt i res g, G.GlobalResult_ApplyResult E.param_ pt i res g = g)
    (fuel q_node_i : Nat) (s : State G) :
    (PushDownPostprocess_ E fuel q_node_i s).state.global_result_ = s.global_result_ := by
  refine PushDown_rel E (fun a b => b.global_result_ = a.global_result_) (fun _ => rfl)
    (fun _ _ _ h1 h2 => h2.trans h1) ?_ ?_ ?_ fuel q_node_i s
  · intro a q; rfl
  · intro a q q_i
    simp [PushDownPoint, har]
  · intro a i x; rfl

theorem Event.not_pairOrBaseCase_of_pushDownCall {e : Event G}
    (h : Event.isPushDownCall e = true) : Event.isPairOrBaseCase e = false := by
  cases e <;> simp_all [Event.isPushDownCall, Event.isPairOrBaseCase]

/-- What `Begin_` does when the intrinsic test on the root pair answers that no
work is needed: it goes straight to `PushDownPostprocess_`. -/
theorem Begin_of_no_explore (E : Engine G) (fuel q_root_index : Nat) (s : State G)
    (h : (G.Algorithm_ConsiderPairIntrinsic E.param_ (E.q_nodes_ q_root_index) E.r_root_
      G.Delta_default s.global_result_ (s.q_mutables_ q_root_index).postponed).explore =
        false) :
    Begin_ E fuel q_root_index s =
      PushDownPostprocess_ E fuel q_root_index
        (((s.setGlobal (G.Algorithm_ConsiderPairIntrinsic E.param_ (E.q_nodes_ q_root_index)
            E.r_root_ G.Delta_default s.global_result_
            (s.q_mutables_ q_root_index).postponed).global_result).setPostponed q_root_index
          (G.Algorithm_ConsiderPairIntrinsic E.param_ (E.q_nodes_ q_root_index)
            E.r_root_ G.Delta_default s.global_result_
            (s.q_mutables_ q_root_index).postponed).postponed).emit
          (.ConsiderPairIntrinsic q_root_index 0 (s.q_mutables_ q_root_index).postponed
            (G.Algorithm_ConsiderPairIntrinsic E.param_ (E.q_nodes_ q_root_index)
              E.r_root_ G.Delta_default s.global_result_
              (s.q_mutables_ q_root_index).postponed).postponed false
            (G.Algorithm_ConsiderPairIntrinsic E.param_ (E.q_nodes_ q_root_index)
              E.r_root_ G.Delta_default s.global_result_
              (s.q_mutables_ q_root_index).postponed).delta)) := by
  simp [Begin_, h]

/-- The calls of `Begin_` when the intrinsic test on the root pair answers that
no work is needed: that test, then calls of the push-down only. -/
theorem Begin_pruned_log (E : Engine G) (fuel q_root_index : Nat) (s : State G)
    (h : (G.Algorithm_ConsiderPairIntrinsic E.param_ (E.q_nodes_ q_root_index) E.r_root_
      G.Delta_default s.global_result_ (s.q_mutables_ q_root_index).postponed).explore =
        false) :
    ∃ rest, (Begin_ E fuel q_root_index s).state.log =
      s.log ++ Event.ConsiderPairIntrinsic q_root_index 0
        (s.q_mutables_ q_root_index).postponed
        (G.Algorithm_ConsiderPairIntrinsic E.param_ (E.q_nodes_ q_root_index)
          E.r_root_ G.Delta_default s.global_result_
          (s.q_mutables_ q_root_index).postponed).postponed false
        (G.Algorithm_ConsiderPairIntrinsic E.param_ (E.q_nodes_ q_root_index)
          E.r_root_ G.Delta_default s.global_result_
          (s.q_mutables_ q_root_index).postponed).delta :: rest ∧
      ∀ e ∈ rest, Event.isPushDownCall e = true := by
  rw [Begin_of_no_explore E fuel q_root_index s h]
  obtain ⟨rest, h1, h2⟩ := PushDown_log_calls E fuel q_root_index
    (((s.setGlobal (G.Algorithm_ConsiderPairIntrinsic E.param_ (E.q_nodes_ q_root_index)
        E.r_root_ G.Delta_default s.global_result_
        (s.q_mutables_ q_root_index).postponed).global_result).setPostponed q_root_index
      (G.Algorithm_ConsiderPairIntrinsic E.param_ (E.q_nodes_ q_root_index)
        E.r_root_ G.Delta_default s.global_result_
        (s.q_mutables_ q_root_index).postponed).postponed).emit
      (.ConsiderPairIntrinsic q_root_index 0 (s.q_mutables_ q_root_index).postponed
        (G.Algorithm_ConsiderPairIntrinsic E.param_ (E.q_nodes_ q_root_index)
          E.r_root_ G.Delta_default s.global_result_
          (s.q_mutables_ q_root_index).postponed).postponed false
        (G.Algorithm_ConsiderPairIntrinsic E.param_ (E.q_nodes_ q_root_index)
          E.r_root_ G.Delta_default s.global_result_
          (s.q_mutables_ q_root_index).postponed).delta))
  refine ⟨rest, ?_, h2⟩
  rw [h1]
  simp

/-- C9, as stated, fails: the intrinsic test on the root pair answers that no
work is needed, `Begin_` returns, and the result of query point `0` is `3`
although it was initialised to `0` (the postponed amount `2` recorded by the
test and `Postprocess` have been applied to it by the push-down). -/
theorem Begin_pruned_root_changes_result :
    (Toy.Algorithm_ConsiderPairIntrinsic
        { toyExplore with intrinsic := false, intrinsic_postponed := 2, postprocess := 1 }
        (toyTree1 1 0) (toyTree1 1 0) Toy.Delta_default
        (toyState toyExplore).global_result_
        ((toyState toyExplore).q_mutables_ 0).postponed).explore = false ∧
    (Begin_ (toyEngine
        { toyExplore with intrinsic := false, intrinsic_postponed := 2, postprocess := 1 }
        (toyTree1 1) (toyTree1 1) false) 1 0 (toyState toyExplore)).returned = true ∧
    (Begin_ (toyEngine
        { toyExplore with intrinsic := false, intrinsic_postponed := 2, postprocess := 1 }
        (toyTree1 1) (toyTree1 1) false) 1 0 (toyState toyExplore)).state.q_results_ 0 = 3 ∧
    (toyState toyExplore).q_results_ 0 = 0 :=
  ⟨rfl, rfl, rfl, rfl⟩

/-- C9, amended: when `ConsiderPairIntrinsic` on the root pair reports that no
work is needed, `Begin_` enters neither `Pair_` nor `BaseCase_` and continues
with `PushDownPostprocess_`, which still calls `ApplyPostponed` and
`Postprocess` on the results; the results are the initialised ones whenever
these two operations leave a result unchanged. -/
theorem Begin_pruned_root (E : Engine G) (fuel q_root_index : Nat) (s : State G)
    (h : (G.Algorithm_ConsiderPairIntrinsic E.param_ (E.q_nodes_ q_root_index) E.r_root_
      G.Delta_default s.global_result_ (s.q_mutables_ q_root_index).postponed).explore =
        false) :
    (∃ rest, (Begin_ E fuel q_root_index s).state.log = s.log ++ rest ∧
      ∀ e ∈ rest, Event.isPairOrBaseCase e = false) ∧
    ((∀ post pt i res, G.QResult_ApplyPostponed E.param_ post pt i res = res) →
      (∀ pt i rn res, G.QResult_Postprocess E.param_ pt i rn res = res) →
      (Begin_ E fuel q_root_index s).state.q_results_ = s.q_results_) := by
  refine ⟨?_, ?_⟩
  · obtain ⟨rest, h1, h2⟩ := Begin_pruned_log E fuel q_root_index s h
    refine ⟨_, h1, ?_⟩
    intro e he
    rcases List.mem_cons.1 he with he | he
    · subst he; rfl
    · exact Event.not_pairOrBaseCase_of_pushDownCall (h2 e he)
  · intro hap hpp
    rw [Begin_of_no_explore E fuel q_root_index s h,
      PushDown_q_results_of_identity E hap hpp]
    simp

/-- Witness of C9 (amended): a pruned root pair over the four point tree, with
a policy whose `ApplyPostponed` and `Postprocess` add zero. -/
theorem Begin_pruned_root_witness :
    (Toy.Algorithm_ConsiderPairIntrinsic { toyExplore with intrinsic := false, use_postponed := false }
        (toyTree3 0) (toyTree3 0) Toy.Delta_default (toyState toyExplore).global_result_
        ((toyState toyExplore).q_mutables_ 0).postponed).explore = false ∧
    (∃ rest, (Begin_ (toyEngine { toyExplore with intrinsic := false, use_postponed := false } toyTree3 toyTree3
        false) 2 0 (toyState toyExplore)).state.log = (toyState toyExplore).log ++ rest ∧
      ∀ e ∈ rest, Event.isPairOrBaseCase e = false) ∧
    (Begin_ (toyEngine { toyExplore with intrinsic := false, use_postponed := false } toyTree3 toyTree3
      false) 2 0 (toyState toyExplore)).state.q_results_ = (toyState toyExplore).q_results_ :=
  ⟨rfl,
    (Begin_pruned_root (toyEngine { toyExplore with intrinsic := false, use_postponed := false } toyTree3 toyTree3
      false) 2 0 (toyState toyExplore) rfl).1,
    (Begin_pruned_root (toyEngine { toyExplore with intrinsic := false, use_postponed := false } toyTree3 toyTree3
      false) 2 0 (toyState toyExplore) rfl).2
      (fun _ _ _ _ => rfl) (fun _ _ _ _ => rfl)⟩

/-- C10, as stated, fails: `ConsiderPairIntrinsic` never asks for exploration
and never writes the global result, `Doit` returns, and the global result is
`2` although `Init` had set it to `0` (the push-down has called `ApplyResult`
once for each of the two query points). -/
theorem Doit_pruned_changes_global :
    (∀ q r d g post,
      (Toy.Algorithm_ConsiderPairIntrinsic
        { toyExplore with intrinsic := false, apply_result := 1 } q r d g post).explore =
          false ∧
      (Toy.Algorithm_ConsiderPairIntrinsic
        { toyExplore with intrinsic := false, apply_result := 1 } q r d g
          post).global_result = g) ∧
    (Doit Toy 32 1 { toyExplore with intrinsic := false, apply_result := 1 } 0
      (fun _ => ()) (toyTree1 2) (fun _ => ()) (toyTree1 2) (fun _ => 0)).returned = true ∧
    (Doit Toy 32 1 { toyExplore with intrinsic := false, apply_result := 1 } 0
      (fun _ => ()) (toyTree1 2) (fun _ => ()) (toyTree1 2)
      (fun _ => 0)).state.global_result_ = 2 ∧
    Toy.GlobalResult_Init { toyExplore with intrinsic := false, apply_result := 1 } = 0 :=
  ⟨fun _ _ _ _ _ => ⟨rfl, rfl⟩, rfl, rfl, rfl⟩

/-- C10, amended: for a policy whose `ConsiderPairIntrinsic` always returns
no-explore and does not write the global result, the calls made by `Doit` are
the intrinsic test on the root pair followed by calls of
`PushDownPostprocess_` only, so the only operation applied to the global
result is `ApplyResult` (once per query point reached by the push-down); the
global result equals its value right after `Init` whenever `ApplyResult`
leaves it unchanged. -/
theorem Doit_pruned_global (index_bits fuel : Nat) (param_in : G.Param)
    (q_root_index : Nat) (q_points : Nat → G.QPoint) (q_nodes : Nat → Node G.QInfo)
    (r_points : Nat → G.RPoint) (r_nodes : Nat → Node G.RInfo)
    (q_results : Nat → G.QResult)
    (hcpi : ∀ q r d g post,
      (G.Algorithm_ConsiderPairIntrinsic param_in q r d g post).explore = false ∧
      (G.Algorithm_ConsiderPairIntrinsic param_in q r d g post).global_result = g) :
    (∃ first rest, (Doit G index_bits fuel param_in q_root_index q_points q_nodes r_points
        r_nodes q_results).state.log =
        Event.ConsiderPairIntrinsic q_root_index 0 (G.QPostponed_Init param_in) first false
          (G.Algorithm_ConsiderPairIntrinsic param_in (q_nodes q_root_index) (r_nodes 0)
            G.Delta_default (G.GlobalResult_Init param_in)
            (G.QPostponed_Init param_in)).delta :: rest ∧
      ∀ e ∈ rest, Event.isPushDownCall e = true) ∧
    ((∀ pt i res g, G.GlobalResult_ApplyResult param_in pt i res g = g) →
      (Doit G index_bits fuel param_in q_root_index q_points q_nodes r_points
        r_nodes q_results).state.global_result_ = G.GlobalResult_Init param_in) := by
  have h := (hcpi (q_nodes q_root_index) (r_nodes 0) G.Delta_default
    (G.GlobalResult_Init param_in) (G.QPostponed_Init param_in))
  refine ⟨?_, ?_⟩
  · obtain ⟨rest, h1, h2⟩ := Begin_pruned_log
      (DoitEngine G index_bits param_in q_points q_nodes r_points r_nodes) fuel q_root_index
      (DoitState G param_in q_results) h.1
    exact ⟨_, rest, h1, h2⟩
  · intro har
    unfold Doit
    rw [Begin_of_no_explore _ _ _ _ h.1, PushDown_global_of_identity _ har]
    simp only [State.emit_global, State.setPostponed_global, State.setGlobal_global]
    exact h.2

/-- Witness of C10 (amended): the four point tree, a policy that never
explores and whose `ApplyResult` adds zero. -/
theorem Doit_pruned_global_witness :
    (∀ q r d g post,
      (Toy.Algorithm_ConsiderPairIntrinsic { toyExplore with intrinsic := false, use_postponed := false }
        q r d g post).explore = false ∧
      (Toy.Algorithm_ConsiderPairIntrinsic { toyExplore with intrinsic := false, use_postponed := false }
        q r d g post).global_result = g) ∧
    (Doit Toy 32 2 { toyExplore with intrinsic := false, use_postponed := false } 0 (fun _ => ()) toyTree3
      (fun _ => ()) toyTree3 (fun _ => 0)).state.global_result_ =
      Toy.GlobalResult_Init { toyExplore with intrinsic := false, use_postponed := false } :=
  ⟨fun _ _ _ _ _ => ⟨rfl, rfl⟩,
    (Doit_pruned_global (G := Toy) 32 2 { toyExplore with intrinsic := false, use_postponed := false } 0
      (fun _ => ()) toyTree3 (fun _ => ()) toyTree3 (fun _ => 0)
      (fun _ _ _ _ _ => ⟨rfl, rfl⟩)).2 (fun _ _ _ _ => rfl)⟩

end PushDown

/-! ## The reference split -/

section ReferenceSplit

variable {G : GNP}

theorem Pair_eq_BaseCase (E : Engine G) (fuel q_node_i r_node_i : Nat) (delta : G.Delta)
    (unvisited : G.QSummaryResult) (s : State G)
    (ht : (Pair_termination E q_node_i delta unvisited s).explore = true)
    (hx : (Pair_extrinsic E q_node_i r_node_i delta unvisited s).explore = true)
    (hl : ((E.q_nodes_ q_node_i).is_leaf && (E.r_nodes_ r_node_i).is_leaf) = true) :
    Pair_ E (fuel + 1) q_node_i r_node_i delta unvisited s =
      .done (BaseCase_ E q_node_i r_node_i unvisited
        (Pair_committed E q_node_i r_node_i delta unvisited s)) := by
  rw [Pair_]
  unfold PairBody Pair_committed
  simp only [ht, hx, hl, Bool.not_true, Bool.false_eq_true, if_false, if_true,
    State.emit_q_mutables, State.setPostponed_postponed_same, State.emit_global,
    State.setPostponed_global]

theorem Pair_eq_SplitQ (E : Engine G) (fuel q_node_i r_node_i : Nat) (delta : G.Delta)
    (unvisited : G.QSummaryResult) (s : State G)
    (h : Pair_splitsQ E q_node_i r_node_i delta unvisited s) :
    Pair_ E (fuel + 1) q_node_i r_node_i delta unvisited s =
      SplitQ E (Pair_ E fuel) q_node_i r_node_i delta unvisited
        (Pair_committed E q_node_i r_node_i delta unvisited s) := by
  obtain ⟨ht, hx, hl, hq⟩ := h
  rw [Pair_]
  unfold PairBody Pair_committed
  simp only [ht, hx, hl, hq, Bool.not_true, Bool.false_eq_true, if_false, if_true,
    State.emit_q_mutables, State.setPostponed_postponed_same, State.emit_global,
    State.setPostponed_global]

theorem Pair_eq_SplitR (E : Engine G) (fuel q_node_i r_node_i : Nat) (delta : G.Delta)
    (unvisited : G.QSummaryResult) (s : State G)
    (h : Pair_splitsR E q_node_i r_node_i delta unvisited s) :
    Pair_ E (fuel + 1) q_node_i r_node_i delta unvisited s =
      SplitR E (Pair_ E fuel) q_node_i r_node_i unvisited
        (Pair_committed E q_node_i r_node_i delta unvisited s) := by
  obtain ⟨ht, hx, hl, hq⟩ := h
  rw [Pair_]
  unfold PairBody Pair_committed
  simp only [ht, hx, hl, hq, Bool.not_true, Bool.false_eq_true, if_false, if_true,
    State.emit_q_mutables, State.setPostponed_postponed_same, State.emit_global,
    State.setPostponed_global]


theorem SplitR_eq (E : Engine G) (pair : PairFn G) (q_node_i r_node_i : Nat)
    (unvisited : G.QSummaryResult) (s : State G) :
    SplitR E pair q_node_i r_node_i unvisited s =
      (if (SplitR_intrinsic1 E q_node_i r_node_i s).explore = false then
        if (SplitR_intrinsic2 E q_node_i r_node_i s).explore = true then
          pair q_node_i ((E.r_nodes_ r_node_i).child 1)
            (SplitR_intrinsic2 E q_node_i r_node_i s).delta unvisited
            (SplitR_checked E q_node_i r_node_i s)
        else .done (SplitR_checked E q_node_i r_node_i s)
      else if (SplitR_intrinsic2 E q_node_i r_node_i s).explore = false then
        pair q_node_i ((E.r_nodes_ r_node_i).child 0)
          (SplitR_intrinsic1 E q_node_i r_node_i s).delta unvisited
          (SplitR_checked E q_node_i r_node_i s)
      else if G.Score_gt
          (G.Algorithm_Heuristic E.param_ (E.q_nodes_ q_node_i)
            (E.r_nodes_ ((E.r_nodes_ r_node_i).child 0))
            (SplitR_intrinsic1 E q_node_i r_node_i s).delta)
          (G.Algorithm_Heuristic E.param_ (E.q_nodes_ q_node_i)
            (E.r_nodes_ ((E.r_nodes_ r_node_i).child 1))
            (SplitR_intrinsic2 E q_node_i r_node_i s).delta) = false then
        (pair q_node_i ((E.r_nodes_ r_node_i).child 0)
          (SplitR_intrinsic1 E q_node_i r_node_i s).delta
          (G.QSummaryResult_ApplyDelta E.param_ (SplitR_intrinsic2 E q_node_i r_node_i s).delta
            unvisited)
          (SplitR_checked E q_node_i r_node_i s)).andThen
          (pair q_node_i ((E.r_nodes_ r_node_i).child 1)
            (SplitR_intrinsic2 E q_node_i r_node_i s).delta unvisited)
      else
        (pair q_node_i ((E.r_nodes_ r_node_i).child 1)
          (SplitR_intrinsic2 E q_node_i r_node_i s).delta
          (G.QSummaryResult_ApplyDelta E.param_ (SplitR_intrinsic1 E q_node_i r_node_i s).delta
            unvisited)
          (SplitR_checked E q_node_i r_node_i s)).andThen
          (pair q_node_i ((E.r_nodes_ r_node_i).child 0)
            (SplitR_intrinsic1 E q_node_i r_node_i s).delta unvisited)).andThen
      (SplitR_release E r_node_i) := by
  unfold SplitR SplitR_release SplitR_checked SplitR_intrinsic2 SplitR_intrinsic1
  cases h1 : (G.Algorithm_ConsiderPairIntrinsic E.param_ (E.q_nodes_ q_node_i)
    (E.r_nodes_ ((E.r_nodes_ r_node_i).child 0)) (G.Delta_Init E.param_) s.global_result_
    (s.q_mutables_ q_node_i).postponed).explore <;>
  cases h2 : (G.Algorithm_ConsiderPairIntrinsic E.param_ (E.q_nodes_ q_node_i)
      (E.r_nodes_ ((E.r_nodes_ r_node_i).child 1)) (G.Delta_Init E.param_)
      (G.Algorithm_ConsiderPairIntrinsic E.param_ (E.q_nodes_ q_node_i)
        (E.r_nodes_ ((E.r_nodes_ r_node_i).child 0)) (G.Delta_Init E.param_) s.global_result_
        (s.q_mutables_ q_node_i).postponed).global_result
      (G.Algorithm_ConsiderPairIntrinsic E.param_ (E.q_nodes_ q_node_i)
        (E.r_nodes_ ((E.r_nodes_ r_node_i).child 0)) (G.Delta_Init E.param_) s.global_result_
        (s.q_mutables_ q_node_i).postponed).postponed).explore <;>
  simp [h1, h2]

/-- C18: when `Pair_` splits the reference node and both children survive
the intrinsic check, the child explored first is entered with its own delta
and with `unvisited` to which the delta of the other child has been applied,
and the child explored second is entered, once the first call has returned,
with its own delta and the original `unvisited`. -/
theorem Pair_reference_split_both (E : Engine G) (fuel q_node_i r_node_i : Nat)
    (delta : G.Delta) (unvisited : G.QSummaryResult) (s : State G)
    (h : Pair_splitsR E q_node_i r_node_i delta unvisited s)
    (h1 : (SplitR_intrinsic1 E q_node_i r_node_i
      (Pair_committed E q_node_i r_node_i delta unvisited s)).explore = true)
    (h2 : (SplitR_intrinsic2 E q_node_i r_node_i
      (Pair_committed E q_node_i r_node_i delta unvisited s)).explore = true) :
    Pair_ E (fuel + 1) q_node_i r_node_i delta unvisited s =
      (if G.Score_gt
          (G.Algorithm_Heuristic E.param_ (E.q_nodes_ q_node_i)
            (E.r_nodes_ ((E.r_nodes_ r_node_i).child 0))
            (SplitR_intrinsic1 E q_node_i r_node_i
              (Pair_committed E q_node_i r_node_i delta unvisited s)).delta)
          (G.Algorithm_Heuristic E.param_ (E.q_nodes_ q_node_i)
            (E.r_nodes_ ((E.r_nodes_ r_node_i).child 1))
            (SplitR_intrinsic2 E q_node_i r_node_i
              (Pair_committed E q_node_i r_node_i delta unvisited s)).delta) = false then
        (Pair_ E fuel q_node_i ((E.r_nodes_ r_node_i).child 0)
          (SplitR_intrinsic1 E q_node_i r_node_i
            (Pair_committed E q_node_i r_node_i delta unvisited s)).delta
          (G.QSummaryResult_ApplyDelta E.param_
            (SplitR_intrinsic2 E q_node_i r_node_i
              (Pair_committed E q_node_i r_node_i delta unvisited s)).delta unvisited)
          (SplitR_checked E q_node_i r_node_i
            (Pair_committed E q_node_i r_node_i delta unvisited s))).andThen
          (Pair_ E fuel q_node_i ((E.r_nodes_ r_node_i).child 1)
            (SplitR_intrinsic2 E q_node_i r_node_i
              (Pair_committed E q_node_i r_node_i delta unvisited s)).delta unvisited)
      else
        (Pair_ E fuel q_node_i ((E.r_nodes_ r_node_i).child 1)
          (SplitR_intrinsic2 E q_node_i r_node_i
            (Pair_committed E q_node_i r_node_i delta unvisited s)).delta
          (G.QSummaryResult_ApplyDelta E.param_
            (SplitR_intrinsic1 E q_node_i r_node_i
              (Pair_committed E q_node_i r_node_i delta unvisited s)).delta unvisited)
          (SplitR_checked E q_node_i r_node_i
            (Pair_committed E q_node_i r_node_i delta unvisited s))).andThen
          (Pair_ E fuel q_node_i ((E.r_nodes_ r_node_i).child 0)
            (SplitR_intrinsic1 E q_node_i r_node_i
              (Pair_committed E q_node_i r_node_i delta unvisited s)).delta unvisited)).andThen
      (SplitR_release E r_node_i) := by
  rw [Pair_eq_SplitR E fuel q_node_i r_node_i delta unvisited s h, SplitR_eq]
  simp [h1, h2]

/-- Witness of C18: a two point query leaf against the four point reference
tree; both reference children survive and the first one is explored first. -/
theorem Pair_reference_split_both_witness :
    Pair_splitsR (toyEngine toyExplore (toyTree1 2) toyTree3 false) 0 0 7 0
      (toyState toyExplore) ∧
    Pair_ (toyEngine toyExplore (toyTree1 2) toyTree3 false) (1 + 1) 0 0 7 0
        (toyState toyExplore) =
      ((Pair_ (toyEngine toyExplore (toyTree1 2) toyTree3 false) 1 0 1 1200
          (Toy.QSummaryResult_ApplyDelta toyExplore 1202 0)
          (SplitR_checked (toyEngine toyExplore (toyTree1 2) toyTree3 false) 0 0
            (Pair_committed (toyEngine toyExplore (toyTree1 2) toyTree3 false) 0 0 7 0
              (toyState toyExplore)))).andThen
        (Pair_ (toyEngine toyExplore (toyTree1 2) toyTree3 false) 1 0 2 1202 0)).andThen
      (SplitR_release (toyEngine toyExplore (toyTree1 2) toyTree3 false) 0) :=
  ⟨⟨rfl, rfl, rfl, rfl⟩,
    Pair_reference_split_both (toyEngine toyExplore (toyTree1 2) toyTree3 false) 1 0 0 7 0
      (toyState toyExplore) ⟨rfl, rfl, rfl, rfl⟩ rfl rfl⟩

/-- C19: when `Pair_` splits the reference node, a child whose intrinsic check
answered no-explore is not entered at all, and a child whose check answered
explore is entered by exactly one `Pair_` call; when exactly one child
survives, that call gets the delta of that child and the unchanged
`unvisited`. -/
theorem Pair_reference_split_survivors (E : Engine G) (fuel q_node_i r_node_i : Nat)
    (delta : G.Delta) (unvisited : G.QSummaryResult) (s : State G)
    (h : Pair_splitsR E q_node_i r_node_i delta unvisited s) :
    ((SplitR_intrinsic1 E q_node_i r_node_i
        (Pair_committed E q_node_i r_node_i delta unvisited s)).explore = false →
      (SplitR_intrinsic2 E q_node_i r_node_i
        (Pair_committed E q_node_i r_node_i delta unvisited s)).explore = false →
      Pair_ E (fuel + 1) q_node_i r_node_i delta unvisited s =
        SplitR_release E r_node_i (SplitR_checked E q_node_i r_node_i
          (Pair_committed E q_node_i r_node_i delta unvisited s))) ∧
    ((SplitR_intrinsic1 E q_node_i r_node_i
        (Pair_committed E q_node_i r_node_i delta unvisited s)).explore = false →
      (SplitR_intrinsic2 E q_node_i r_node_i
        (Pair_committed E q_node_i r_node_i delta unvisited s)).explore = true →
      Pair_ E (fuel + 1) q_node_i r_node_i delta unvisited s =
        (Pair_ E fuel q_node_i ((E.r_nodes_ r_node_i).child 1)
          (SplitR_intrinsic2 E q_node_i r_node_i
            (Pair_committed E q_node_i r_node_i delta unvisited s)).delta unvisited
          (SplitR_checked E q_node_i r_node_i
            (Pair_committed E q_node_i r_node_i delta unvisited s))).andThen
        (SplitR_release E r_node_i)) ∧
    ((SplitR_intrinsic1 E q_node_i r_node_i
        (Pair_committed E q_node_i r_node_i delta unvisited s)).explore = true →
      (SplitR_intrinsic2 E q_node_i r_node_i
        (Pair_committed E q_node_i r_node_i delta unvisited s)).explore = false →
      Pair_ E (fuel + 1) q_node_i r_node_i delta unvisited s =
        (Pair_ E fuel q_node_i ((E.r_nodes_ r_node_i).child 0)
          (SplitR_intrinsic1 E q_node_i r_node_i
            (Pair_committed E q_node_i r_node_i delta unvisited s)).delta unvisited
          (SplitR_checked E q_node_i r_node_i
            (Pair_committed E q_node_i r_node_i delta unvisited s))).andThen
        (SplitR_release E r_node_i)) ∧
    ((SplitR_intrinsic1 E q_node_i r_node_i
        (Pair_committed E q_node_i r_node_i delta unvisited s)).explore = true →
      (SplitR_intrinsic2 E q_node_i r_node_i
        (Pair_committed E q_node_i r_node_i delta unvisited s)).explore = true →
      ∃ u1 u2,
        Pair_ E (fuel + 1) q_node_i r_node_i delta unvisited s =
          ((Pair_ E fuel q_node_i ((E.r_nodes_ r_node_i).child 0)
            (SplitR_intrinsic1 E q_node_i r_node_i
              (Pair_committed E q_node_i r_node_i delta unvisited s)).delta u1
            (SplitR_checked E q_node_i r_node_i
              (Pair_committed E q_node_i r_node_i delta unvisited s))).andThen
            (Pair_ E fuel q_node_i ((E.r_nodes_ r_node_i).child 1)
              (SplitR_intrinsic2 E q_node_i r_node_i
                (Pair_committed E q_node_i r_node_i delta unvisited s)).delta u2)).andThen
          (SplitR_release E r_node_i) ∨
        Pair_ E (fuel + 1) q_node_i r_node_i delta unvisited s =
          ((Pair_ E fuel q_node_i ((E.r_nodes_ r_node_i).child 1)
            (SplitR_intrinsic2 E q_node_i r_node_i
              (Pair_committed E q_node_i r_node_i delta unvisited s)).delta u2
            (SplitR_checked E q_node_i r_node_i
              (Pair_committed E q_node_i r_node_i delta unvisited s))).andThen
            (Pair_ E fuel q_node_i ((E.r_nodes_ r_node_i).child 0)
              (SplitR_intrinsic1 E q_node_i r_node_i
                (Pair_committed E q_node_i r_node_i delta unvisited s)).delta u1)).andThen
          (SplitR_release E r_node_i)) := by
  rw [Pair_eq_SplitR E fuel q_node_i r_node_i delta unvisited s h, SplitR_eq]
  refine ⟨?_, ?_, ?_, ?_⟩
  · intro h1 h2
    simp [h1, h2]
  · intro h1 h2
    simp [h1, h2]
  · intro h1 h2
    simp [h1, h2]
  · intro h1 h2
    cases hg : G.Score_gt
      (G.Algorithm_Heuristic E.param_ (E.q_nodes_ q_node_i)
        (E.r_nodes_ ((E.r_nodes_ r_node_i).child 0))
        (SplitR_intrinsic1 E q_node_i r_node_i
          (Pair_committed E q_node_i r_node_i delta unvisited s)).delta)
      (G.Algorithm_Heuristic E.param_ (E.q_nodes_ q_node_i)
        (E.r_nodes_ ((E.r_nodes_ r_node_i).child 1))
        (SplitR_intrinsic2 E q_node_i r_node_i
          (Pair_committed E q_node_i r_node_i delta unvisited s)).delta)
    · exact ⟨G.QSummaryResult_ApplyDelta E.param_
        (SplitR_intrinsic2 E q_node_i r_node_i
          (Pair_committed E q_node_i r_node_i delta unvisited s)).delta unvisited,
        unvisited, Or.inl (by simp [h1, h2, hg])⟩
    · exact ⟨unvisited, G.QSummaryResult_ApplyDelta E.param_
        (SplitR_intrinsic1 E q_node_i r_node_i
          (Pair_committed E q_node_i r_node_i delta unvisited s)).delta unvisited,
        Or.inr (by simp [h1, h2, hg])⟩

/-- Witness of C19: with a policy whose intrinsic check never asks for
exploration, the reference split enters no `Pair_` at all. -/
theorem Pair_reference_split_survivors_witness :
    Pair_splitsR (toyEngine { toyExplore with intrinsic := false } (toyTree1 2) toyTree3 false)
      0 0 7 0 (toyState toyExplore) ∧
    (SplitR_intrinsic1 (toyEngine { toyExplore with intrinsic := false } (toyTree1 2) toyTree3
      false) 0 0
      (Pair_committed (toyEngine { toyExplore with intrinsic := false } (toyTree1 2) toyTree3
        false) 0 0 7 0 (toyState toyExplore))).explore = false ∧
    (SplitR_intrinsic2 (toyEngine { toyExplore with intrinsic := false } (toyTree1 2) toyTree3
      false) 0 0
      (Pair_committed (toyEngine { toyExplore with intrinsic := false } (toyTree1 2) toyTree3
        false) 0 0 7 0 (toyState toyExplore))).explore = false ∧
    Pair_ (toyEngine { toyExplore with intrinsic := false } (toyTree1 2) toyTree3 false)
        (0 + 1) 0 0 7 0 (toyState toyExplore) =
      SplitR_release (toyEngine { toyExplore with intrinsic := false } (toyTree1 2) toyTree3
        false) 0
        (SplitR_checked (toyEngine { toyExplore with intrinsic := false } (toyTree1 2) toyTree3
          false) 0 0
          (Pair_committed (toyEngine { toyExplore with intrinsic := false } (toyTree1 2)
            toyTree3 false) 0 0 7 0 (toyState toyExplore))) :=
  ⟨⟨rfl, rfl, rfl, rfl⟩, rfl, rfl,
    (Pair_reference_split_survivors
      (toyEngine { toyExplore with intrinsic := false } (toyTree1 2) toyTree3 false) 0 0 0 7
      0 (toyState toyExplore) ⟨rfl, rfl, rfl, rfl⟩).1 rfl rfl⟩

end ReferenceSplit

/-! ## The order of exploration -/

section ExplorationOrder

variable {G : GNP}

/-- C20: with scores that are linearly ordered, the reference split of
`Pair_` explores the first child first when its score is at most the score of
the second child (ties included) and the second child first when the second
score is strictly smaller; `Heuristic_` of the multi-tree solver orders its two
candidates in the same way, and its output is always a permutation of the two
candidates. -/
theorem Heuristic_smaller_first [LinearOrder G.Score]
    (hgt : ∀ a b : G.Score, G.Score_gt a b = decide (b < a))
    (E : Engine G) (fuel q_node_i r_node_i : Nat)
    (delta : G.Delta) (unvisited : G.QSummaryResult) (s : State G)
    (h : Pair_splitsR E q_node_i r_node_i delta unvisited s)
    (h1 : (SplitR_intrinsic1 E q_node_i r_node_i
      (Pair_committed E q_node_i r_node_i delta unvisited s)).explore = true)
    (h2 : (SplitR_intrinsic2 E q_node_i r_node_i
      (Pair_committed E q_node_i r_node_i delta unvisited s)).explore = true)
    {Tree Dist : Type} [LinearOrder Dist] (MinDistanceSq : Tree → Tree → Dist)
    (nd nd1 nd2 : Tree) :
    (G.Algorithm_Heuristic E.param_ (E.q_nodes_ q_node_i)
        (E.r_nodes_ ((E.r_nodes_ r_node_i).child 0))
        (SplitR_intrinsic1 E q_node_i r_node_i
          (Pair_committed E q_node_i r_node_i delta unvisited s)).delta ≤
      G.Algorithm_Heuristic E.param_ (E.q_nodes_ q_node_i)
        (E.r_nodes_ ((E.r_nodes_ r_node_i).child 1))
        (SplitR_intrinsic2 E q_node_i r_node_i
          (Pair_committed E q_node_i r_node_i delta unvisited s)).delta →
      Pair_ E (fuel + 1) q_node_i r_node_i delta unvisited s =
        ((Pair_ E fuel q_node_i ((E.r_nodes_ r_node_i).child 0)
          (SplitR_intrinsic1 E q_node_i r_node_i
            (Pair_committed E q_node_i r_node_i delta unvisited s)).delta
          (G.QSummaryResult_ApplyDelta E.param_
            (SplitR_intrinsic2 E q_node_i r_node_i
              (Pair_committed E q_node_i r_node_i delta unvisited s)).delta unvisited)
          (SplitR_checked E q_node_i r_node_i
            (Pair_committed E q_node_i r_node_i delta unvisited s))).andThen
          (Pair_ E fuel q_node_i ((E.r_nodes_ r_node_i).child 1)
            (SplitR_intrinsic2 E q_node_i r_node_i
              (Pair_committed E q_node_i r_node_i delta unvisited s)).delta unvisited)).andThen
        (SplitR_release E r_node_i)) ∧
    (G.Algorithm_Heuristic E.param_ (E.q_nodes_ q_node_i)
        (E.r_nodes_ ((E.r_nodes_ r_node_i).child 1))
        (SplitR_intrinsic2 E q_node_i r_node_i
          (Pair_committed E q_node_i r_node_i delta unvisited s)).delta <
      G.Algorithm_Heuristic E.param_ (E.q_nodes_ q_node_i)
        (E.r_nodes_ ((E.r_nodes_ r_node_i).child 0))
        (SplitR_intrinsic1 E q_node_i r_node_i
          (Pair_committed E q_node_i r_node_i delta unvisited s)).delta →
      Pair_ E (fuel + 1) q_node_i r_node_i delta unvisited s =
        ((Pair_ E fuel q_node_i ((E.r_nodes_ r_node_i).child 1)
          (SplitR_intrinsic2 E q_node_i r_node_i
            (Pair_committed E q_node_i r_node_i delta unvisited s)).delta
          (G.QSummaryResult_ApplyDelta E.param_
            (SplitR_intrinsic1 E q_node_i r_node_i
              (Pair_committed E q_node_i r_node_i delta unvisited s)).delta unvisited)
          (SplitR_checked E q_node_i r_node_i
            (Pair_committed E q_node_i r_node_i delta unvisited s))).andThen
          (Pair_ E fuel q_node_i ((E.r_nodes_ r_node_i).child 0)
            (SplitR_intrinsic1 E q_node_i r_node_i
              (Pair_committed E q_node_i r_node_i delta unvisited s)).delta unvisited)).andThen
        (SplitR_release E r_node_i)) ∧
    (MinDistanceSq nd nd1 ≤ MinDistanceSq nd nd2 →
      MultiTreeDepthFirst.Heuristic_ MinDistanceSq (fun a b => decide (a ≤ b)) nd nd1 nd2 =
        (nd1, nd2)) ∧
    (MinDistanceSq nd nd2 < MinDistanceSq nd nd1 →
      MultiTreeDepthFirst.Heuristic_ MinDistanceSq (fun a b => decide (a ≤ b)) nd nd1 nd2 =
        (nd2, nd1)) ∧
    [(MultiTreeDepthFirst.Heuristic_ MinDistanceSq (fun a b => decide (a ≤ b)) nd nd1 nd2).1,
      (MultiTreeDepthFirst.Heuristic_ MinDistanceSq (fun a b => decide (a ≤ b)) nd nd1
        nd2).2].Perm [nd1, nd2] := by
  refine ⟨?_, ?_, ?_, ?_, ?_⟩
  · intro hle
    rw [Pair_eq_SplitR E fuel q_node_i r_node_i delta unvisited s h, SplitR_eq]
    simp [h1, h2, hgt, not_lt.2 hle]
  · intro hlt
    rw [Pair_eq_SplitR E fuel q_node_i r_node_i delta unvisited s h, SplitR_eq]
    simp [h1, h2, hgt, hlt]
  · intro hle
    simp [MultiTreeDepthFirst.Heuristic_, hle]
  · intro hlt
    simp [MultiTreeDepthFirst.Heuristic_, not_le.2 hlt]
  · unfold MultiTreeDepthFirst.Heuristic_
    by_cases hle : MinDistanceSq nd nd1 ≤ MinDistanceSq nd nd2
    · simp [hle]
    · simp [hle]
      exact List.Perm.swap _ _ _

/-- Witness of C20: equal scores (both reference children get the score `0`
when they start at point `0`), so the first child is explored first. -/
theorem Heuristic_smaller_first_witness :
    (∀ a b : Nat, Toy.Score_gt a b = decide (b < a)) ∧
    Pair_splitsR (toyEngine toyExplore (toyTree1 2)
      (toyNodes [toySplit 0 4 1 2, toyLeaf 0 2, toyLeaf 0 2]) false) 0 0 7 0
      (toyState toyExplore) ∧
    Pair_ (toyEngine toyExplore (toyTree1 2)
        (toyNodes [toySplit 0 4 1 2, toyLeaf 0 2, toyLeaf 0 2]) false) (1 + 1) 0 0 7 0
        (toyState toyExplore) =
      ((Pair_ (toyEngine toyExplore (toyTree1 2)
          (toyNodes [toySplit 0 4 1 2, toyLeaf 0 2, toyLeaf 0 2]) false) 1 0 1 1200
          (Toy.QSummaryResult_ApplyDelta toyExplore 1200 0)
          (SplitR_checked (toyEngine toyExplore (toyTree1 2)
            (toyNodes [toySplit 0 4 1 2, toyLeaf 0 2, toyLeaf 0 2]) false) 0 0
            (Pair_committed (toyEngine toyExplore (toyTree1 2)
              (toyNodes [toySplit 0 4 1 2, toyLeaf 0 2, toyLeaf 0 2]) false) 0 0 7 0
              (toyState toyExplore)))).andThen
        (Pair_ (toyEngine toyExplore (toyTree1 2)
          (toyNodes [toySplit 0 4 1 2, toyLeaf 0 2, toyLeaf 0 2]) false) 1 0 2 1200
          0)).andThen
      (SplitR_release (toyEngine toyExplore (toyTree1 2)
        (toyNodes [toySplit 0 4 1 2, toyLeaf 0 2, toyLeaf 0 2]) false) 0) ∧
    MultiTreeDepthFirst.Heuristic_ (fun (a b : Nat) => a + b) (fun a b => decide (a ≤ b))
      0 3 3 = (3, 3) :=
  ⟨fun _ _ => rfl, ⟨rfl, rfl, rfl, rfl⟩,
    (Heuristic_smaller_first (G := Toy) (fun _ _ => rfl)
      (toyEngine toyExplore (toyTree1 2)
        (toyNodes [toySplit 0 4 1 2, toyLeaf 0 2, toyLeaf 0 2]) false) 1 0 0 7 0
      (toyState toyExplore) ⟨rfl, rfl, rfl, rfl⟩ rfl rfl (fun (a b : Nat) => a + b)
      0 3 3).1 (le_refl _),
    (Heuristic_smaller_first (G := Toy) (fun _ _ => rfl)
      (toyEngine toyExplore (toyTree1 2)
        (toyNodes [toySplit 0 4 1 2, toyLeaf 0 2, toyLeaf 0 2]) false) 1 0 0 7 0
      (toyState toyExplore) ⟨rfl, rfl, rfl, rfl⟩ rfl rfl (fun (a b : Nat) => a + b)
      0 3 3).2.2.1 (le_refl _)⟩

end ExplorationOrder

/-! ## Every pair of a leaf pair is visited -/

section VisitsEveryPair

variable {G : GNP}

theorem BaseCasePoint_log (E : Engine G) (q_node_i r_node_i : Nat)
    (unvisited : G.QSummaryResult) (vs : G.PairVisitor × State G) (q_i : Nat) :
    (BaseCasePoint E q_node_i r_node_i unvisited vs q_i).2.log =
      (VisitQueryPoint E r_node_i unvisited q_i vs.1
        ((vs.2.setResult q_i
          (G.QResult_ApplyPostponed E.param_ (vs.2.q_mutables_ q_node_i).postponed
            (E.q_points_ q_i) q_i (vs.2.q_results_ q_i))).emit
          (.ApplyPostponed q_i (vs.2.q_mutables_ q_node_i).postponed))).2.log := by
  simp [BaseCasePoint]

/-- When the visitor accepts every query point, the calls made for query
point `q_i` contain `VisitPair q_i r_i` for every reference index of the
reference node. -/
theorem BaseCasePoint_visits (E : Engine G) (q_node_i r_node_i : Nat)
    (unvisited : G.QSummaryResult) (vs : G.PairVisitor × State G) (q_i r_i : Nat)
    (hstart : ∀ pt i rn un res g v,
      (G.PairVisitor_StartVisitingQueryPoint E.param_ pt i rn un res g v).visit = true)
    (hpos : 0 < (E.r_nodes_ r_node_i).count)
    (hfit : (E.r_nodes_ r_node_i).count < 2 ^ E.index_bits)
    (hlo : (E.r_nodes_ r_node_i).begin ≤ r_i) (hhi : r_i < (E.r_nodes_ r_node_i).end_) :
    Event.VisitPair q_i r_i ∈ (BaseCasePoint E q_node_i r_node_i unvisited vs q_i).2.log := by
  rw [BaseCasePoint_log, VisitQueryPoint_log, decr_of_pos hpos hfit]
  simp only [hstart, if_true]
  refine List.mem_append_right _ (List.mem_cons_of_mem _ (List.mem_append_left _ ?_))
  refine List.mem_map.2 ⟨r_i, ?_, rfl⟩
  rw [List.mem_range'_1]
  exact ⟨hlo, by simpa [Node.end_] using hhi⟩

/-- C12, as stated, fails: the solver has no leave-one-out setting; on the
same one point tree for queries and references `BaseCase_` calls `VisitPair`
for the pair of point `0` with itself. -/
theorem BaseCase_visits_self_pair :
    (BaseCase_ (toyEngine toyExplore (toyTree1 1) (toyTree1 1) false) 0 0 0
        (toyState toyExplore)).log =
      [Event.BaseCase 0 0, Event.ApplyPostponed 0 0,
        Event.StartVisitingQueryPoint 0 0 true, Event.VisitPair 0 0,
        Event.FinishVisitingQueryPoint 0 0] := by
  simp [BaseCase_, BaseCasePoint, VisitQueryPoint, VisitLoop, decr, toyEngine, toyState,
    DoitState, toyTree1, toyNodes, toyLeaf, toyExplore, Node.end_, State.emit,
    State.setPostponed, State.setSummary, State.setGlobal, State.setResult, List.range']

/-- C12, amended: `BaseCase_` has no leave-one-out setting.  For every query
point of the query node that the visitor accepts it calls `VisitPair` with
every reference index of the (non-empty) reference node, the index of the query
point itself included when it lies in the reference range; skipping the
self-pair is left to the `VisitPair` of the policy. -/
theorem BaseCase_visits_every_pair (E : Engine G) (q_node_i r_node_i : Nat)
    (unvisited : G.QSummaryResult) (s : State G)
    (hstart : ∀ pt i rn un res g v,
      (G.PairVisitor_StartVisitingQueryPoint E.param_ pt i rn un res g v).visit = true)
    (hpos : 0 < (E.r_nodes_ r_node_i).count)
    (hfit : (E.r_nodes_ r_node_i).count < 2 ^ E.index_bits)
    (q_i r_i : Nat)
    (hq1 : (E.q_nodes_ q_node_i).begin ≤ q_i) (hq2 : q_i < (E.q_nodes_ q_node_i).end_)
    (hr1 : (E.r_nodes_ r_node_i).begin ≤ r_i) (hr2 : r_i < (E.r_nodes_ r_node_i).end_) :
    Event.VisitPair q_i r_i ∈ (BaseCase_ E q_node_i r_node_i unvisited s).log := by
  have hloop : ∀ (l : List Nat) (vs : G.PairVisitor × State G), q_i ∈ l →
      Event.VisitPair q_i r_i ∈
        (l.foldl (BaseCasePoint E q_node_i r_node_i unvisited) vs).2.log := by
    intro l
    induction l with
    | nil => intro vs hm; cases hm
    | cons a l ih =>
      intro vs hm
      rw [List.foldl_cons]
      rcases List.mem_cons.1 hm with hm | hm
      · subst hm
        have h1 := BaseCasePoint_visits E q_node_i r_node_i unvisited vs q_i r_i hstart hpos
          hfit hr1 hr2
        exact (foldl_log_grows (fun vs : G.PairVisitor × State G => vs.2)
          (BaseCasePoint E q_node_i r_node_i unvisited)
          (BaseCasePoint_log_grows E q_node_i r_node_i unvisited) l _).subset h1
      · exact ih _ hm
  unfold BaseCase_
  simp only [State.setPostponed_log, State.setSummary_log]
  apply hloop
  rw [List.mem_range'_1]
  exact ⟨hq1, by simpa [Node.end_] using hq2⟩

/-- Witness of C12 (amended): the pair of point `1` with itself, on the same
two point leaf for queries and references. -/
theorem BaseCase_visits_every_pair_witness :
    (∀ pt i rn un res g v,
      (Toy.PairVisitor_StartVisitingQueryPoint
        (toyEngine toyExplore (toyTree1 2) (toyTree1 2) false).param_ pt i rn un res g
        v).visit = true) ∧
    Event.VisitPair 1 1 ∈
      (BaseCase_ (toyEngine toyExplore (toyTree1 2) (toyTree1 2) false) 0 0 0
        (toyState toyExplore)).log :=
  ⟨fun _ _ _ _ _ _ _ => rfl,
    BaseCase_visits_every_pair (toyEngine toyExplore (toyTree1 2) (toyTree1 2) false) 0 0 0
      (toyState toyExplore) (fun _ _ _ _ _ _ _ => rfl) (by decide) (by decide) 1 1
      (by decide) (by decide) (by decide) (by decide)⟩

end VisitsEveryPair

/-! ## The structure of a Pair_ invocation -/

section PairStructure

variable {G : GNP}

theorem SplitQChild_eq (E : Engine G) (pair : PairFn G) (q_node_i r_node_i : Nat)
    (delta : G.Delta) (unvisited : G.QSummaryResult) (k : Nat) (s : State G) :
    SplitQChild E pair q_node_i r_node_i delta unvisited k s =
      (if (SplitQChild_intrinsic E q_node_i r_node_i k s).explore = true then
        pair ((E.q_nodes_ q_node_i).child k) r_node_i delta unvisited
          (SplitQChild_checked E q_node_i r_node_i k s)
      else .done (SplitQChild_checked E q_node_i r_node_i k s)).andThen
      (fun s3 => .done (SplitQChild_accumulated E q_node_i k s3)) := by
  unfold SplitQChild SplitQChild_checked SplitQChild_intrinsic SplitQChild_accumulated
  simp only [State.setPostponed_postponed_same, State.setPostponed_global]

theorem SplitQ_eq (E : Engine G) (pair : PairFn G) (q_node_i r_node_i : Nat)
    (delta : G.Delta) (unvisited : G.QSummaryResult) (s : State G) :
    SplitQ E pair q_node_i r_node_i delta unvisited s =
      ((SplitQChild E pair q_node_i r_node_i delta unvisited 0
        (SplitQ_entered E q_node_i r_node_i s)).andThen
        (SplitQChild E pair q_node_i r_node_i delta unvisited 1)).andThen
      (fun s2 => .done (SplitQ_finished E q_node_i s2)) := by
  unfold SplitQ SplitQ_entered SplitQ_finished
  simp only [State.emit_q_mutables, State.setSummary_postponed]

/-- The five ways in which a `Pair_` invocation with a positive recursion
budget proceeds. -/
theorem Pair_succ_cases (E : Engine G) (fuel q_node_i r_node_i : Nat) (delta : G.Delta)
    (unvisited : G.QSummaryResult) (s : State G) (motive : Outcome (State G) → Prop)
    (hterm : (Pair_termination E q_node_i delta unvisited s).explore = false →
      motive (.done (Pair_termination_pruned E q_node_i r_node_i delta unvisited s)))
    (hext : (Pair_termination E q_node_i delta unvisited s).explore = true →
      (Pair_extrinsic E q_node_i r_node_i delta unvisited s).explore = false →
      motive (.done (Pair_extrinsic_pruned E q_node_i r_node_i delta unvisited s)))
    (hbase : (Pair_termination E q_node_i delta unvisited s).explore = true →
      (Pair_extrinsic E q_node_i r_node_i delta unvisited s).explore = true →
      (E.q_nodes_ q_node_i).is_leaf = true → (E.r_nodes_ r_node_i).is_leaf = true →
      motive (.done (BaseCase_ E q_node_i r_node_i unvisited
        (Pair_committed E q_node_i r_node_i delta unvisited s))))
    (hq : Pair_splitsQ E q_node_i r_node_i delta unvisited s →
      (E.q_nodes_ q_node_i).is_leaf = false →
      motive (SplitQ E (Pair_ E fuel) q_node_i r_node_i delta unvisited
        (Pair_committed E q_node_i r_node_i delta unvisited s)))
    (hr : Pair_splitsR E q_node_i r_node_i delta unvisited s →
      (E.r_nodes_ r_node_i).is_leaf = false →
      motive (SplitR E (Pair_ E fuel) q_node_i r_node_i unvisited
        (Pair_committed E q_node_i r_node_i delta unvisited s))) :
    motive (Pair_ E (fuel + 1) q_node_i r_node_i delta unvisited s) := by
  cases ht : (Pair_termination E q_node_i delta unvisited s).explore with
  | false =>
    have h := hterm ht
    have e : Pair_ E (fuel + 1) q_node_i r_node_i delta unvisited s =
        .done (Pair_termination_pruned E q_node_i r_node_i delta unvisited s) := by
      rw [Pair_]
      unfold PairBody Pair_termination_pruned
      simp [ht]
    rw [e]; exact h
  | true =>
    cases hx : (Pair_extrinsic E q_node_i r_node_i delta unvisited s).explore with
    | false =>
      have h := hext ht hx
      have e : Pair_ E (fuel + 1) q_node_i r_node_i delta unvisited s =
          .done (Pair_extrinsic_pruned E q_node_i r_node_i delta unvisited s) := by
        rw [Pair_]
        unfold PairBody Pair_extrinsic_pruned
        simp [ht, hx]
      rw [e]; exact h
    | true =>
      cases hql : (E.q_nodes_ q_node_i).is_leaf with
      | true =>
        cases hrl : (E.r_nodes_ r_node_i).is_leaf with
        | true =>
          rw [Pair_eq_BaseCase E fuel q_node_i r_node_i delta unvisited s ht hx
            (by simp [hql, hrl])]
          exact hbase ht hx hql hrl
        | false =>
          have hs : Pair_splitsR E q_node_i r_node_i delta unvisited s :=
            ⟨ht, hx, by simp [hrl], by simp [hql, hrl]⟩
          rw [Pair_eq_SplitR E fuel q_node_i r_node_i delta unvisited s hs]
          exact hr hs hrl
      | false =>
        by_cases hc : ((E.r_nodes_ r_node_i).is_leaf
            || (decide ((E.q_nodes_ q_node_i).count ≥ (E.r_nodes_ r_node_i).count)
              && !(E.q_nodes_ q_node_i).is_leaf)) = true
        · have hs : Pair_splitsQ E q_node_i r_node_i delta unvisited s :=
            ⟨ht, hx, by simp [hql], hc⟩
          rw [Pair_eq_SplitQ E fuel q_node_i r_node_i delta unvisited s hs]
          exact hq hs hql
        · have hc2 : ((E.r_nodes_ r_node_i).is_leaf
              || (decide ((E.q_nodes_ q_node_i).count ≥ (E.r_nodes_ r_node_i).count)
                && !(E.q_nodes_ q_node_i).is_leaf)) = false := by
            simpa using hc
          have hs : Pair_splitsR E q_node_i r_node_i delta unvisited s :=
            ⟨ht, hx, by simp [hql], hc2⟩
          rw [Pair_eq_SplitR E fuel q_node_i r_node_i delta unvisited s hs]
          refine hr hs ?_
          cases hrl : (E.r_nodes_ r_node_i).is_leaf with
          | true => simp [hrl] at hc2
          | false => rfl

end PairStructure

/-! ## Termination on trees -/

section Termination

variable {G : GNP}

theorem Outcome.andThen_eq_done {σ : Type} {o : Outcome σ} {f : σ → Outcome σ} {s1 : σ} :
    o.andThen f = Outcome.done s1 ↔ ∃ s0, o = Outcome.done s0 ∧ f s0 = Outcome.done s1 := by
  cases o with
  | done s0 => simp
  | outOfFuel s0 => simp

theorem Outcome.returned_andThen {σ : Type} {o : Outcome σ} {f : σ → Outcome σ}
    (h1 : o.returned = true) (h2 : ∀ s, (f s).returned = true) :
    (o.andThen f).returned = true := by
  cases o with
  | done s0 => exact h2 s0
  | outOfFuel s0 => simp at h1

theorem Outcome.returned_iff {σ : Type} {o : Outcome σ} :
    o.returned = true ↔ ∃ s, o = Outcome.done s := by
  cases o <;> simp

theorem Shape.height_pos (t : Shape) : 0 < t.height := by
  cases t <;> simp [Shape.height]

theorem Represents.leaf_of_is_leaf {Info : Type} {nodes : Nat → Node Info} {t : Shape}
    (h : Represents nodes t) (hl : (nodes t.root).is_leaf = true) : ∃ i, t = Shape.leaf i := by
  cases t with
  | leaf i => exact ⟨i, rfl⟩
  | split i l r =>
    have := h.1
    simp [Shape.root] at hl
    rw [hl] at this
    cases this

theorem Represents.split_of_not_leaf {Info : Type} {nodes : Nat → Node Info} {t : Shape}
    (h : Represents nodes t) (hl : (nodes t.root).is_leaf = false) :
    ∃ i l r, t = Shape.split i l r ∧ (nodes i).child 0 = l.root ∧ (nodes i).child 1 = r.root ∧
      Represents nodes l ∧ Represents nodes r := by
  cases t with
  | leaf i =>
    have : (nodes i).is_leaf = true := h
    simp [Shape.root] at hl
    rw [hl] at this
    cases this
  | split i l r => exact ⟨i, l, r, rfl, h.2.1, h.2.2.1, h.2.2.2.1, h.2.2.2.2⟩

/-- On trees held by the node caches, `Pair_` returns when its recursion
budget is at least the sum of the heights of the two trees. -/
theorem Pair_returns (E : Engine G) (fuel : Nat) (tq tr : Shape)
    (hq : Represents E.q_nodes_ tq) (hr : Represents E.r_nodes_ tr)
    (hf : tq.height + tr.height ≤ fuel) (delta : G.Delta) (unvisited : G.QSummaryResult)
    (s : State G) :
    (Pair_ E fuel tq.root tr.root delta unvisited s).returned = true := by
  induction fuel generalizing tq tr delta unvisited s with
  | zero =>
    have := tq.height_pos
    omega
  | succ fuel ih =>
    apply Pair_succ_cases E fuel tq.root tr.root delta unvisited s
      (fun o => o.returned = true)
    · intro _; rfl
    · intro _ _; rfl
    · intro _ _ _ _; rfl
    · intro _ hql
      obtain ⟨i, l, r, rfl, h0, h1, hl, hr2⟩ := hq.split_of_not_leaf hql
      have hh : max l.height r.height + 1 + tr.height ≤ fuel + 1 := hf
      have hl1 : l.height + tr.height ≤ fuel := by
        have := le_max_left l.height r.height
        omega
      have hr1 : r.height + tr.height ≤ fuel := by
        have := le_max_right l.height r.height
        omega
      rw [SplitQ_eq]
      refine Outcome.returned_andThen (Outcome.returned_andThen ?_ ?_) (fun _ => rfl)
      · rw [SplitQChild_eq]
        refine Outcome.returned_andThen ?_ (fun _ => rfl)
        split
        · simp only [Shape.root, h0]
          exact ih l tr hl hr hl1 _ _ _
        · rfl
      · intro s1
        rw [SplitQChild_eq]
        refine Outcome.returned_andThen ?_ (fun _ => rfl)
        split
        · simp only [Shape.root, h1]
          exact ih r tr hr2 hr hr1 _ _ _
        · rfl
    · intro _ hrl
      obtain ⟨i, l, r, rfl, h0, h1, hl, hr2⟩ := hr.split_of_not_leaf hrl
      have hh : tq.height + (max l.height r.height + 1) ≤ fuel + 1 := hf
      have hl1 : tq.height + l.height ≤ fuel := by
        have := le_max_left l.height r.height
        omega
      have hr1 : tq.height + r.height ≤ fuel := by
        have := le_max_right l.height r.height
        omega
      rw [SplitR_eq]
      refine Outcome.returned_andThen ?_ (fun _ => rfl)
      simp only [Shape.root, h0, h1]
      split
      · split
        · exact ih tq r hq hr2 hr1 _ _ _
        · rfl
      · split
        · exact ih tq l hq hl hl1 _ _ _
        · split
          · exact Outcome.returned_andThen (ih tq l hq hl hl1 _ _ _)
              (fun _ => ih tq r hq hr2 hr1 _ _ _)
          · exact Outcome.returned_andThen (ih tq r hq hr2 hr1 _ _ _)
              (fun _ => ih tq l hq hl hl1 _ _ _)

/-- On a tree held by the query node cache, `PushDownPostprocess_` returns
when its recursion budget is at least the height of the tree. -/
theorem PushDown_returns (E : Engine G) (fuel : Nat) (t : Shape)
    (hq : Represents E.q_nodes_ t) (hf : t.height ≤ fuel) (s : State G) :
    (PushDownPostprocess_ E fuel t.root s).returned = true := by
  induction fuel generalizing t s with
  | zero =>
    have := t.height_pos
    omega
  | succ fuel ih =>
    rw [PushDownPostprocess_]
    split
    · rfl
    · rename_i hnl
      have hnl2 : (E.q_nodes_ t.root).is_leaf = false := by simpa using hnl
      obtain ⟨i, l, r, rfl, h0, h1, hl, hr2⟩ := hq.split_of_not_leaf hnl2
      have hh : max l.height r.height + 1 ≤ fuel + 1 := hf
      have hl1 : l.height ≤ fuel := by
        have := le_max_left l.height r.height
        omega
      have hr1 : r.height ≤ fuel := by
        have := le_max_right l.height r.height
        omega
      unfold PushDownChild
      simp only [Shape.root, h0, h1]
      exact Outcome.returned_andThen (ih l hl hl1 _) (fun _ => ih r hr2 hr1 _)

/-- On trees held by the node caches, `Begin_` returns when its recursion
budget is at least the sum of the heights of the two trees. -/
theorem Begin_returns (E : Engine G) (fuel : Nat) (tq tr : Shape)
    (hq : Represents E.q_nodes_ tq) (hr : Represents E.r_nodes_ tr) (hr0 : tr.root = 0)
    (hf : tq.height + tr.height ≤ fuel) (s : State G) :
    (Begin_ E fuel tq.root s).returned = true := by
  unfold Begin_
  refine Outcome.returned_andThen ?_ ?_
  · simp only []
    split
    · split
      · rfl
      · rw [← hr0]
        exact Pair_returns E fuel tq tr hq hr hf _ _ _
    · rfl
  · intro s1
    exact PushDown_returns E fuel tq hq (by omega) s1

end Termination

/-! ## Read handles on reference nodes -/

section ReadHandles

variable {G : GNP}

theorem LogAdds.mono {P Q : Event G → Bool} {s s1 : State G}
    (h : ∀ e, P e = true → Q e = true) (h1 : LogAdds P s s1) : LogAdds Q s s1 := by
  obtain ⟨rest, e1, p1⟩ := h1
  exact ⟨rest, e1, fun e he => h e (p1 e he)⟩

/-- The log of a run of `BaseCase_` is the log it started from followed by
calls of the base case only. -/
theorem BaseCase_log_calls (E : Engine G) (q_node_i r_node_i : Nat)
    (unvisited : G.QSummaryResult) (s : State G) :
    LogAdds Event.isBaseCaseCall s (BaseCase_ E q_node_i r_node_i unvisited s) := by
  have hpoint : ∀ (vs : G.PairVisitor × State G) (q_i : Nat),
      LogAdds Event.isBaseCaseCall vs.2
        (BaseCasePoint E q_node_i r_node_i unvisited vs q_i).2 := by
    intro vs q_i
    have e : (BaseCasePoint E q_node_i r_node_i unvisited vs q_i).2.log =
        vs.2.log ++ (Event.ApplyPostponed q_i (vs.2.q_mutables_ q_node_i).postponed ::
          Event.StartVisitingQueryPoint q_i r_node_i
            (G.PairVisitor_StartVisitingQueryPoint E.param_ (E.q_points_ q_i) q_i
              (E.r_nodes_ r_node_i) unvisited
              (G.QResult_ApplyPostponed E.param_ (vs.2.q_mutables_ q_node_i).postponed
                (E.q_points_ q_i) q_i (vs.2.q_results_ q_i))
              vs.2.global_result_ vs.1).visit ::
          (if (G.PairVisitor_StartVisitingQueryPoint E.param_ (E.q_points_ q_i) q_i
              (E.r_nodes_ r_node_i) unvisited
              (G.QResult_ApplyPostponed E.param_ (vs.2.q_mutables_ q_node_i).postponed
                (E.q_points_ q_i) q_i (vs.2.q_results_ q_i))
              vs.2.global_result_ vs.1).visit = true
          then
            (List.range' (E.r_nodes_ r_node_i).begin
                (decr E.index_bits (E.r_nodes_ r_node_i).count + 1)).map
              (fun r => Event.VisitPair q_i r) ++ [Event.FinishVisitingQueryPoint q_i r_node_i]
          else [])) := by
      rw [BaseCasePoint_log, VisitQueryPoint_log]
      simp
    refine ⟨_, e, ?_⟩
    intro e0 he
    simp only [List.mem_cons] at he
    rcases he with he | he | he
    · subst he; rfl
    · subst he; rfl
    · split at he
      · rcases List.mem_append.1 he with he | he
        · obtain ⟨r, _, rfl⟩ := List.mem_map.1 he
          rfl
        · simp at he
          subst he; rfl
      · cases he
  have hloop : ∀ (l : List Nat) (vs : G.PairVisitor × State G),
      LogAdds Event.isBaseCaseCall vs.2
        (l.foldl (BaseCasePoint E q_node_i r_node_i unvisited) vs).2 := by
    intro l
    induction l with
    | nil => intro vs; exact LogAdds.refl _
    | cons a l ih => intro vs; exact (hpoint vs a).trans (ih _)
  have e1 : (BaseCase_ E q_node_i r_node_i unvisited s).log =
      ((List.range' (E.q_nodes_ q_node_i).begin
        ((E.q_nodes_ q_node_i).end_ - (E.q_nodes_ q_node_i).begin)).foldl
        (BaseCasePoint E q_node_i r_node_i unvisited)
        (G.PairVisitor_Init E.param_,
          (s.emit (.BaseCase q_node_i r_node_i)).setSummary q_node_i
            (G.QSummaryResult_StartReaccumulate E.param_ (E.q_nodes_ q_node_i)
              ((s.emit (.BaseCase q_node_i r_node_i)).q_mutables_
                q_node_i).summary_result))).2.log := by
    simp [BaseCase_]
  obtain ⟨rest, h1, h2⟩ := hloop
    (List.range' (E.q_nodes_ q_node_i).begin
      ((E.q_nodes_ q_node_i).end_ - (E.q_nodes_ q_node_i).begin))
    (G.PairVisitor_Init E.param_,
      (s.emit (.BaseCase q_node_i r_node_i)).setSummary q_node_i
        (G.QSummaryResult_StartReaccumulate E.param_ (E.q_nodes_ q_node_i)
          ((s.emit (.BaseCase q_node_i r_node_i)).q_mutables_ q_node_i).summary_result))
  refine ⟨Event.BaseCase q_node_i r_node_i :: rest, ?_, ?_⟩
  · rw [e1, h1]
    simp
  · intro e0 he
    rcases List.mem_cons.1 he with he | he
    · subst he; rfl
    · exact h2 e0 he

theorem openReads_append (i : Nat) (l1 l2 : List (Event G)) :
    openReads i (l1 ++ l2) = openReads i l1 + openReads i l2 := by
  simp [openReads]

theorem openReads_of_logAdds {P : Event G → Bool} (hP : ∀ e i, P e = true → e.readDelta i = 0)
    {s s1 : State G} (h : LogAdds P s s1) (i : Nat) :
    openReads i s1.log = openReads i s.log := by
  obtain ⟨rest, e1, p1⟩ := h
  rw [e1, openReads_append]
  have : openReads i rest = 0 := by
    unfold openReads
    apply List.sum_eq_zero
    intro x hx
    obtain ⟨e, he, rfl⟩ := List.mem_map.1 hx
    exact hP e i (p1 e he)
  omega

theorem Outcome.andThen_done_rel {σ : Type} (R : σ → σ → Prop)
    (htrans : ∀ a b c, R a b → R b c → R a c) {s : σ} {o : Outcome σ}
    {f : σ → Outcome σ} (h1 : ∀ s1, o = Outcome.done s1 → R s s1)
    (h2 : ∀ s1 s2, f s1 = Outcome.done s2 → R s1 s2) :
    ∀ s2, o.andThen f = Outcome.done s2 → R s s2 := by
  intro s2 h
  obtain ⟨s1, e1, e2⟩ := Outcome.andThen_eq_done.1 h
  exact htrans _ _ _ (h1 s1 e1) (h2 s1 s2 e2)

/-- A `Pair_` invocation that returns has closed every read handle it has
opened. -/
theorem Pair_openReads (E : Engine G) (fuel q_node_i r_node_i : Nat) (delta : G.Delta)
    (unvisited : G.QSummaryResult) (s s1 : State G)
    (h : Pair_ E fuel q_node_i r_node_i delta unvisited s = Outcome.done s1) (i : Nat) :
    openReads i s1.log = openReads i s.log := by
  induction fuel generalizing q_node_i r_node_i delta unvisited s s1 i with
  | zero => simp [Pair_] at h
  | succ fuel ih =>
    have htrans : ∀ a b c : State G, (∀ i, openReads i b.log = openReads i a.log) →
        (∀ i, openReads i c.log = openReads i b.log) →
        ∀ i, openReads i c.log = openReads i a.log :=
      fun a b c h1 h2 i => (h2 i).trans (h1 i)
    have hpair : ∀ q r d u s0 s2, Pair_ E fuel q r d u s0 = Outcome.done s2 →
        ∀ i, openReads i s2.log = openReads i s0.log :=
      fun q r d u s0 s2 h0 i => ih q r d u s0 s2 h0 i
    revert s1 i
    apply Pair_succ_cases E fuel q_node_i r_node_i delta unvisited s
      (fun o => ∀ s1, o = Outcome.done s1 → ∀ i, openReads i s1.log = openReads i s.log)
    · intro _ s1 h i
      cases h
      simp [Pair_termination_pruned, openReads, Event.readDelta]
    · intro _ _ s1 h i
      cases h
      simp [Pair_extrinsic_pruned, openReads, Event.readDelta]
    · intro _ _ _ _ s1 h i
      cases h
      rw [openReads_of_logAdds (P := Event.isBaseCaseCall) ?_ (BaseCase_log_calls E _ _ _ _)]
      · simp [Pair_committed, openReads, Event.readDelta]
      · intro e j he
        cases e <;> simp_all [Event.isBaseCaseCall, Event.readDelta]
    · intro _ _
      have hc : ∀ k s0 s2,
          SplitQChild E (Pair_ E fuel) q_node_i r_node_i delta unvisited k s0 =
            Outcome.done s2 → ∀ i, openReads i s2.log = openReads i s0.log := by
        intro k s0
        rw [SplitQChild_eq]
        apply Outcome.andThen_done_rel _ htrans
        · intro s2 h2
          split at h2
          · intro i
            rw [hpair _ _ _ _ _ _ h2 i]
            simp [SplitQChild_checked, openReads, Event.readDelta]
          · cases h2
            intro i
            simp [SplitQChild_checked, openReads, Event.readDelta]
        · intro s2 s3 h3 i
          cases h3
          simp [SplitQChild_accumulated]
      rw [SplitQ_eq]
      have key := Outcome.andThen_done_rel
        (fun a b : State G => ∀ i, openReads i b.log = openReads i a.log) htrans
        (s := SplitQ_entered E q_node_i r_node_i
          (Pair_committed E q_node_i r_node_i delta unvisited s))
        (Outcome.andThen_done_rel _ htrans (hc 0 _) (hc 1))
        (f := fun s2 => Outcome.done (SplitQ_finished E q_node_i s2))
        (by intro s2 s3 h3 i; cases h3; simp [SplitQ_finished])
      intro s1 h1 i
      rw [key s1 h1 i]
      simp [SplitQ_entered, Pair_committed, openReads, Event.readDelta]
    · intro _ _ s1 h1 i
      rw [SplitR_eq] at h1
      obtain ⟨s3, e3, e4⟩ := Outcome.andThen_eq_done.1 h1
      have h3 : ∀ i, openReads i s3.log =
          openReads i (SplitR_checked E q_node_i r_node_i
            (Pair_committed E q_node_i r_node_i delta unvisited s)).log := by
        split at e3
        · split at e3
          · exact hpair _ _ _ _ _ _ e3
          · cases e3; intro i; rfl
        · split at e3
          · exact hpair _ _ _ _ _ _ e3
          · split at e3
            · exact Outcome.andThen_done_rel _ htrans (hpair _ _ _ _ _)
                (hpair _ _ _ _) s3 e3
            · exact Outcome.andThen_done_rel _ htrans (hpair _ _ _ _ _)
                (hpair _ _ _ _) s3 e3
      unfold SplitR_release at e4
      cases e4
      simp only [State.emit_log, openReads_append, h3 i]
      simp only [SplitR_checked, Pair_committed, State.emit_log, State.setPostponed_log,
        State.setGlobal_log, openReads_append]
      simp [openReads, Event.readDelta]
      split_ifs <;> omega

/-- The state in which the explorations of a reference split end, when they
return, and the facts that the log only grows and that they leave no read
handle open. -/
theorem SplitR_explored (E : Engine G) (fuel q_node_i r_node_i : Nat)
    (unvisited : G.QSummaryResult) (s s1 : State G)
    (h : SplitR E (Pair_ E fuel) q_node_i r_node_i unvisited s = Outcome.done s1) :
    ∃ mid, s1.log = (SplitR_checked E q_node_i r_node_i s).log ++ mid ++
        [Event.StopRead ((E.r_nodes_ r_node_i).child 0),
          Event.StopRead ((E.r_nodes_ r_node_i).child 1)] ∧
      ∀ i, openReads i mid = 0 := by
  rw [SplitR_eq] at h
  obtain ⟨s3, e3, e4⟩ := Outcome.andThen_eq_done.1 h
  have htrans : ∀ a b c : State G, (∀ i, openReads i b.log = openReads i a.log) →
      (∀ i, openReads i c.log = openReads i b.log) →
      ∀ i, openReads i c.log = openReads i a.log :=
    fun a b c h1 h2 i => (h2 i).trans (h1 i)
  have hpair : ∀ q r d u s0 s2, Pair_ E fuel q r d u s0 = Outcome.done s2 →
      ∀ i, openReads i s2.log = openReads i s0.log :=
    fun q r d u s0 s2 h0 i => Pair_openReads E fuel q r d u s0 s2 h0 i
  have hgrow : ∀ q r d u s0 s2, Pair_ E fuel q r d u s0 = Outcome.done s2 →
      s0.log <+: s2.log := by
    intro q r d u s0 s2 h0
    have := Pair_log_grows E fuel q r d u s0
    rw [h0] at this
    exact this
  have h3 : (∀ i, openReads i s3.log = openReads i (SplitR_checked E q_node_i r_node_i s).log) ∧
      (SplitR_checked E q_node_i r_node_i s).log <+: s3.log := by
    split at e3
    · split at e3
      · exact ⟨hpair _ _ _ _ _ _ e3, hgrow _ _ _ _ _ _ e3⟩
      · cases e3; exact ⟨fun i => rfl, List.prefix_refl _⟩
    · split at e3
      · exact ⟨hpair _ _ _ _ _ _ e3, hgrow _ _ _ _ _ _ e3⟩
      · split at e3
        · obtain ⟨s4, e5, e6⟩ := Outcome.andThen_eq_done.1 e3
          exact ⟨fun i => (hpair _ _ _ _ _ _ e6 i).trans (hpair _ _ _ _ _ _ e5 i),
            (hgrow _ _ _ _ _ _ e5).trans (hgrow _ _ _ _ _ _ e6)⟩
        · obtain ⟨s4, e5, e6⟩ := Outcome.andThen_eq_done.1 e3
          exact ⟨fun i => (hpair _ _ _ _ _ _ e6 i).trans (hpair _ _ _ _ _ _ e5 i),
            (hgrow _ _ _ _ _ _ e5).trans (hgrow _ _ _ _ _ _ e6)⟩
  obtain ⟨mid, hmid⟩ := h3.2
  refine ⟨mid, ?_, ?_⟩
  · unfold SplitR_release at e4
    cases e4
    simp [← hmid]
  · intro i
    have := h3.1 i
    rw [← hmid, openReads_append] at this
    omega

/-- C13: a `Pair_` invocation that returns leaves as many read handles open on
every reference node as there were when it was entered; and when it splits the
reference node, its calls are: the two `StartRead` on the children, the two
intrinsic checks, the calls of the recursive explorations (which leave no
handle open), and last the two `StopRead` on the same children. -/
theorem Pair_reads_released (E : Engine G) (fuel q_node_i r_node_i : Nat) (delta : G.Delta)
    (unvisited : G.QSummaryResult) (s : State G)
    (h : (Pair_ E (fuel + 1) q_node_i r_node_i delta unvisited s).returned = true) :
    (∀ i, openReads i (Pair_ E (fuel + 1) q_node_i r_node_i delta unvisited s).state.log =
      openReads i s.log) ∧
    (Pair_splitsR E q_node_i r_node_i delta unvisited s →
      ∃ mid,
        (Pair_ E (fuel + 1) q_node_i r_node_i delta unvisited s).state.log =
          (Pair_committed E q_node_i r_node_i delta unvisited s).log ++
            [Event.SplittingR q_node_i r_node_i,
              Event.StartRead ((E.r_nodes_ r_node_i).child 0),
              Event.StartRead ((E.r_nodes_ r_node_i).child 1),
              Event.ConsiderPairIntrinsic q_node_i ((E.r_nodes_ r_node_i).child 0)
                ((Pair_committed E q_node_i r_node_i delta unvisited s).q_mutables_
                  q_node_i).postponed
                (SplitR_intrinsic1 E q_node_i r_node_i
                  (Pair_committed E q_node_i r_node_i delta unvisited s)).postponed
                (SplitR_intrinsic1 E q_node_i r_node_i
                  (Pair_committed E q_node_i r_node_i delta unvisited s)).explore
                (SplitR_intrinsic1 E q_node_i r_node_i
                  (Pair_committed E q_node_i r_node_i delta unvisited s)).delta,
              Event.ConsiderPairIntrinsic q_node_i ((E.r_nodes_ r_node_i).child 1)
                (SplitR_intrinsic1 E q_node_i r_node_i
                  (Pair_committed E q_node_i r_node_i delta unvisited s)).postponed
                (SplitR_intrinsic2 E q_node_i r_node_i
                  (Pair_committed E q_node_i r_node_i delta unvisited s)).postponed
                (SplitR_intrinsic2 E q_node_i r_node_i
                  (Pair_committed E q_node_i r_node_i delta unvisited s)).explore
                (SplitR_intrinsic2 E q_node_i r_node_i
                  (Pair_committed E q_node_i r_node_i delta unvisited s)).delta] ++ mid ++
            [Event.StopRead ((E.r_nodes_ r_node_i).child 0),
              Event.StopRead ((E.r_nodes_ r_node_i).child 1)] ∧
        ∀ i, openReads i mid = 0) := by
  have hd := Outcome.eq_done_of_returned h
  refine ⟨fun i => Pair_openReads E _ _ _ _ _ _ _ hd i, ?_⟩
  intro hs
  rw [Pair_eq_SplitR E fuel q_node_i r_node_i delta unvisited s hs] at hd ⊢
  obtain ⟨mid, h1, h2⟩ := SplitR_explored E fuel q_node_i r_node_i unvisited _ _ hd
  refine ⟨mid, ?_, h2⟩
  rw [h1]
  simp [SplitR_checked]

/-- Witness of C13: a two point query leaf against the four point reference
tree, with a policy that explores everything. -/
theorem Pair_reads_released_witness :
    (Pair_ (toyEngine toyExplore (toyTree1 2) toyTree3 false) (2 + 1) 0 0 7 0
      (toyState toyExplore)).returned = true ∧
    ∀ i, openReads i (Pair_ (toyEngine toyExplore (toyTree1 2) toyTree3 false) (2 + 1) 0 0 7
      0 (toyState toyExplore)).state.log = openReads i (toyState toyExplore).log :=
  ⟨Pair_returns (toyEngine toyExplore (toyTree1 2) toyTree3 false) 3 (Shape.leaf 0)
      (Shape.split 0 (Shape.leaf 1) (Shape.leaf 2)) rfl ⟨rfl, rfl, rfl, rfl, rfl⟩
      (by decide) 7 0 (toyState toyExplore),
    (Pair_reads_released (toyEngine toyExplore (toyTree1 2) toyTree3 false) 2 0 0 7 0
      (toyState toyExplore)
      (Pair_returns (toyEngine toyExplore (toyTree1 2) toyTree3 false) 3 (Shape.leaf 0)
        (Shape.split 0 (Shape.leaf 1) (Shape.leaf 2)) rfl ⟨rfl, rfl, rfl, rfl, rfl⟩
        (by decide) 7 0 (toyState toyExplore))).1⟩

end ReadHandles

/-! ## What a run leaves untouched -/

section Frames

variable {G : GNP}

theorem State.setPostponed_q_mutables_other (s : State G) {i j : Nat} (h : j ≠ i)
    (x : G.QPostponed) : (s.setPostponed i x).q_mutables_ j = s.q_mutables_ j := by
  simp [State.setPostponed, Function.update_noteq h]

theorem State.setSummary_q_mutables_other (s : State G) {i j : Nat} (h : j ≠ i)
    (x : G.QSummaryResult) : (s.setSummary i x).q_mutables_ j = s.q_mutables_ j := by
  simp [State.setSummary, Function.update_noteq h]

theorem VisitQueryPoint_q_mutables (E : Engine G) (r_node_i : Nat)
    (unvisited : G.QSummaryResult) (q_i : Nat) (v : G.PairVisitor) (s : State G) :
    (VisitQueryPoint E r_node_i unvisited q_i v s).2.q_mutables_ = s.q_mutables_ := by
  unfold VisitQueryPoint
  simp only []
  split
  · simp [VisitLoop_q_mutables]
  · simp

theorem VisitQueryPoint_q_results_other (E : Engine G) (r_node_i : Nat)
    (unvisited : G.QSummaryResult) (q_i : Nat) (v : G.PairVisitor) (s : State G) {i : Nat}
    (h : i ≠ q_i) :
    (VisitQueryPoint E r_node_i unvisited q_i v s).2.q_results_ i = s.q_results_ i := by
  unfold VisitQueryPoint
  simp only []
  split
  · simp [VisitLoop_q_results, Function.update_noteq h]
  · simp [Function.update_noteq h]

theorem BaseCasePoint_q_mutables_other (E : Engine G) (q_node_i r_node_i : Nat)
    (unvisited : G.QSummaryResult) (vs : G.PairVisitor × State G) (q_i : Nat) {j : Nat}
    (h : j ≠ q_node_i) :
    (BaseCasePoint E q_node_i r_node_i unvisited vs q_i).2.q_mutables_ j =
      vs.2.q_mutables_ j := by
  unfold BaseCasePoint
  simp only []
  rw [State.setSummary_q_mutables_other _ h, VisitQueryPoint_q_mutables]
  simp

theorem BaseCasePoint_postponed (E : Engine G) (q_node_i r_node_i : Nat)
    (unvisited : G.QSummaryResult) (vs : G.PairVisitor × State G) (q_i : Nat) (j : Nat) :
    ((BaseCasePoint E q_node_i r_node_i unvisited vs q_i).2.q_mutables_ j).postponed =
      (vs.2.q_mutables_ j).postponed := by
  unfold BaseCasePoint
  simp only [State.setSummary_postponed]
  rw [VisitQueryPoint_q_mutables]
  simp

theorem BaseCasePoint_q_results_other (E : Engine G) (q_node_i r_node_i : Nat)
    (unvisited : G.QSummaryResult) (vs : G.PairVisitor × State G) (q_i : Nat) {i : Nat}
    (h : i ≠ q_i) :
    (BaseCasePoint E q_node_i r_node_i unvisited vs q_i).2.q_results_ i =
      vs.2.q_results_ i := by
  unfold BaseCasePoint
  simp only [State.setSummary_q_results]
  rw [VisitQueryPoint_q_results_other _ _ _ _ _ _ h]
  simp [Function.update_noteq h]

theorem BaseCase_q_mutables_other (E : Engine G) (q_node_i r_node_i : Nat)
    (unvisited : G.QSummaryResult) (s : State G) {j : Nat} (h : j ≠ q_node_i) :
    (BaseCase_ E q_node_i r_node_i unvisited s).q_mutables_ j = s.q_mutables_ j := by
  have hloop : ∀ (l : List Nat) (vs : G.PairVisitor × State G),
      (l.foldl (BaseCasePoint E q_node_i r_node_i unvisited) vs).2.q_mutables_ j =
        vs.2.q_mutables_ j := by
    intro l
    induction l with
    | nil => intro vs; rfl
    | cons a l ih =>
      intro vs
      rw [List.foldl_cons, ih, BaseCasePoint_q_mutables_other _ _ _ _ _ _ h]
  unfold BaseCase_
  simp only []
  rw [State.setPostponed_q_mutables_other _ h, State.setSummary_q_mutables_other _ h, hloop,
    State.setSummary_q_mutables_other _ h]
  simp

theorem BaseCase_q_results_other (E : Engine G) (q_node_i r_node_i : Nat)
    (unvisited : G.QSummaryResult) (s : State G) {i : Nat}
    (h : ¬ ((E.q_nodes_ q_node_i).begin ≤ i ∧ i < (E.q_nodes_ q_node_i).end_)) :
    (BaseCase_ E q_node_i r_node_i unvisited s).q_results_ i = s.q_results_ i := by
  have hloop : ∀ (l : List Nat) (vs : G.PairVisitor × State G), i ∉ l →
      (l.foldl (BaseCasePoint E q_node_i r_node_i unvisited) vs).2.q_results_ i =
        vs.2.q_results_ i := by
    intro l
    induction l with
    | nil => intro vs _; rfl
    | cons a l ih =>
      intro vs hm
      rw [List.foldl_cons, ih _ (fun hh => hm (List.mem_cons_of_mem _ hh)),
        BaseCasePoint_q_results_other _ _ _ _ _ _ (fun hh => hm (by rw [hh]; exact List.mem_cons_self _ _))]
  unfold BaseCase_
  simp only [State.setPostponed_q_results, State.setSummary_q_results]
  rw [hloop]
  · simp
  · rw [List.mem_range'_1]
    simpa [Node.end_] using h

/-- A run of `Pair_` on the query tree `tq` changes the `QMutables` of the
nodes of `tq` only. -/
theorem Pair_q_mutables_frame (E : Engine G) (fuel : Nat) (tq : Shape)
    (hq : Represents E.q_nodes_ tq) (r_node_i : Nat) (delta : G.Delta)
    (unvisited : G.QSummaryResult) (s : State G) (j : Nat) (hj : j ∉ tq.indices) :
    (Pair_ E fuel tq.root r_node_i delta unvisited s).state.q_mutables_ j =
      s.q_mutables_ j := by
  induction fuel generalizing tq r_node_i delta unvisited s with
  | zero => simp [Pair_]
  | succ fuel ih =>
    have hroot : j ≠ tq.root := fun h => hj (h ▸ List.mem_cons_self _ _)
    have htrans : ∀ a b c : State G, b.q_mutables_ j = a.q_mutables_ j →
        c.q_mutables_ j = b.q_mutables_ j → c.q_mutables_ j = a.q_mutables_ j :=
      fun a b c h1 h2 => h2.trans h1
    have hcommit : (Pair_committed E tq.root r_node_i delta unvisited s).q_mutables_ j =
        s.q_mutables_ j := by
      simp [Pair_committed, State.setPostponed_q_mutables_other _ hroot]
    apply Pair_succ_cases E fuel tq.root r_node_i delta unvisited s
      (fun o => o.state.q_mutables_ j = s.q_mutables_ j)
    · intro _
      simp [Pair_termination_pruned, State.setPostponed_q_mutables_other _ hroot,
        State.setSummary_q_mutables_other _ hroot]
    · intro _ _
      simp [Pair_extrinsic_pruned, State.setPostponed_q_mutables_other _ hroot]
    · intro _ _ _ _
      simp only [Outcome.state_done]
      rw [BaseCase_q_mutables_other _ _ _ _ _ hroot, hcommit]
    · intro _ hql
      obtain ⟨i, l, r, rfl, h0, h1, hl, hr2⟩ := hq.split_of_not_leaf hql
      have hjl : j ∉ l.indices := fun h => hj (by
        simp only [Shape.indices, Shape.descendants, Shape.root] at h ⊢
        simp only [List.mem_cons, List.mem_append] at h ⊢
        tauto)
      have hjr : j ∉ r.indices := fun h => hj (by
        simp only [Shape.indices, Shape.descendants, Shape.root] at h ⊢
        simp only [List.mem_cons, List.mem_append] at h ⊢
        tauto)
      have hjl0 : j ≠ l.root := fun h => hjl (h ▸ List.mem_cons_self _ _)
      have hjr0 : j ≠ r.root := fun h => hjr (h ▸ List.mem_cons_self _ _)
      have hc : ∀ (k : Nat) (t : Shape), Represents E.q_nodes_ t → j ∉ t.indices →
          (E.q_nodes_ (Shape.split i l r).root).child k = t.root → ∀ s0,
          (SplitQChild E (Pair_ E fuel) (Shape.split i l r).root r_node_i delta unvisited k
            s0).state.q_mutables_ j = s0.q_mutables_ j := by
        intro k t ht hjt hk s0
        have hjt0 : j ≠ t.root := fun h => hjt (h ▸ List.mem_cons_self _ _)
        rw [SplitQChild_eq]
        refine Outcome.andThen_rel (fun a b : State G => b.q_mutables_ j = a.q_mutables_ j)
          htrans ?_ ?_
        · have hchk : (SplitQChild_checked E (Shape.split i l r).root r_node_i k
              s0).q_mutables_ j = s0.q_mutables_ j := by
            simp [SplitQChild_checked, hk, State.setPostponed_q_mutables_other _ hjt0]
          split
          · rw [hk]
            exact (ih t ht _ _ _ _ hjt).trans hchk
          · simpa using hchk
        · intro s1
          simp [SplitQChild_accumulated, State.setSummary_q_mutables_other _ hroot]
      rw [SplitQ_eq]
      refine htrans _ _ _ hcommit ?_
      refine htrans _ (SplitQ_entered E (Shape.split i l r).root r_node_i
        (Pair_committed E (Shape.split i l r).root r_node_i delta unvisited s)) _ ?_ ?_
      · simp [SplitQ_entered, State.setSummary_q_mutables_other _ hroot]
      · refine Outcome.andThen_rel (fun a b : State G => b.q_mutables_ j = a.q_mutables_ j)
          htrans ?_ ?_
        · refine Outcome.andThen_rel (fun a b : State G => b.q_mutables_ j = a.q_mutables_ j)
            htrans ?_ ?_
          · exact hc 0 l hl hjl h0 _
          · intro s1
            exact hc 1 r hr2 hjr h1 s1
        · intro s1
          simp [SplitQ_finished, State.setPostponed_q_mutables_other _ hroot,
            State.setSummary_q_mutables_other _ hroot]
    · intro _ _
      have hpair : ∀ r d u s0, (Pair_ E fuel tq.root r d u s0).state.q_mutables_ j =
          s0.q_mutables_ j := fun r d u s0 => ih tq hq r d u s0 hj
      have hchk : (SplitR_checked E tq.root r_node_i
          (Pair_committed E tq.root r_node_i delta unvisited s)).q_mutables_ j =
            s.q_mutables_ j := by
        simp [SplitR_checked, State.setPostponed_q_mutables_other _ hroot, hcommit]
      rw [SplitR_eq]
      refine Outcome.andThen_rel (fun a b : State G => b.q_mutables_ j = a.q_mutables_ j)
        htrans (s := s) ?_ ?_
      · split
        · split
          · rw [hpair, hchk]
          · simpa using hchk
        · split
          · rw [hpair, hchk]
          · split
            · refine htrans _ _ _ hchk ?_
              exact Outcome.andThen_rel (fun a b : State G => b.q_mutables_ j = a.q_mutables_ j)
                htrans (hpair _ _ _ _) (fun s1 => hpair _ _ _ s1)
            · refine htrans _ _ _ hchk ?_
              exact Outcome.andThen_rel (fun a b : State G => b.q_mutables_ j = a.q_mutables_ j)
                htrans (hpair _ _ _ _) (fun s1 => hpair _ _ _ s1)
      · intro s1
        simp [SplitR_release]

end Frames

/-! ## The query split -/

section QuerySplit

variable {G : GNP}

theorem Shape.indices_split (i : Nat) (l r : Shape) :
    (Shape.split i l r).indices = i :: (l.indices ++ r.indices) := rfl

theorem Shape.root_mem_indices (t : Shape) : t.root ∈ t.indices :=
  List.mem_cons_self _ _

theorem Shape.nodup_split {i : Nat} {l r : Shape} (h : (Shape.split i l r).indices.Nodup) :
    i ∉ l.indices ∧ i ∉ r.indices ∧ (∀ j ∈ l.indices, j ∉ r.indices) ∧
      l.indices.Nodup ∧ r.indices.Nodup := by
  rw [Shape.indices_split, List.nodup_cons, List.nodup_append] at h
  obtain ⟨h1, h2, h3, h4⟩ := h
  refine ⟨fun hh => h1 (List.mem_append_left _ hh), fun hh => h1 (List.mem_append_right _ hh),
    fun j hj hj2 => h4 hj hj2, h2, h3⟩

/-- The run of a query split that returns: the explorations of the two
children end in states `s0` and `s1`, and the split ends with the two
accumulations and the final `FinishReaccumulate` and `Reset`.  Neither
exploration touches the `QMutables` of the parent or of the other child. -/
theorem SplitQ_run (E : Engine G) (fuel i : Nat) (l r : Shape) (r_node_i : Nat)
    (hq : Represents E.q_nodes_ (Shape.split i l r))
    (delta : G.Delta) (unvisited : G.QSummaryResult) (s sf : State G)
    (h : SplitQ E (Pair_ E fuel) i r_node_i delta unvisited s = Outcome.done sf) :
    ∃ s0 s1 mid0 mid1,
      sf = SplitQ_finished E i (SplitQChild_accumulated E i 1 s1) ∧
      s0.log = (SplitQChild_checked E i r_node_i 0 (SplitQ_entered E i r_node_i s)).log ++
        mid0 ∧
      s1.log = (SplitQChild_checked E i r_node_i 1 (SplitQChild_accumulated E i 0 s0)).log ++
        mid1 ∧
      (∀ j, j ∉ l.indices → s0.q_mutables_ j =
        (SplitQChild_checked E i r_node_i 0 (SplitQ_entered E i r_node_i s)).q_mutables_ j) ∧
      (∀ j, j ∉ r.indices → s1.q_mutables_ j =
        (SplitQChild_checked E i r_node_i 1 (SplitQChild_accumulated E i 0 s0)).q_mutables_
          j) := by
  obtain ⟨_, h0, h1, hl, hr⟩ := hq
  rw [SplitQ_eq] at h
  obtain ⟨sb, e1, e2⟩ := Outcome.andThen_eq_done.1 h
  obtain ⟨sa, e3, e4⟩ := Outcome.andThen_eq_done.1 e1
  rw [SplitQChild_eq] at e3 e4
  obtain ⟨s0, e5, e6⟩ := Outcome.andThen_eq_done.1 e3
  obtain ⟨s1, e7, e8⟩ := Outcome.andThen_eq_done.1 e4
  cases e2
  cases e6
  cases e8
  have key : ∀ (k : Nat) (t : Shape) (sx sy : State G), Represents E.q_nodes_ t →
      (E.q_nodes_ i).child k = t.root →
      (if (SplitQChild_intrinsic E i r_node_i k sx).explore = true then
        Pair_ E fuel ((E.q_nodes_ i).child k) r_node_i delta unvisited
          (SplitQChild_checked E i r_node_i k sx)
      else Outcome.done (SplitQChild_checked E i r_node_i k sx)) = Outcome.done sy →
      (∃ mid, sy.log = (SplitQChild_checked E i r_node_i k sx).log ++ mid) ∧
      ∀ j, j ∉ t.indices →
        sy.q_mutables_ j = (SplitQChild_checked E i r_node_i k sx).q_mutables_ j := by
    intro k t sx sy ht hk hy
    split at hy
    · rw [hk] at hy
      refine ⟨?_, ?_⟩
      · have := Pair_log_grows E fuel t.root r_node_i delta unvisited
          (SplitQChild_checked E i r_node_i k sx)
        rw [hy] at this
        obtain ⟨mid, hm⟩ := this
        exact ⟨mid, hm.symm⟩
      · intro j hj
        have := Pair_q_mutables_frame E fuel t ht r_node_i delta unvisited
          (SplitQChild_checked E i r_node_i k sx) j hj
        rw [hy] at this
        exact this
    · cases hy
      exact ⟨⟨[], by simp⟩, fun j _ => rfl⟩
  obtain ⟨⟨mid0, hm0⟩, hf0⟩ := key 0 l _ _ hl h0 e5
  obtain ⟨⟨mid1, hm1⟩, hf1⟩ := key 1 r _ _ hr h1 e7
  exact ⟨s0, s1, mid0, mid1, rfl, hm0, hm1, hf0, hf1⟩

theorem Pair_committed_postponed_root (E : Engine G) (q r : Nat) (delta : G.Delta)
    (unvisited : G.QSummaryResult) (s : State G) :
    ((Pair_committed E q r delta unvisited s).q_mutables_ q).postponed =
      (Pair_extrinsic E q r delta unvisited s).postponed := by
  simp [Pair_committed]

theorem Pair_committed_q_mutables_other (E : Engine G) (q r : Nat) (delta : G.Delta)
    (unvisited : G.QSummaryResult) (s : State G) {j : Nat} (h : j ≠ q) :
    (Pair_committed E q r delta unvisited s).q_mutables_ j = s.q_mutables_ j := by
  simp [Pair_committed, State.setPostponed_q_mutables_other _ h]

theorem Pair_committed_summary (E : Engine G) (q r : Nat) (delta : G.Delta)
    (unvisited : G.QSummaryResult) (s : State G) (j : Nat) :
    ((Pair_committed E q r delta unvisited s).q_mutables_ j).summary_result =
      (s.q_mutables_ j).summary_result := by
  simp [Pair_committed]

theorem SplitQ_entered_postponed (E : Engine G) (q r : Nat) (s : State G) (j : Nat) :
    ((SplitQ_entered E q r s).q_mutables_ j).postponed = (s.q_mutables_ j).postponed := by
  simp [SplitQ_entered]

theorem SplitQ_entered_q_mutables_other (E : Engine G) (q r : Nat) (s : State G) {j : Nat}
    (h : j ≠ q) : (SplitQ_entered E q r s).q_mutables_ j = s.q_mutables_ j := by
  simp [SplitQ_entered, State.setSummary_q_mutables_other _ h]

theorem SplitQ_entered_summary_root (E : Engine G) (q r : Nat) (s : State G) :
    ((SplitQ_entered E q r s).q_mutables_ q).summary_result =
      G.QSummaryResult_StartReaccumulate E.param_ (E.q_nodes_ q)
        (s.q_mutables_ q).summary_result := by
  simp [SplitQ_entered]

theorem SplitQChild_checked_q_mutables_other (E : Engine G) (q r k : Nat) (s : State G)
    {j : Nat} (h : j ≠ (E.q_nodes_ q).child k) :
    (SplitQChild_checked E q r k s).q_mutables_ j = s.q_mutables_ j := by
  simp [SplitQChild_checked, State.setPostponed_q_mutables_other _ h]

theorem SplitQChild_checked_summary (E : Engine G) (q r k : Nat) (s : State G) (j : Nat) :
    ((SplitQChild_checked E q r k s).q_mutables_ j).summary_result =
      (s.q_mutables_ j).summary_result := by
  simp [SplitQChild_checked]

theorem SplitQChild_checked_log (E : Engine G) (q r k : Nat) (s : State G) :
    (SplitQChild_checked E q r k s).log =
      s.log ++ [Event.ConsiderPairIntrinsic ((E.q_nodes_ q).child k) r
        (G.QPostponed_ApplyPostponed E.param_ (s.q_mutables_ q).postponed
          (s.q_mutables_ ((E.q_nodes_ q).child k)).postponed)
        (SplitQChild_intrinsic E q r k s).postponed
        (SplitQChild_intrinsic E q r k s).explore
        (SplitQChild_intrinsic E q r k s).delta] := by
  simp [SplitQChild_checked]

theorem SplitQChild_accumulated_postponed (E : Engine G) (q k : Nat) (s : State G)
    (j : Nat) :
    ((SplitQChild_accumulated E q k s).q_mutables_ j).postponed =
      (s.q_mutables_ j).postponed := by
  simp [SplitQChild_accumulated]

theorem SplitQChild_accumulated_q_mutables_other (E : Engine G) (q k : Nat) (s : State G)
    {j : Nat} (h : j ≠ q) :
    (SplitQChild_accumulated E q k s).q_mutables_ j = s.q_mutables_ j := by
  simp [SplitQChild_accumulated, State.setSummary_q_mutables_other _ h]

theorem SplitQ_finished_q_mutables_other (E : Engine G) (q : Nat) (s : State G)
    {j : Nat} (h : j ≠ q) : (SplitQ_finished E q s).q_mutables_ j = s.q_mutables_ j := by
  simp [SplitQ_finished, State.setSummary_q_mutables_other _ h,
    State.setPostponed_q_mutables_other _ h]

/-- C17: when `Pair_` splits a query node and returns, the intrinsic check on
each child is given the postponed of that child with the postponed `P` of the
parent applied, before the recursion into that child; `P`, the postponed the
parent has when the split starts, is the same for both children; and the
postponed of the parent ends as `Reset` of `P`. -/
theorem Pair_query_split_postponed (E : Engine G) (fuel i : Nat) (l r : Shape)
    (r_node_i : Nat) (hq : Represents E.q_nodes_ (Shape.split i l r))
    (hnd : (Shape.split i l r).indices.Nodup)
    (delta : G.Delta) (unvisited : G.QSummaryResult) (s : State G)
    (hs : Pair_splitsQ E i r_node_i delta unvisited s)
    (hret : (Pair_ E (fuel + 1) i r_node_i delta unvisited s).returned = true) :
    ∃ (c0 c1 : IntrinsicOut G.Delta G.GlobalResult G.QPostponed)
      (mid0 mid1 : List (Event G)),
      (Pair_ E (fuel + 1) i r_node_i delta unvisited s).state.log =
        (Pair_committed E i r_node_i delta unvisited s).log ++
          [Event.SplittingQ i r_node_i,
            Event.ConsiderPairIntrinsic l.root r_node_i
              (G.QPostponed_ApplyPostponed E.param_
                (Pair_extrinsic E i r_node_i delta unvisited s).postponed
                (s.q_mutables_ l.root).postponed)
              c0.postponed c0.explore c0.delta] ++ mid0 ++
          [Event.ConsiderPairIntrinsic r.root r_node_i
              (G.QPostponed_ApplyPostponed E.param_
                (Pair_extrinsic E i r_node_i delta unvisited s).postponed
                (s.q_mutables_ r.root).postponed)
              c1.postponed c1.explore c1.delta] ++ mid1 ∧
      ((Pair_ E (fuel + 1) i r_node_i delta unvisited s).state.q_mutables_ i).postponed =
        G.QPostponed_Reset E.param_ (Pair_extrinsic E i r_node_i delta unvisited s).postponed := by
  have hd := Outcome.eq_done_of_returned hret
  rw [Pair_eq_SplitQ E fuel i r_node_i delta unvisited s hs] at hd ⊢
  obtain ⟨s0, s1, mid0, mid1, hsf, hl0, hl1, hf0, hf1⟩ :=
    SplitQ_run E fuel i l r r_node_i hq delta unvisited _ _ hd
  obtain ⟨hil, hir, hdisj, _, _⟩ := Shape.nodup_split hnd
  obtain ⟨_, h0, h1, _, _⟩ := hq
  have hli : l.root ≠ i := fun h => hil (h ▸ l.root_mem_indices)
  have hri : r.root ≠ i := fun h => hir (h ▸ r.root_mem_indices)
  have hrl : r.root ∉ l.indices := fun h => hdisj _ h r.root_mem_indices
  have hrl0 : r.root ≠ l.root := fun h => hrl (h ▸ l.root_mem_indices)
  have hil0 : i ≠ l.root := fun h => hli h.symm
  have hir0 : i ≠ r.root := fun h => hri h.symm
  -- the postponed of the parent after the first child
  have hP0 : (s0.q_mutables_ i).postponed =
      (Pair_extrinsic E i r_node_i delta unvisited s).postponed := by
    rw [hf0 i hil, SplitQChild_checked_q_mutables_other _ _ _ _ _ (by rw [h0]; exact hil0),
      SplitQ_entered_postponed, Pair_committed_postponed_root]
  have hR0 : (s0.q_mutables_ r.root).postponed = (s.q_mutables_ r.root).postponed := by
    rw [hf0 _ hrl, SplitQChild_checked_q_mutables_other _ _ _ _ _ (by rw [h0]; exact hrl0),
      SplitQ_entered_postponed, Pair_committed_q_mutables_other _ _ _ _ _ _ hri]
  have hP1 : (s1.q_mutables_ i).postponed =
      (Pair_extrinsic E i r_node_i delta unvisited s).postponed := by
    rw [hf1 i hir, SplitQChild_checked_q_mutables_other _ _ _ _ _ (by rw [h1]; exact hir0),
      SplitQChild_accumulated_postponed, hP0]
  refine ⟨SplitQChild_intrinsic E i r_node_i 0
      (SplitQ_entered E i r_node_i (Pair_committed E i r_node_i delta unvisited s)),
    SplitQChild_intrinsic E i r_node_i 1 (SplitQChild_accumulated E i 0 s0), mid0, mid1,
    ?_, ?_⟩
  · rw [hsf]
    have e1 : (SplitQ_finished E i (SplitQChild_accumulated E i 1 s1)).log = s1.log := by
      simp [SplitQ_finished, SplitQChild_accumulated]
    have e2 : (SplitQChild_accumulated E i 0 s0).log = s0.log := by
      simp [SplitQChild_accumulated]
    have e3 : (SplitQ_entered E i r_node_i
        (Pair_committed E i r_node_i delta unvisited s)).log =
        (Pair_committed E i r_node_i delta unvisited s).log ++
          [Event.SplittingQ i r_node_i] := by
      simp [SplitQ_entered]
    rw [e1, hl1, SplitQChild_checked_log, e2, hl0, SplitQChild_checked_log, e3,
      SplitQChild_accumulated_postponed, SplitQChild_accumulated_postponed, hP0, h1, hR0, h0,
      SplitQ_entered_postponed, SplitQ_entered_postponed, Pair_committed_postponed_root,
      Pair_committed_q_mutables_other _ _ _ _ _ _ hli]
    simp [List.append_assoc]
  · rw [hsf]
    simp [SplitQ_finished, SplitQChild_accumulated_postponed, hP1]

theorem SplitQChild_accumulated_summary_root (E : Engine G) (q k : Nat) (s : State G) :
    ((SplitQChild_accumulated E q k s).q_mutables_ q).summary_result =
      G.QSummaryResult_AccumulateN E.param_
        (G.QSummaryResult_ApplyPostponed E.param_
          (s.q_mutables_ ((E.q_nodes_ q).child k)).postponed
          (E.q_nodes_ ((E.q_nodes_ q).child k))
          (s.q_mutables_ ((E.q_nodes_ q).child k)).summary_result)
        (E.q_nodes_ q).count (s.q_mutables_ q).summary_result := by
  simp [SplitQChild_accumulated]

theorem SplitQ_finished_summary_root (E : Engine G) (q : Nat) (s : State G) :
    ((SplitQ_finished E q s).q_mutables_ q).summary_result =
      G.QSummaryResult_FinishReaccumulate E.param_ (E.q_nodes_ q)
        (s.q_mutables_ q).summary_result := by
  simp [SplitQ_finished]

theorem SplitQ_entered_setSummary (E : Engine G) (q r : Nat) (s : State G)
    (v : G.QSummaryResult)
    (hreset : ∀ (n : Node G.QInfo) (a b : G.QSummaryResult),
      G.QSummaryResult_StartReaccumulate E.param_ n a =
        G.QSummaryResult_StartReaccumulate E.param_ n b) :
    SplitQ_entered E q r (s.setSummary q v) = SplitQ_entered E q r s := by
  unfold SplitQ_entered
  rw [hreset _ ((s.setSummary q v).q_mutables_ q).summary_result
    (s.q_mutables_ q).summary_result]
  simp [State.setSummary, State.emit]

/-- C16, amended: when `Pair_` splits a query node and returns, the summary
of the parent is `FinishReaccumulate` of the accumulation, into
`StartReaccumulate` applied to the summary the parent had before the split,
of the summary of child 0 and then of child 1, each with the postponed that
child is left with applied to it; this holds whichever way the intrinsic
checks on the children answered. The summary the parent had before the split
enters only as the receiver of `StartReaccumulate`: for a policy whose
`StartReaccumulate` discards its receiver, the split started from any other
summary of the parent proceeds identically. -/
theorem Pair_query_split_summary (E : Engine G) (fuel i : Nat) (l r : Shape)
    (r_node_i : Nat) (hq : Represents E.q_nodes_ (Shape.split i l r))
    (hnd : (Shape.split i l r).indices.Nodup)
    (delta : G.Delta) (unvisited : G.QSummaryResult) (s : State G)
    (hs : Pair_splitsQ E i r_node_i delta unvisited s)
    (hret : (Pair_ E (fuel + 1) i r_node_i delta unvisited s).returned = true) :
    (((Pair_ E (fuel + 1) i r_node_i delta unvisited s).state.q_mutables_ i).summary_result =
      G.QSummaryResult_FinishReaccumulate E.param_ (E.q_nodes_ i)
        (G.QSummaryResult_AccumulateN E.param_
          (G.QSummaryResult_ApplyPostponed E.param_
            ((Pair_ E (fuel + 1) i r_node_i delta unvisited s).state.q_mutables_
              r.root).postponed
            (E.q_nodes_ r.root)
            ((Pair_ E (fuel + 1) i r_node_i delta unvisited s).state.q_mutables_
              r.root).summary_result)
          (E.q_nodes_ i).count
          (G.QSummaryResult_AccumulateN E.param_
            (G.QSummaryResult_ApplyPostponed E.param_
              ((Pair_ E (fuel + 1) i r_node_i delta unvisited s).state.q_mutables_
                l.root).postponed
              (E.q_nodes_ l.root)
              ((Pair_ E (fuel + 1) i r_node_i delta unvisited s).state.q_mutables_
                l.root).summary_result)
            (E.q_nodes_ i).count
            (G.QSummaryResult_StartReaccumulate E.param_ (E.q_nodes_ i)
              (s.q_mutables_ i).summary_result)))) ∧
    ((∀ (n : Node G.QInfo) (a b : G.QSummaryResult),
        G.QSummaryResult_StartReaccumulate E.param_ n a =
          G.QSummaryResult_StartReaccumulate E.param_ n b) →
      ∀ v : G.QSummaryResult,
        SplitQ E (Pair_ E fuel) i r_node_i delta unvisited
            ((Pair_committed E i r_node_i delta unvisited s).setSummary i v) =
          Pair_ E (fuel + 1) i r_node_i delta unvisited s) := by
  refine ⟨?_, ?_⟩
  · have hd := Outcome.eq_done_of_returned hret
    rw [Pair_eq_SplitQ E fuel i r_node_i delta unvisited s hs] at hd ⊢
    obtain ⟨s0, s1, mid0, mid1, hsf, hl0, hl1, hf0, hf1⟩ :=
      SplitQ_run E fuel i l r r_node_i hq delta unvisited _ _ hd
    obtain ⟨hil, hir, hdisj, _, _⟩ := Shape.nodup_split hnd
    obtain ⟨_, h0, h1, _, _⟩ := hq
    have hli : l.root ≠ i := fun h => hil (h ▸ l.root_mem_indices)
    have hri : r.root ≠ i := fun h => hir (h ▸ r.root_mem_indices)
    have hlr : l.root ∉ r.indices := fun h => hdisj _ l.root_mem_indices h
    have hlr0 : l.root ≠ r.root := fun h => hlr (h ▸ r.root_mem_indices)
    have hil0 : i ≠ l.root := fun h => hli h.symm
    have hir0 : i ≠ r.root := fun h => hri h.symm
    have hS0 : (s0.q_mutables_ i).summary_result =
        G.QSummaryResult_StartReaccumulate E.param_ (E.q_nodes_ i)
          (s.q_mutables_ i).summary_result := by
      rw [hf0 i hil, SplitQChild_checked_q_mutables_other _ _ _ _ _ (by rw [h0]; exact hil0),
        SplitQ_entered_summary_root, Pair_committed_summary]
    have hS1 : (s1.q_mutables_ i).summary_result =
        G.QSummaryResult_AccumulateN E.param_
          (G.QSummaryResult_ApplyPostponed E.param_ (s0.q_mutables_ l.root).postponed
            (E.q_nodes_ l.root) (s0.q_mutables_ l.root).summary_result)
          (E.q_nodes_ i).count
          (G.QSummaryResult_StartReaccumulate E.param_ (E.q_nodes_ i)
            (s.q_mutables_ i).summary_result) := by
      rw [hf1 i hir, SplitQChild_checked_q_mutables_other _ _ _ _ _ (by rw [h1]; exact hir0),
        SplitQChild_accumulated_summary_root, h0, hS0]
    have hFl : (SplitQ_finished E i (SplitQChild_accumulated E i 1 s1)).q_mutables_ l.root =
        s0.q_mutables_ l.root := by
      rw [SplitQ_finished_q_mutables_other _ _ _ hli,
        SplitQChild_accumulated_q_mutables_other _ _ _ _ hli, hf1 _ hlr,
        SplitQChild_checked_q_mutables_other _ _ _ _ _ (by rw [h1]; exact hlr0),
        SplitQChild_accumulated_q_mutables_other _ _ _ _ hli]
    have hFr : (SplitQ_finished E i (SplitQChild_accumulated E i 1 s1)).q_mutables_ r.root =
        s1.q_mutables_ r.root := by
      rw [SplitQ_finished_q_mutables_other _ _ _ hri,
        SplitQChild_accumulated_q_mutables_other _ _ _ _ hri]
    rw [hsf, hFl, hFr, SplitQ_finished_summary_root, SplitQChild_accumulated_summary_root,
      h1, hS1]
  · intro hreset v
    rw [Pair_eq_SplitQ E fuel i r_node_i delta unvisited s hs, SplitQ_eq, SplitQ_eq,
      SplitQ_entered_setSummary E i r_node_i _ v hreset]

/-- Witness of C17: the four point query tree against a two point reference
leaf, with every test allowing exploration. -/
theorem Pair_query_split_postponed_witness :
    Pair_splitsQ (toyEngine toyExplore toyTree3 (toyTree1 2) false) 0 0 7 0
      (toyState toyExplore) ∧
    ∃ (c0 c1 : IntrinsicOut Nat Nat Nat) (mid0 mid1 : List (Event Toy)),
      (Pair_ (toyEngine toyExplore toyTree3 (toyTree1 2) false) (2 + 1) 0 0 7 0
          (toyState toyExplore)).state.log =
        (Pair_committed (toyEngine toyExplore toyTree3 (toyTree1 2) false) 0 0 7 0
            (toyState toyExplore)).log ++
          [Event.SplittingQ 0 0,
            Event.ConsiderPairIntrinsic 1 0
              (Toy.QPostponed_ApplyPostponed toyExplore
                (Pair_extrinsic (toyEngine toyExplore toyTree3 (toyTree1 2) false) 0 0 7 0
                  (toyState toyExplore)).postponed
                ((toyState toyExplore).q_mutables_ 1).postponed)
              c0.postponed c0.explore c0.delta] ++ mid0 ++
          [Event.ConsiderPairIntrinsic 2 0
              (Toy.QPostponed_ApplyPostponed toyExplore
                (Pair_extrinsic (toyEngine toyExplore toyTree3 (toyTree1 2) false) 0 0 7 0
                  (toyState toyExplore)).postponed
                ((toyState toyExplore).q_mutables_ 2).postponed)
              c1.postponed c1.explore c1.delta] ++ mid1 ∧
      ((Pair_ (toyEngine toyExplore toyTree3 (toyTree1 2) false) (2 + 1) 0 0 7 0
          (toyState toyExplore)).state.q_mutables_ 0).postponed =
        Toy.QPostponed_Reset toyExplore
          (Pair_extrinsic (toyEngine toyExplore toyTree3 (toyTree1 2) false) 0 0 7 0
            (toyState toyExplore)).postponed :=
  ⟨⟨rfl, rfl, rfl, rfl⟩,
    Pair_query_split_postponed (toyEngine toyExplore toyTree3 (toyTree1 2) false) 2 0
      (Shape.leaf 1) (Shape.leaf 2) 0 ⟨rfl, rfl, rfl, rfl, rfl⟩ (by decide) 7 0
      (toyState toyExplore) ⟨rfl, rfl, rfl, rfl⟩
      (Pair_returns (toyEngine toyExplore toyTree3 (toyTree1 2) false) (2 + 1)
        (Shape.split 0 (Shape.leaf 1) (Shape.leaf 2)) (Shape.leaf 0)
        ⟨rfl, rfl, rfl, rfl, rfl⟩ rfl (by decide) 7 0 (toyState toyExplore))⟩

/-- Witness of C16: the four point query tree against a two point reference
leaf, with every test allowing exploration. -/
theorem Pair_query_split_summary_witness :
    Pair_splitsQ (toyEngine toyExplore toyTree3 (toyTree1 2) false) 0 0 7 0
      (toyState toyExplore) ∧
    (Pair_ (toyEngine toyExplore toyTree3 (toyTree1 2) false) (2 + 1) 0 0 7 0
      (toyState toyExplore)).returned = true ∧
    (∀ v : Nat,
      SplitQ (toyEngine toyExplore toyTree3 (toyTree1 2) false)
          (Pair_ (toyEngine toyExplore toyTree3 (toyTree1 2) false) 2) 0 0 7 0
          ((Pair_committed (toyEngine toyExplore toyTree3 (toyTree1 2) false) 0 0 7 0
            (toyState toyExplore)).setSummary 0 v) =
        Pair_ (toyEngine toyExplore toyTree3 (toyTree1 2) false) (2 + 1) 0 0 7 0
          (toyState toyExplore)) :=
  ⟨⟨rfl, rfl, rfl, rfl⟩,
    Pair_returns (toyEngine toyExplore toyTree3 (toyTree1 2) false) (2 + 1)
      (Shape.split 0 (Shape.leaf 1) (Shape.leaf 2)) (Shape.leaf 0)
      ⟨rfl, rfl, rfl, rfl, rfl⟩ rfl (by decide) 7 0 (toyState toyExplore),
    (Pair_query_split_summary (toyEngine toyExplore toyTree3 (toyTree1 2) false) 2 0
      (Shape.leaf 1) (Shape.leaf 2) 0 ⟨rfl, rfl, rfl, rfl, rfl⟩ (by decide) 7 0
      (toyState toyExplore) ⟨rfl, rfl, rfl, rfl⟩
      (Pair_returns (toyEngine toyExplore toyTree3 (toyTree1 2) false) (2 + 1)
        (Shape.split 0 (Shape.leaf 1) (Shape.leaf 2)) (Shape.leaf 0)
        ⟨rfl, rfl, rfl, rfl, rfl⟩ rfl (by decide) 7 0 (toyState toyExplore))).2
      (fun _ _ _ => rfl)⟩

end QuerySplit

/-! ## Every pair is visited once -/

section VisitsOnce

variable {G : GNP}

theorem Shape.root_leaf (i : Nat) : (Shape.leaf i).root = i := rfl

theorem Shape.root_split (i : Nat) (l r : Shape) : (Shape.split i l r).root = i := rfl

theorem visitCount_append (q_i r_i : Nat) (a b : List (Event G)) :
    visitCount q_i r_i (a ++ b) = visitCount q_i r_i a + visitCount q_i r_i b := by
  simp [visitCount]

theorem visitCount_visits (q_i r_i q b c : Nat) :
    visitCount q_i r_i ((List.range' b c).map (fun r => (Event.VisitPair q r : Event G))) =
      if q = q_i ∧ b ≤ r_i ∧ r_i < b + c then 1 else 0 := by
  induction c generalizing b with
  | zero =>
    simp only [visitCount, List.range'_zero, List.map_nil, List.countP_nil]
    split_ifs <;> omega
  | succ c ih =>
    have ih2 := ih (b + 1)
    simp only [visitCount] at ih2 ⊢
    rw [List.range'_succ, List.map_cons, List.countP_cons, ih2]
    simp only [Event.isVisitPair]
    by_cases h1 : q = q_i <;> by_cases h2 : b = r_i <;> simp only [h1, h2] <;>
      split_ifs <;> simp_all <;> omega

theorem BaseCasePoint_visitCount (E : Engine G) (q_node_i r_node_i : Nat)
    (unvisited : G.QSummaryResult) (vs : G.PairVisitor × State G) (q q_i r_i : Nat)
    (hstart : ∀ pt i rn un res g v,
      (G.PairVisitor_StartVisitingQueryPoint E.param_ pt i rn un res g v).visit = true)
    (hpos : 0 < (E.r_nodes_ r_node_i).count)
    (hfit : (E.r_nodes_ r_node_i).count < 2 ^ E.index_bits) :
    visitCount q_i r_i (BaseCasePoint E q_node_i r_node_i unvisited vs q).2.log =
      visitCount q_i r_i vs.2.log +
        if q = q_i ∧ (E.r_nodes_ r_node_i).begin ≤ r_i ∧
          r_i < (E.r_nodes_ r_node_i).begin + (E.r_nodes_ r_node_i).count then 1 else 0 := by
  rw [BaseCasePoint_log, VisitQueryPoint_log, decr_of_pos hpos hfit]
  simp only [hstart, if_true]
  rw [visitCount_append, ← List.singleton_append, visitCount_append, visitCount_append,
    visitCount_visits]
  simp [visitCount, Event.isVisitPair, visitCount_append]

theorem BaseCase_visitCount (E : Engine G) (q_node_i r_node_i : Nat)
    (unvisited : G.QSummaryResult) (s : State G) (q_i r_i : Nat)
    (hstart : ∀ pt i rn un res g v,
      (G.PairVisitor_StartVisitingQueryPoint E.param_ pt i rn un res g v).visit = true)
    (hpos : 0 < (E.r_nodes_ r_node_i).count)
    (hfit : (E.r_nodes_ r_node_i).count < 2 ^ E.index_bits) :
    visitCount q_i r_i (BaseCase_ E q_node_i r_node_i unvisited s).log =
      visitCount q_i r_i s.log +
        pairOnce (E.q_nodes_ q_node_i) (E.r_nodes_ r_node_i) q_i r_i := by
  have hloop : ∀ (c b : Nat) (vs : G.PairVisitor × State G),
      visitCount q_i r_i
          ((List.range' b c).foldl (BaseCasePoint E q_node_i r_node_i unvisited) vs).2.log =
        visitCount q_i r_i vs.2.log +
          if (b ≤ q_i ∧ q_i < b + c) ∧ (E.r_nodes_ r_node_i).begin ≤ r_i ∧
            r_i < (E.r_nodes_ r_node_i).begin + (E.r_nodes_ r_node_i).count then 1 else 0 := by
    intro c
    induction c with
    | zero => intro b vs; simp
    | succ c ih =>
      intro b vs
      rw [List.range'_succ, List.foldl_cons, ih,
        BaseCasePoint_visitCount E q_node_i r_node_i unvisited vs b q_i r_i hstart hpos hfit]
      split_ifs <;> omega
  unfold BaseCase_
  simp only [State.setPostponed_log, State.setSummary_log, Node.end_sub_begin]
  rw [hloop]
  simp only [State.setSummary_log, State.emit_log, visitCount_append, pairOnce, Node.covers,
    Node.end_]
  simp [visitCount, Event.isVisitPair]

theorem Pair_committed_visitCount (E : Engine G) (q r : Nat) (delta : G.Delta)
    (unvisited : G.QSummaryResult) (s : State G) (q_i r_i : Nat) :
    visitCount q_i r_i (Pair_committed E q r delta unvisited s).log =
      visitCount q_i r_i s.log := by
  simp [Pair_committed, visitCount, Event.isVisitPair]

theorem SplitQ_entered_visitCount (E : Engine G) (q r : Nat) (s : State G) (q_i r_i : Nat) :
    visitCount q_i r_i (SplitQ_entered E q r s).log = visitCount q_i r_i s.log := by
  simp [SplitQ_entered, visitCount, Event.isVisitPair]

theorem SplitQChild_checked_visitCount (E : Engine G) (q r k : Nat) (s : State G)
    (q_i r_i : Nat) :
    visitCount q_i r_i (SplitQChild_checked E q r k s).log = visitCount q_i r_i s.log := by
  simp [SplitQChild_checked, visitCount, Event.isVisitPair]

theorem SplitQChild_accumulated_log (E : Engine G) (q k : Nat) (s : State G) :
    (SplitQChild_accumulated E q k s).log = s.log := by
  simp [SplitQChild_accumulated]

theorem SplitQ_finished_log (E : Engine G) (q : Nat) (s : State G) :
    (SplitQ_finished E q s).log = s.log := by
  simp [SplitQ_finished]

theorem SplitR_checked_visitCount (E : Engine G) (q r : Nat) (s : State G) (q_i r_i : Nat) :
    visitCount q_i r_i (SplitR_checked E q r s).log = visitCount q_i r_i s.log := by
  simp [SplitR_checked, visitCount, Event.isVisitPair]

theorem pairOnce_split_query {A B : Type} (p l r : Node A) (n : Node B) (q_i r_i : Nat)
    (h1 : l.begin = p.begin) (h2 : r.begin = l.end_) (h3 : r.end_ = p.end_) :
    pairOnce l n q_i r_i + pairOnce r n q_i r_i = pairOnce p n q_i r_i := by
  simp only [Node.end_] at h2 h3
  simp only [pairOnce, Node.covers, Node.end_, Bool.and_eq_true, decide_eq_true_eq]
  split_ifs <;> omega

theorem pairOnce_split_reference {A B : Type} (n : Node A) (p l r : Node B) (q_i r_i : Nat)
    (h1 : l.begin = p.begin) (h2 : r.begin = l.end_) (h3 : r.end_ = p.end_) :
    pairOnce n l q_i r_i + pairOnce n r q_i r_i = pairOnce n p q_i r_i := by
  simp only [Node.end_] at h2 h3
  simp only [pairOnce, Node.covers, Node.end_, Bool.and_eq_true, decide_eq_true_eq]
  split_ifs <;> omega

/-- Under a policy that never prunes, a `Pair_` invocation on two well-formed
trees returns and adds to the log exactly one `VisitPair` call for every pair
in the product of the ranges of the two nodes, and none for any other pair. -/
theorem Pair_visitCount (E : Engine G) (hnp : NeverPrunes G E.param_) (fuel : Nat)
    (tq tr : Shape) (hq : Represents E.q_nodes_ tq) (hr : Represents E.r_nodes_ tr)
    (hpq : Partitions E.q_nodes_ tq) (hpr : Partitions E.r_nodes_ tr)
    (hlr : LeavesNonEmpty E.r_nodes_ E.index_bits tr)
    (hf : tq.height + tr.height ≤ fuel) (delta : G.Delta) (unvisited : G.QSummaryResult)
    (s : State G) :
    ∃ sf, Pair_ E fuel tq.root tr.root delta unvisited s = Outcome.done sf ∧
      ∀ q_i r_i, visitCount q_i r_i sf.log =
        visitCount q_i r_i s.log +
          pairOnce (E.q_nodes_ tq.root) (E.r_nodes_ tr.root) q_i r_i := by
  obtain ⟨hcpi, hcqt, hcpe, hstart⟩ := hnp
  induction fuel generalizing tq tr delta unvisited s with
  | zero =>
    have := tq.height_pos
    omega
  | succ fuel ih =>
    apply Pair_succ_cases E fuel tq.root tr.root delta unvisited s
      (fun o => ∃ sf, o = Outcome.done sf ∧
        ∀ q_i r_i, visitCount q_i r_i sf.log =
          visitCount q_i r_i s.log +
            pairOnce (E.q_nodes_ tq.root) (E.r_nodes_ tr.root) q_i r_i)
    · intro h
      simp [Pair_termination, hcqt] at h
    · intro _ h
      simp [Pair_extrinsic, hcpe] at h
    · intro _ _ _ hrl
      obtain ⟨j, rfl⟩ := hr.leaf_of_is_leaf hrl
      simp only [Shape.root_leaf, Shape.root_split]
      refine ⟨_, rfl, fun q_i r_i => ?_⟩
      rw [BaseCase_visitCount E _ _ _ _ q_i r_i hstart hlr.1 hlr.2, Pair_committed_visitCount]
    · intro _ hql
      obtain ⟨i, l, r, rfl, h0, h1, hl, hr2⟩ := hq.split_of_not_leaf hql
      obtain ⟨p1, p2, p3, hpl, hpr2⟩ := hpq
      have hh : max l.height r.height + 1 + tr.height ≤ fuel + 1 := hf
      have hl1 : l.height + tr.height ≤ fuel := by
        have := le_max_left l.height r.height
        omega
      have hr1 : r.height + tr.height ≤ fuel := by
        have := le_max_right l.height r.height
        omega
      simp only [Shape.root_leaf, Shape.root_split]
      obtain ⟨s0, e0, c0⟩ := ih l tr hl hr hpl hpr hlr hl1 delta unvisited
        (SplitQChild_checked E i tr.root 0
          (SplitQ_entered E i tr.root (Pair_committed E i tr.root delta unvisited s)))
      obtain ⟨s1, e1, c1⟩ := ih r tr hr2 hr hpr2 hpr hlr hr1 delta unvisited
        (SplitQChild_checked E i tr.root 1 (SplitQChild_accumulated E i 0 s0))
      refine ⟨SplitQ_finished E i (SplitQChild_accumulated E i 1 s1), ?_, fun q_i r_i => ?_⟩
      · rw [SplitQ_eq, SplitQChild_eq]
        simp only [SplitQChild_intrinsic, hcpi, if_true]
        rw [h0, e0]
        simp only [Outcome.andThen]
        rw [SplitQChild_eq]
        simp only [SplitQChild_intrinsic, hcpi, if_true]
        rw [h1, e1]
        simp only [Outcome.andThen]
      · rw [SplitQ_finished_log, SplitQChild_accumulated_log, c1,
          SplitQChild_checked_visitCount, SplitQChild_accumulated_log, c0,
          SplitQChild_checked_visitCount, SplitQ_entered_visitCount,
          Pair_committed_visitCount,
          ← pairOnce_split_query (E.q_nodes_ i) (E.q_nodes_ l.root) (E.q_nodes_ r.root)
            (E.r_nodes_ tr.root) q_i r_i p1 p2 p3]
        omega
    · intro _ hrl
      obtain ⟨i, l, r, rfl, h0, h1, hl, hr2⟩ := hr.split_of_not_leaf hrl
      obtain ⟨p1, p2, p3, hpl, hpr2⟩ := hpr
      obtain ⟨hll, hlr2⟩ := hlr
      have hh : tq.height + (max l.height r.height + 1) ≤ fuel + 1 := hf
      have hl1 : tq.height + l.height ≤ fuel := by
        have := le_max_left l.height r.height
        omega
      have hr1 : tq.height + r.height ≤ fuel := by
        have := le_max_right l.height r.height
        omega
      simp only [Shape.root_leaf, Shape.root_split]
      rw [SplitR_eq]
      have x1 : (SplitR_intrinsic1 E tq.root i
          (Pair_committed E tq.root i delta unvisited s)).explore = true := by
        simp [SplitR_intrinsic1, hcpi]
      have x2 : (SplitR_intrinsic2 E tq.root i
          (Pair_committed E tq.root i delta unvisited s)).explore = true := by
        simp [SplitR_intrinsic2, hcpi]
      simp only [x1, x2, Bool.true_eq_false, if_false, h0, h1]
      split
      · obtain ⟨s0, e0, c0⟩ := ih tq l hq hl hpq hpl hll hl1
          (SplitR_intrinsic1 E tq.root i (Pair_committed E tq.root i delta unvisited s)).delta
          (G.QSummaryResult_ApplyDelta E.param_
            (SplitR_intrinsic2 E tq.root i
              (Pair_committed E tq.root i delta unvisited s)).delta unvisited)
          (SplitR_checked E tq.root i (Pair_committed E tq.root i delta unvisited s))
        obtain ⟨s1, e1, c1⟩ := ih tq r hq hr2 hpq hpr2 hlr2 hr1
          (SplitR_intrinsic2 E tq.root i (Pair_committed E tq.root i delta unvisited s)).delta
          unvisited s0
        rw [e0]
        simp only [Outcome.andThen]
        rw [e1]
        refine ⟨_, rfl, fun q_i r_i => ?_⟩
        simp only [State.emit_log, visitCount_append]
        rw [c1, c0, SplitR_checked_visitCount, Pair_committed_visitCount,
          ← pairOnce_split_reference (E.q_nodes_ tq.root) (E.r_nodes_ i) (E.r_nodes_ l.root)
            (E.r_nodes_ r.root) q_i r_i p1 p2 p3]
        simp [visitCount, Event.isVisitPair]
        omega
      · obtain ⟨s0, e0, c0⟩ := ih tq r hq hr2 hpq hpr2 hlr2 hr1
          (SplitR_intrinsic2 E tq.root i (Pair_committed E tq.root i delta unvisited s)).delta
          (G.QSummaryResult_ApplyDelta E.param_
            (SplitR_intrinsic1 E tq.root i
              (Pair_committed E tq.root i delta unvisited s)).delta unvisited)
          (SplitR_checked E tq.root i (Pair_committed E tq.root i delta unvisited s))
        obtain ⟨s1, e1, c1⟩ := ih tq l hq hl hpq hpl hll hl1
          (SplitR_intrinsic1 E tq.root i (Pair_committed E tq.root i delta unvisited s)).delta
          unvisited s0
        rw [e0]
        simp only [Outcome.andThen]
        rw [e1]
        refine ⟨_, rfl, fun q_i r_i => ?_⟩
        simp only [State.emit_log, visitCount_append]
        rw [c1, c0, SplitR_checked_visitCount, Pair_committed_visitCount,
          ← pairOnce_split_reference (E.q_nodes_ tq.root) (E.r_nodes_ i) (E.r_nodes_ l.root)
            (E.r_nodes_ r.root) q_i r_i p1 p2 p3]
        simp [visitCount, Event.isVisitPair]
        omega

theorem visitCount_pushDown_calls (q_i r_i : Nat) (rest : List (Event G))
    (h : ∀ e ∈ rest, Event.isPushDownCall e = true) : visitCount q_i r_i rest = 0 := by
  unfold visitCount
  rw [List.countP_eq_zero]
  intro e he hv
  have := h e he
  cases e <;> simp_all [Event.isVisitPair, Event.isPushDownCall]

/-- C15: for well-formed trees (the children of every internal node cut its
range in two, every reference leaf holds at least one point) and a policy that
never prunes, `Begin_` with a recursion budget of at least the sum of the two
heights returns, and the calls it makes contain `VisitPair(q_i, r_i)` exactly
once for every pair in the product of the range of the query root and the
range of the reference root, and not at all for any other pair. -/
theorem Begin_visits_each_pair_once (E : Engine G) (fuel : Nat) (tq tr : Shape)
    (hq : Represents E.q_nodes_ tq) (hr : Represents E.r_nodes_ tr) (hr0 : tr.root = 0)
    (hpq : Partitions E.q_nodes_ tq) (hpr : Partitions E.r_nodes_ tr)
    (hlr : LeavesNonEmpty E.r_nodes_ E.index_bits tr)
    (hnp : NeverPrunes G E.param_) (hnaive : E.do_naive_ = false)
    (hf : tq.height + tr.height ≤ fuel) (s : State G) :
    (Begin_ E fuel tq.root s).returned = true ∧
    ∃ calls, (Begin_ E fuel tq.root s).state.log = s.log ++ calls ∧
      ∀ q_i r_i, visitCount q_i r_i calls =
        if ((E.q_nodes_ tq.root).covers q_i && (E.r_nodes_ 0).covers r_i) = true then 1
        else 0 := by
  refine ⟨Begin_returns E fuel tq tr hq hr hr0 hf s, ?_⟩
  obtain ⟨sp, ep, cp⟩ := Pair_visitCount E hnp fuel tq tr hq hr hpq hpr hlr hf
    (G.Algorithm_ConsiderPairIntrinsic E.param_ (E.q_nodes_ tq.root) E.r_root_ G.Delta_default
      s.global_result_ (s.q_mutables_ tq.root).postponed).delta
    (G.QSummaryResult_Init E.param_)
    (((s.setGlobal (G.Algorithm_ConsiderPairIntrinsic E.param_ (E.q_nodes_ tq.root) E.r_root_
        G.Delta_default s.global_result_ (s.q_mutables_ tq.root).postponed).global_result).setPostponed
      tq.root (G.Algorithm_ConsiderPairIntrinsic E.param_ (E.q_nodes_ tq.root) E.r_root_
        G.Delta_default s.global_result_ (s.q_mutables_ tq.root).postponed).postponed).emit
      (.ConsiderPairIntrinsic tq.root 0 (s.q_mutables_ tq.root).postponed
        (G.Algorithm_ConsiderPairIntrinsic E.param_ (E.q_nodes_ tq.root) E.r_root_
          G.Delta_default s.global_result_ (s.q_mutables_ tq.root).postponed).postponed
        (G.Algorithm_ConsiderPairIntrinsic E.param_ (E.q_nodes_ tq.root) E.r_root_
          G.Delta_default s.global_result_ (s.q_mutables_ tq.root).postponed).explore
        (G.Algorithm_ConsiderPairIntrinsic E.param_ (E.q_nodes_ tq.root) E.r_root_
          G.Delta_default s.global_result_ (s.q_mutables_ tq.root).postponed).delta))
  rw [hr0] at ep cp
  have hg : ∀ d u s1, Pair_ E fuel tq.root 0 d u s1 = Outcome.done sp →
      ∃ mid, s1.log ++ mid = sp.log := by
    intro d u s1 e
    have h := Pair_log_grows E fuel tq.root 0 d u s1
    rw [e] at h
    exact h
  obtain ⟨mid, hmid⟩ := hg _ _ _ ep
  have hb : Begin_ E fuel tq.root s = PushDownPostprocess_ E fuel tq.root sp := by
    have ep2 := ep
    simp only [hnp.1] at ep2
    unfold Begin_
    simp only [hnp.1, hnaive, if_true, Bool.false_eq_true, if_false]
    rw [ep2]
    rfl
  obtain ⟨rest, erest, hrest⟩ := PushDown_log_calls E fuel tq.root sp
  rw [hb, erest, ← hmid]
  simp only [State.emit_log, State.setPostponed_log, State.setGlobal_log, List.append_assoc]
  refine ⟨_, rfl, fun q_i r_i => ?_⟩
  have c := cp q_i r_i
  rw [← hmid] at c
  simp only [State.emit_log, State.setPostponed_log, State.setGlobal_log, visitCount_append,
    pairOnce] at c
  simp only [visitCount_append, visitCount_pushDown_calls q_i r_i rest hrest]
  have z : visitCount q_i r_i [(Event.ConsiderPairIntrinsic tq.root 0
      (s.q_mutables_ tq.root).postponed
      (G.Algorithm_ConsiderPairIntrinsic E.param_ (E.q_nodes_ tq.root) E.r_root_
        G.Delta_default s.global_result_ (s.q_mutables_ tq.root).postponed).postponed
      (G.Algorithm_ConsiderPairIntrinsic E.param_ (E.q_nodes_ tq.root) E.r_root_
        G.Delta_default s.global_result_ (s.q_mutables_ tq.root).postponed).explore
      (G.Algorithm_ConsiderPairIntrinsic E.param_ (E.q_nodes_ tq.root) E.r_root_
        G.Delta_default s.global_result_ (s.q_mutables_ tq.root).postponed).delta :
        Event G)] = 0 := rfl
  rw [z] at c ⊢
  omega

/-- Witness of C15: the four point tree with one split as query tree and as
reference tree, with every test allowing exploration. -/
theorem Begin_visits_each_pair_once_witness :
    NeverPrunes Toy (toyEngine toyExplore toyTree3 toyTree3 false).param_ ∧
    (Begin_ (toyEngine toyExplore toyTree3 toyTree3 false) 4 0
      (toyState toyExplore)).returned = true ∧
    ∃ calls, (Begin_ (toyEngine toyExplore toyTree3 toyTree3 false) 4 0
        (toyState toyExplore)).state.log = (toyState toyExplore).log ++ calls ∧
      ∀ q_i r_i, visitCount q_i r_i calls =
        if ((toyTree3 0).covers q_i && (toyTree3 0).covers r_i) = true then 1 else 0 :=
  ⟨⟨fun _ _ _ _ _ => rfl, fun _ _ _ _ => rfl, fun _ _ _ _ _ _ => rfl,
      fun _ _ _ _ _ _ _ => rfl⟩,
    Begin_visits_each_pair_once (toyEngine toyExplore toyTree3 toyTree3 false) 4
      (Shape.split 0 (Shape.leaf 1) (Shape.leaf 2))
      (Shape.split 0 (Shape.leaf 1) (Shape.leaf 2))
      ⟨rfl, rfl, rfl, rfl, rfl⟩ ⟨rfl, rfl, rfl, rfl, rfl⟩ rfl
      ⟨rfl, rfl, rfl, trivial, trivial⟩ ⟨rfl, rfl, rfl, trivial, trivial⟩
      ⟨⟨by decide, by decide⟩, ⟨by decide, by decide⟩⟩
      ⟨fun _ _ _ _ _ => rfl, fun _ _ _ _ => rfl, fun _ _ _ _ _ _ => rfl,
        fun _ _ _ _ _ _ _ => rfl⟩
      rfl (by decide) (toyState toyExplore)⟩

end VisitsOnce

/-! ## The push-down sweep -/

section PushDownSweep

variable {G : GNP}

theorem PushDownPoints_run (E : Engine G) (q_node_i : Nat) (l : List Nat) (s : State G) :
    (l.foldl (PushDownPoint E q_node_i) s).log =
        s.log ++ l.flatMap (fun q_i =>
          [Event.ApplyPostponed q_i (s.q_mutables_ q_node_i).postponed, Event.Postprocess q_i,
            Event.ApplyResult q_i]) ∧
      (l.foldl (PushDownPoint E q_node_i) s).q_mutables_ = s.q_mutables_ := by
  induction l generalizing s with
  | nil => simp
  | cons a l ih =>
    obtain ⟨h1, h2⟩ := ih (PushDownPoint E q_node_i s a)
    rw [List.foldl_cons, h1, h2, PushDownPoint_log, PushDownPoint_q_mutables]
    simp [List.flatMap_cons, List.append_assoc]

end PushDownSweep

/-! ## The multi-index table of SeriesExpansionAux -/

section SeriesExpansion

variable {G : GNP}

theorem mem_of_getElem?_some {α : Type} {l : List α} {p : Nat} {y : α}
    (h : l[p]? = some y) : y ∈ l := by
  rw [List.getElem?_eq_some] at h
  obtain ⟨h1, rfl⟩ := h
  exact List.getElem_mem h1

theorem choose_pascal (n r : Nat) :
    Nat.choose (n + 1) (r + 1) = Nat.choose n r + Nat.choose n (r + 1) :=
  Nat.choose_succ_succ n r

theorem compositions_length (k n : Nat) :
    (compositions k (n + 1)).length = Nat.choose (k + n) n := by
  induction k generalizing n with
  | zero => simp [compositions]
  | succ k ihk =>
    induction n with
    | zero => simp [compositions, ihk]
    | succ n ihn =>
      rw [compositions, List.length_append, List.length_map, List.length_map, ihk, ihn]
      have : k + 1 + (n + 1) = (k + 1 + n) + 1 := by omega
      rw [this, choose_pascal (k + 1 + n) n]
      have : k + (n + 1) = k + 1 + n := by omega
      rw [this]
      omega

theorem compositions_mem (k n : Nat) :
    ∀ x ∈ compositions k n, x.length = n ∧ x.sum = k := by
  induction k generalizing n with
  | zero =>
    intro x hx
    simp [compositions] at hx
    subst hx
    simp
  | succ k ihk =>
    induction n with
    | zero => intro x hx; simp [compositions] at hx
    | succ n ihn =>
      intro x hx
      rw [compositions, List.mem_append, List.mem_map, List.mem_map] at hx
      rcases hx with ⟨y, hy, rfl⟩ | ⟨y, hy, rfl⟩
      · obtain ⟨h1, h2⟩ := ihk (n + 1) y hy
        cases y with
        | nil => simp at h1
        | cons a rest =>
          simp only [incrHead, List.length_cons, List.sum_cons] at h1 h2 ⊢
          omega
      · obtain ⟨h1, h2⟩ := ihn y hy
        simp [h1, h2]

theorem position_replicate (n : Nat) : position (List.replicate n 0) = 0 := by
  induction n with
  | zero => rfl
  | succ n ih =>
    rw [List.replicate_succ, position, ih]
    simp [Nat.choose_eq_zero_of_lt]

theorem position_compositions (k n p : Nat) (x : List Nat)
    (h : (compositions k n)[p]? = some x) :
    position x + (compositions k n).length = Nat.choose (k + n) n + p := by
  induction k generalizing n p x with
  | zero =>
    simp only [compositions] at h ⊢
    cases p with
    | zero =>
      simp at h
      subst h
      simp [position_replicate]
    | succ p => simp at h
  | succ k ihk =>
    induction n generalizing p x with
    | zero => simp [compositions] at h
    | succ n ihn =>
      rw [compositions] at h ⊢
      rw [List.length_append, List.length_map, List.length_map]
      by_cases hp : p < (compositions k (n + 1)).length
      · rw [List.getElem?_append_left (by simpa using hp), List.getElem?_map] at h
        cases hy : (compositions k (n + 1))[p]? with
        | none => simp [hy] at h
        | some y =>
          simp only [hy, Option.map_some', Option.some.injEq] at h
          subst h
          have ih := ihk (n + 1) p y hy
          obtain ⟨h1, h2⟩ := compositions_mem k (n + 1) y (mem_of_getElem?_some hy)
          cases y with
          | nil => simp at h1
          | cons a rest =>
            simp only [List.length_cons, List.sum_cons] at h1 h2
            simp only [incrHead, position] at ih ⊢
            have hl : rest.length = n := by omega
            have e1 : a + 1 + rest.sum + rest.length = (k + n) + 1 := by omega
            have e2 : a + rest.sum + rest.length = k + n := by omega
            rw [e1, hl, choose_pascal (k + n) n]
            rw [e2, hl] at ih
            have e3 : k + 1 + (n + 1) = (k + (n + 1)) + 1 := by omega
            rw [e3, choose_pascal (k + (n + 1)) n]
            have e4 : k + (n + 1) = k + n + 1 := by omega
            rw [e4] at ih ⊢
            cases n with
            | zero =>
              simp [compositions] at ih ⊢
              omega
            | succ m =>
              rw [compositions_length (k + 1) m]
              rw [choose_pascal (k + (m + 1)) m]
              have e5 : k + 1 + m = k + (m + 1) := by omega
              rw [e5]
              omega
      · have hp2 : (compositions k (n + 1)).length ≤ p := by omega
        rw [List.getElem?_append_right (by simpa using hp2), List.getElem?_map] at h
        simp only [List.length_map] at h
        cases hy : (compositions (k + 1) n)[p - (compositions k (n + 1)).length]? with
        | none => simp [hy] at h
        | some y =>
          simp only [hy, Option.map_some', Option.some.injEq] at h
          subst h
          have ih := ihn _ y hy
          obtain ⟨h1, h2⟩ := compositions_mem (k + 1) n y (mem_of_getElem?_some hy)
          simp only [position, h1, h2, Nat.zero_add]
          have e3 : k + 1 + (n + 1) = (k + 1 + n) + 1 := by omega
          rw [e3, choose_pascal (k + 1 + n) n]
          omega

theorem tableUpTo_length (n K : Nat) :
    (tableUpTo (n + 1) K).length = Nat.choose (K + n + 1) (n + 1) := by
  induction K with
  | zero => simp [tableUpTo, compositions]
  | succ K ih =>
    rw [tableUpTo, List.length_append, ih, compositions_length]
    have e : K + 1 + n + 1 = (K + n + 1) + 1 := by omega
    rw [e, choose_pascal (K + n + 1) n]
    have e2 : K + 1 + n = K + n + 1 := by omega
    rw [e2]
    omega

theorem tableUpTo_position (n K idx : Nat) (x : List Nat)
    (h : (tableUpTo (n + 1) K)[idx]? = some x) : position x = idx := by
  induction K generalizing idx x with
  | zero =>
    have := position_compositions 0 (n + 1) idx x h
    simp [compositions] at this
    omega
  | succ K ih =>
    rw [tableUpTo] at h
    by_cases hp : idx < (tableUpTo (n + 1) K).length
    · rw [List.getElem?_append_left hp] at h
      exact ih idx x h
    · have hp2 : (tableUpTo (n + 1) K).length ≤ idx := by omega
      rw [List.getElem?_append_right hp2] at h
      have := position_compositions (K + 1) (n + 1) _ x h
      rw [compositions_length] at this
      rw [tableUpTo_length] at hp2 this
      have e : K + 1 + (n + 1) = (K + n + 1) + 1 := by omega
      rw [e, choose_pascal (K + n + 1) n] at this
      have e2 : K + 1 + n = K + n + 1 := by omega
      rw [e2] at this
      omega

theorem getD_append_length {α : Type} (pre : List α) (b : α) (rest : List α) (d : α) :
    (pre ++ b :: rest).getD pre.length d = b := by
  induction pre with
  | nil => rfl
  | cons a pre ih => simpa using ih

theorem sum_loop (pre x : List Nat) (a : Nat) :
    (List.range' pre.length x.length).foldl (fun acc j => acc + (pre ++ x).getD j 0) a =
      a + x.sum := by
  induction x generalizing pre a with
  | nil => simp
  | cons b rest ih =>
    have e : pre ++ b :: rest = (pre ++ [b]) ++ rest := by simp
    have ih2 := ih (pre ++ [b]) (a + b)
    rw [List.length_append, List.length_singleton, ← e] at ih2
    rw [List.length_cons, List.range'_succ, List.foldl_cons, getD_append_length, ih2]
    simp
    omega

theorem position_loop (pre x : List Nat) (idx : Nat) :
    ((List.range' pre.length x.length).foldl
      (fun (st : Nat × Nat) j =>
        (st.1 + SeriesExpansionAux.get_n_choose_k (st.2 + (pre ++ x).length - j - 1)
            ((pre ++ x).length - j),
          st.2 - (pre ++ x).getD j 0))
      (idx, x.sum)).1 = idx + position x := by
  induction x generalizing pre idx with
  | nil => simp [position]
  | cons b rest ih =>
    have e : pre ++ b :: rest = (pre ++ [b]) ++ rest := by simp
    have ih2 := ih (pre ++ [b])
      (idx + Nat.choose (b + rest.sum + rest.length) (rest.length + 1))
    rw [List.length_append pre [b], List.length_singleton, ← e] at ih2
    rw [List.length_cons, List.range'_succ, List.foldl_cons]
    have e1 : (pre ++ b :: rest).getD pre.length 0 = b := getD_append_length pre b rest 0
    have e2 : (pre ++ b :: rest).length - pre.length = rest.length + 1 := by simp
    have e3 : (b :: rest).sum + (pre ++ b :: rest).length - pre.length - 1 =
        b + rest.sum + rest.length := by
      simp
      omega
    have e4 : (b :: rest).sum - b = rest.sum := by simp
    simp only [e1, e2, e3, e4, SeriesExpansionAux.get_n_choose_k,
      SeriesExpansionAux.nchoosek] at ih2 ⊢
    rw [ih2, position]
    omega

theorem ComputeMultiindexPosition_eq (x : List Nat) :
    SeriesExpansionAux.ComputeMultiindexPosition x = position x := by
  unfold SeriesExpansionAux.ComputeMultiindexPosition
  have h1 := sum_loop [] x 0
  have h2 := position_loop [] x 0
  simp only [List.length_nil, List.nil_append, Nat.zero_add] at h1 h2
  simp only [List.range_eq_range']
  rw [h1, h2]

theorem Init_inner_loop (i : Nat) (T : List (List Nat)) (js : List Nat)
    (hjs : ∀ j ∈ js, j < T.length) (extra : List (List Nat)) :
    js.foldl (fun tb j => tb ++ [SeriesExpansionAux.Init_entry tb i j]) (T ++ extra) =
      T ++ extra ++ js.map (fun j => incrAt i (T.getD j [])) := by
  induction js generalizing extra with
  | nil => simp
  | cons j js ih =>
    have hj := hjs j (List.mem_cons_self _ _)
    have e : SeriesExpansionAux.Init_entry (T ++ extra) i j = incrAt i (T.getD j []) := by
      unfold SeriesExpansionAux.Init_entry incrAt
      rw [List.getD_append _ _ _ _ hj]
    rw [List.foldl_cons, e, List.append_assoc,
      ih (fun j2 h => hjs j2 (List.mem_cons_of_mem _ h))]
    simp

theorem drop_eq_map_range (T : List (List Nat)) (h : Nat) :
    T.drop h = (List.range' h (T.length - h)).map (fun j => T.getD j []) := by
  apply List.ext_getElem
  · simp
  · intro n h1 h2
    have h3 : h + n < T.length := by
      simp at h1
      omega
    simp [List.getD_eq_getElem?_getD, List.getElem?_eq_getElem h3]

theorem incrAt_padded (i : Nat) (x : List Nat) :
    incrAt i (List.replicate i 0 ++ x) = List.replicate i 0 ++ incrHead x := by
  induction i with
  | zero =>
    cases x with
    | nil => rfl
    | cons a r => rfl
  | succ i ih =>
    unfold incrAt at ih ⊢
    rw [List.replicate_succ, List.cons_append, List.set_cons_succ]
    simp only [List.getD_cons_succ]
    rw [ih]
    rfl

theorem range_split (i dim : Nat) (h : i ≤ dim) :
    List.range dim = List.range i ++ List.range' i (dim - i) := by
  rw [List.range_eq_range', List.range_eq_range']
  have := List.range'_append 0 i (dim - i) 1
  simp only [Nat.zero_add, Nat.one_mul] at this
  rw [this]
  congr 1
  omega

theorem Init_phases (T : List (List Nat)) (heads : List Nat) (n : Nat) :
    ((List.range n).foldl (SeriesExpansionAux.Init_phase T.length)
        { heads := heads, multiindex_mapping_ := T }).multiindex_mapping_ =
      T ++ (List.range n).flatMap (fun i => (T.drop (heads.getD i 0)).map (incrAt i)) ∧
    ((List.range n).foldl (SeriesExpansionAux.Init_phase T.length)
        { heads := heads, multiindex_mapping_ := T }).heads.length = heads.length ∧
    (∀ j, n ≤ j →
      ((List.range n).foldl (SeriesExpansionAux.Init_phase T.length)
        { heads := heads, multiindex_mapping_ := T }).heads.getD j 0 = heads.getD j 0) ∧
    (∀ j, j < n → j < heads.length →
      ((List.range n).foldl (SeriesExpansionAux.Init_phase T.length)
        { heads := heads, multiindex_mapping_ := T }).heads.getD j 0 =
        (T ++ (List.range j).flatMap
          (fun i => (T.drop (heads.getD i 0)).map (incrAt i))).length) := by
  induction n with
  | zero => simp
  | succ n ih =>
    obtain ⟨h1, h2, h3, h4⟩ := ih
    rw [List.range_succ, List.foldl_append, List.foldl_cons, List.foldl_nil]
    generalize (List.range n).foldl (SeriesExpansionAux.Init_phase T.length)
        { heads := heads, multiindex_mapping_ := T } = st at h1 h2 h3 h4
    refine ⟨?_, ?_, ?_, ?_⟩
    · unfold SeriesExpansionAux.Init_phase
      simp only []
      rw [h1, Init_inner_loop n T _ (by
        intro j hj
        rw [List.mem_range'_1] at hj
        omega), h3 n (le_refl n), List.flatMap_append, List.append_assoc]
      congr 2
      simp only [List.flatMap_cons, List.flatMap_nil, List.append_nil]
      rw [drop_eq_map_range, List.map_map]
      rfl
    · simp [SeriesExpansionAux.Init_phase, h2]
    · intro j hj
      have hne : n ≠ j := by omega
      simp only [SeriesExpansionAux.Init_phase, List.getD_eq_getElem?_getD,
        List.getElem?_set_ne hne]
      have := h3 j (by omega)
      simpa [List.getD_eq_getElem?_getD] using this
    · intro j hj hjl
      by_cases hjn : j = n
      · subst hjn
        simp only [SeriesExpansionAux.Init_phase, List.getD_eq_getElem?_getD]
        rw [List.getElem?_set_self (by omega)]
        simp [h1]
      · have hne : n ≠ j := fun h => hjn h.symm
        simp only [SeriesExpansionAux.Init_phase, List.getD_eq_getElem?_getD,
          List.getElem?_set_ne hne]
        have := h4 j (by omega) hjl
        simpa [List.getD_eq_getElem?_getD] using this

theorem padded_zero (l : List (List Nat)) : padded 0 l = l := by
  simp [padded]

theorem phases_compositions (dim k : Nat) (n i : Nat) (h : i + n = dim) :
    (List.range' i n).flatMap
        (fun j => (padded j (compositions k (dim - j))).map (incrAt j)) =
      padded i (compositions (k + 1) n) := by
  induction n generalizing i with
  | zero => simp [compositions, padded]
  | succ n ih =>
    have e1 : dim - i = n + 1 := by omega
    rw [List.range'_succ, List.flatMap_cons, ih (i + 1) (by omega), e1, compositions]
    simp only [padded, List.map_append, List.map_map]
    congr 1
    · apply List.map_congr_left
      intro x _
      exact incrAt_padded i x
    · apply List.map_congr_left
      intro x _
      simp [List.replicate_succ']

/-- The state of `Init` after the orders up to `k`: the table holds the
multi-indices of order at most `k`, and from `heads[i]` on it holds those of
order `k` whose components before `i` are zero. -/
theorem Init_invariant (dim K : Nat) :
    (SeriesExpansionAux.Init K dim).multiindex_mapping_ = tableUpTo dim K ∧
    (SeriesExpansionAux.Init K dim).heads.length = dim + 1 ∧
    ∀ i, i < dim →
      (SeriesExpansionAux.Init K dim).multiindex_mapping_.drop
          ((SeriesExpansionAux.Init K dim).heads.getD i 0) =
        padded i (compositions K (dim - i)) := by
  induction K with
  | zero =>
    refine ⟨by simp [SeriesExpansionAux.Init, tableUpTo, compositions], by
      simp [SeriesExpansionAux.Init], ?_⟩
    intro i hi
    have e : (List.replicate dim 0 ++ [2147483647]).getD i 0 = 0 := by
      rw [List.getD_append _ _ _ _ (by simpa using hi)]
      simp [List.getD_eq_getElem?_getD, List.getElem?_replicate, hi]
    simp only [SeriesExpansionAux.Init, List.range_zero, List.foldl_nil, e, List.drop_zero,
      padded, compositions, List.map_cons, List.map_nil]
    rw [← List.replicate_add]
    congr 2
    omega
  | succ K ih =>
    obtain ⟨h1, h2, h3⟩ := ih
    have estep : SeriesExpansionAux.Init (K + 1) dim =
        SeriesExpansionAux.Init_order dim (SeriesExpansionAux.Init K dim) := by
      simp [SeriesExpansionAux.Init, List.range_succ, List.foldl_append]
    rw [estep]
    generalize SeriesExpansionAux.Init K dim = st at h1 h2 h3
    obtain ⟨heads, T⟩ := st
    simp only at h1 h2 h3
    obtain ⟨p1, p2, _, p4⟩ := Init_phases T heads dim
    unfold SeriesExpansionAux.Init_order
    simp only []
    have hseg : ∀ (i n : Nat), i + n = dim →
        (List.range' i n).flatMap (fun j => (T.drop (heads.getD j 0)).map (incrAt j)) =
          padded i (compositions (K + 1) n) := by
      intro i n hin
      rw [← phases_compositions dim K n i hin]
      apply List.flatMap_congr
      intro j hj
      rw [List.mem_range'_1] at hj
      rw [h3 j (by omega)]
    refine ⟨?_, ?_, ?_⟩
    · rw [p1, List.range_eq_range', hseg 0 dim (by omega), padded_zero, tableUpTo, h1]
    · rw [p2, h2]
    · intro i hi
      rw [p4 i hi (by omega), p1]
      have hs := range_split i dim (by omega)
      rw [hs, List.flatMap_append, ← List.append_assoc, List.drop_left,
        hseg i (dim - i) (by omega)]

/-- C14: for `dim >= 1`, the table `multiindex_mapping_` built by
`Init(max_order, dim)` has `C(max_order + dim, dim)` entries, and
`ComputeMultiindexPosition` of the entry at position `i` is `i`, for every
position `i` of the table. -/
theorem ComputeMultiindexPosition_inverse (max_order dim : Nat) (hdim : 1 ≤ dim) :
    (SeriesExpansionAux.Init max_order dim).multiindex_mapping_.length =
        SeriesExpansionAux.nchoosek (max_order + dim) dim ∧
    ∀ i, i < SeriesExpansionAux.nchoosek (max_order + dim) dim →
      SeriesExpansionAux.ComputeMultiindexPosition
        ((SeriesExpansionAux.Init max_order dim).multiindex_mapping_.getD i []) = i := by
  obtain ⟨n, rfl⟩ : ∃ n, dim = n + 1 := ⟨dim - 1, by omega⟩
  obtain ⟨h1, _, _⟩ := Init_invariant (n + 1) max_order
  have hlen : (tableUpTo (n + 1) max_order).length =
      SeriesExpansionAux.nchoosek (max_order + (n + 1)) (n + 1) := by
    rw [tableUpTo_length]
    rfl
  refine ⟨by rw [h1, hlen], ?_⟩
  intro i hi
  rw [h1, ComputeMultiindexPosition_eq]
  rw [← hlen] at hi
  apply tableUpTo_position n max_order i
  rw [List.getD_eq_getElem?_getD, List.getElem?_eq_getElem hi]
  rfl

/-- Witness of C14: order two in three dimensions. -/
theorem ComputeMultiindexPosition_inverse_witness :
    (SeriesExpansionAux.Init 2 3).multiindex_mapping_.length =
        SeriesExpansionAux.nchoosek (2 + 3) 3 ∧
    ∀ i, i < SeriesExpansionAux.nchoosek (2 + 3) 3 →
      SeriesExpansionAux.ComputeMultiindexPosition
        ((SeriesExpansionAux.Init 2 3).multiindex_mapping_.getD i []) = i :=
  ComputeMultiindexPosition_inverse 2 3 (by decide)

end SeriesExpansion

/-! ## Exactly-once delivery of postponed contributions -/

section TokenLedger

variable {G : GNP}

theorem ledger_append (μ : G.QPostponed → ℤ) (covers : Nat → Bool) (a b : List (Event G)) :
    ledger μ covers (a ++ b) = ledger μ covers a + ledger μ covers b := by
  simp [ledger]

theorem ledger_nil (μ : G.QPostponed → ℤ) (covers : Nat → Bool) :
    ledger μ covers ([] : List (Event G)) = 0 := rfl

theorem ledger_cons (μ : G.QPostponed → ℤ) (covers : Nat → Bool) (e : Event G)
    (l : List (Event G)) :
    ledger μ covers (e :: l) = Event.credit μ covers e + ledger μ covers l := by
  simp [ledger]

theorem ledger_of_calls (μ : G.QPostponed → ℤ) (covers : Nat → Bool) (P : Event G → Bool)
    (hP : ∀ e, P e = true → Event.credit μ covers e = 0) (rest : List (Event G))
    (h : ∀ e ∈ rest, P e = true) : ledger μ covers rest = 0 := by
  induction rest with
  | nil => rfl
  | cons e rest ih =>
    rw [ledger_cons, hP e (h e (List.mem_cons_self _ _)),
      ih (fun e2 h2 => h e2 (List.mem_cons_of_mem _ h2))]
    rfl

theorem pendingBelow_congr (E : Engine G) (μ : G.QPostponed → ℤ) (s1 s2 : State G) (q : Nat)
    (t : Shape)
    (h : ∀ n ∈ t.descendants, (s1.q_mutables_ n).postponed = (s2.q_mutables_ n).postponed) :
    pendingBelow E μ s1 q t = pendingBelow E μ s2 q t := by
  induction t with
  | leaf i => rfl
  | split i l r ihl ihr =>
    have hl : ∀ n ∈ l.descendants,
        (s1.q_mutables_ n).postponed = (s2.q_mutables_ n).postponed := fun n hn =>
      h n (by simp [Shape.descendants, hn])
    have hr : ∀ n ∈ r.descendants,
        (s1.q_mutables_ n).postponed = (s2.q_mutables_ n).postponed := fun n hn =>
      h n (by simp [Shape.descendants, hn])
    have hl0 := h l.root (by simp [Shape.descendants])
    have hr0 := h r.root (by simp [Shape.descendants])
    simp only [pendingBelow]
    rw [ihl hl, ihr hr, hl0, hr0]

theorem Keeps.keeps_refl (E : Engine G) (μ : G.QPostponed → ℤ) (ρ : G.QResult → ℤ) (q : Nat)
    (t : Shape) (s : State G) : Keeps E μ ρ q t s s :=
  ⟨fun _ => rfl, fun _ => ⟨rfl, rfl⟩⟩

theorem Keeps.keeps_trans {E : Engine G} {μ : G.QPostponed → ℤ} {ρ : G.QResult → ℤ} {q : Nat}
    {t : Shape} {a b c : State G} (h1 : Keeps E μ ρ q t a b) (h2 : Keeps E μ ρ q t b c) :
    Keeps E μ ρ q t a c := by
  refine ⟨fun hc => ?_, fun hc => ?_⟩
  · have e1 := h1.1 hc
    have e2 := h2.1 hc
    omega
  · obtain ⟨r1, l1⟩ := h1.2 hc
    obtain ⟨r2, l2⟩ := h2.2 hc
    exact ⟨r2.trans r1, l2.trans l1⟩

/-- A step that leaves the result of `q` and the postponed below the root as
they are, and changes the postponed of the root by what the tests it records
have added, keeps the conservation law. -/
theorem Keeps.keeps_of_root_step (E : Engine G) (μ : G.QPostponed → ℤ) (ρ : G.QResult → ℤ)
    (q : Nat) (t : Shape) (s sf : State G) (evs : List (Event G))
    (hres : sf.q_results_ q = s.q_results_ q)
    (hbelow : ∀ n ∈ t.descendants,
      (sf.q_mutables_ n).postponed = (s.q_mutables_ n).postponed)
    (hlog : sf.log = s.log ++ evs)
    (hin : (E.q_nodes_ t.root).covers q = true →
      μ (sf.q_mutables_ t.root).postponed - μ (s.q_mutables_ t.root).postponed =
        ledger μ (fun n => (E.q_nodes_ n).covers q) evs)
    (hout : (E.q_nodes_ t.root).covers q = false →
      ledger μ (fun n => (E.q_nodes_ n).covers q) evs = 0) :
    Keeps E μ ρ q t s sf := by
  refine ⟨fun hc => ?_, fun hc => ⟨hres, ?_⟩⟩
  · have := hin hc
    rw [hlog, ledger_append, hres, pending, pending, pendingBelow_congr E μ sf s q t hbelow]
    omega
  · rw [hlog, ledger_append, hout hc]
    omega

theorem Shape.root_not_mem_descendants {t : Shape} (h : t.indices.Nodup) :
    t.root ∉ t.descendants := (List.nodup_cons.1 h).1

theorem Pair_committed_keeps (E : Engine G) (μ : G.QPostponed → ℤ) (ρ : G.QResult → ℤ)
    (q : Nat) (t : Shape) (hnd : t.indices.Nodup) (r_node_i : Nat) (delta : G.Delta)
    (unvisited : G.QSummaryResult) (s : State G) :
    Keeps E μ ρ q t s (Pair_committed E t.root r_node_i delta unvisited s) := by
  refine Keeps.keeps_of_root_step E μ ρ q t s _
    [Event.Checking t.root r_node_i delta unvisited,
      Event.ConsiderQueryTermination t.root (s.q_mutables_ t.root).postponed
        (Pair_termination E t.root delta unvisited s).postponed
        (Pair_termination E t.root delta unvisited s).explore,
      Event.ConsiderPairExtrinsic t.root r_node_i
        (Pair_termination E t.root delta unvisited s).postponed
        (Pair_extrinsic E t.root r_node_i delta unvisited s).postponed
        (Pair_extrinsic E t.root r_node_i delta unvisited s).explore,
      Event.UndoDelta delta] ?_ ?_ ?_ ?_ ?_
  · simp [Pair_committed]
  · intro n hn
    have hne : n ≠ t.root := fun h => Shape.root_not_mem_descendants hnd (h ▸ hn)
    rw [Pair_committed_q_mutables_other _ _ _ _ _ _ hne]
  · simp [Pair_committed]
  · intro hc
    rw [Pair_committed_postponed_root]
    simp only [ledger, List.map_cons, List.map_nil, List.sum_cons, List.sum_nil,
      Event.credit, hc, if_true]
    omega
  · intro hc
    simp [ledger, Event.credit, hc]

theorem Pair_termination_pruned_keeps (E : Engine G) (μ : G.QPostponed → ℤ)
    (ρ : G.QResult → ℤ) (q : Nat) (t : Shape) (hnd : t.indices.Nodup) (r_node_i : Nat)
    (delta : G.Delta) (unvisited : G.QSummaryResult) (s : State G) :
    Keeps E μ ρ q t s (Pair_termination_pruned E t.root r_node_i delta unvisited s) := by
  refine Keeps.keeps_of_root_step E μ ρ q t s _
    [Event.Checking t.root r_node_i delta unvisited,
      Event.ConsiderQueryTermination t.root (s.q_mutables_ t.root).postponed
        (Pair_termination E t.root delta unvisited s).postponed
        (Pair_termination E t.root delta unvisited s).explore,
      Event.TerminationPrune t.root r_node_i] ?_ ?_ ?_ ?_ ?_
  · simp [Pair_termination_pruned]
  · intro n hn
    have hne : n ≠ t.root := fun h => Shape.root_not_mem_descendants hnd (h ▸ hn)
    simp [Pair_termination_pruned, State.setPostponed_postponed_other _ hne]
  · simp [Pair_termination_pruned]
  · intro hc
    simp only [ledger, List.map_cons, List.map_nil, List.sum_cons, List.sum_nil,
      Event.credit, hc, if_true]
    simp [Pair_termination_pruned]
  · intro hc
    simp [ledger, Event.credit, hc]

theorem Pair_extrinsic_pruned_keeps (E : Engine G) (μ : G.QPostponed → ℤ)
    (ρ : G.QResult → ℤ) (q : Nat) (t : Shape) (hnd : t.indices.Nodup) (r_node_i : Nat)
    (delta : G.Delta) (unvisited : G.QSummaryResult) (s : State G) :
    Keeps E μ ρ q t s (Pair_extrinsic_pruned E t.root r_node_i delta unvisited s) := by
  refine Keeps.keeps_of_root_step E μ ρ q t s _
    [Event.Checking t.root r_node_i delta unvisited,
      Event.ConsiderQueryTermination t.root (s.q_mutables_ t.root).postponed
        (Pair_termination E t.root delta unvisited s).postponed
        (Pair_termination E t.root delta unvisited s).explore,
      Event.ConsiderPairExtrinsic t.root r_node_i
        (Pair_termination E t.root delta unvisited s).postponed
        (Pair_extrinsic E t.root r_node_i delta unvisited s).postponed
        (Pair_extrinsic E t.root r_node_i delta unvisited s).explore,
      Event.ExtrinsicPrune t.root r_node_i] ?_ ?_ ?_ ?_ ?_
  · simp [Pair_extrinsic_pruned]
  · intro n hn
    have hne : n ≠ t.root := fun h => Shape.root_not_mem_descendants hnd (h ▸ hn)
    simp [Pair_extrinsic_pruned, State.setPostponed_postponed_other _ hne]
  · simp [Pair_extrinsic_pruned]
  · intro hc
    simp only [ledger, List.map_cons, List.map_nil, List.sum_cons, List.sum_nil,
      Event.credit, hc, if_true]
    simp [Pair_extrinsic_pruned]
  · intro hc
    simp [ledger, Event.credit, hc]

theorem SplitR_checked_keeps (E : Engine G) (μ : G.QPostponed → ℤ)
    (ρ : G.QResult → ℤ) (q : Nat) (t : Shape) (hnd : t.indices.Nodup) (r_node_i : Nat)
    (s : State G) :
    Keeps E μ ρ q t s (SplitR_checked E t.root r_node_i s) := by
  refine Keeps.keeps_of_root_step E μ ρ q t s _
    [Event.SplittingR t.root r_node_i, Event.StartRead ((E.r_nodes_ r_node_i).child 0),
      Event.StartRead ((E.r_nodes_ r_node_i).child 1),
      Event.ConsiderPairIntrinsic t.root ((E.r_nodes_ r_node_i).child 0)
        (s.q_mutables_ t.root).postponed (SplitR_intrinsic1 E t.root r_node_i s).postponed
        (SplitR_intrinsic1 E t.root r_node_i s).explore
        (SplitR_intrinsic1 E t.root r_node_i s).delta,
      Event.ConsiderPairIntrinsic t.root ((E.r_nodes_ r_node_i).child 1)
        (SplitR_intrinsic1 E t.root r_node_i s).postponed
        (SplitR_intrinsic2 E t.root r_node_i s).postponed
        (SplitR_intrinsic2 E t.root r_node_i s).explore
        (SplitR_intrinsic2 E t.root r_node_i s).delta] ?_ ?_ ?_ ?_ ?_
  · simp [SplitR_checked]
  · intro n hn
    have hne : n ≠ t.root := fun h => Shape.root_not_mem_descendants hnd (h ▸ hn)
    simp [SplitR_checked, State.setPostponed_postponed_other _ hne]
  · simp [SplitR_checked]
  · intro hc
    simp only [ledger, List.map_cons, List.map_nil, List.sum_cons, List.sum_nil,
      Event.credit, hc, if_true]
    simp [SplitR_checked]
  · intro hc
    simp [ledger, Event.credit, hc]

theorem SplitR_release_keeps (E : Engine G) (μ : G.QPostponed → ℤ)
    (ρ : G.QResult → ℤ) (q : Nat) (t : Shape) (r_node_i : Nat) (s sf : State G)
    (h : SplitR_release E r_node_i s = Outcome.done sf) :
    Keeps E μ ρ q t s sf := by
  unfold SplitR_release at h
  cases h
  refine Keeps.keeps_of_root_step E μ ρ q t s _
    [Event.StopRead ((E.r_nodes_ r_node_i).child 0),
      Event.StopRead ((E.r_nodes_ r_node_i).child 1)] ?_ ?_ ?_ ?_ ?_
  · simp
  · intro n _
    simp
  · simp
  · intro _
    simp [ledger, Event.credit]
  · intro _
    simp [ledger, Event.credit]

theorem VisitQueryPoint_result_tokens (E : Engine G) (μ : G.QPostponed → ℤ)
    (ρ : G.QResult → ℤ) (laws : TokenLaws G E.param_ μ ρ) (r_node_i : Nat)
    (unvisited : G.QSummaryResult) (q : Nat) (v : G.PairVisitor) (s : State G) :
    ρ ((VisitQueryPoint E r_node_i unvisited q v s).2.q_results_ q) = ρ (s.q_results_ q) := by
  unfold VisitQueryPoint
  simp only []
  split
  · simp [VisitLoop_q_results, laws.start, laws.finish]
  · simp [laws.start]

theorem BaseCasePoint_result_tokens (E : Engine G) (μ : G.QPostponed → ℤ)
    (ρ : G.QResult → ℤ) (laws : TokenLaws G E.param_ μ ρ) (q_node_i r_node_i : Nat)
    (unvisited : G.QSummaryResult) (vs : G.PairVisitor × State G) (q : Nat) :
    ρ ((BaseCasePoint E q_node_i r_node_i unvisited vs q).2.q_results_ q) =
      ρ (vs.2.q_results_ q) + μ (vs.2.q_mutables_ q_node_i).postponed := by
  unfold BaseCasePoint
  simp only [State.setSummary_q_results]
  rw [VisitQueryPoint_result_tokens E μ ρ laws]
  simp [laws.result_apply]

theorem BaseCase_loop_tokens (E : Engine G) (μ : G.QPostponed → ℤ)
    (ρ : G.QResult → ℤ) (laws : TokenLaws G E.param_ μ ρ) (q_node_i r_node_i : Nat)
    (unvisited : G.QSummaryResult) (q : Nat) (l : List Nat) (hl : l.Nodup)
    (vs : G.PairVisitor × State G) :
    ρ ((l.foldl (BaseCasePoint E q_node_i r_node_i unvisited) vs).2.q_results_ q) =
      ρ (vs.2.q_results_ q) +
        if q ∈ l then μ (vs.2.q_mutables_ q_node_i).postponed else 0 := by
  induction l generalizing vs with
  | nil => simp
  | cons a l ih =>
    obtain ⟨ha, hl2⟩ := List.nodup_cons.1 hl
    rw [List.foldl_cons, ih hl2, BaseCasePoint_postponed]
    by_cases haq : a = q
    · subst haq
      rw [BaseCasePoint_result_tokens E μ ρ laws]
      simp [ha]
    · have hqa : q ≠ a := fun h => haq h.symm
      rw [BaseCasePoint_q_results_other _ _ _ _ _ _ hqa]
      simp [hqa]

theorem Event.credit_of_baseCaseCall (μ : G.QPostponed → ℤ) (covers : Nat → Bool)
    (e : Event G) (h : Event.isBaseCaseCall e = true) : Event.credit μ covers e = 0 := by
  cases e <;> simp_all [Event.isBaseCaseCall, Event.credit]

theorem Event.credit_of_pushDownCall (μ : G.QPostponed → ℤ) (covers : Nat → Bool)
    (e : Event G) (h : Event.isPushDownCall e = true) : Event.credit μ covers e = 0 := by
  cases e <;> simp_all [Event.isPushDownCall, Event.credit]

theorem BaseCase_keeps (E : Engine G) (μ : G.QPostponed → ℤ) (ρ : G.QResult → ℤ)
    (laws : TokenLaws G E.param_ μ ρ) (q : Nat) (t : Shape) (hnd : t.indices.Nodup)
    (r_node_i : Nat) (unvisited : G.QSummaryResult) (s : State G) :
    Keeps E μ ρ q t s (BaseCase_ E t.root r_node_i unvisited s) := by
  obtain ⟨rest, hlog, hrest⟩ := BaseCase_log_calls E t.root r_node_i unvisited s
  have hled : ledger μ (fun n => (E.q_nodes_ n).covers q) rest = 0 :=
    ledger_of_calls μ _ Event.isBaseCaseCall
      (fun e he => Event.credit_of_baseCaseCall μ _ e he) rest hrest
  have hbelow : pendingBelow E μ (BaseCase_ E t.root r_node_i unvisited s) q t =
      pendingBelow E μ s q t := by
    apply pendingBelow_congr
    intro n hn
    have hne : n ≠ t.root := fun h => Shape.root_not_mem_descendants hnd (h ▸ hn)
    rw [BaseCase_q_mutables_other _ _ _ _ _ hne]
  refine ⟨fun hc => ?_, fun hc => ⟨?_, ?_⟩⟩
  · have hroot : μ ((BaseCase_ E t.root r_node_i unvisited s).q_mutables_ t.root).postponed =
        0 := by
      simp [BaseCase_, laws.reset]
    have hres : ρ ((BaseCase_ E t.root r_node_i unvisited s).q_results_ q) =
        ρ (s.q_results_ q) + μ (s.q_mutables_ t.root).postponed := by
      have hmem : q ∈ List.range' (E.q_nodes_ t.root).begin (E.q_nodes_ t.root).count := by
        rw [List.mem_range'_1]
        simpa [Node.covers, Node.end_] using hc
      have := BaseCase_loop_tokens E μ ρ laws t.root r_node_i unvisited q
        (List.range' (E.q_nodes_ t.root).begin (E.q_nodes_ t.root).count)
        (List.nodup_range' _ _) (G.PairVisitor_Init E.param_,
          (s.emit (.BaseCase t.root r_node_i)).setSummary t.root
            (G.QSummaryResult_StartReaccumulate E.param_ (E.q_nodes_ t.root)
              ((s.emit (.BaseCase t.root r_node_i)).q_mutables_ t.root).summary_result))
      simp only [hmem, if_true] at this
      simpa [BaseCase_] using this
    rw [hlog, ledger_append, hled, pending, pending, hroot, hres, hbelow]
    omega
  · apply BaseCase_q_results_other
    simpa [Node.covers] using hc
  · rw [hlog, ledger_append, hled]
    omega

theorem covers_split {Info : Type} (p l r : Node Info) (q : Nat)
    (h1 : l.begin = p.begin) (h2 : r.begin = l.end_) (h3 : r.end_ = p.end_) :
    (p.covers q = true ↔ (l.covers q = true ∨ r.covers q = true)) ∧
      ¬ (l.covers q = true ∧ r.covers q = true) := by
  simp only [Node.end_] at h2 h3
  simp only [Node.covers, Node.end_, decide_eq_true_eq]
  constructor
  · constructor
    · intro h
      omega
    · intro h
      omega
  · intro h
    omega

theorem SplitQ_keeps (E : Engine G) (μ : G.QPostponed → ℤ) (ρ : G.QResult → ℤ)
    (laws : TokenLaws G E.param_ μ ρ) (q i : Nat) (l r : Shape)
    (hp1 : (E.q_nodes_ l.root).begin = (E.q_nodes_ i).begin)
    (hp2 : (E.q_nodes_ r.root).begin = (E.q_nodes_ l.root).end_)
    (hp3 : (E.q_nodes_ r.root).end_ = (E.q_nodes_ i).end_)
    (hnd : (Shape.split i l r).indices.Nodup)
    (h0 : (E.q_nodes_ i).child 0 = l.root) (h1 : (E.q_nodes_ i).child 1 = r.root)
    (r_node_i : Nat) (c en ch0 s0 a0 ch1 s1 a1 sf : State G)
    (hen : en = SplitQ_entered E i r_node_i c)
    (hch0 : ch0 = SplitQChild_checked E i r_node_i 0 en)
    (ha0 : a0 = SplitQChild_accumulated E i 0 s0)
    (hch1 : ch1 = SplitQChild_checked E i r_node_i 1 a0)
    (ha1 : a1 = SplitQChild_accumulated E i 1 s1)
    (hsf : sf = SplitQ_finished E i a1)
    (k0 : Keeps E μ ρ q l ch0 s0)
    (f0 : ∀ j, j ∉ l.indices → s0.q_mutables_ j = ch0.q_mutables_ j)
    (k1 : Keeps E μ ρ q r ch1 s1)
    (f1 : ∀ j, j ∉ r.indices → s1.q_mutables_ j = ch1.q_mutables_ j) :
    Keeps E μ ρ q (Shape.split i l r) c sf := by
  obtain ⟨hil, hir, hdisj, hndl, hndr⟩ := Shape.nodup_split hnd
  obtain ⟨hcov, hex⟩ := covers_split (E.q_nodes_ i) (E.q_nodes_ l.root) (E.q_nodes_ r.root) q
    hp1 hp2 hp3
  have hli : l.root ≠ i := fun h => hil (h ▸ l.root_mem_indices)
  have hri : r.root ≠ i := fun h => hir (h ▸ r.root_mem_indices)
  have hil0 : i ≠ l.root := fun h => hli h.symm
  have hir0 : i ≠ r.root := fun h => hri h.symm
  have hrl : r.root ∉ l.indices := fun h => hdisj _ h r.root_mem_indices
  have hlr : l.root ∉ r.indices := fun h => hdisj _ l.root_mem_indices h
  have hrl0 : r.root ≠ l.root := fun h => hrl (h ▸ l.root_mem_indices)
  have hlr0 : l.root ≠ r.root := fun h => hrl0 h.symm
  -- the postponed of every node, state by state
  have pen : ∀ n, (en.q_mutables_ n).postponed = (c.q_mutables_ n).postponed := by
    intro n; rw [hen, SplitQ_entered_postponed]
  have pch0 : ∀ n, n ≠ l.root → ch0.q_mutables_ n = en.q_mutables_ n := by
    intro n hn
    rw [hch0, SplitQChild_checked_q_mutables_other _ _ _ _ _ (by rw [h0]; exact hn)]
  have pa0 : ∀ n, (a0.q_mutables_ n).postponed = (s0.q_mutables_ n).postponed := by
    intro n; rw [ha0, SplitQChild_accumulated_postponed]
  have pch1 : ∀ n, n ≠ r.root → ch1.q_mutables_ n = a0.q_mutables_ n := by
    intro n hn
    rw [hch1, SplitQChild_checked_q_mutables_other _ _ _ _ _ (by rw [h1]; exact hn)]
  have pa1 : ∀ n, (a1.q_mutables_ n).postponed = (s1.q_mutables_ n).postponed := by
    intro n; rw [ha1, SplitQChild_accumulated_postponed]
  have psf : ∀ n, n ≠ i → sf.q_mutables_ n = a1.q_mutables_ n := by
    intro n hn
    rw [hsf, SplitQ_finished_q_mutables_other _ _ _ hn]
  have psfi : μ (sf.q_mutables_ i).postponed = 0 := by
    rw [hsf]
    simp [SplitQ_finished, laws.reset]
  -- the results and the logs, state by state
  have ren : en.q_results_ = c.q_results_ := by rw [hen]; simp [SplitQ_entered]
  have rch0 : ch0.q_results_ = en.q_results_ := by rw [hch0]; simp [SplitQChild_checked]
  have ra0 : a0.q_results_ = s0.q_results_ := by rw [ha0]; simp [SplitQChild_accumulated]
  have rch1 : ch1.q_results_ = a0.q_results_ := by rw [hch1]; simp [SplitQChild_checked]
  have ra1 : a1.q_results_ = s1.q_results_ := by rw [ha1]; simp [SplitQChild_accumulated]
  have rsf : sf.q_results_ = a1.q_results_ := by rw [hsf]; simp [SplitQ_finished]
  have len : ledger μ (fun n => (E.q_nodes_ n).covers q) en.log =
      ledger μ (fun n => (E.q_nodes_ n).covers q) c.log := by
    rw [hen]
    simp [SplitQ_entered, ledger_append, ledger, Event.credit]
  have lch0 : ledger μ (fun n => (E.q_nodes_ n).covers q) ch0.log =
      ledger μ (fun n => (E.q_nodes_ n).covers q) en.log +
        if (E.q_nodes_ l.root).covers q = true then
          μ (ch0.q_mutables_ l.root).postponed -
            (μ (en.q_mutables_ l.root).postponed + μ (en.q_mutables_ i).postponed)
        else 0 := by
    rw [hch0, SplitQChild_checked_log, ledger_append]
    simp only [ledger, List.map_cons, List.map_nil, List.sum_cons, List.sum_nil,
      Event.credit, h0, laws.apply_postponed, add_zero]
    simp [SplitQChild_checked, h0]
  have la0 : a0.log = s0.log := by rw [ha0, SplitQChild_accumulated_log]
  have lch1 : ledger μ (fun n => (E.q_nodes_ n).covers q) ch1.log =
      ledger μ (fun n => (E.q_nodes_ n).covers q) a0.log +
        if (E.q_nodes_ r.root).covers q = true then
          μ (ch1.q_mutables_ r.root).postponed -
            (μ (a0.q_mutables_ r.root).postponed + μ (a0.q_mutables_ i).postponed)
        else 0 := by
    rw [hch1, SplitQChild_checked_log, ledger_append]
    simp only [ledger, List.map_cons, List.map_nil, List.sum_cons, List.sum_nil,
      Event.credit, h1, laws.apply_postponed, add_zero]
    simp [SplitQChild_checked, h1]
  have la1 : a1.log = s1.log := by rw [ha1, SplitQChild_accumulated_log]
  have lsf : sf.log = a1.log := by rw [hsf, SplitQ_finished_log]
  -- the postponed below the two children
  have bl1 : pendingBelow E μ ch0 q l = pendingBelow E μ c q l := by
    apply pendingBelow_congr
    intro n hn
    have hn1 : n ≠ l.root := fun h => Shape.root_not_mem_descendants hndl (h ▸ hn)
    rw [pch0 n hn1, pen]
  have ml2 : ∀ n, n ∈ l.indices →
      (sf.q_mutables_ n).postponed = (s0.q_mutables_ n).postponed := by
    intro n hn
    have hn1 : n ≠ i := fun h => hil (h ▸ hn)
    have hn2 : n ∉ r.indices := hdisj n hn
    have hn3 : n ≠ r.root := fun h => hn2 (h ▸ r.root_mem_indices)
    rw [psf n hn1, pa1, f1 n hn2, pch1 n hn3, pa0]
  have bl2 : pendingBelow E μ sf q l = pendingBelow E μ s0 q l :=
    pendingBelow_congr E μ sf s0 q l (fun n hn => ml2 n (List.mem_cons_of_mem _ hn))
  have br1 : pendingBelow E μ ch1 q r = pendingBelow E μ c q r := by
    apply pendingBelow_congr
    intro n hn
    have hn0 : n ∈ r.indices := List.mem_cons_of_mem _ hn
    have hn1 : n ≠ r.root := fun h => Shape.root_not_mem_descendants hndr (h ▸ hn)
    have hn2 : n ∉ l.indices := fun h => hdisj n h hn0
    have hn3 : n ≠ l.root := fun h => hn2 (h ▸ l.root_mem_indices)
    rw [pch1 n hn1, pa0, f0 n hn2, pch0 n hn3, pen]
  have mr : ∀ n, n ∈ r.indices →
      (sf.q_mutables_ n).postponed = (s1.q_mutables_ n).postponed := by
    intro n hn
    have hn1 : n ≠ i := fun h => hir (h ▸ hn)
    rw [psf n hn1, pa1]
  have br2 : pendingBelow E μ sf q r = pendingBelow E μ s1 q r :=
    pendingBelow_congr E μ sf s1 q r (fun n hn => mr n (List.mem_cons_of_mem _ hn))
  -- the postponed of the parent and of the second child when the second child is entered
  have qi : (a0.q_mutables_ i).postponed = (c.q_mutables_ i).postponed := by
    rw [pa0, f0 i hil, pch0 i hil0, pen]
  have qr : (a0.q_mutables_ r.root).postponed = (c.q_mutables_ r.root).postponed := by
    rw [pa0, f0 _ hrl, pch0 _ hrl0, pen]
  have e_sl := ml2 l.root l.root_mem_indices
  have e_sr := mr r.root r.root_mem_indices
  have e_l := pen l.root
  have e_i := pen i
  refine ⟨fun hc => ?_, fun hc => ?_⟩
  · simp only [pending, pendingBelow, Shape.root_split]
    rcases hcov.1 hc with hcl | hcr
    · have hcr : (E.q_nodes_ r.root).covers q = false := by
        cases h : (E.q_nodes_ r.root).covers q with
        | false => rfl
        | true => exact absurd ⟨hcl, h⟩ hex
      have e1 := k0.1 hcl
      obtain ⟨e2, e3⟩ := k1.2 hcr
      simp only [pending] at e1
      simp only [hcl, hcr, if_true, Bool.false_eq_true, if_false] at lch0 lch1 ⊢
      rw [rsf, ra1, e2, rch1, ra0, lsf, la1, e3, lch1, la0, psfi, e_sl, bl2]
      rw [rch0, ren, bl1, lch0, len, e_l, e_i] at e1
      omega
    · have hcl : (E.q_nodes_ l.root).covers q = false := by
        cases h : (E.q_nodes_ l.root).covers q with
        | false => rfl
        | true => exact absurd ⟨h, hcr⟩ hex
      obtain ⟨e2, e3⟩ := k0.2 hcl
      have e1 := k1.1 hcr
      simp only [pending] at e1
      simp only [hcl, hcr, if_true, Bool.false_eq_true, if_false] at lch0 lch1 ⊢
      rw [rsf, ra1, lsf, la1, psfi, e_sr, br2]
      rw [rch1, ra0, e2, rch0, ren, br1, lch1, la0, e3, lch0, len, qi, qr] at e1
      omega
  · have hc2 : (E.q_nodes_ i).covers q = false := hc
    have hcl : (E.q_nodes_ l.root).covers q = false := by
      cases h : (E.q_nodes_ l.root).covers q with
      | false => rfl
      | true => rw [hcov.2 (Or.inl h)] at hc2; cases hc2
    have hcr : (E.q_nodes_ r.root).covers q = false := by
      cases h : (E.q_nodes_ r.root).covers q with
      | false => rfl
      | true => rw [hcov.2 (Or.inr h)] at hc2; cases hc2
    obtain ⟨e2, e3⟩ := k0.2 hcl
    obtain ⟨e4, e5⟩ := k1.2 hcr
    simp only [hcl, hcr, Bool.false_eq_true, if_false] at lch0 lch1
    refine ⟨?_, ?_⟩
    · rw [rsf, ra1, e4, rch1, ra0, e2, rch0, ren]
    · rw [lsf, la1, e5, lch1, la0, e3, lch0, len]
      omega

/-- A run of `Pair_` on a subtree of the query tree keeps the conservation
law of every query point. -/
theorem Pair_keeps (E : Engine G) (μ : G.QPostponed → ℤ) (ρ : G.QResult → ℤ)
    (laws : TokenLaws G E.param_ μ ρ) (q : Nat) (fuel : Nat) (t : Shape)
    (hq : Represents E.q_nodes_ t) (hp : Partitions E.q_nodes_ t) (hnd : t.indices.Nodup)
    (r_node_i : Nat) (delta : G.Delta) (unvisited : G.QSummaryResult) (s sf : State G)
    (h : Pair_ E fuel t.root r_node_i delta unvisited s = Outcome.done sf) :
    Keeps E μ ρ q t s sf := by
  induction fuel generalizing t r_node_i delta unvisited s sf with
  | zero => simp [Pair_] at h
  | succ fuel ih =>
    revert sf
    apply Pair_succ_cases E fuel t.root r_node_i delta unvisited s
      (fun o => ∀ sf, o = Outcome.done sf → Keeps E μ ρ q t s sf)
    · intro _ sf h
      cases h
      exact Pair_termination_pruned_keeps E μ ρ q t hnd r_node_i delta unvisited s
    · intro _ _ sf h
      cases h
      exact Pair_extrinsic_pruned_keeps E μ ρ q t hnd r_node_i delta unvisited s
    · intro _ _ _ _ sf h
      cases h
      exact (Pair_committed_keeps E μ ρ q t hnd r_node_i delta unvisited s).keeps_trans
        (BaseCase_keeps E μ ρ laws q t hnd r_node_i unvisited _)
    · intro _ hql sf h
      obtain ⟨i, l, r, rfl, h0, h1, hl, hr⟩ := hq.split_of_not_leaf hql
      obtain ⟨p1, p2, p3, hpl, hpr⟩ := hp
      obtain ⟨_, _, _, hndl, hndr⟩ := Shape.nodup_split hnd
      refine (Pair_committed_keeps E μ ρ q _ hnd r_node_i delta unvisited s).keeps_trans ?_
      simp only [Shape.root_split] at h ⊢
      rw [SplitQ_eq] at h
      obtain ⟨sb, e1, e2⟩ := Outcome.andThen_eq_done.1 h
      obtain ⟨sa, e3, e4⟩ := Outcome.andThen_eq_done.1 e1
      rw [SplitQChild_eq] at e3 e4
      obtain ⟨s0, e5, e6⟩ := Outcome.andThen_eq_done.1 e3
      obtain ⟨s1, e7, e8⟩ := Outcome.andThen_eq_done.1 e4
      cases e2
      cases e6
      cases e8
      have key : ∀ (k : Nat) (tc : Shape) (sx sy : State G), Represents E.q_nodes_ tc →
          Partitions E.q_nodes_ tc → tc.indices.Nodup →
          (E.q_nodes_ i).child k = tc.root →
          (if (SplitQChild_intrinsic E i r_node_i k sx).explore = true then
            Pair_ E fuel ((E.q_nodes_ i).child k) r_node_i delta unvisited
              (SplitQChild_checked E i r_node_i k sx)
          else Outcome.done (SplitQChild_checked E i r_node_i k sx)) = Outcome.done sy →
          Keeps E μ ρ q tc (SplitQChild_checked E i r_node_i k sx) sy ∧
          ∀ j, j ∉ tc.indices →
            sy.q_mutables_ j = (SplitQChild_checked E i r_node_i k sx).q_mutables_ j := by
        intro k tc sx sy htc hpc hndc hk hy
        split at hy
        · rw [hk] at hy
          refine ⟨ih tc htc hpc hndc _ _ _ _ _ hy, ?_⟩
          intro j hj
          have := Pair_q_mutables_frame E fuel tc htc r_node_i delta unvisited
            (SplitQChild_checked E i r_node_i k sx) j hj
          rw [hy] at this
          exact this
        · cases hy
          exact ⟨Keeps.keeps_refl E μ ρ q tc _, fun j _ => rfl⟩
      obtain ⟨k0, f0⟩ := key 0 l _ _ hl hpl hndl h0 e5
      obtain ⟨k1, f1⟩ := key 1 r _ _ hr hpr hndr h1 e7
      exact SplitQ_keeps E μ ρ laws q i l r p1 p2 p3 hnd h0 h1 r_node_i _ _ _ s0 _ _ s1 _ _
        rfl rfl rfl rfl rfl rfl k0 f0 k1 f1
    · intro _ _ sf h
      refine (Pair_committed_keeps E μ ρ q t hnd r_node_i delta unvisited s).keeps_trans ?_
      rw [SplitR_eq] at h
      obtain ⟨s2, e1, e2⟩ := Outcome.andThen_eq_done.1 h
      refine (SplitR_checked_keeps E μ ρ q t hnd r_node_i _).keeps_trans ?_
      refine Keeps.keeps_trans ?_ (SplitR_release_keeps E μ ρ q t r_node_i s2 sf e2)
      split at e1
      · split at e1
        · exact ih t hq hp hnd _ _ _ _ _ e1
        · cases e1
          exact Keeps.keeps_refl E μ ρ q t _
      · split at e1
        · exact ih t hq hp hnd _ _ _ _ _ e1
        · split at e1
          · obtain ⟨s3, e3, e4⟩ := Outcome.andThen_eq_done.1 e1
            exact (ih t hq hp hnd _ _ _ _ _ e3).keeps_trans (ih t hq hp hnd _ _ _ _ _ e4)
          · obtain ⟨s3, e3, e4⟩ := Outcome.andThen_eq_done.1 e1
            exact (ih t hq hp hnd _ _ _ _ _ e3).keeps_trans (ih t hq hp hnd _ _ _ _ _ e4)

theorem PushDownPoints_tokens (E : Engine G) (μ : G.QPostponed → ℤ) (ρ : G.QResult → ℤ)
    (laws : TokenLaws G E.param_ μ ρ) (q_node_i q : Nat) (l : List Nat) (hl : l.Nodup)
    (s : State G) :
    ρ ((l.foldl (PushDownPoint E q_node_i) s).q_results_ q) =
      ρ (s.q_results_ q) + if q ∈ l then μ (s.q_mutables_ q_node_i).postponed else 0 := by
  induction l generalizing s with
  | nil => simp
  | cons a l ih =>
    obtain ⟨ha, hl2⟩ := List.nodup_cons.1 hl
    rw [List.foldl_cons, ih hl2, PushDownPoint_q_mutables]
    by_cases haq : a = q
    · subst haq
      simp [PushDownPoint, ha, laws.postprocess, laws.result_apply]
    · have hqa : q ≠ a := fun h => haq h.symm
      simp [PushDownPoint, hqa, Function.update_noteq hqa]

/-- On a well-formed tree `PushDownPostprocess_` returns, and it delivers to
the result of every point the tokens pending on the path to its leaf. -/
theorem PushDown_delivers (E : Engine G) (μ : G.QPostponed → ℤ) (ρ : G.QResult → ℤ)
    (laws : TokenLaws G E.param_ μ ρ) (q : Nat) (fuel : Nat) (t : Shape)
    (hq : Represents E.q_nodes_ t) (hp : Partitions E.q_nodes_ t) (hnd : t.indices.Nodup)
    (hf : t.height ≤ fuel) (s : State G) :
    ∃ sf, PushDownPostprocess_ E fuel t.root s = Outcome.done sf ∧
      (∀ j, j ∉ t.descendants → sf.q_mutables_ j = s.q_mutables_ j) ∧
      ρ (sf.q_results_ q) = ρ (s.q_results_ q) +
        if (E.q_nodes_ t.root).covers q = true then pending E μ s q t else 0 := by
  induction fuel generalizing t s with
  | zero =>
    have := t.height_pos
    omega
  | succ fuel ih =>
    rw [PushDownPostprocess_]
    cases t with
    | leaf i =>
      have hl : (E.q_nodes_ i).is_leaf = true := hq
      simp only [Shape.root_leaf, hl, if_true, Node.end_sub_begin]
      refine ⟨_, rfl, fun j _ => ?_, ?_⟩
      · rw [(PushDownPoints_run E i _ _).2]
        simp
      · rw [PushDownPoints_tokens E μ ρ laws i q _ (List.nodup_range' _ _)]
        simp only [State.emit_q_results, State.emit_q_mutables, pending, pendingBelow,
          Shape.root_leaf, add_zero, List.mem_range'_1, Node.covers, Node.end_,
          decide_eq_true_eq]
    | split i l r =>
      obtain ⟨hnl, h0, h1, hl, hr⟩ := hq
      obtain ⟨p1, p2, p3, hpl, hpr⟩ := hp
      obtain ⟨hil, hir, hdisj, hndl, hndr⟩ := Shape.nodup_split hnd
      obtain ⟨hcov, hex⟩ := covers_split (E.q_nodes_ i) (E.q_nodes_ l.root)
        (E.q_nodes_ r.root) q p1 p2 p3
      have hh : max l.height r.height + 1 ≤ fuel + 1 := hf
      have hl1 : l.height ≤ fuel := by
        have := le_max_left l.height r.height
        omega
      have hr1 : r.height ≤ fuel := by
        have := le_max_right l.height r.height
        omega
      have hli : l.root ≠ i := fun h => hil (h ▸ l.root_mem_indices)
      have hri : r.root ≠ i := fun h => hir (h ▸ r.root_mem_indices)
      have hil0 : i ≠ l.root := fun h => hli h.symm
      have hrl : r.root ∉ l.indices := fun h => hdisj _ h r.root_mem_indices
      have hrl0 : r.root ≠ l.root := fun h => hrl (h ▸ l.root_mem_indices)
      have hld : l.root ∉ l.descendants := Shape.root_not_mem_descendants hndl
      have hrd : r.root ∉ r.descendants := Shape.root_not_mem_descendants hndr
      simp only [Shape.root_split, hnl, Bool.false_eq_true, if_false, PushDownChild, h0, h1]
      obtain ⟨sl, el, fl, tl⟩ := ih l hl hpl hndl hl1
        ((s.emit (.PushDown i)).setPostponed l.root
          (G.QPostponed_ApplyPostponed E.param_ ((s.emit (.PushDown i)).q_mutables_ i).postponed
            ((s.emit (.PushDown i)).q_mutables_ l.root).postponed))
      rw [el]
      simp only [Outcome.andThen, PushDownChild, h1]
      obtain ⟨sr, er, fr, tr⟩ := ih r hr hpr hndr hr1
        (sl.setPostponed r.root
          (G.QPostponed_ApplyPostponed E.param_ (sl.q_mutables_ i).postponed
            (sl.q_mutables_ r.root).postponed))
      rw [er]
      have hsl : ∀ j, j ∉ l.indices → sl.q_mutables_ j = s.q_mutables_ j := by
        intro j hj
        have hj1 : j ≠ l.root := fun h => hj (h ▸ l.root_mem_indices)
        have hj2 : j ∉ l.descendants := fun h => hj (List.mem_cons_of_mem _ h)
        rw [fl j hj2, State.setPostponed_q_mutables_other _ hj1, State.emit_q_mutables]
      refine ⟨sr, rfl, ?_, ?_⟩
      · intro j hj
        simp only [Shape.descendants, List.mem_append, List.mem_cons, not_or] at hj
        obtain ⟨⟨hj1, hj2⟩, hj3, hj4⟩ := hj
        rw [fr j hj4, State.setPostponed_q_mutables_other _ hj3, fl j hj2,
          State.setPostponed_q_mutables_other _ hj1, State.emit_q_mutables]
      · have bl : pendingBelow E μ ((s.emit (.PushDown i)).setPostponed l.root
            (G.QPostponed_ApplyPostponed E.param_
              ((s.emit (.PushDown i)).q_mutables_ i).postponed
              ((s.emit (.PushDown i)).q_mutables_ l.root).postponed)) q l =
            pendingBelow E μ s q l := by
          apply pendingBelow_congr
          intro n hn
          have : n ≠ l.root := fun h => hld (h ▸ hn)
          rw [State.setPostponed_q_mutables_other _ this, State.emit_q_mutables]
        have br : pendingBelow E μ (sl.setPostponed r.root
            (G.QPostponed_ApplyPostponed E.param_ (sl.q_mutables_ i).postponed
              (sl.q_mutables_ r.root).postponed)) q r = pendingBelow E μ s q r := by
          apply pendingBelow_congr
          intro n hn
          have h1 : n ≠ r.root := fun h => hrd (h ▸ hn)
          have h2 : n ∉ l.indices := fun h => hdisj n h (List.mem_cons_of_mem _ hn)
          rw [State.setPostponed_q_mutables_other _ h1, hsl n h2]
        simp only [pending, Shape.root_split, pendingBelow, State.setPostponed_postponed_same,
          State.setPostponed_q_results, State.emit_q_results, State.emit_q_mutables,
          laws.apply_postponed, bl, br, hsl i hil, hsl r.root hrl] at tl tr ⊢
        rw [tr, tl]
        cases hcl : (E.q_nodes_ l.root).covers q <;>
          cases hcr : (E.q_nodes_ r.root).covers q <;>
          cases hci : (E.q_nodes_ i).covers q <;>
          simp_all <;> omega

theorem Begin_eq (E : Engine G) (fuel i : Nat) (s : State G) :
    Begin_ E fuel i s =
      (if (Begin_intrinsic E i s).explore = true then
        if E.do_naive_ = true then
          Outcome.done (BaseCase_ E i 0 (G.QSummaryResult_Init E.param_) (Begin_checked E i s))
        else
          Pair_ E fuel i 0 (Begin_intrinsic E i s).delta (G.QSummaryResult_Init E.param_)
            (Begin_checked E i s)
      else Outcome.done (Begin_checked E i s)).andThen (PushDownPostprocess_ E fuel i) := rfl

theorem Begin_checked_keeps (E : Engine G) (μ : G.QPostponed → ℤ) (ρ : G.QResult → ℤ)
    (q : Nat) (t : Shape) (hnd : t.indices.Nodup) (s : State G) :
    Keeps E μ ρ q t s (Begin_checked E t.root s) := by
  refine Keeps.keeps_of_root_step E μ ρ q t s _
    [Event.ConsiderPairIntrinsic t.root 0 (s.q_mutables_ t.root).postponed
      (Begin_intrinsic E t.root s).postponed (Begin_intrinsic E t.root s).explore
      (Begin_intrinsic E t.root s).delta] ?_ ?_ rfl ?_ ?_
  · simp [Begin_checked]
  · intro n hn
    have hne : n ≠ t.root := fun h => Shape.root_not_mem_descendants hnd (h ▸ hn)
    simp [Begin_checked, State.setPostponed_postponed_other _ hne]
  · intro hc
    simp [ledger, Event.credit, hc, Begin_checked]
  · intro hc
    simp [ledger, Event.credit, hc]

/-- C2: let `μ` count a token in postponed values and `ρ` in results. For a
well-formed query tree, `Begin_` returns, and for every query point `q` of the
root the final result of `q` holds the tokens its result held on entry, those
pending on entry on the path from the root to the leaf of `q`, and those added
by the prune tests of the traversal to the postponed of the nodes whose range
contains `q`: each of them exactly once, none twice and none dropped. -/
theorem Begin_delivers_postponed_once (E : Engine G) (μ : G.QPostponed → ℤ)
    (ρ : G.QResult → ℤ) (laws : TokenLaws G E.param_ μ ρ) (fuel : Nat) (tq tr : Shape)
    (hq : Represents E.q_nodes_ tq) (hr : Represents E.r_nodes_ tr) (hr0 : tr.root = 0)
    (hp : Partitions E.q_nodes_ tq) (hnd : tq.indices.Nodup)
    (hf : tq.height + tr.height ≤ fuel) (s : State G) (q : Nat)
    (hc : (E.q_nodes_ tq.root).covers q = true) :
    ∃ sf calls, Begin_ E fuel tq.root s = Outcome.done sf ∧ sf.log = s.log ++ calls ∧
      ρ (sf.q_results_ q) =
        ρ (s.q_results_ q) + pending E μ s q tq +
          ledger μ (fun n => (E.q_nodes_ n).covers q) calls := by
  have k1 := Begin_checked_keeps E μ ρ q tq hnd s
  have g1 : s.log <+: (Begin_checked E tq.root s).log := by
    simp [Begin_checked]
  -- the exploration
  obtain ⟨sp, ep, kp, gp⟩ : ∃ sp,
      (if (Begin_intrinsic E tq.root s).explore = true then
        if E.do_naive_ = true then
          Outcome.done (BaseCase_ E tq.root 0 (G.QSummaryResult_Init E.param_)
            (Begin_checked E tq.root s))
        else
          Pair_ E fuel tq.root 0 (Begin_intrinsic E tq.root s).delta
            (G.QSummaryResult_Init E.param_) (Begin_checked E tq.root s)
      else Outcome.done (Begin_checked E tq.root s)) = Outcome.done sp ∧
      Keeps E μ ρ q tq (Begin_checked E tq.root s) sp ∧
      (Begin_checked E tq.root s).log <+: sp.log := by
    split
    · split
      · refine ⟨_, rfl, BaseCase_keeps E μ ρ laws q tq hnd 0 _ _, ?_⟩
        obtain ⟨rest, h1, _⟩ := BaseCase_log_calls E tq.root 0
          (G.QSummaryResult_Init E.param_) (Begin_checked E tq.root s)
        exact ⟨rest, h1.symm⟩
      · have hret := Pair_returns E fuel tq tr hq hr hf (Begin_intrinsic E tq.root s).delta
          (G.QSummaryResult_Init E.param_) (Begin_checked E tq.root s)
        rw [hr0] at hret
        have hd := Outcome.eq_done_of_returned hret
        refine ⟨_, hd, Pair_keeps E μ ρ laws q fuel tq hq hp hnd 0 _ _ _ _ hd, ?_⟩
        exact Pair_log_grows E fuel tq.root 0 _ _ _
    · exact ⟨_, rfl, Keeps.keeps_refl E μ ρ q tq _, List.prefix_refl _⟩
  -- the push-down sweep
  obtain ⟨sf, ef, _, tf⟩ := PushDown_delivers E μ ρ laws q fuel tq hq hp hnd (by omega) sp
  obtain ⟨rest, hrest, hcalls⟩ := PushDown_log_calls E fuel tq.root sp
  rw [ef] at hrest
  simp only [Outcome.state_done] at hrest
  have hled : ledger μ (fun n => (E.q_nodes_ n).covers q) rest = 0 :=
    ledger_of_calls μ _ Event.isPushDownCall
      (fun e he => Event.credit_of_pushDownCall μ _ e he) rest hcalls
  obtain ⟨mid, hmid⟩ := g1.trans gp
  refine ⟨sf, mid ++ rest, ?_, ?_, ?_⟩
  · rw [Begin_eq, ep]
    exact ef
  · rw [hrest, ← hmid, List.append_assoc]
  · have e1 := (k1.keeps_trans kp).1 hc
    rw [← hmid, ledger_append] at e1
    rw [ledger_append, hled, tf]
    simp only [hc, if_true]
    omega

/-- Witness of C2: the policy `Tally` pruning the reference leaves, on the
four point tree as query tree and as reference tree; the tokens are the units
of the postponed count and of the second component of a result. -/
theorem Begin_delivers_postponed_once_witness :
    TokenLaws Tally (tallyEngine { prune := true, merge := false, ordered := false } toyTree3 toyTree3
        false).param_ (fun p => (p : ℤ)) (fun res => (res.2 : ℤ)) ∧
    ∃ sf calls, Begin_ (tallyEngine { prune := true, merge := false, ordered := false } toyTree3 toyTree3 false)
        4 0 (tallyState { prune := true, merge := false, ordered := false }) = Outcome.done sf ∧
      sf.log = (tallyState { prune := true, merge := false, ordered := false }).log ++ calls ∧
      ((sf.q_results_ 3).2 : ℤ) =
        (((tallyState { prune := true, merge := false, ordered := false }).q_results_ 3).2 : ℤ) +
          pending (tallyEngine { prune := true, merge := false, ordered := false } toyTree3 toyTree3 false)
            (fun p => (p : ℤ)) (tallyState { prune := true, merge := false, ordered := false }) 3
            (Shape.split 0 (Shape.leaf 1) (Shape.leaf 2)) +
          ledger (fun p => (p : ℤ))
            (fun n => ((tallyEngine { prune := true, merge := false, ordered := false } toyTree3 toyTree3
              false).q_nodes_ n).covers 3) calls :=
  ⟨⟨fun _ _ => by simp, fun _ => rfl, fun _ _ _ _ => by simp, fun _ _ _ _ _ _ _ => rfl,
      fun _ _ _ _ _ _ _ => rfl, fun _ _ _ _ => rfl⟩,
    Begin_delivers_postponed_once
      (tallyEngine { prune := true, merge := false, ordered := false } toyTree3 toyTree3 false)
      (fun p => (p : ℤ)) (fun res => (res.2 : ℤ))
      ⟨fun _ _ => by simp, fun _ => rfl, fun _ _ _ _ => by simp, fun _ _ _ _ _ _ _ => rfl,
        fun _ _ _ _ _ _ _ => rfl, fun _ _ _ _ => rfl⟩
      4 (Shape.split 0 (Shape.leaf 1) (Shape.leaf 2))
      (Shape.split 0 (Shape.leaf 1) (Shape.leaf 2))
      ⟨rfl, rfl, rfl, rfl, rfl⟩ ⟨rfl, rfl, rfl, rfl, rfl⟩ rfl
      ⟨rfl, rfl, rfl, trivial, trivial⟩ (by decide) (by decide)
      (tallyState { prune := true, merge := false, ordered := false }) 3 rfl⟩

end TokenLedger

/-! ## Exact policies: the pruned path, the naive path and the layout of the reference tree -/

section ExactPolicies

variable {G : GNP}

theorem Gains.gains_refl (E : Engine G) (μ : G.QPostponed → ℤ) (ρ : G.QResult → ℤ) (q : Nat)
    (t : Shape) (s : State G) : Gains E μ ρ q t 0 s s :=
  ⟨fun _ => by omega, fun _ => rfl⟩

theorem Gains.gains_trans {E : Engine G} {μ : G.QPostponed → ℤ} {ρ : G.QResult → ℤ} {q : Nat}
    {t : Shape} {w1 w2 : ℤ} {a b c : State G} (h1 : Gains E μ ρ q t w1 a b)
    (h2 : Gains E μ ρ q t w2 b c) : Gains E μ ρ q t (w1 + w2) a c := by
  refine ⟨fun hc => ?_, fun hc => ?_⟩
  · have e1 := h1.1 hc
    have e2 := h2.1 hc
    omega
  · exact (h2.2 hc).trans (h1.2 hc)

theorem Gains.gains_congr {E : Engine G} {μ : G.QPostponed → ℤ} {ρ : G.QResult → ℤ} {q : Nat}
    {t : Shape} {w1 w2 : ℤ} {a b : State G} (h1 : Gains E μ ρ q t w1 a b)
    (h : (E.q_nodes_ t.root).covers q = true → w1 = w2) : Gains E μ ρ q t w2 a b := by
  refine ⟨fun hc => ?_, h1.2⟩
  have e1 := h1.1 hc
  have e2 := h hc
  omega

/-- A step that leaves the result of `q` and the postponed below the root as
they are, and adds `w` to the count of the postponed of the root. -/
theorem Gains.gains_of_root_step (E : Engine G) (μ : G.QPostponed → ℤ) (ρ : G.QResult → ℤ)
    (q : Nat) (t : Shape) (w : ℤ) (s sf : State G)
    (hres : sf.q_results_ q = s.q_results_ q)
    (hbelow : ∀ n ∈ t.descendants,
      (sf.q_mutables_ n).postponed = (s.q_mutables_ n).postponed)
    (hin : (E.q_nodes_ t.root).covers q = true →
      μ (sf.q_mutables_ t.root).postponed = μ (s.q_mutables_ t.root).postponed + w) :
    Gains E μ ρ q t w s sf := by
  refine ⟨fun hc => ?_, fun _ => hres⟩
  have := hin hc
  rw [hres, pending, pending, pendingBelow_congr E μ sf s q t hbelow]
  omega

theorem Pair_committed_gains (E : Engine G) (μ : G.QPostponed → ℤ) (ρ : G.QResult → ℤ)
    (W : Nat → Nat → ℤ) (laws : ExactLaws E μ ρ W) (q : Nat) (t : Shape)
    (hnd : t.indices.Nodup) (r_node_i : Nat) (delta : G.Delta)
    (unvisited : G.QSummaryResult) (s : State G)
    (hx : (Pair_extrinsic E t.root r_node_i delta unvisited s).explore = true) :
    Gains E μ ρ q t 0 s (Pair_committed E t.root r_node_i delta unvisited s) := by
  refine Gains.gains_of_root_step E μ ρ q t 0 s _ ?_ ?_ ?_
  · simp [Pair_committed]
  · intro n hn
    have hne : n ≠ t.root := fun h => Shape.root_not_mem_descendants hnd (h ▸ hn)
    rw [Pair_committed_q_mutables_other _ _ _ _ _ _ hne]
  · intro hc
    rw [Pair_committed_postponed_root]
    have e1 := laws.extrinsic t.root r_node_i delta (Pair_mu E t.root delta unvisited s)
      s.global_result_ (Pair_termination E t.root delta unvisited s).postponed q hc
    have e2 := (laws.termination t.root (Pair_mu E t.root delta unvisited s)
      s.global_result_ (s.q_mutables_ t.root).postponed).1
    unfold Pair_extrinsic at hx ⊢
    rw [e1, hx]
    unfold Pair_termination
    rw [e2]
    simp

theorem Pair_termination_pruned_gains (E : Engine G) (μ : G.QPostponed → ℤ)
    (ρ : G.QResult → ℤ) (W : Nat → Nat → ℤ) (laws : ExactLaws E μ ρ W) (q : Nat) (t : Shape)
    (hnd : t.indices.Nodup) (r_node_i : Nat) (delta : G.Delta)
    (unvisited : G.QSummaryResult) (s : State G)
    (ht : (Pair_termination E t.root delta unvisited s).explore = false) :
    Gains E μ ρ q t (W q r_node_i) s
      (Pair_termination_pruned E t.root r_node_i delta unvisited s) := by
  refine Gains.gains_of_root_step E μ ρ q t _ s _ ?_ ?_ ?_
  · simp [Pair_termination_pruned]
  · intro n hn
    have hne : n ≠ t.root := fun h => Shape.root_not_mem_descendants hnd (h ▸ hn)
    simp [Pair_termination_pruned, State.setPostponed_postponed_other _ hne]
  · intro hc
    obtain ⟨e1, e2⟩ := laws.termination t.root (Pair_mu E t.root delta unvisited s)
      s.global_result_ (s.q_mutables_ t.root).postponed
    have e3 := e2 ht q r_node_i hc
    have e4 : μ ((Pair_termination_pruned E t.root r_node_i delta unvisited s).q_mutables_
        t.root).postponed = μ (Pair_termination E t.root delta unvisited s).postponed := by
      simp [Pair_termination_pruned]
    rw [e4, e3]
    unfold Pair_termination
    rw [e1]
    simp

theorem Pair_extrinsic_pruned_gains (E : Engine G) (μ : G.QPostponed → ℤ)
    (ρ : G.QResult → ℤ) (W : Nat → Nat → ℤ) (laws : ExactLaws E μ ρ W) (q : Nat) (t : Shape)
    (hnd : t.indices.Nodup) (r_node_i : Nat) (delta : G.Delta)
    (unvisited : G.QSummaryResult) (s : State G)
    (hx : (Pair_extrinsic E t.root r_node_i delta unvisited s).explore = false) :
    Gains E μ ρ q t (W q r_node_i) s
      (Pair_extrinsic_pruned E t.root r_node_i delta unvisited s) := by
  refine Gains.gains_of_root_step E μ ρ q t _ s _ ?_ ?_ ?_
  · simp [Pair_extrinsic_pruned]
  · intro n hn
    have hne : n ≠ t.root := fun h => Shape.root_not_mem_descendants hnd (h ▸ hn)
    simp [Pair_extrinsic_pruned, State.setPostponed_postponed_other _ hne]
  · intro hc
    have e1 := laws.extrinsic t.root r_node_i delta (Pair_mu E t.root delta unvisited s)
      s.global_result_ (Pair_termination E t.root delta unvisited s).postponed q hc
    have e2 := (laws.termination t.root (Pair_mu E t.root delta unvisited s)
      s.global_result_ (s.q_mutables_ t.root).postponed).1
    have e4 : μ ((Pair_extrinsic_pruned E t.root r_node_i delta unvisited s).q_mutables_
        t.root).postponed =
        μ (Pair_extrinsic E t.root r_node_i delta unvisited s).postponed := by
      simp [Pair_extrinsic_pruned]
    rw [e4]
    unfold Pair_extrinsic at hx ⊢
    rw [e1, hx]
    unfold Pair_termination
    rw [e2]
    simp

theorem BaseCasePoint_result_gains (E : Engine G) (μ : G.QPostponed → ℤ)
    (ρ : G.QResult → ℤ) (W : Nat → Nat → ℤ) (laws : ExactLaws E μ ρ W) (q_node_i r_node_i : Nat)
    (hvisit : VisitAdds E ρ W r_node_i)
    (unvisited : G.QSummaryResult) (vs : G.PairVisitor × State G) (q : Nat) :
    ρ ((BaseCasePoint E q_node_i r_node_i unvisited vs q).2.q_results_ q) =
      ρ (vs.2.q_results_ q) + (μ (vs.2.q_mutables_ q_node_i).postponed + W q r_node_i) := by
  unfold BaseCasePoint
  simp only [State.setSummary_q_results]
  rw [hvisit]
  simp [laws.result_apply]
  omega

theorem BaseCase_loop_gains (E : Engine G) (μ : G.QPostponed → ℤ)
    (ρ : G.QResult → ℤ) (W : Nat → Nat → ℤ) (laws : ExactLaws E μ ρ W) (q_node_i r_node_i : Nat)
    (hvisit : VisitAdds E ρ W r_node_i)
    (unvisited : G.QSummaryResult) (q : Nat) (l : List Nat) (hl : l.Nodup)
    (vs : G.PairVisitor × State G) :
    ρ ((l.foldl (BaseCasePoint E q_node_i r_node_i unvisited) vs).2.q_results_ q) =
      ρ (vs.2.q_results_ q) +
        if q ∈ l then μ (vs.2.q_mutables_ q_node_i).postponed + W q r_node_i else 0 := by
  induction l generalizing vs with
  | nil => simp
  | cons a l ih =>
    obtain ⟨ha, hl2⟩ := List.nodup_cons.1 hl
    rw [List.foldl_cons, ih hl2, BaseCasePoint_postponed]
    by_cases haq : a = q
    · subst haq
      rw [BaseCasePoint_result_gains E μ ρ W laws _ _ hvisit]
      simp [ha]
    · have hqa : q ≠ a := fun h => haq h.symm
      rw [BaseCasePoint_q_results_other _ _ _ _ _ _ hqa]
      simp [hqa]

theorem BaseCase_gains (E : Engine G) (μ : G.QPostponed → ℤ) (ρ : G.QResult → ℤ)
    (W : Nat → Nat → ℤ) (laws : ExactLaws E μ ρ W) (q : Nat) (t : Shape)
    (hnd : t.indices.Nodup) (r_node_i : Nat) (hvisit : VisitAdds E ρ W r_node_i)
    (unvisited : G.QSummaryResult) (s : State G) :
    Gains E μ ρ q t (W q r_node_i) s (BaseCase_ E t.root r_node_i unvisited s) := by
  have hbelow : pendingBelow E μ (BaseCase_ E t.root r_node_i unvisited s) q t =
      pendingBelow E μ s q t := by
    apply pendingBelow_congr
    intro n hn
    have hne : n ≠ t.root := fun h => Shape.root_not_mem_descendants hnd (h ▸ hn)
    rw [BaseCase_q_mutables_other _ _ _ _ _ hne]
  refine ⟨fun hc => ?_, fun hc => ?_⟩
  · have hroot : μ ((BaseCase_ E t.root r_node_i unvisited s).q_mutables_ t.root).postponed =
        0 := by
      simp [BaseCase_, laws.reset]
    have hres : ρ ((BaseCase_ E t.root r_node_i unvisited s).q_results_ q) =
        ρ (s.q_results_ q) + (μ (s.q_mutables_ t.root).postponed + W q r_node_i) := by
      have hmem : q ∈ List.range' (E.q_nodes_ t.root).begin (E.q_nodes_ t.root).count := by
        rw [List.mem_range'_1]
        simpa [Node.covers, Node.end_] using hc
      have := BaseCase_loop_gains E μ ρ W laws t.root r_node_i hvisit unvisited q
        (List.range' (E.q_nodes_ t.root).begin (E.q_nodes_ t.root).count)
        (List.nodup_range' _ _) (G.PairVisitor_Init E.param_,
          (s.emit (.BaseCase t.root r_node_i)).setSummary t.root
            (G.QSummaryResult_StartReaccumulate E.param_ (E.q_nodes_ t.root)
              ((s.emit (.BaseCase t.root r_node_i)).q_mutables_ t.root).summary_result))
      simp only [hmem, if_true] at this
      simpa [BaseCase_] using this
    rw [pending, pending, hroot, hres, hbelow]
    omega
  · apply BaseCase_q_results_other
    simpa [Node.covers] using hc

theorem SplitR_checked_gains (E : Engine G) (μ : G.QPostponed → ℤ)
    (ρ : G.QResult → ℤ) (W : Nat → Nat → ℤ) (laws : ExactLaws E μ ρ W) (q : Nat) (t : Shape)
    (hnd : t.indices.Nodup) (r_node_i : Nat) (s : State G) :
    Gains E μ ρ q t
      ((if (SplitR_intrinsic1 E t.root r_node_i s).explore = true then 0
          else W q ((E.r_nodes_ r_node_i).child 0)) +
        (if (SplitR_intrinsic2 E t.root r_node_i s).explore = true then 0
          else W q ((E.r_nodes_ r_node_i).child 1)))
      s (SplitR_checked E t.root r_node_i s) := by
  refine Gains.gains_of_root_step E μ ρ q t _ s _ ?_ ?_ ?_
  · simp [SplitR_checked]
  · intro n hn
    have hne : n ≠ t.root := fun h => Shape.root_not_mem_descendants hnd (h ▸ hn)
    simp [SplitR_checked, State.setPostponed_postponed_other _ hne]
  · intro hc
    have e0 : μ ((SplitR_checked E t.root r_node_i s).q_mutables_ t.root).postponed =
        μ (SplitR_intrinsic2 E t.root r_node_i s).postponed := by
      simp [SplitR_checked]
    have e1 := laws.intrinsic t.root ((E.r_nodes_ r_node_i).child 0) (G.Delta_Init E.param_)
      s.global_result_ (s.q_mutables_ t.root).postponed q hc
    have e2 := laws.intrinsic t.root ((E.r_nodes_ r_node_i).child 1) (G.Delta_Init E.param_)
      (SplitR_intrinsic1 E t.root r_node_i s).global_result
      (SplitR_intrinsic1 E t.root r_node_i s).postponed q hc
    rw [e0]
    unfold SplitR_intrinsic2
    rw [e2]
    unfold SplitR_intrinsic1
    rw [e1]
    omega

theorem SplitR_release_gains (E : Engine G) (μ : G.QPostponed → ℤ)
    (ρ : G.QResult → ℤ) (q : Nat) (t : Shape) (r_node_i : Nat) (s sf : State G)
    (h : SplitR_release E r_node_i s = Outcome.done sf) :
    Gains E μ ρ q t 0 s sf := by
  unfold SplitR_release at h
  cases h
  refine Gains.gains_of_root_step E μ ρ q t 0 s _ ?_ ?_ ?_
  · simp
  · intro n _
    simp
  · intro _
    simp

theorem SplitQ_gains (E : Engine G) (μ : G.QPostponed → ℤ) (ρ : G.QResult → ℤ)
    (W : Nat → Nat → ℤ) (laws : ExactLaws E μ ρ W) (q i : Nat) (l r : Shape)
    (hp1 : (E.q_nodes_ l.root).begin = (E.q_nodes_ i).begin)
    (hp2 : (E.q_nodes_ r.root).begin = (E.q_nodes_ l.root).end_)
    (hp3 : (E.q_nodes_ r.root).end_ = (E.q_nodes_ i).end_)
    (hnd : (Shape.split i l r).indices.Nodup)
    (h0 : (E.q_nodes_ i).child 0 = l.root) (h1 : (E.q_nodes_ i).child 1 = r.root)
    (r_node_i : Nat) (c en ch0 s0 a0 ch1 s1 a1 sf : State G)
    (hen : en = SplitQ_entered E i r_node_i c)
    (hch0 : ch0 = SplitQChild_checked E i r_node_i 0 en)
    (ha0 : a0 = SplitQChild_accumulated E i 0 s0)
    (hch1 : ch1 = SplitQChild_checked E i r_node_i 1 a0)
    (ha1 : a1 = SplitQChild_accumulated E i 1 s1)
    (hsf : sf = SplitQ_finished E i a1)
    (k0 : Gains E μ ρ q l
      (if (SplitQChild_intrinsic E i r_node_i 0 en).explore = true then W q r_node_i else 0)
      ch0 s0)
    (f0 : ∀ j, j ∉ l.indices → s0.q_mutables_ j = ch0.q_mutables_ j)
    (k1 : Gains E μ ρ q r
      (if (SplitQChild_intrinsic E i r_node_i 1 a0).explore = true then W q r_node_i else 0)
      ch1 s1)
    (f1 : ∀ j, j ∉ r.indices → s1.q_mutables_ j = ch1.q_mutables_ j) :
    Gains E μ ρ q (Shape.split i l r) (W q r_node_i) c sf := by
  obtain ⟨hil, hir, hdisj, hndl, hndr⟩ := Shape.nodup_split hnd
  obtain ⟨hcov, hex⟩ := covers_split (E.q_nodes_ i) (E.q_nodes_ l.root) (E.q_nodes_ r.root) q
    hp1 hp2 hp3
  have hli : l.root ≠ i := fun h => hil (h ▸ l.root_mem_indices)
  have hri : r.root ≠ i := fun h => hir (h ▸ r.root_mem_indices)
  have hil0 : i ≠ l.root := fun h => hli h.symm
  have hir0 : i ≠ r.root := fun h => hri h.symm
  have hrl : r.root ∉ l.indices := fun h => hdisj _ h r.root_mem_indices
  have hrl0 : r.root ≠ l.root := fun h => hrl (h ▸ l.root_mem_indices)
  have pen : ∀ n, (en.q_mutables_ n).postponed = (c.q_mutables_ n).postponed := by
    intro n; rw [hen, SplitQ_entered_postponed]
  have pch0 : ∀ n, n ≠ l.root → ch0.q_mutables_ n = en.q_mutables_ n := by
    intro n hn
    rw [hch0, SplitQChild_checked_q_mutables_other _ _ _ _ _ (by rw [h0]; exact hn)]
  have pa0 : ∀ n, (a0.q_mutables_ n).postponed = (s0.q_mutables_ n).postponed := by
    intro n; rw [ha0, SplitQChild_accumulated_postponed]
  have pch1 : ∀ n, n ≠ r.root → ch1.q_mutables_ n = a0.q_mutables_ n := by
    intro n hn
    rw [hch1, SplitQChild_checked_q_mutables_other _ _ _ _ _ (by rw [h1]; exact hn)]
  have pa1 : ∀ n, (a1.q_mutables_ n).postponed = (s1.q_mutables_ n).postponed := by
    intro n; rw [ha1, SplitQChild_accumulated_postponed]
  have psf : ∀ n, n ≠ i → sf.q_mutables_ n = a1.q_mutables_ n := by
    intro n hn
    rw [hsf, SplitQ_finished_q_mutables_other _ _ _ hn]
  have psfi : μ (sf.q_mutables_ i).postponed = 0 := by
    rw [hsf]
    simp [SplitQ_finished, laws.reset]
  have ren : en.q_results_ = c.q_results_ := by rw [hen]; simp [SplitQ_entered]
  have rch0 : ch0.q_results_ = en.q_results_ := by rw [hch0]; simp [SplitQChild_checked]
  have ra0 : a0.q_results_ = s0.q_results_ := by rw [ha0]; simp [SplitQChild_accumulated]
  have rch1 : ch1.q_results_ = a0.q_results_ := by rw [hch1]; simp [SplitQChild_checked]
  have ra1 : a1.q_results_ = s1.q_results_ := by rw [ha1]; simp [SplitQChild_accumulated]
  have rsf : sf.q_results_ = a1.q_results_ := by rw [hsf]; simp [SplitQ_finished]
  -- the postponed of each child after the intrinsic test on it
  have mch0 : (E.q_nodes_ l.root).covers q = true →
      μ (ch0.q_mutables_ l.root).postponed =
        μ (en.q_mutables_ l.root).postponed + μ (en.q_mutables_ i).postponed +
          if (SplitQChild_intrinsic E i r_node_i 0 en).explore = true then 0
          else W q r_node_i := by
    intro hc
    have e := laws.intrinsic l.root r_node_i (G.Delta_Init E.param_) en.global_result_
      (G.QPostponed_ApplyPostponed E.param_ (en.q_mutables_ i).postponed
        (en.q_mutables_ l.root).postponed) q hc
    rw [laws.apply_postponed] at e
    rw [hch0]
    simp only [SplitQChild_checked, SplitQChild_intrinsic, h0, State.emit_q_mutables,
      State.setPostponed_postponed_same]
    exact e
  have mch1 : (E.q_nodes_ r.root).covers q = true →
      μ (ch1.q_mutables_ r.root).postponed =
        μ (a0.q_mutables_ r.root).postponed + μ (a0.q_mutables_ i).postponed +
          if (SplitQChild_intrinsic E i r_node_i 1 a0).explore = true then 0
          else W q r_node_i := by
    intro hc
    have e := laws.intrinsic r.root r_node_i (G.Delta_Init E.param_) a0.global_result_
      (G.QPostponed_ApplyPostponed E.param_ (a0.q_mutables_ i).postponed
        (a0.q_mutables_ r.root).postponed) q hc
    rw [laws.apply_postponed] at e
    rw [hch1]
    simp only [SplitQChild_checked, SplitQChild_intrinsic, h1, State.emit_q_mutables,
      State.setPostponed_postponed_same]
    exact e
  have bl1 : pendingBelow E μ ch0 q l = pendingBelow E μ c q l := by
    apply pendingBelow_congr
    intro n hn
    have hn1 : n ≠ l.root := fun h => Shape.root_not_mem_descendants hndl (h ▸ hn)
    rw [pch0 n hn1, pen]
  have ml2 : ∀ n, n ∈ l.indices →
      (sf.q_mutables_ n).postponed = (s0.q_mutables_ n).postponed := by
    intro n hn
    have hn1 : n ≠ i := fun h => hil (h ▸ hn)
    have hn2 : n ∉ r.indices := hdisj n hn
    have hn3 : n ≠ r.root := fun h => hn2 (h ▸ r.root_mem_indices)
    rw [psf n hn1, pa1, f1 n hn2, pch1 n hn3, pa0]
  have bl2 : pendingBelow E μ sf q l = pendingBelow E μ s0 q l :=
    pendingBelow_congr E μ sf s0 q l (fun n hn => ml2 n (List.mem_cons_of_mem _ hn))
  have br1 : pendingBelow E μ ch1 q r = pendingBelow E μ c q r := by
    apply pendingBelow_congr
    intro n hn
    have hn0 : n ∈ r.indices := List.mem_cons_of_mem _ hn
    have hn1 : n ≠ r.root := fun h => Shape.root_not_mem_descendants hndr (h ▸ hn)
    have hn2 : n ∉ l.indices := fun h => hdisj n h hn0
    have hn3 : n ≠ l.root := fun h => hn2 (h ▸ l.root_mem_indices)
    rw [pch1 n hn1, pa0, f0 n hn2, pch0 n hn3, pen]
  have mr : ∀ n, n ∈ r.indices →
      (sf.q_mutables_ n).postponed = (s1.q_mutables_ n).postponed := by
    intro n hn
    have hn1 : n ≠ i := fun h => hir (h ▸ hn)
    rw [psf n hn1, pa1]
  have br2 : pendingBelow E μ sf q r = pendingBelow E μ s1 q r :=
    pendingBelow_congr E μ sf s1 q r (fun n hn => mr n (List.mem_cons_of_mem _ hn))
  have qi : (a0.q_mutables_ i).postponed = (c.q_mutables_ i).postponed := by
    rw [pa0, f0 i hil, pch0 i hil0, pen]
  have qr : (a0.q_mutables_ r.root).postponed = (c.q_mutables_ r.root).postponed := by
    rw [pa0, f0 _ hrl, pch0 _ hrl0, pen]
  have e_sl := ml2 l.root l.root_mem_indices
  have e_sr := mr r.root r.root_mem_indices
  have e_l := pen l.root
  have e_i := pen i
  refine ⟨fun hc => ?_, fun hc => ?_⟩
  · simp only [pending, pendingBelow, Shape.root_split]
    rcases hcov.1 hc with hcl | hcr
    · have hcr : (E.q_nodes_ r.root).covers q = false := by
        cases h : (E.q_nodes_ r.root).covers q with
        | false => rfl
        | true => exact absurd ⟨hcl, h⟩ hex
      have e1 := k0.1 hcl
      have e2 := k1.2 hcr
      have e3 := mch0 hcl
      simp only [pending] at e1
      simp only [hcl, if_true]
      rw [rsf, ra1, e2, rch1, ra0, psfi, e_sl, bl2]
      rw [rch0, ren, bl1, e3, e_l, e_i] at e1
      split_ifs at e1 <;> omega
    · have hcl : (E.q_nodes_ l.root).covers q = false := by
        cases h : (E.q_nodes_ l.root).covers q with
        | false => rfl
        | true => exact absurd ⟨h, hcr⟩ hex
      have e2 := k0.2 hcl
      have e1 := k1.1 hcr
      have e3 := mch1 hcr
      simp only [pending] at e1
      simp only [hcl, Bool.false_eq_true, if_false]
      rw [rsf, ra1, psfi, e_sr, br2]
      rw [rch1, ra0, e2, rch0, ren, br1, e3, qi, qr] at e1
      split_ifs at e1 <;> omega
  · have hc2 : (E.q_nodes_ i).covers q = false := hc
    have hcl : (E.q_nodes_ l.root).covers q = false := by
      cases h : (E.q_nodes_ l.root).covers q with
      | false => rfl
      | true => rw [hcov.2 (Or.inl h)] at hc2; cases hc2
    have hcr : (E.q_nodes_ r.root).covers q = false := by
      cases h : (E.q_nodes_ r.root).covers q with
      | false => rfl
      | true => rw [hcov.2 (Or.inr h)] at hc2; cases hc2
    rw [rsf, ra1, k1.2 hcr, rch1, ra0, k0.2 hcl, rch0, ren]

/-- A run of `Pair_` on a subtree of the query tree and a subtree of the
reference tree gives every point of the query subtree, in its result or in
the postponed on the path to its leaf, what the reference subtree contributes
to it, whether by visits or by prunes. -/
theorem Pair_gains (E : Engine G) (μ : G.QPostponed → ℤ) (ρ : G.QResult → ℤ)
    (W : Nat → Nat → ℤ) (laws : ExactLaws E μ ρ W) (q : Nat) (fuel : Nat) (t tr : Shape)
    (hq : Represents E.q_nodes_ t) (hp : Partitions E.q_nodes_ t) (hnd : t.indices.Nodup)
    (hr : Represents E.r_nodes_ tr) (hW : WSplits W tr)
    (hvisit : ∀ n ∈ tr.indices, VisitAdds E ρ W n)
    (delta : G.Delta) (unvisited : G.QSummaryResult) (s sf : State G)
    (h : Pair_ E fuel t.root tr.root delta unvisited s = Outcome.done sf) :
    Gains E μ ρ q t (W q tr.root) s sf := by
  induction fuel generalizing t tr delta unvisited s sf with
  | zero => simp [Pair_] at h
  | succ fuel ih =>
    revert sf
    apply Pair_succ_cases E fuel t.root tr.root delta unvisited s
      (fun o => ∀ sf, o = Outcome.done sf → Gains E μ ρ q t (W q tr.root) s sf)
    · intro ht sf h
      cases h
      exact Pair_termination_pruned_gains E μ ρ W laws q t hnd tr.root delta unvisited s ht
    · intro _ hx sf h
      cases h
      exact Pair_extrinsic_pruned_gains E μ ρ W laws q t hnd tr.root delta unvisited s hx
    · intro _ hx _ _ sf h
      cases h
      exact ((Pair_committed_gains E μ ρ W laws q t hnd tr.root delta unvisited s hx).gains_trans
        (BaseCase_gains E μ ρ W laws q t hnd tr.root (hvisit _ tr.root_mem_indices)
          unvisited _)).gains_congr (fun _ => by omega)
    · intro hs hql sf h
      obtain ⟨i, l, r, rfl, h0, h1, hl, hr2⟩ := hq.split_of_not_leaf hql
      obtain ⟨p1, p2, p3, hpl, hpr⟩ := hp
      obtain ⟨_, _, _, hndl, hndr⟩ := Shape.nodup_split hnd
      have g1 := Pair_committed_gains E μ ρ W laws q _ hnd tr.root delta unvisited s hs.2.1
      simp only [Shape.root_split] at h g1 ⊢
      rw [SplitQ_eq] at h
      obtain ⟨sb, e1, e2⟩ := Outcome.andThen_eq_done.1 h
      obtain ⟨sa, e3, e4⟩ := Outcome.andThen_eq_done.1 e1
      rw [SplitQChild_eq] at e3 e4
      obtain ⟨s0, e5, e6⟩ := Outcome.andThen_eq_done.1 e3
      obtain ⟨s1, e7, e8⟩ := Outcome.andThen_eq_done.1 e4
      cases e2
      cases e6
      cases e8
      have key : ∀ (k : Nat) (tc : Shape) (sx sy : State G), Represents E.q_nodes_ tc →
          Partitions E.q_nodes_ tc → tc.indices.Nodup →
          (E.q_nodes_ i).child k = tc.root →
          (if (SplitQChild_intrinsic E i tr.root k sx).explore = true then
            Pair_ E fuel ((E.q_nodes_ i).child k) tr.root delta unvisited
              (SplitQChild_checked E i tr.root k sx)
          else Outcome.done (SplitQChild_checked E i tr.root k sx)) = Outcome.done sy →
          Gains E μ ρ q tc
            (if (SplitQChild_intrinsic E i tr.root k sx).explore = true then W q tr.root
              else 0)
            (SplitQChild_checked E i tr.root k sx) sy ∧
          ∀ j, j ∉ tc.indices →
            sy.q_mutables_ j = (SplitQChild_checked E i tr.root k sx).q_mutables_ j := by
        intro k tc sx sy htc hpc hndc hk hy
        by_cases hx : (SplitQChild_intrinsic E i tr.root k sx).explore = true
        · rw [if_pos hx] at hy ⊢
          rw [hk] at hy
          refine ⟨ih tc tr htc hpc hndc hr hW hvisit _ _ _ _ hy, ?_⟩
          intro j hj
          have := Pair_q_mutables_frame E fuel tc htc tr.root delta unvisited
            (SplitQChild_checked E i tr.root k sx) j hj
          rw [hy] at this
          exact this
        · rw [if_neg hx] at hy ⊢
          cases hy
          exact ⟨Gains.gains_refl E μ ρ q tc _, fun j _ => rfl⟩
      obtain ⟨k0, f0⟩ := key 0 l _ _ hl hpl hndl h0 e5
      obtain ⟨k1, f1⟩ := key 1 r _ _ hr2 hpr hndr h1 e7
      have gq := SplitQ_gains E μ ρ W laws q i l r p1 p2 p3 hnd h0 h1 tr.root _ _ _ s0 _ _
        s1 _ _ rfl rfl rfl rfl rfl rfl k0 f0 k1 f1
      exact (g1.gains_trans gq).gains_congr (fun _ => by omega)
    · intro hs hrl sf h
      obtain ⟨i, l, r, rfl, h0, h1, hl, hr2⟩ := hr.split_of_not_leaf hrl
      obtain ⟨hWi, hWl, hWr⟩ := hW
      have hvl : ∀ n ∈ l.indices, VisitAdds E ρ W n := fun n hn =>
        hvisit n (by simp [Shape.indices_split, hn])
      have hvr : ∀ n ∈ r.indices, VisitAdds E ρ W n := fun n hn =>
        hvisit n (by simp [Shape.indices_split, hn])
      simp only [Shape.root_split] at h hs ⊢
      rw [SplitR_eq] at h
      obtain ⟨s2, e1, e2⟩ := Outcome.andThen_eq_done.1 h
      have g1 := Pair_committed_gains E μ ρ W laws q t hnd i delta unvisited s hs.2.1
      have g2 := SplitR_checked_gains E μ ρ W laws q t hnd i
        (Pair_committed E t.root i delta unvisited s)
      have g4 := SplitR_release_gains E μ ρ q t i s2 sf e2
      rw [h0, h1] at g2 e1
      split at e1
      · rename_i x1
        split at e1
        · rename_i x2
          have g3 := ih t r hq hp hnd hr2 hWr hvr _ _ _ _ e1
          refine (((g1.gains_trans g2).gains_trans g3).gains_trans g4).gains_congr (fun _ => ?_)
          rw [hWi q]
          simp [x1, x2]
        · rename_i x2
          cases e1
          refine ((g1.gains_trans g2).gains_trans g4).gains_congr (fun _ => ?_)
          rw [hWi q]
          simp [x1, x2]
      · rename_i x1
        split at e1
        · rename_i x2
          have g3 := ih t l hq hp hnd hl hWl hvl _ _ _ _ e1
          refine (((g1.gains_trans g2).gains_trans g3).gains_trans g4).gains_congr (fun _ => ?_)
          rw [hWi q]
          simp [x1, x2]
          omega
        · rename_i x2
          split at e1
          · obtain ⟨s3, e3, e4⟩ := Outcome.andThen_eq_done.1 e1
            have g3 := ih t l hq hp hnd hl hWl hvl _ _ _ _ e3
            have g5 := ih t r hq hp hnd hr2 hWr hvr _ _ _ _ e4
            refine ((((g1.gains_trans g2).gains_trans g3).gains_trans g5).gains_trans g4).gains_congr (fun _ => ?_)
            rw [hWi q]
            simp [x1, x2]
          · obtain ⟨s3, e3, e4⟩ := Outcome.andThen_eq_done.1 e1
            have g3 := ih t r hq hp hnd hr2 hWr hvr _ _ _ _ e3
            have g5 := ih t l hq hp hnd hl hWl hvl _ _ _ _ e4
            refine ((((g1.gains_trans g2).gains_trans g3).gains_trans g5).gains_trans g4).gains_congr (fun _ => ?_)
            rw [hWi q]
            simp [x1, x2]
            omega

theorem PushDownPoints_postprocessed (E : Engine G) (μ : G.QPostponed → ℤ)
    (ρ : G.QResult → ℤ) (W : Nat → Nat → ℤ) (laws : ExactLaws E μ ρ W) (q_node_i q : Nat)
    (l : List Nat) (hl : l.Nodup) (s : State G) :
    (q ∈ l → ∃ x, (l.foldl (PushDownPoint E q_node_i) s).q_results_ q =
        G.QResult_Postprocess E.param_ (E.q_points_ q) q E.r_root_ x ∧
      ρ x = ρ (s.q_results_ q) + μ (s.q_mutables_ q_node_i).postponed) ∧
    (q ∉ l → (l.foldl (PushDownPoint E q_node_i) s).q_results_ q = s.q_results_ q) := by
  induction l generalizing s with
  | nil => simp
  | cons a l ih =>
    obtain ⟨ha, hl2⟩ := List.nodup_cons.1 hl
    obtain ⟨ih1, ih2⟩ := ih hl2 (PushDownPoint E q_node_i s a)
    rw [List.foldl_cons]
    by_cases haq : a = q
    · subst haq
      refine ⟨fun _ => ?_, fun h => absurd (List.mem_cons_self _ _) h⟩
      rw [ih2 ha]
      exact ⟨G.QResult_ApplyPostponed E.param_ (s.q_mutables_ q_node_i).postponed
        (E.q_points_ a) a (s.q_results_ a), by simp [PushDownPoint],
        laws.result_apply _ _ _ _⟩
    · have hqa : q ≠ a := fun h => haq h.symm
      have e : (PushDownPoint E q_node_i s a).q_results_ q = s.q_results_ q := by
        simp [PushDownPoint, Function.update_noteq hqa]
      refine ⟨fun h => ?_, fun h => ?_⟩
      · have hq : q ∈ l := by
          rcases List.mem_cons.1 h with h | h
          · exact absurd h hqa
          · exact h
        obtain ⟨x, h1, h2⟩ := ih1 hq
        rw [e, PushDownPoint_q_mutables] at h2
        exact ⟨x, h1, h2⟩
      · have hq : q ∉ l := fun h2 => h (List.mem_cons_of_mem _ h2)
        rw [ih2 hq, e]

/-- On a well-formed tree `PushDownPostprocess_` returns, and the final
result of every point of the tree is `Postprocess` of a result that counts
what the result of the point and the postponed on the path to its leaf counted
on entry. -/
theorem PushDown_postprocessed (E : Engine G) (μ : G.QPostponed → ℤ) (ρ : G.QResult → ℤ)
    (W : Nat → Nat → ℤ) (laws : ExactLaws E μ ρ W) (q : Nat) (fuel : Nat) (t : Shape)
    (hq : Represents E.q_nodes_ t) (hp : Partitions E.q_nodes_ t) (hnd : t.indices.Nodup)
    (hf : t.height ≤ fuel) (s : State G) :
    ∃ sf, PushDownPostprocess_ E fuel t.root s = Outcome.done sf ∧
      (∀ j, j ∉ t.descendants → sf.q_mutables_ j = s.q_mutables_ j) ∧
      ((E.q_nodes_ t.root).covers q = true →
        ∃ x, sf.q_results_ q = G.QResult_Postprocess E.param_ (E.q_points_ q) q E.r_root_ x ∧
          ρ x = ρ (s.q_results_ q) + pending E μ s q t) ∧
      ((E.q_nodes_ t.root).covers q = false → sf.q_results_ q = s.q_results_ q) := by
  induction fuel generalizing t s with
  | zero =>
    have := t.height_pos
    omega
  | succ fuel ih =>
    rw [PushDownPostprocess_]
    cases t with
    | leaf i =>
      have hl : (E.q_nodes_ i).is_leaf = true := hq
      simp only [Shape.root_leaf, hl, if_true, Node.end_sub_begin]
      obtain ⟨h1, h2⟩ := PushDownPoints_postprocessed E μ ρ W laws i q
        (List.range' (E.q_nodes_ i).begin (E.q_nodes_ i).count) (List.nodup_range' _ _)
        (s.emit (.PushDown i))
      refine ⟨_, rfl, fun j _ => ?_, fun hc => ?_, fun hc => ?_⟩
      · rw [(PushDownPoints_run E i _ _).2]
        simp
      · have hmem : q ∈ List.range' (E.q_nodes_ i).begin (E.q_nodes_ i).count := by
          rw [List.mem_range'_1]
          simpa [Node.covers, Node.end_] using hc
        obtain ⟨x, e1, e2⟩ := h1 hmem
        exact ⟨x, e1, by simpa [pending, pendingBelow] using e2⟩
      · have hmem : q ∉ List.range' (E.q_nodes_ i).begin (E.q_nodes_ i).count := by
          rw [List.mem_range'_1]
          simpa [Node.covers, Node.end_] using hc
        rw [h2 hmem]
        simp
    | split i l r =>
      obtain ⟨hnl, h0, h1, hl, hr⟩ := hq
      obtain ⟨p1, p2, p3, hpl, hpr⟩ := hp
      obtain ⟨hil, hir, hdisj, hndl, hndr⟩ := Shape.nodup_split hnd
      obtain ⟨hcov, hex⟩ := covers_split (E.q_nodes_ i) (E.q_nodes_ l.root)
        (E.q_nodes_ r.root) q p1 p2 p3
      have hh : max l.height r.height + 1 ≤ fuel + 1 := hf
      have hl1 : l.height ≤ fuel := by
        have := le_max_left l.height r.height
        omega
      have hr1 : r.height ≤ fuel := by
        have := le_max_right l.height r.height
        omega
      have hli : l.root ≠ i := fun h => hil (h ▸ l.root_mem_indices)
      have hri : r.root ≠ i := fun h => hir (h ▸ r.root_mem_indices)
      have hrl : r.root ∉ l.indices := fun h => hdisj _ h r.root_mem_indices
      have hld : l.root ∉ l.descendants := Shape.root_not_mem_descendants hndl
      have hrd : r.root ∉ r.descendants := Shape.root_not_mem_descendants hndr
      simp only [Shape.root_split, hnl, Bool.false_eq_true, if_false, PushDownChild, h0, h1]
      obtain ⟨sl, el, fl, tl, ul⟩ := ih l hl hpl hndl hl1
        ((s.emit (.PushDown i)).setPostponed l.root
          (G.QPostponed_ApplyPostponed E.param_ ((s.emit (.PushDown i)).q_mutables_ i).postponed
            ((s.emit (.PushDown i)).q_mutables_ l.root).postponed))
      rw [el]
      simp only [Outcome.andThen, PushDownChild, h1]
      obtain ⟨sr, er, fr, tr, ur⟩ := ih r hr hpr hndr hr1
        (sl.setPostponed r.root
          (G.QPostponed_ApplyPostponed E.param_ (sl.q_mutables_ i).postponed
            (sl.q_mutables_ r.root).postponed))
      rw [er]
      have hsl : ∀ j, j ∉ l.indices → sl.q_mutables_ j = s.q_mutables_ j := by
        intro j hj
        have hj1 : j ≠ l.root := fun h => hj (h ▸ l.root_mem_indices)
        have hj2 : j ∉ l.descendants := fun h => hj (List.mem_cons_of_mem _ h)
        rw [fl j hj2, State.setPostponed_q_mutables_other _ hj1, State.emit_q_mutables]
      have bl : pendingBelow E μ ((s.emit (.PushDown i)).setPostponed l.root
          (G.QPostponed_ApplyPostponed E.param_
            ((s.emit (.PushDown i)).q_mutables_ i).postponed
            ((s.emit (.PushDown i)).q_mutables_ l.root).postponed)) q l =
          pendingBelow E μ s q l := by
        apply pendingBelow_congr
        intro n hn
        have : n ≠ l.root := fun h => hld (h ▸ hn)
        rw [State.setPostponed_q_mutables_other _ this, State.emit_q_mutables]
      have br : pendingBelow E μ (sl.setPostponed r.root
          (G.QPostponed_ApplyPostponed E.param_ (sl.q_mutables_ i).postponed
            (sl.q_mutables_ r.root).postponed)) q r = pendingBelow E μ s q r := by
        apply pendingBelow_congr
        intro n hn
        have h1 : n ≠ r.root := fun h => hrd (h ▸ hn)
        have h2 : n ∉ l.indices := fun h => hdisj n h (List.mem_cons_of_mem _ hn)
        rw [State.setPostponed_q_mutables_other _ h1, hsl n h2]
      simp only [pending] at tl tr
      rw [bl] at tl
      rw [br] at tr
      simp only [pending, Shape.root_split, pendingBelow, State.setPostponed_postponed_same,
        State.setPostponed_q_results, State.emit_q_results, State.emit_q_mutables,
        laws.apply_postponed, hsl i hil, hsl r.root hrl] at tl tr ul ur ⊢
      refine ⟨sr, rfl, ?_, fun hc => ?_, fun hc => ?_⟩
      · intro j hj
        simp only [Shape.descendants, List.mem_append, List.mem_cons, not_or] at hj
        obtain ⟨⟨hj1, hj2⟩, hj3, hj4⟩ := hj
        rw [fr j hj4, State.setPostponed_q_mutables_other _ hj3, fl j hj2,
          State.setPostponed_q_mutables_other _ hj1, State.emit_q_mutables]
      · rcases hcov.1 hc with hcl | hcr
        · have hcr : (E.q_nodes_ r.root).covers q = false := by
            cases h : (E.q_nodes_ r.root).covers q with
            | false => rfl
            | true => exact absurd ⟨hcl, h⟩ hex
          obtain ⟨x, e1, e2⟩ := tl hcl
          refine ⟨x, by rw [ur hcr, e1], ?_⟩
          simp only [hcl, if_true]
          omega
        · have hcl : (E.q_nodes_ l.root).covers q = false := by
            cases h : (E.q_nodes_ l.root).covers q with
            | false => rfl
            | true => exact absurd ⟨h, hcr⟩ hex
          obtain ⟨x, e1, e2⟩ := tr hcr
          rw [ul hcl] at e2
          refine ⟨x, e1, ?_⟩
          simp only [hcl, Bool.false_eq_true, if_false]
          omega
      · have hcl : (E.q_nodes_ l.root).covers q = false := by
          cases h : (E.q_nodes_ l.root).covers q with
          | false => rfl
          | true => rw [hcov.2 (Or.inl h)] at hc; cases hc
        have hcr : (E.q_nodes_ r.root).covers q = false := by
          cases h : (E.q_nodes_ r.root).covers q with
          | false => rfl
          | true => rw [hcov.2 (Or.inr h)] at hc; cases hc
        rw [ur hcr, ul hcl]

theorem Begin_checked_gains (E : Engine G) (μ : G.QPostponed → ℤ) (ρ : G.QResult → ℤ)
    (W : Nat → Nat → ℤ) (laws : ExactLaws E μ ρ W) (q : Nat) (t : Shape)
    (hnd : t.indices.Nodup) (s : State G) :
    Gains E μ ρ q t (if (Begin_intrinsic E t.root s).explore = true then 0 else W q 0) s
      (Begin_checked E t.root s) := by
  refine Gains.gains_of_root_step E μ ρ q t _ s _ ?_ ?_ ?_
  · simp [Begin_checked]
  · intro n hn
    have hne : n ≠ t.root := fun h => Shape.root_not_mem_descendants hnd (h ▸ hn)
    simp [Begin_checked, State.setPostponed_postponed_other _ hne]
  · intro hc
    have e := laws.intrinsic t.root 0 G.Delta_default s.global_result_
      (s.q_mutables_ t.root).postponed q hc
    simp only [Begin_checked, Begin_intrinsic, Engine.r_root_, State.emit_q_mutables,
      State.setPostponed_postponed_same]
    exact e

/-- The result that `Begin_` leaves for a query point under an exact policy:
`Postprocess` of a result that counts what the result of the point and the
postponed on the path to its leaf counted on entry, and the total that the
reference root contributes to the point. It is the same whether the solver
takes the pruned or the naive path and however the reference tree is laid
out. -/
theorem Begin_result (E : Engine G) (μ : G.QPostponed → ℤ) (ρ : G.QResult → ℤ)
    (W : Nat → Nat → ℤ) (laws : ExactLaws E μ ρ W) (fuel : Nat) (tq tr : Shape)
    (hq : Represents E.q_nodes_ tq) (hr : Represents E.r_nodes_ tr) (hr0 : tr.root = 0)
    (hp : Partitions E.q_nodes_ tq) (hnd : tq.indices.Nodup) (hW : WSplits W tr)
    (hvisit : ∀ n ∈ tr.indices, VisitAdds E ρ W n)
    (hf : tq.height + tr.height ≤ fuel) (s : State G) (q : Nat)
    (hc : (E.q_nodes_ tq.root).covers q = true) :
    ∃ sf x, Begin_ E fuel tq.root s = Outcome.done sf ∧
      sf.q_results_ q = G.QResult_Postprocess E.param_ (E.q_points_ q) q E.r_root_ x ∧
      ρ x = ρ (s.q_results_ q) + pending E μ s q tq + W q 0 := by
  have g1 := Begin_checked_gains E μ ρ W laws q tq hnd s
  have h0 : (0 : Nat) ∈ tr.indices := hr0 ▸ tr.root_mem_indices
  obtain ⟨sp, ep, gp⟩ : ∃ sp,
      (if (Begin_intrinsic E tq.root s).explore = true then
        if E.do_naive_ = true then
          Outcome.done (BaseCase_ E tq.root 0 (G.QSummaryResult_Init E.param_)
            (Begin_checked E tq.root s))
        else
          Pair_ E fuel tq.root 0 (Begin_intrinsic E tq.root s).delta
            (G.QSummaryResult_Init E.param_) (Begin_checked E tq.root s)
      else Outcome.done (Begin_checked E tq.root s)) = Outcome.done sp ∧
      Gains E μ ρ q tq (W q 0) s sp := by
    by_cases hx : (Begin_intrinsic E tq.root s).explore = true
    · rw [if_pos hx] at g1 ⊢
      by_cases hn : E.do_naive_ = true
      · rw [if_pos hn]
        exact ⟨_, rfl, (g1.gains_trans (BaseCase_gains E μ ρ W laws q tq hnd 0 (hvisit 0 h0) _
          _)).gains_congr (fun _ => by omega)⟩
      · rw [if_neg hn]
        have hret := Pair_returns E fuel tq tr hq hr hf (Begin_intrinsic E tq.root s).delta
          (G.QSummaryResult_Init E.param_) (Begin_checked E tq.root s)
        have hd := Outcome.eq_done_of_returned hret
        have g2 := Pair_gains E μ ρ W laws q fuel tq tr hq hp hnd hr hW hvisit _ _ _ _ hd
        rw [hr0] at hd g2
        exact ⟨_, hd, (g1.gains_trans g2).gains_congr (fun _ => by omega)⟩
    · rw [if_neg hx] at g1 ⊢
      exact ⟨_, rfl, g1⟩
  obtain ⟨sf, ef, _, tf, _⟩ := PushDown_postprocessed E μ ρ W laws q fuel tq hq hp hnd
    (by omega) sp
  obtain ⟨x, e1, e2⟩ := tf hc
  refine ⟨sf, x, ?_, e1, ?_⟩
  · rw [Begin_eq, ep]
    exact ef
  · have := gp.1 hc
    omega

theorem VisitLoop_do_naive (E : Engine G) (b : Bool) (q_i n r_i : Nat) (v : G.PairVisitor)
    (s : State G) :
    VisitLoop { E with do_naive_ := b } q_i n r_i v s = VisitLoop E q_i n r_i v s := by
  induction n generalizing r_i v s with
  | zero => rfl
  | succ n ih =>
    rw [VisitLoop, VisitLoop]
    exact ih _ _ _

theorem VisitQueryPoint_do_naive (E : Engine G) (b : Bool) (r_node_i : Nat)
    (unvisited : G.QSummaryResult) (q_i : Nat) (v : G.PairVisitor) (s : State G) :
    VisitQueryPoint { E with do_naive_ := b } r_node_i unvisited q_i v s =
      VisitQueryPoint E r_node_i unvisited q_i v s := by
  unfold VisitQueryPoint
  simp only [VisitLoop_do_naive]

theorem VisitAdds.visit_do_naive {E : Engine G} {ρ : G.QResult → ℤ} {W : Nat → Nat → ℤ} {n : Nat}
    (h : VisitAdds E ρ W n) (b : Bool) : VisitAdds { E with do_naive_ := b } ρ W n := by
  intro u q v s
  rw [VisitQueryPoint_do_naive]
  exact h u q v s

theorem ExactLaws.laws_do_naive {E : Engine G} {μ : G.QPostponed → ℤ} {ρ : G.QResult → ℤ}
    {W : Nat → Nat → ℤ} (laws : ExactLaws E μ ρ W) (b : Bool) :
    ExactLaws { E with do_naive_ := b } μ ρ W :=
  ⟨laws.apply_postponed, laws.reset, laws.result_apply, laws.intrinsic, laws.termination,
    laws.extrinsic⟩

theorem pending_of_q_nodes (E1 E2 : Engine G) (μ : G.QPostponed → ℤ) (s : State G) (q : Nat)
    (t : Shape) (h : E2.q_nodes_ = E1.q_nodes_) : pending E2 μ s q t = pending E1 μ s q t := by
  have : ∀ t, pendingBelow E2 μ s q t = pendingBelow E1 μ s q t := by
    intro t
    induction t with
    | leaf i => rfl
    | split i l r ihl ihr => simp only [pendingBelow, ihl, ihr, h]
  simp only [pending, this]

/-- C1, amended: for a policy whose prunes are exact (laws `ExactLaws`, with
a visitor that adds to a result the total `W` of the reference node it runs
over, totals that add up over the reference tree, and a `Postprocess` that
depends on a result only through its count), well-formed trees and a
recursion budget of at least the sum of their heights, the solver returns on
the pruned path and on the naive path, and every query point of the root has
the same final result on both. -/
theorem Begin_pruned_eq_naive (E : Engine G) (μ : G.QPostponed → ℤ) (ρ : G.QResult → ℤ)
    (W : Nat → Nat → ℤ) (laws : ExactLaws E μ ρ W)
    (hnorm : ∀ pt i a b, ρ a = ρ b →
      G.QResult_Postprocess E.param_ pt i E.r_root_ a =
        G.QResult_Postprocess E.param_ pt i E.r_root_ b)
    (fuel : Nat) (tq tr : Shape)
    (hq : Represents E.q_nodes_ tq) (hr : Represents E.r_nodes_ tr) (hr0 : tr.root = 0)
    (hp : Partitions E.q_nodes_ tq) (hnd : tq.indices.Nodup) (hW : WSplits W tr)
    (hvisit : ∀ n ∈ tr.indices, VisitAdds E ρ W n)
    (hf : tq.height + tr.height ≤ fuel) (s : State G) (q : Nat)
    (hc : (E.q_nodes_ tq.root).covers q = true) :
    (Begin_ { E with do_naive_ := false } fuel tq.root s).returned = true ∧
    (Begin_ { E with do_naive_ := true } fuel tq.root s).returned = true ∧
    (Begin_ { E with do_naive_ := false } fuel tq.root s).state.q_results_ q =
      (Begin_ { E with do_naive_ := true } fuel tq.root s).state.q_results_ q := by
  obtain ⟨sf1, x1, e1, r1, c1⟩ := Begin_result { E with do_naive_ := false } μ ρ W
    (laws.laws_do_naive false) fuel tq tr hq hr hr0 hp hnd hW
    (fun n hn => (hvisit n hn).visit_do_naive false) hf s q hc
  obtain ⟨sf2, x2, e2, r2, c2⟩ := Begin_result { E with do_naive_ := true } μ ρ W
    (laws.laws_do_naive true) fuel tq tr hq hr hr0 hp hnd hW
    (fun n hn => (hvisit n hn).visit_do_naive true) hf s q hc
  rw [e1, e2]
  refine ⟨rfl, rfl, ?_⟩
  simp only [Outcome.state_done]
  rw [r1, r2]
  refine hnorm _ _ _ _ ?_
  rw [c1, c2, pending_of_q_nodes { E with do_naive_ := false } { E with do_naive_ := true } μ
    s q tq rfl]

/-- C11, amended: take two solvers with the same parameter, query tree and
query points, whose reference node caches hold two layouts of the reference
tree, as when the two children of a reference node are exchanged. When the
policy is exact on both layouts with the same total of the reference root for
the query point `q`, and `Postprocess` depends on a result only through its
count, both solvers return and leave the same final result for `q`. -/
theorem Begin_reference_layout (E1 E2 : Engine G) (μ : G.QPostponed → ℤ)
    (ρ : G.QResult → ℤ) (W1 W2 : Nat → Nat → ℤ) (laws1 : ExactLaws E1 μ ρ W1)
    (laws2 : ExactLaws E2 μ ρ W2) (hparam : E2.param_ = E1.param_)
    (hnodes : E2.q_nodes_ = E1.q_nodes_) (hpoints : E2.q_points_ = E1.q_points_)
    (hnorm : ∀ pt i a b, ρ a = ρ b →
      G.QResult_Postprocess E1.param_ pt i E1.r_root_ a =
        G.QResult_Postprocess E1.param_ pt i E2.r_root_ b)
    (fuel : Nat) (tq tr1 tr2 : Shape)
    (hq : Represents E1.q_nodes_ tq) (hp : Partitions E1.q_nodes_ tq)
    (hnd : tq.indices.Nodup)
    (hr1 : Represents E1.r_nodes_ tr1) (hr10 : tr1.root = 0) (hW1 : WSplits W1 tr1)
    (hvisit1 : ∀ n ∈ tr1.indices, VisitAdds E1 ρ W1 n)
    (hr2 : Represents E2.r_nodes_ tr2) (hr20 : tr2.root = 0) (hW2 : WSplits W2 tr2)
    (hvisit2 : ∀ n ∈ tr2.indices, VisitAdds E2 ρ W2 n)
    (hf1 : tq.height + tr1.height ≤ fuel) (hf2 : tq.height + tr2.height ≤ fuel)
    (s : State G) (q : Nat) (hc : (E1.q_nodes_ tq.root).covers q = true)
    (htotal : W1 q 0 = W2 q 0) :
    (Begin_ E1 fuel tq.root s).returned = true ∧
    (Begin_ E2 fuel tq.root s).returned = true ∧
    (Begin_ E1 fuel tq.root s).state.q_results_ q =
      (Begin_ E2 fuel tq.root s).state.q_results_ q := by
  obtain ⟨sf1, x1, e1, r1, c1⟩ := Begin_result E1 μ ρ W1 laws1 fuel tq tr1 hq hr1 hr10 hp hnd
    hW1 hvisit1 hf1 s q hc
  obtain ⟨sf2, x2, e2, r2, c2⟩ := Begin_result E2 μ ρ W2 laws2 fuel tq tr2 (hnodes ▸ hq) hr2
    hr20 (hnodes ▸ hp) hnd hW2 hvisit2 hf2 s q (hnodes ▸ hc)
  have hpend := pending_of_q_nodes E1 E2 μ s q tq hnodes
  rw [e1, e2]
  refine ⟨rfl, rfl, ?_⟩
  simp only [Outcome.state_done]
  rw [r1, r2, hparam, hpoints]
  apply hnorm
  rw [c1, c2, hpend, htotal]

/-- C1 as stated fails for a policy whose termination test prunes without
compensation: on two one-point trees the pruned path leaves the result of the
query point at 0, the naive path counts the one reference point. -/
theorem Begin_pruned_differs_from_naive :
    (Begin_ (toyEngine { toyExplore with termination := false } (toyTree1 1) (toyTree1 1)
        false) 2 0 (toyState toyExplore)).state.q_results_ 0 = 0 ∧
    (Begin_ (toyEngine { toyExplore with termination := false } (toyTree1 1) (toyTree1 1)
        true) 2 0 (toyState toyExplore)).state.q_results_ 0 = 1 ∧
    (Begin_ (toyEngine { toyExplore with termination := false } (toyTree1 1) (toyTree1 1)
        false) 2 0 (toyState toyExplore)).state.q_results_ 0 ≠
      (Begin_ (toyEngine { toyExplore with termination := false } (toyTree1 1) (toyTree1 1)
        true) 2 0 (toyState toyExplore)).state.q_results_ 0 := by
  have h1 : (Begin_ (toyEngine { toyExplore with termination := false } (toyTree1 1)
      (toyTree1 1) false) 2 0 (toyState toyExplore)).state.q_results_ 0 = 0 := by
    simp [Begin_, Pair_, PairBody, Pair_termination, Pair_extrinsic, Pair_mu,
      PushDownPostprocess_, PushDownPoint, toyEngine, toyState,
      DoitState, toyTree1, toyNodes, toyLeaf, toyExplore, Node.end_, State.emit,
      State.setPostponed, State.setSummary, State.setGlobal, State.setResult, Function.update,
      Outcome.andThen, List.range', Engine.r_root_]
  have h2 : (Begin_ (toyEngine { toyExplore with termination := false } (toyTree1 1)
      (toyTree1 1) true) 2 0 (toyState toyExplore)).state.q_results_ 0 = 1 := by
    simp [Begin_, BaseCase_, BaseCasePoint, VisitQueryPoint, VisitLoop, decr,
      PushDownPostprocess_, PushDownPoint, toyEngine, toyState,
      DoitState, toyTree1, toyNodes, toyLeaf, toyExplore, Node.end_, State.emit,
      State.setPostponed, State.setSummary, State.setGlobal, State.setResult, Function.update,
      Outcome.andThen, List.range', Engine.r_root_]
  exact ⟨h1, h2, by rw [h1, h2]; decide⟩

/-- C11 as stated fails for a policy whose visitor depends on the order of
the reference points: with equal heuristic scores the child labelled first is
explored first, and exchanging the two children of the reference root changes
the result of the query point from 7 to 11. -/
theorem Begin_exchanged_children_differ :
    ((Begin_ (tallyEngine { prune := false, merge := false, ordered := true } (toyTree1 1)
        toyTree3 false) 3 0
        (tallyState { prune := false, merge := false, ordered := true })).state.q_results_
        0).1 = 7 ∧
    ((Begin_ (tallyEngine { prune := false, merge := false, ordered := true } (toyTree1 1)
        toyTree3Swapped false) 3 0
        (tallyState { prune := false, merge := false, ordered := true })).state.q_results_
        0).1 = 11 ∧
    (Begin_ (tallyEngine { prune := false, merge := false, ordered := true } (toyTree1 1)
        toyTree3 false) 3 0
        (tallyState { prune := false, merge := false, ordered := true })).state.q_results_ 0 ≠
      (Begin_ (tallyEngine { prune := false, merge := false, ordered := true } (toyTree1 1)
        toyTree3Swapped false) 3 0
        (tallyState { prune := false, merge := false, ordered := true })).state.q_results_
        0 := by
  have h1 : (Begin_ (tallyEngine { prune := false, merge := false, ordered := true }
      (toyTree1 1) toyTree3 false) 3 0
      (tallyState { prune := false, merge := false, ordered := true })).state.q_results_ 0 =
      (7, 0) := by
    simp [Begin_, Pair_, PairBody, Pair_termination, Pair_extrinsic, Pair_mu, SplitR,
      BaseCase_, BaseCasePoint, VisitQueryPoint, VisitLoop, decr, PushDownPostprocess_,
      PushDownPoint, tallyEngine, tallyState, DoitState, toyTree1, toyTree3, toyNodes,
      toyLeaf, toySplit, Node.end_, Node.child, State.emit, State.setPostponed,
      State.setSummary, State.setGlobal, State.setResult, Function.update, Outcome.andThen,
      List.range', Engine.r_root_]
  have h2 : (Begin_ (tallyEngine { prune := false, merge := false, ordered := true }
      (toyTree1 1) toyTree3Swapped false) 3 0
      (tallyState { prune := false, merge := false, ordered := true })).state.q_results_ 0 =
      (11, 0) := by
    simp [Begin_, Pair_, PairBody, Pair_termination, Pair_extrinsic, Pair_mu, SplitR,
      BaseCase_, BaseCasePoint, VisitQueryPoint, VisitLoop, decr, PushDownPostprocess_,
      PushDownPoint, tallyEngine, tallyState, DoitState, toyTree1, toyTree3Swapped, toyNodes,
      toyLeaf, toySplit, Node.end_, Node.child, State.emit, State.setPostponed,
      State.setSummary, State.setGlobal, State.setResult, Function.update, Outcome.andThen,
      List.range', Engine.r_root_]
  refine ⟨by rw [h1], by rw [h2], ?_⟩
  rw [h1, h2]
  decide

theorem VisitQueryPoint_result (E : Engine G) (r_node_i : Nat)
    (unvisited : G.QSummaryResult) (q : Nat) (v : G.PairVisitor) (s : State G) :
    (VisitQueryPoint E r_node_i unvisited q v s).2.q_results_ q =
      if (G.PairVisitor_StartVisitingQueryPoint E.param_ (E.q_points_ q) q
          (E.r_nodes_ r_node_i) unvisited (s.q_results_ q) s.global_result_ v).visit = true
      then
        (G.PairVisitor_FinishVisitingQueryPoint E.param_ (E.q_points_ q) q
          (E.r_nodes_ r_node_i) unvisited
          (G.PairVisitor_StartVisitingQueryPoint E.param_ (E.q_points_ q) q
            (E.r_nodes_ r_node_i) unvisited (s.q_results_ q) s.global_result_ v).q_result
          (G.PairVisitor_StartVisitingQueryPoint E.param_ (E.q_points_ q) q
            (E.r_nodes_ r_node_i) unvisited (s.q_results_ q) s.global_result_ v).global_result
          ((List.range' (E.r_nodes_ r_node_i).begin
              (decr E.index_bits (E.r_nodes_ r_node_i).count + 1)).foldl
            (fun w r => G.PairVisitor_VisitPair E.param_ (E.q_points_ q) q (E.r_points_ r) r w)
            (G.PairVisitor_StartVisitingQueryPoint E.param_ (E.q_points_ q) q
              (E.r_nodes_ r_node_i) unvisited (s.q_results_ q) s.global_result_
              v).visitor)).q_result
      else
        (G.PairVisitor_StartVisitingQueryPoint E.param_ (E.q_points_ q) q
          (E.r_nodes_ r_node_i) unvisited (s.q_results_ q) s.global_result_ v).q_result := by
  unfold VisitQueryPoint
  simp only []
  split
  · simp [VisitLoop_q_results, VisitLoop_visitor, VisitLoop_global]
  · simp

theorem foldl_count (l : List Nat) (v : Nat) :
    l.foldl (fun w _ => w + 1) v = v + l.length := by
  induction l generalizing v with
  | nil => rfl
  | cons a l ih =>
    rw [List.foldl_cons, ih, List.length_cons]
    omega

/-- The policy `Tally` is exact: the reference node `n` contributes its
number of points to every query point. -/
theorem tallyLaws (p : TallyParam) (q_nodes r_nodes : Nat → Node Unit) (naive : Bool) :
    ExactLaws (tallyEngine p q_nodes r_nodes naive) (fun x => (x : ℤ))
      (fun res => ((res.1 + res.2 : Nat) : ℤ)) (fun _ n => ((r_nodes n).count : ℤ)) := by
  refine ⟨?_, ?_, ?_, ?_, ?_, ?_⟩
  · intro other self
    simp
  · intro x
    rfl
  · intro post pt i res
    simp
    omega
  · intro qn rn d g post q _
    simp only [tallyEngine]
    split <;> simp_all
  · intro qn mu g post
    exact ⟨rfl, fun h => by simp at h⟩
  · intro qn rn d mu g post q _
    simp

/-- The visitor of `Tally`, when it does not weigh the reference points, adds
to a result the number of points of the reference node it runs over. -/
theorem tallyVisitAdds (p : TallyParam) (hp : p.ordered = false)
    (q_nodes r_nodes : Nat → Node Unit) (naive : Bool) (n : Nat)
    (h0 : 0 < (r_nodes n).count) (h1 : (r_nodes n).count < 2 ^ 32) :
    VisitAdds (tallyEngine p q_nodes r_nodes naive) (fun res => ((res.1 + res.2 : Nat) : ℤ))
      (fun _ n => ((r_nodes n).count : ℤ)) n := by
  intro u q v s
  have hd : decr 32 (r_nodes n).count + 1 = (r_nodes n).count := decr_of_pos h0 h1
  have e := VisitQueryPoint_result (tallyEngine p q_nodes r_nodes naive) n u q v s
  rw [e]
  dsimp only [tallyEngine]
  rw [hd]
  simp only [hp, if_true, Bool.false_eq_true, if_false, foldl_count, List.length_range']
  push_cast
  omega

/-- The policy `Tally`, when its postprocessing merges the two components of a
result, depends on a result only through their sum. -/
theorem tallyNorm (p : TallyParam) (q_nodes r_nodes : Nat → Node Unit) (naive : Bool)
    (hm : p.merge = true)
    (pt : Unit) (i : Nat) (r : Node Unit) (a b : Nat × Nat)
    (h : ((a.1 + a.2 : Nat) : ℤ) = ((b.1 + b.2 : Nat) : ℤ)) :
    Tally.QResult_Postprocess (tallyEngine p q_nodes r_nodes naive).param_ pt i r a =
      Tally.QResult_Postprocess (tallyEngine p q_nodes r_nodes naive).param_ pt i r b := by
  have h2 : a.1 + a.2 = b.1 + b.2 := by exact_mod_cast h
  simp [tallyEngine, hm, h2]

/-- Witness of C1: the policy `Tally` pruning the reference leaves, on the
four point tree as query tree and as reference tree. -/
theorem Begin_pruned_eq_naive_witness :
    (Begin_ { tallyEngine { prune := true, merge := true, ordered := false } toyTree3 toyTree3
        false with do_naive_ := false } 4 0
        (tallyState { prune := true, merge := true, ordered := false })).returned = true ∧
    (Begin_ { tallyEngine { prune := true, merge := true, ordered := false } toyTree3 toyTree3
        false with do_naive_ := true } 4 0
        (tallyState { prune := true, merge := true, ordered := false })).returned = true ∧
    (Begin_ { tallyEngine { prune := true, merge := true, ordered := false } toyTree3 toyTree3
        false with do_naive_ := false } 4 0
        (tallyState { prune := true, merge := true, ordered := false })).state.q_results_ 3 =
      (Begin_ { tallyEngine { prune := true, merge := true, ordered := false } toyTree3
        toyTree3 false with do_naive_ := true } 4 0
        (tallyState { prune := true, merge := true, ordered := false })).state.q_results_ 3 := by
  have h := Begin_pruned_eq_naive
      (tallyEngine { prune := true, merge := true, ordered := false } toyTree3 toyTree3 false)
      (fun x => (x : ℤ)) (fun res => ((res.1 + res.2 : Nat) : ℤ))
      (fun _ n => ((toyTree3 n).count : ℤ)) (tallyLaws _ _ _ _)
      (fun pt i a b h => tallyNorm _ _ _ _ rfl pt i _ a b h)
      4 (Shape.split 0 (Shape.leaf 1) (Shape.leaf 2)) (Shape.split 0 (Shape.leaf 1) (Shape.leaf 2))
      ⟨rfl, rfl, rfl, rfl, rfl⟩ ⟨rfl, rfl, rfl, rfl, rfl⟩ rfl
      ⟨rfl, rfl, rfl, trivial, trivial⟩ (by decide)
      ⟨fun _ => rfl, trivial, trivial⟩
      (fun n hn => by
        simp [Shape.indices, Shape.descendants, Shape.root] at hn
        rcases hn with rfl | rfl | rfl <;>
          exact tallyVisitAdds _ rfl _ _ _ _ (by decide) (by decide))
      (by decide) (tallyState { prune := true, merge := true, ordered := false }) 3 rfl
  simp only [Shape.root_split] at h
  dsimp only
  exact h

/-- Witness of C11: the policy `Tally` pruning the reference leaves, on the
four point reference tree and on the same tree with the children of its root
exchanged. -/
theorem Begin_reference_layout_witness :
    (Begin_ (tallyEngine { prune := true, merge := true, ordered := false } toyTree3 toyTree3
        false) 4 0
        (tallyState { prune := true, merge := true, ordered := false })).returned = true ∧
    (Begin_ (tallyEngine { prune := true, merge := true, ordered := false } toyTree3
        toyTree3Swapped false) 4 0
        (tallyState { prune := true, merge := true, ordered := false })).returned = true ∧
    (Begin_ (tallyEngine { prune := true, merge := true, ordered := false } toyTree3 toyTree3
        false) 4 0
        (tallyState { prune := true, merge := true, ordered := false })).state.q_results_ 3 =
      (Begin_ (tallyEngine { prune := true, merge := true, ordered := false } toyTree3
        toyTree3Swapped false) 4 0
        (tallyState { prune := true, merge := true, ordered := false })).state.q_results_ 3 := by
  have h := Begin_reference_layout
      (tallyEngine { prune := true, merge := true, ordered := false } toyTree3 toyTree3 false)
      (tallyEngine { prune := true, merge := true, ordered := false } toyTree3 toyTree3Swapped
        false)
      (fun x => (x : ℤ)) (fun res => ((res.1 + res.2 : Nat) : ℤ))
      (fun _ n => ((toyTree3 n).count : ℤ)) (fun _ n => ((toyTree3Swapped n).count : ℤ))
      (tallyLaws _ _ _ _) (tallyLaws _ _ _ _) rfl rfl rfl
      (fun pt i a b h => tallyNorm _ _ _ _ rfl pt i _ a b h)
      4 (Shape.split 0 (Shape.leaf 1) (Shape.leaf 2)) (Shape.split 0 (Shape.leaf 1) (Shape.leaf 2))
      (Shape.split 0 (Shape.leaf 2) (Shape.leaf 1))
      ⟨rfl, rfl, rfl, rfl, rfl⟩ ⟨rfl, rfl, rfl, trivial, trivial⟩ (by decide)
      ⟨rfl, rfl, rfl, rfl, rfl⟩ rfl ⟨fun _ => rfl, trivial, trivial⟩
      (fun n hn => by
        simp [Shape.indices, Shape.descendants, Shape.root] at hn
        rcases hn with rfl | rfl | rfl <;>
          exact tallyVisitAdds _ rfl _ _ _ _ (by decide) (by decide))
      ⟨rfl, rfl, rfl, rfl, rfl⟩ rfl ⟨fun _ => rfl, trivial, trivial⟩
      (fun n hn => by
        simp [Shape.indices, Shape.descendants, Shape.root] at hn
        rcases hn with rfl | rfl | rfl <;>
          exact tallyVisitAdds _ rfl _ _ _ _ (by decide) (by decide))
      (by decide) (by decide) (tallyState { prune := true, merge := true, ordered := false }) 3
      rfl rfl
  simp only [Shape.root_split] at h
  exact h

end ExactPolicies

/-! ## Leaves are never asked for a child -/

section LeafChildren

variable {G : GNP}

theorem Event.splitsInternal_of_baseCaseCall (E : Engine G) (e : Event G)
    (h : e.isBaseCaseCall = true) : e.splitsInternal E = true := by
  cases e <;> simp [Event.isBaseCaseCall] at h <;> rfl

theorem Pair_committed_splitsInternal (E : Engine G) (q_node_i r_node_i : Nat)
    (delta : G.Delta) (unvisited : G.QSummaryResult) (s : State G) :
    LogAdds (Event.splitsInternal E) s (Pair_committed E q_node_i r_node_i delta unvisited s) :=
  ⟨_, by simp [Pair_committed, List.append_assoc]; rfl, by
    intro e he
    simp only [List.mem_cons, List.mem_singleton, List.not_mem_nil, or_false] at he
    rcases he with rfl | rfl | rfl | rfl <;> rfl⟩

theorem SplitQChild_splitsInternal (E : Engine G) (pair : PairFn G)
    (hp : ∀ q r d u s, LogAdds (Event.splitsInternal E) s (pair q r d u s).state)
    (q_node_i r_node_i : Nat) (delta : G.Delta) (unvisited : G.QSummaryResult) (k : Nat)
    (s : State G) :
    LogAdds (Event.splitsInternal E) s
      (SplitQChild E pair q_node_i r_node_i delta unvisited k s).state := by
  rw [SplitQChild_eq]
  apply Outcome.andThen_rel _ (fun a b c => LogAdds.trans)
  · have h0 : LogAdds (Event.splitsInternal E) s (SplitQChild_checked E q_node_i r_node_i k s) :=
      ⟨_, by simp [SplitQChild_checked]; rfl, by
        intro e he
        simp only [List.mem_singleton] at he
        subst he; rfl⟩
    split
    · exact h0.trans (hp _ _ _ _ _)
    · exact h0
  · intro s1
    exact LogAdds.of_log_eq (by simp [SplitQChild_accumulated, Outcome.state])

theorem SplitQ_splitsInternal (E : Engine G) (pair : PairFn G)
    (hp : ∀ q r d u s, LogAdds (Event.splitsInternal E) s (pair q r d u s).state)
    (q_node_i r_node_i : Nat) (delta : G.Delta) (unvisited : G.QSummaryResult)
    (s : State G) (hl : (E.q_nodes_ q_node_i).is_leaf = false) :
    LogAdds (Event.splitsInternal E) s
      (SplitQ E pair q_node_i r_node_i delta unvisited s).state := by
  rw [SplitQ_eq]
  apply Outcome.andThen_rel _ (fun a b c => LogAdds.trans)
  · apply Outcome.andThen_rel _ (fun a b c => LogAdds.trans)
    · refine LogAdds.trans ?_ (SplitQChild_splitsInternal E pair hp _ _ _ _ _ _)
      refine ⟨[Event.SplittingQ q_node_i r_node_i], by simp [SplitQ_entered], ?_⟩
      intro e he
      simp only [List.mem_singleton] at he
      subst he
      simp [Event.splitsInternal, hl]
    · intro s1
      exact SplitQChild_splitsInternal E pair hp _ _ _ _ _ _
  · intro s1
    exact LogAdds.of_log_eq (by simp [SplitQ_finished, Outcome.state])

theorem SplitR_splitsInternal (E : Engine G) (pair : PairFn G)
    (hp : ∀ q r d u s, LogAdds (Event.splitsInternal E) s (pair q r d u s).state)
    (q_node_i r_node_i : Nat) (unvisited : G.QSummaryResult) (s : State G)
    (hl : (E.r_nodes_ r_node_i).is_leaf = false) :
    LogAdds (Event.splitsInternal E) s (SplitR E pair q_node_i r_node_i unvisited s).state := by
  have h0 : LogAdds (Event.splitsInternal E) s (SplitR_checked E q_node_i r_node_i s) :=
    ⟨_, by simp [SplitR_checked, List.append_assoc]; rfl, by
      intro e he
      simp only [List.mem_cons, List.mem_singleton, List.not_mem_nil, or_false] at he
      rcases he with rfl | rfl | rfl | rfl | rfl
      · simp [Event.splitsInternal, hl]
      all_goals rfl⟩
  rw [SplitR_eq]
  apply Outcome.andThen_rel _ (fun a b c => LogAdds.trans)
  · split
    · split
      · exact h0.trans (hp _ _ _ _ _)
      · exact h0
    · split
      · exact h0.trans (hp _ _ _ _ _)
      · split
        · apply Outcome.andThen_rel _ (fun a b c => LogAdds.trans)
          · exact h0.trans (hp _ _ _ _ _)
          · intro s1
            exact hp _ _ _ _ _
        · apply Outcome.andThen_rel _ (fun a b c => LogAdds.trans)
          · exact h0.trans (hp _ _ _ _ _)
          · intro s1
            exact hp _ _ _ _ _
  · intro s1
    exact ⟨_, by simp [SplitR_release, Outcome.state, List.append_assoc]; rfl, by
      intro e he
      simp only [List.mem_cons, List.mem_singleton, List.not_mem_nil, or_false] at he
      rcases he with rfl | rfl <;> rfl⟩

/-- C24: in a run of `Pair_`, whatever the leaf flags and the point counts of
the nodes, the budget and the answers of the policy, every entry of the branch
`Splitting Q` (the only place where `Pair_` reads `q_node->child(k)`) is made
with an internal query node and every entry of the branch `Splitting R` (the
only place where it reads `r_node->child(0)` and `r_node->child(1)`) is made
with an internal reference node: all the calls the run adds to the log
satisfy `Event.splitsInternal`. -/
theorem Pair_never_asks_leaf_for_child (E : Engine G) (fuel q_node_i r_node_i : Nat)
    (delta : G.Delta) (unvisited : G.QSummaryResult) (s : State G) :
    LogAdds (Event.splitsInternal E) s
      (Pair_ E fuel q_node_i r_node_i delta unvisited s).state := by
  induction fuel generalizing q_node_i r_node_i delta unvisited s with
  | zero => exact LogAdds.refl _
  | succ fuel ih =>
    apply Pair_succ_cases E fuel q_node_i r_node_i delta unvisited s
      (fun o => LogAdds (Event.splitsInternal E) s o.state)
    · intro _
      exact ⟨_, by simp [Pair_termination_pruned, List.append_assoc]; rfl, by
        intro e he
        simp only [List.mem_cons, List.mem_singleton, List.not_mem_nil, or_false] at he
        rcases he with rfl | rfl | rfl <;> rfl⟩
    · intro _ _
      exact ⟨_, by simp [Pair_extrinsic_pruned, List.append_assoc]; rfl, by
        intro e he
        simp only [List.mem_cons, List.mem_singleton, List.not_mem_nil, or_false] at he
        rcases he with rfl | rfl | rfl | rfl <;> rfl⟩
    · intro _ _ _ _
      exact (Pair_committed_splitsInternal E _ _ _ _ _).trans
        ((BaseCase_log_calls E _ _ _ _).mono (Event.splitsInternal_of_baseCaseCall E))
    · intro _ hl
      exact (Pair_committed_splitsInternal E _ _ _ _ _).trans
        (SplitQ_splitsInternal E _ (fun q r d u s => ih q r d u s) _ _ _ _ _ hl)
    · intro _ hl
      exact (Pair_committed_splitsInternal E _ _ _ _ _).trans
        (SplitR_splitsInternal E _ (fun q r d u s => ih q r d u s) _ _ _ _ hl)

end LeafChildren

/-! ## Termination of Pair_ -/

section PairTermination

variable {G : GNP}

theorem LeavesNonEmpty.of_leafPaths {Info : Type} {nodes : Nat → Node Info} {bits : Nat}
    {t : Shape} (h : LeavesNonEmpty nodes bits t) :
    ∀ p ∈ t.leafPaths, 0 < (nodes p.2).count ∧ (nodes p.2).count < 2 ^ bits := by
  induction t with
  | leaf i =>
    intro p hp
    simp only [Shape.leafPaths, List.mem_singleton] at hp
    subst hp
    exact h
  | split i l r ihl ihr =>
    intro p hp
    simp only [Shape.leafPaths, List.mem_map, List.mem_append] at hp
    obtain ⟨p0, hp0, rfl⟩ := hp
    rcases hp0 with hp0 | hp0
    · exact ihl h.1 p0 hp0
    · exact ihr h.2 p0 hp0

/-- The body of `Pair_` calls itself only on a child of the query node paired
with the reference node, or on the query node paired with a child of the
reference node: two candidates for the recursive call that agree on these
pairs give the same run. -/
theorem PairBody_calls_children (E : Engine G) (pair pair2 : PairFn G)
    (q_node_i r_node_i : Nat)
    (h1 : ∀ k d u s, pair ((E.q_nodes_ q_node_i).child k) r_node_i d u s =
      pair2 ((E.q_nodes_ q_node_i).child k) r_node_i d u s)
    (h2 : ∀ k d u s, pair q_node_i ((E.r_nodes_ r_node_i).child k) d u s =
      pair2 q_node_i ((E.r_nodes_ r_node_i).child k) d u s)
    (delta : G.Delta) (unvisited : G.QSummaryResult) (s : State G) :
    PairBody E pair q_node_i r_node_i delta unvisited s =
      PairBody E pair2 q_node_i r_node_i delta unvisited s := by
  have h2f : ∀ k d u, pair q_node_i ((E.r_nodes_ r_node_i).child k) d u =
      pair2 q_node_i ((E.r_nodes_ r_node_i).child k) d u :=
    fun k d u => funext (h2 k d u)
  unfold PairBody SplitQ SplitQChild SplitR
  simp only [h1, h2, h2f]

/-- C23: on trees held by the node caches in which every reference leaf holds
at least one point, `Pair_` returns once its recursion budget is at least the
sum of the heights of the two trees; every recursive call made by the body of
`Pair_` is on a child of the query node with the same reference node or on
the same query node with a child of the reference node (the body does not
depend on what the recursive call does on any other pair); and on every
reference leaf the reference loop of `BaseCase_` makes exactly
`count(reference node)` iterations, one `VisitPair` per reference index of
the leaf. -/
theorem Pair_terminates (E : Engine G) (fuel : Nat) (tq tr : Shape)
    (hq : Represents E.q_nodes_ tq) (hr : Represents E.r_nodes_ tr)
    (hne : LeavesNonEmpty E.r_nodes_ E.index_bits tr)
    (hf : tq.height + tr.height ≤ fuel) :
    (∀ delta unvisited s,
      (Pair_ E fuel tq.root tr.root delta unvisited s).returned = true) ∧
    (∀ (pair pair2 : PairFn G) (q_node_i r_node_i : Nat),
      (∀ k d u s, pair ((E.q_nodes_ q_node_i).child k) r_node_i d u s =
        pair2 ((E.q_nodes_ q_node_i).child k) r_node_i d u s) →
      (∀ k d u s, pair q_node_i ((E.r_nodes_ r_node_i).child k) d u s =
        pair2 q_node_i ((E.r_nodes_ r_node_i).child k) d u s) →
      ∀ delta unvisited s, PairBody E pair q_node_i r_node_i delta unvisited s =
        PairBody E pair2 q_node_i r_node_i delta unvisited s) ∧
    (∀ p ∈ tr.leafPaths, ∀ q_i v s,
      (VisitLoop E q_i (decr E.index_bits (E.r_nodes_ p.2).count) (E.r_nodes_ p.2).begin v
          s).2.log =
        s.log ++ (List.range' (E.r_nodes_ p.2).begin (E.r_nodes_ p.2).count).map
          (fun r_i => Event.VisitPair q_i r_i)) := by
  refine ⟨fun delta unvisited s => Pair_returns E fuel tq tr hq hr hf delta unvisited s,
    fun pair pair2 q r h1 h2 delta unvisited s =>
      PairBody_calls_children E pair pair2 q r h1 h2 delta unvisited s, ?_⟩
  intro p hp q_i v s
  obtain ⟨h0, h1⟩ := hne.of_leafPaths p hp
  rw [VisitLoop_log, decr_of_pos h0 h1]

/-- Witness of C23: the four point tree as query tree and as reference
tree. -/
theorem Pair_terminates_witness :
    (∀ delta unvisited s,
      (Pair_ (toyEngine toyExplore toyTree3 toyTree3 false) 4 0 0 delta unvisited
        s).returned = true) ∧
    (∀ q_i v s,
      (VisitLoop (toyEngine toyExplore toyTree3 toyTree3 false) q_i (decr 32 2) 2 v s).2.log =
        s.log ++ [Event.VisitPair q_i 2, Event.VisitPair q_i 3]) :=
  have h := Pair_terminates (toyEngine toyExplore toyTree3 toyTree3 false) 4
    (Shape.split 0 (Shape.leaf 1) (Shape.leaf 2)) (Shape.split 0 (Shape.leaf 1) (Shape.leaf 2))
    ⟨rfl, rfl, rfl, rfl, rfl⟩ ⟨rfl, rfl, rfl, rfl, rfl⟩
    ⟨⟨by decide, by decide⟩, ⟨by decide, by decide⟩⟩ (by decide)
  ⟨h.1, fun q_i v s => h.2.2 ([0], 2) (by decide) q_i v s⟩

end PairTermination

/-! ## Deltas undone more than once -/

section UndoDelta

variable {G : GNP}

/-- C25 fails after a query split: with a policy that writes a different
delta for every pair of nodes and never prunes, on a query tree with one split
and a one-leaf reference tree, the delta `1400` is written by exactly one call
of `ConsiderPairIntrinsic` (the one on the two roots), and `UndoDelta` is
called with it three times: by the `Pair_` of the roots and by the `Pair_` of
each of the two query children, which are handed the delta of their parent.
The deltas `1200` and `1220` written for the two children are never undone. -/
theorem Begin_undoes_parent_delta_again :
    (Begin_ (toyEngine toyExplore toyTree3 (toyTree1 2) false) 3 0
      (toyState toyExplore)).returned = true ∧
    (Begin_ (toyEngine toyExplore toyTree3 (toyTree1 2) false) 3 0
      (toyState toyExplore)).state.log.countP (@Event.produces Toy (fun d => decide (d = 1400))) = 1 ∧
    (Begin_ (toyEngine toyExplore toyTree3 (toyTree1 2) false) 3 0
      (toyState toyExplore)).state.log.countP (@Event.undoes Toy (fun d => decide (d = 1400))) = 3 ∧
    (Begin_ (toyEngine toyExplore toyTree3 (toyTree1 2) false) 3 0
      (toyState toyExplore)).state.log.filter (@Event.produces Toy (fun _ => true)) =
      [Event.ConsiderPairIntrinsic 0 0 0 0 true 1400,
        Event.ConsiderPairIntrinsic 1 0 0 0 true 1200,
        Event.ConsiderPairIntrinsic 2 0 0 0 true 1220] ∧
    (Begin_ (toyEngine toyExplore toyTree3 (toyTree1 2) false) 3 0
      (toyState toyExplore)).state.log.filter (@Event.undoes Toy (fun _ => true)) =
      [Event.UndoDelta 1400, Event.UndoDelta 1400, Event.UndoDelta 1400] := by
  have hlog : (Begin_ (toyEngine toyExplore toyTree3 (toyTree1 2) false) 3 0
      (toyState toyExplore)).state.log =
      [Event.ConsiderPairIntrinsic 0 0 0 0 true 1400,
        Event.Checking 0 0 1400 0,
        Event.ConsiderQueryTermination 0 0 0 true,
        Event.ConsiderPairExtrinsic 0 0 0 0 true,
        Event.UndoDelta 1400,
        Event.SplittingQ 0 0,
        Event.ConsiderPairIntrinsic 1 0 0 0 true 1200,
        Event.Checking 1 0 1400 0,
        Event.ConsiderQueryTermination 1 0 0 true,
        Event.ConsiderPairExtrinsic 1 0 0 0 true,
        Event.UndoDelta 1400,
        Event.BaseCase 1 0,
        Event.ApplyPostponed 0 0, Event.StartVisitingQueryPoint 0 0 true,
        Event.VisitPair 0 0, Event.VisitPair 0 1, Event.FinishVisitingQueryPoint 0 0,
        Event.ApplyPostponed 1 0, Event.StartVisitingQueryPoint 1 0 true,
        Event.VisitPair 1 0, Event.VisitPair 1 1, Event.FinishVisitingQueryPoint 1 0,
        Event.ConsiderPairIntrinsic 2 0 0 0 true 1220,
        Event.Checking 2 0 1400 0,
        Event.ConsiderQueryTermination 2 0 0 true,
        Event.ConsiderPairExtrinsic 2 0 0 0 true,
        Event.UndoDelta 1400,
        Event.BaseCase 2 0,
        Event.ApplyPostponed 2 0, Event.StartVisitingQueryPoint 2 0 true,
        Event.VisitPair 2 0, Event.VisitPair 2 1, Event.FinishVisitingQueryPoint 2 0,
        Event.ApplyPostponed 3 0, Event.StartVisitingQueryPoint 3 0 true,
        Event.VisitPair 3 0, Event.VisitPair 3 1, Event.FinishVisitingQueryPoint 3 0,
        Event.PushDown 0,
        Event.PushDown 1,
        Event.ApplyPostponed 0 0, Event.Postprocess 0, Event.ApplyResult 0,
        Event.ApplyPostponed 1 0, Event.Postprocess 1, Event.ApplyResult 1,
        Event.PushDown 2,
        Event.ApplyPostponed 2 0, Event.Postprocess 2, Event.ApplyResult 2,
        Event.ApplyPostponed 3 0, Event.Postprocess 3, Event.ApplyResult 3] := by
    simp [Begin_, PushDownPostprocess_, PushDownChild, PushDownPoint, Pair_, PairBody, SplitQ,
      SplitQChild, Pair_termination, Pair_extrinsic, Pair_mu, Engine.r_root_, BaseCase_,
      BaseCasePoint, VisitQueryPoint, VisitLoop, decr,
      toyEngine, toyState, DoitState, toyTree3, toyTree1, toyNodes, toyLeaf, toySplit,
      toyExplore, Node.child, Node.end_, State.emit, State.setPostponed, State.setSummary,
      State.setGlobal, State.setResult, Function.update, Outcome.andThen, List.range']
  have hret : (Begin_ (toyEngine toyExplore toyTree3 (toyTree1 2) false) 3 0
      (toyState toyExplore)).returned = true := by
    simp [Begin_, PushDownPostprocess_, PushDownChild, PushDownPoint, Pair_, PairBody, SplitQ,
      SplitQChild, Pair_termination, Pair_extrinsic, Pair_mu, Engine.r_root_, BaseCase_,
      BaseCasePoint, VisitQueryPoint, VisitLoop, decr,
      toyEngine, toyState, DoitState, toyTree3, toyTree1, toyNodes, toyLeaf, toySplit,
      toyExplore, Node.child, Node.end_, State.emit, State.setPostponed, State.setSummary,
      State.setGlobal, State.setResult, Function.update, Outcome.andThen, List.range']
  rw [hlog]
  exact ⟨hret, rfl, rfl, rfl, rfl⟩

end UndoDelta

/-! ## The contents of the multi-index table -/

section MultiindexTable

variable {G : GNP}

theorem get_total_num_coeffs_eq (max_order dim p : Nat) (hp : p ≤ max_order) :
    SeriesExpansionAux.get_total_num_coeffs max_order dim p = Nat.choose (p + dim) dim := by
  unfold SeriesExpansionAux.get_total_num_coeffs SeriesExpansionAux.list_total_num_coeffs_
  rw [List.getD_eq_getElem?_getD, List.getElem?_map, List.getElem?_range (by omega)]
  rfl

theorem eq_replicate_of_sum_zero (x : List Nat) (h : x.sum = 0) :
    x = List.replicate x.length 0 := by
  induction x with
  | nil => rfl
  | cons a rest ih =>
    simp only [List.sum_cons] at h
    have ha : a = 0 := by omega
    have hr : rest.sum = 0 := by omega
    rw [List.length_cons, List.replicate_succ, ← ih hr, ha]

theorem mem_compositions (k n : Nat) (x : List Nat) (hl : x.length = n) (hs : x.sum = k) :
    x ∈ compositions k n := by
  induction k generalizing n x with
  | zero =>
    rw [compositions, List.mem_singleton, ← hl]
    exact eq_replicate_of_sum_zero x hs
  | succ k ihk =>
    induction n generalizing x with
    | zero =>
      have : x = [] := List.length_eq_zero.1 hl
      subst this
      simp at hs
    | succ n ihn =>
      cases x with
      | nil => simp at hl
      | cons a rest =>
        simp only [List.length_cons, List.sum_cons] at hl hs
        rw [compositions, List.mem_append, List.mem_map, List.mem_map]
        cases a with
        | zero =>
          right
          exact ⟨rest, ihn rest (by omega) (by omega), rfl⟩
        | succ b =>
          left
          exact ⟨b :: rest, ihk (n + 1) (b :: rest) (by simp; omega) (by simp; omega), rfl⟩

theorem mem_tableUpTo (dim K : Nat) (x : List Nat) :
    x ∈ tableUpTo dim K ↔ x.length = dim ∧ x.sum ≤ K := by
  induction K with
  | zero =>
    rw [tableUpTo]
    constructor
    · intro h
      obtain ⟨h1, h2⟩ := compositions_mem 0 dim x h
      exact ⟨h1, by omega⟩
    · intro h
      exact mem_compositions 0 dim x h.1 (by omega)
  | succ K ih =>
    rw [tableUpTo, List.mem_append, ih]
    constructor
    · rintro (h | h)
      · exact ⟨h.1, by omega⟩
      · obtain ⟨h1, h2⟩ := compositions_mem (K + 1) dim x h
        exact ⟨h1, by omega⟩
    · intro h
      by_cases hs : x.sum ≤ K
      · exact Or.inl ⟨h.1, hs⟩
      · exact Or.inr (mem_compositions (K + 1) dim x h.1 (by omega))

theorem tableUpTo_zero_dim (K : Nat) : tableUpTo 0 K = [[]] := by
  induction K with
  | zero => simp [tableUpTo, compositions]
  | succ K ih => rw [tableUpTo, ih]; simp [compositions]

theorem tableUpTo_nodup (dim K : Nat) : (tableUpTo dim K).Nodup := by
  cases dim with
  | zero => rw [tableUpTo_zero_dim]; simp
  | succ n =>
    rw [List.nodup_iff_getElem?_ne_getElem?]
    intro i j hij hj he
    have hi : i < (tableUpTo (n + 1) K).length := by omega
    have h1 := tableUpTo_position n K i _ (List.getElem?_eq_getElem hi)
    have h2 := tableUpTo_position n K j _ (List.getElem?_eq_getElem hj)
    rw [List.getElem?_eq_getElem hi, List.getElem?_eq_getElem hj, Option.some.injEq] at he
    rw [he] at h1
    omega

theorem tableUpTo_sorted (dim K : Nat) :
    (tableUpTo dim K).Pairwise (fun a b => a.sum ≤ b.sum) := by
  induction K with
  | zero =>
    rw [tableUpTo, compositions]
    simp
  | succ K ih =>
    rw [tableUpTo, List.pairwise_append]
    refine ⟨ih, ?_, ?_⟩
    · rw [List.pairwise_iff_forall_sublist]
      intro a b hab
      have ha := (compositions_mem (K + 1) dim a (hab.subset (by simp))).2
      have hb := (compositions_mem (K + 1) dim b (hab.subset (by simp))).2
      omega
    · intro a ha b hb
      have h1 := ((mem_tableUpTo dim K a).1 ha).2
      have h2 := (compositions_mem (K + 1) dim b hb).2
      omega

theorem tableUpTo_split (dim p K : Nat) (h : p ≤ K) :
    ∃ rest, tableUpTo dim K = tableUpTo dim p ++ rest ∧ ∀ x ∈ rest, p < x.sum := by
  induction K, h using Nat.le_induction with
  | base => exact ⟨[], by simp, by simp⟩
  | succ K hK ih =>
    obtain ⟨rest, e, hr⟩ := ih
    refine ⟨rest ++ compositions (K + 1) dim, by rw [tableUpTo, e, List.append_assoc], ?_⟩
    intro x hx
    rcases List.mem_append.1 hx with hx | hx
    · exact hr x hx
    · have := (compositions_mem (K + 1) dim x hx).2
      omega

theorem tableUpTo_length_choose (dim K : Nat) :
    (tableUpTo dim K).length = Nat.choose (K + dim) dim := by
  cases dim with
  | zero => rw [tableUpTo_zero_dim]; simp
  | succ n => rw [tableUpTo_length]; rfl

/-- C28: after `Init(max_order, dim)` every list of `dim` components whose sum
is at most `max_order` occurs in `multiindex_mapping_`, no entry occurs twice,
every entry of the table is such a list, the sums of the entries are non-decreasing
along the table, for `p <= max_order` the entries with sum at most `p` are
exactly those at the positions below `get_total_num_coeffs(p)`, and the
number of entries, which is the number of positions the loops of `Init` have
written (position 0 before the loops, position `t` in the innermost loop), is
`list_total_num_coeffs_[max_order]`, the size with which the table was
allocated. -/
theorem Init_lists_multiindices (max_order dim : Nat) :
    (∀ m : List Nat, m.length = dim → m.sum ≤ max_order →
      m ∈ (SeriesExpansionAux.Init max_order dim).multiindex_mapping_) ∧
    (SeriesExpansionAux.Init max_order dim).multiindex_mapping_.Nodup ∧
    (∀ m ∈ (SeriesExpansionAux.Init max_order dim).multiindex_mapping_,
      m.length = dim ∧ m.sum ≤ max_order) ∧
    (SeriesExpansionAux.Init max_order dim).multiindex_mapping_.Pairwise
      (fun a b => a.sum ≤ b.sum) ∧
    (∀ p i, p ≤ max_order →
      i < (SeriesExpansionAux.Init max_order dim).multiindex_mapping_.length →
      (((SeriesExpansionAux.Init max_order dim).multiindex_mapping_.getD i []).sum ≤ p ↔
        i < SeriesExpansionAux.get_total_num_coeffs max_order dim p)) ∧
    (SeriesExpansionAux.Init max_order dim).multiindex_mapping_.length =
      SeriesExpansionAux.get_total_num_coeffs max_order dim max_order := by
  obtain ⟨h1, _, _⟩ := Init_invariant dim max_order
  rw [h1]
  refine ⟨?_, tableUpTo_nodup dim max_order, ?_, tableUpTo_sorted dim max_order, ?_, ?_⟩
  · intro m hl hs
    exact (mem_tableUpTo dim max_order m).2 ⟨hl, hs⟩
  · intro m hm
    exact (mem_tableUpTo dim max_order m).1 hm
  · intro p i hp hi
    rw [get_total_num_coeffs_eq max_order dim p hp, ← tableUpTo_length_choose]
    obtain ⟨rest, e, hr⟩ := tableUpTo_split dim p max_order hp
    rw [List.getD_eq_getElem?_getD, e]
    by_cases hlt : i < (tableUpTo dim p).length
    · rw [List.getElem?_append_left hlt, List.getElem?_eq_getElem hlt]
      simp only [Option.getD_some, hlt, iff_true]
      exact ((mem_tableUpTo dim p _).1 (List.getElem_mem hlt)).2
    · have hge : (tableUpTo dim p).length ≤ i := by omega
      have hi2 : i - (tableUpTo dim p).length < rest.length := by
        rw [e, List.length_append] at hi
        omega
      rw [List.getElem?_append_right hge, List.getElem?_eq_getElem hi2]
      simp only [Option.getD_some, hlt, iff_false]
      have := hr _ (List.getElem_mem hi2)
      omega
  · rw [get_total_num_coeffs_eq max_order dim max_order (le_refl _), tableUpTo_length_choose]

/-- Witness of C28: order two in two dimensions, the multi-index `(1, 1)` and
the positions below and above `get_total_num_coeffs(1) = 3`. -/
theorem Init_lists_multiindices_witness :
    [1, 1] ∈ (SeriesExpansionAux.Init 2 2).multiindex_mapping_ ∧
    ((((SeriesExpansionAux.Init 2 2).multiindex_mapping_.getD 2 []).sum ≤ 1 ↔
      2 < SeriesExpansionAux.get_total_num_coeffs 2 2 1)) ∧
    ((((SeriesExpansionAux.Init 2 2).multiindex_mapping_.getD 3 []).sum ≤ 1 ↔
      3 < SeriesExpansionAux.get_total_num_coeffs 2 2 1)) :=
  ⟨(Init_lists_multiindices 2 2).1 [1, 1] rfl (by decide),
    (Init_lists_multiindices 2 2).2.2.2.2.1 1 2 (by decide) (by decide),
    (Init_lists_multiindices 2 2).2.2.2.2.1 1 3 (by decide) (by decide)⟩

end MultiindexTable

/-! ## The tuple count of LeaveOneOutTuplesBase_ -/

section TupleCount

variable {G : GNP}

theorem map_getD_tail (a : Nat) (l : List Nat) :
    (List.range' 1 l.length).map (fun i => (a :: l).getD i 0) = l := by
  apply List.ext_getElem
  · simp
  · intro i h1 h2
    simp [List.getD_eq_getElem?_getD, List.getElem?_eq_getElem h2, Nat.add_comm 1 i]

theorem runs_cons_head (a : Nat) (rest : List Nat) :
    ∃ k more, runs (a :: rest) = (a, k + 1) :: more := by
  rw [runs]
  cases h : runs rest with
  | nil => exact ⟨0, [], rfl⟩
  | cons r more =>
    obtain ⟨b, k⟩ := r
    by_cases hab : a = b
    · exact ⟨k, more, by simp [hab]⟩
    · exact ⟨0, (b, k) :: more, by simp [hab]⟩

theorem runs_replicate (c k : Nat) : runs (List.replicate (k + 1) c) = [(c, k + 1)] := by
  induction k with
  | zero => rfl
  | succ k ih =>
    rw [List.replicate_succ, runs, ih]
    simp

theorem runs_replicate_append_ne (c k a : Nat) (rest : List Nat) (h : a ≠ c) :
    runs (List.replicate (k + 1) c ++ a :: rest) = (c, k + 1) :: runs (a :: rest) := by
  induction k with
  | zero =>
    obtain ⟨j, more, e⟩ := runs_cons_head a rest
    rw [List.replicate_one, List.singleton_append, runs, e]
    simp [Ne.symm h]
  | succ k ih =>
    rw [List.replicate_succ, List.cons_append, runs, ih]
    simp

theorem runs_replicate_append (c k : Nat) (rest : List Nat) :
    ∃ j more, runs (List.replicate (k + 1) c ++ rest) = (c, k + 1 + j) :: more := by
  induction rest generalizing k with
  | nil => exact ⟨0, [], by simpa using runs_replicate c k⟩
  | cons a rest ih =>
    by_cases h : a = c
    · subst h
      obtain ⟨j, more, e⟩ := ih (k + 1)
      refine ⟨j + 1, more, ?_⟩
      have e2 : List.replicate (k + 1) a ++ a :: rest = List.replicate (k + 1 + 1) a ++ rest := by
        rw [List.replicate_succ' (k + 1), List.append_assoc]
        rfl
      rw [e2, e]
      congr 2
      omega
    · exact ⟨0, runs (a :: rest), runs_replicate_append_ne c k a rest h⟩

/-- The first loop of `LeaveOneOutTuplesBase_` entered in the middle of a run:
when the current node `c` has been seen `d + 1` times in a row and the running
product is `P * C(count c, d + 1)`, the loop over the remaining nodes `l` ends
with `P` times the product of the binomial coefficients of the runs of the
`d + 1` copies of `c` followed by `l`. -/
theorem CountTuples_value {Info : Type} (tree : Nat → Node Info) (l : List Nat)
    (hl : ∀ n ∈ l, 1 ≤ (tree n).count) (c d : Nat) (P : ℚ)
    (hd : d + 1 ≤ (tree c).count) (st : MultiTreeDepthFirst.TupleCount)
    (h1 : st.current_node = c) (h2 : st.numerator = ((tree c).count : ℤ) - d)
    (h3 : st.denominator = (d : ℤ) + 1)
    (h4 : st.total_num_tuples = P * (Nat.choose (tree c).count (d + 1) : ℚ)) :
    (match MultiTreeDepthFirst.CountTuples tree l st with
      | none => 0
      | some s => s.total_num_tuples) =
      P * ((runs (List.replicate (d + 1) c ++ l)).map
        (fun r => (Nat.choose (tree r.1).count r.2 : ℚ))).prod := by
  induction l generalizing c d P st with
  | nil =>
    simp only [MultiTreeDepthFirst.CountTuples, List.append_nil, runs_replicate, List.map_cons,
      List.map_nil, List.prod_cons, List.prod_nil, mul_one]
    exact h4
  | cons a rest ih =>
    have hrest : ∀ n ∈ rest, 1 ≤ (tree n).count := fun n hn => hl n (List.mem_cons_of_mem _ hn)
    rw [MultiTreeDepthFirst.CountTuples]
    by_cases hac : st.current_node = a
    · have hca : a = c := by rw [← hac, h1]
      subst hca
      rw [if_pos hac]
      by_cases hn : st.numerator = 1
      · rw [if_pos hn]
        obtain ⟨j, more, e⟩ := runs_replicate_append a (d + 1) rest
        have e2 : List.replicate (d + 1) a ++ a :: rest =
            List.replicate (d + 1 + 1) a ++ rest := by
          rw [List.replicate_succ' (d + 1), List.append_assoc]
          rfl
        have hz : Nat.choose (tree a).count (d + 1 + 1 + j) = 0 := by
          apply Nat.choose_eq_zero_of_lt
          rw [h2] at hn
          omega
        rw [e2, e]
        simp [hz]
      · rw [if_neg hn]
        have hd2 : d + 1 + 1 ≤ (tree a).count := by
          rw [h2] at hn
          omega
        have e2 : List.replicate (d + 1) a ++ a :: rest =
            List.replicate (d + 1 + 1) a ++ rest := by
          rw [List.replicate_succ' (d + 1), List.append_assoc]
          rfl
        rw [e2]
        apply ih hrest a (d + 1) P hd2
        · exact h1
        · simp only [h2]
          push_cast
          ring
        · simp only [h3]
          push_cast
          ring
        · simp only [h4, h2, h3]
          have hc := Nat.choose_succ_right_eq (tree a).count (d + 1)
          have hc2 : ((Nat.choose (tree a).count (d + 1 + 1) : ℚ)) * ((d : ℚ) + 1 + 1) =
              (Nat.choose (tree a).count (d + 1) : ℚ) * (((tree a).count : ℚ) - ((d : ℚ) + 1)) := by
            have := congrArg (fun x : Nat => (x : ℚ)) hc
            simp only [Nat.cast_mul, Nat.cast_add, Nat.cast_one] at this
            rw [this, Nat.cast_sub (by omega)]
            push_cast
            ring
          have hne : ((d : ℚ) + 1 + 1) ≠ 0 := by positivity
          push_cast
          field_simp
          linear_combination (-P) * hc2
    · rw [if_neg hac]
      have hca : a ≠ c := fun h => hac (by rw [h1, h])
      have ha : 1 ≤ (tree a).count := hl a (List.mem_cons_self _ _)
      rw [runs_replicate_append_ne c d a rest hca]
      have := ih hrest a 0 (P * (Nat.choose (tree c).count (d + 1) : ℚ)) (by omega)
        { current_node := a, numerator := ((tree a).count : ℤ), denominator := 1,
          total_num_tuples := st.total_num_tuples *
            ((((tree a).count : ℤ) : ℚ) / ((1 : ℤ) : ℚ)) }
        rfl (by simp) (by simp) (by simp [h4])
      rw [this]
      simp [mul_assoc]

/-- C26: for a tuple of `order >= 1` nodes with at least one point each,
`LeaveOneOutTuplesBase_` returns, in exact arithmetic, the product over the
maximal runs of consecutive identical nodes of the binomial coefficient
`C(count of the node, length of the run)`, and the returned value is zero
exactly when some run is longer than the number of points of its node. -/
theorem LeaveOneOutTuplesBase_product {Info : Type} (tree : Nat → Node Info) (order : Nat)
    (nodes : List Nat) (total_n_minus_one_tuples_ : Nat → ℚ)
    (hlen : nodes.length = order) (hpos : 0 < order)
    (hcount : ∀ n ∈ nodes, 1 ≤ (tree n).count) :
    (MultiTreeDepthFirst.LeaveOneOutTuplesBase_ tree order nodes
        total_n_minus_one_tuples_).1 =
      ((runs nodes).map (fun r => (Nat.choose (tree r.1).count r.2 : ℚ))).prod ∧
    ((MultiTreeDepthFirst.LeaveOneOutTuplesBase_ tree order nodes
        total_n_minus_one_tuples_).1 = 0 ↔
      ∃ r ∈ runs nodes, (tree r.1).count < r.2) := by
  have hval : (MultiTreeDepthFirst.LeaveOneOutTuplesBase_ tree order nodes
      total_n_minus_one_tuples_).1 =
      ((runs nodes).map (fun r => (Nat.choose (tree r.1).count r.2 : ℚ))).prod := by
    cases nodes with
    | nil => simp at hlen; omega
    | cons a rest =>
      have ho : order - 1 = rest.length := by simp at hlen; omega
      have hv := CountTuples_value tree rest
        (fun n hn => hcount n (List.mem_cons_of_mem _ hn)) a 0 1
        (by have := hcount a (List.mem_cons_self _ _); omega)
        { current_node := a, numerator := ((tree a).count : ℤ), denominator := 1,
          total_num_tuples := (((tree a).count : ℤ) : ℚ) }
        rfl (by simp) (by simp) (by simp)
      have e0 : List.replicate (0 + 1) a ++ rest = a :: rest := rfl
      rw [e0, one_mul] at hv
      rw [← hv]
      unfold MultiTreeDepthFirst.LeaveOneOutTuplesBase_
      rw [ho, map_getD_tail]
      simp only [List.getD_cons_zero]
      cases MultiTreeDepthFirst.CountTuples tree rest
        { current_node := a, numerator := ((tree a).count : ℤ), denominator := 1,
          total_num_tuples := (((tree a).count : ℤ) : ℚ) } <;> rfl
  refine ⟨hval, ?_⟩
  rw [hval, List.prod_eq_zero_iff]
  simp only [List.mem_map, Nat.cast_eq_zero, Nat.choose_eq_zero_iff]

/-- Witness of C26: the tuple (root, root, first leaf) of the four point tree
gives `C(4, 2) * C(2, 1) = 12`. -/
theorem LeaveOneOutTuplesBase_product_witness :
    (MultiTreeDepthFirst.LeaveOneOutTuplesBase_ toyTree3 3 [0, 0, 1] (fun _ => 0)).1 =
      ((runs [0, 0, 1]).map (fun r => (Nat.choose (toyTree3 r.1).count r.2 : ℚ))).prod ∧
    ((MultiTreeDepthFirst.LeaveOneOutTuplesBase_ toyTree3 3 [0, 0, 1] (fun _ => 0)).1 = 0 ↔
      ∃ r ∈ runs [0, 0, 1], (toyTree3 r.1).count < r.2) :=
  LeaveOneOutTuplesBase_product toyTree3 3 [0, 0, 1] (fun _ => 0) rfl (by decide)
    (by decide)

end TupleCount

/-! ## The recursive tuple count -/

section RecursiveTupleCount

variable {G : GNP}

/-- C27 fails on tuples that mix a node with one of its ancestors.  On the
four point tree (root `0` over `[0, 4)`, leaves `1` over `[0, 2)` and `2` over
`[2, 4)`): for the pair (second leaf, root) `RecursiveLeaveOneOutTuples_`
returns 5, while there is one index pair `i_0 < i_1` with `i_0` in `[2, 4)`
and `i_1` in `[0, 4)`; for the triple (root, root, second leaf) it returns 20,
while there are 4 increasing index triples.  In both runs the array `nodes`
is returned as it was found.  With a helper that never reports a node as
surrounding another the run on the pair goes to the base case and returns
8. -/
theorem RecursiveLeaveOneOutTuples_miscounts :
    (MultiTreeDepthFirst.RecursiveLeaveOneOutTuples_
        MultiTreeDepthFirst.first_node_indices_strictly_surround_second_node_indices_
        toyTree3 2 2 [2, 0] 0 (fun _ => 0)).map (fun r => (r.1, r.2.1)) =
      some (5, [2, 0]) ∧
    increasingTuples toyTree3 [2, 0] 0 = 1 ∧
    (MultiTreeDepthFirst.RecursiveLeaveOneOutTuples_
        MultiTreeDepthFirst.first_node_indices_strictly_surround_second_node_indices_
        toyTree3 3 2 [0, 0, 2] 0 (fun _ => 0)).map (fun r => (r.1, r.2.1)) =
      some (20, [0, 0, 2]) ∧
    increasingTuples toyTree3 [0, 0, 2] 0 = 4 ∧
    (MultiTreeDepthFirst.RecursiveLeaveOneOutTuples_ (fun _ _ => false)
        toyTree3 2 2 [2, 0] 0 (fun _ => 0)).map (fun r => (r.1, r.2.1)) =
      some (8, [2, 0]) := by
  refine ⟨?_, by decide, ?_, by decide, ?_⟩
  · simp [MultiTreeDepthFirst.RecursiveLeaveOneOutTuples_, MultiTreeDepthFirst.ExamineLoop,
      MultiTreeDepthFirst.first_node_indices_strictly_surround_second_node_indices_,
      MultiTreeDepthFirst.LeaveOneOutTuplesBase_, MultiTreeDepthFirst.CountTuples,
      toyTree3, toyNodes, toyLeaf, toySplit, Node.end_, List.range']
    norm_num
  · simp [MultiTreeDepthFirst.RecursiveLeaveOneOutTuples_, MultiTreeDepthFirst.ExamineLoop,
      MultiTreeDepthFirst.first_node_indices_strictly_surround_second_node_indices_,
      MultiTreeDepthFirst.LeaveOneOutTuplesBase_, MultiTreeDepthFirst.CountTuples,
      toyTree3, toyNodes, toyLeaf, toySplit, Node.end_, List.range']
    norm_num
  · simp [MultiTreeDepthFirst.RecursiveLeaveOneOutTuples_, MultiTreeDepthFirst.ExamineLoop,
      MultiTreeDepthFirst.LeaveOneOutTuplesBase_, MultiTreeDepthFirst.CountTuples,
      toyTree3, toyNodes, toyLeaf, toySplit, Node.end_, List.range']
    norm_num

end RecursiveTupleCount

/-! ## Postponed contributions in MultiTreeDepthFirstBase_ -/

section MultiTreeBase

variable {G : GNP}

theorem BasePoint_postponed (P : MultiTreeProblem) (qnode : Nat) (pruned : ℚ)
    (s : MultiTreeState P) (q n : Nat) :
    ((MultiTreeDepthFirst.BasePoint P qnode pruned s q).stat n).postponed =
      (s.stat n).postponed := by
  unfold MultiTreeDepthFirst.BasePoint
  by_cases h : n = qnode
  · subst h; simp
  · simp [Function.update_noteq h]

theorem BasePoint_result (P : MultiTreeProblem) (μ : P.Postponed → ℤ)
    (ρ : MultiTreeQueryResult P.Data → Nat → ℤ)
    (happly : ∀ p q r q2, ρ (P.ApplyPostponed p q r) q2 = ρ r q2 + if q2 = q then μ p else 0)
    (hpruned : ∀ (r : MultiTreeQueryResult P.Data) (f : Nat → ℚ),
      ρ { n_pruned := f, data := r.data } = ρ r)
    (qnode : Nat) (pruned : ℚ) (s : MultiTreeState P) (q q2 : Nat) :
    ρ (MultiTreeDepthFirst.BasePoint P qnode pruned s q).query_results q2 =
      ρ s.query_results q2 + if q2 = q then μ (s.stat qnode).postponed else 0 := by
  unfold MultiTreeDepthFirst.BasePoint
  simp only []
  rw [hpruned, happly]

theorem BasePoints_postponed (P : MultiTreeProblem) (qnode : Nat) (pruned : ℚ)
    (pts : List Nat) (s : MultiTreeState P) (n : Nat) :
    ((pts.foldl (MultiTreeDepthFirst.BasePoint P qnode pruned) s).stat n).postponed =
      (s.stat n).postponed := by
  induction pts generalizing s with
  | nil => rfl
  | cons a pts ih => rw [List.foldl_cons, ih, BasePoint_postponed]

theorem BasePoints_result (P : MultiTreeProblem) (μ : P.Postponed → ℤ)
    (ρ : MultiTreeQueryResult P.Data → Nat → ℤ)
    (happly : ∀ p q r q2, ρ (P.ApplyPostponed p q r) q2 = ρ r q2 + if q2 = q then μ p else 0)
    (hpruned : ∀ (r : MultiTreeQueryResult P.Data) (f : Nat → ℚ),
      ρ { n_pruned := f, data := r.data } = ρ r)
    (qnode : Nat) (pruned : ℚ) (pts : List Nat) (hnd : pts.Nodup) (s : MultiTreeState P)
    (q2 : Nat) :
    ρ (pts.foldl (MultiTreeDepthFirst.BasePoint P qnode pruned) s).query_results q2 =
      ρ s.query_results q2 + if q2 ∈ pts then μ (s.stat qnode).postponed else 0 := by
  induction pts generalizing s with
  | nil => simp
  | cons a pts ih =>
    obtain ⟨ha, hnd2⟩ := List.nodup_cons.1 hnd
    rw [List.foldl_cons, ih hnd2, BasePoint_result P μ ρ happly hpruned, BasePoint_postponed]
    by_cases h1 : q2 = a
    · subst h1
      simp [ha]
    · simp [h1]

/-- The effect on the postponed statistics and on the count of the results of
one position of the tuple that is not skipped. -/
theorem BaseNode_processed {Info : Type} (P : MultiTreeProblem) (μ : P.Postponed → ℤ)
    (ρ : MultiTreeQueryResult P.Data → Nat → ℤ)
    (happly : ∀ p q r q2, ρ (P.ApplyPostponed p q r) q2 = ρ r q2 + if q2 = q then μ p else 0)
    (hpruned : ∀ (r : MultiTreeQueryResult P.Data) (f : Nat → ℚ),
      ρ { n_pruned := f, data := r.data } = ρ r)
    (tree : Nat → Node Info) (nodes : List Nat) (tot : Nat → ℚ) (s : MultiTreeState P)
    (i : Nat) (h : ¬ (0 < i ∧ nodes.getD i 0 = nodes.getD (i - 1) 0)) :
    (∀ q2, ρ (MultiTreeDepthFirst.BaseNode P tree nodes tot s i).query_results q2 =
      ρ s.query_results q2 +
        if (tree (nodes.getD i 0)).covers q2 = true then μ (s.stat (nodes.getD i 0)).postponed
        else 0) ∧
    ((MultiTreeDepthFirst.BaseNode P tree nodes tot s i).stat (nodes.getD i 0)).postponed =
      P.SetZero (s.stat (nodes.getD i 0)).postponed ∧
    (∀ n, n ≠ nodes.getD i 0 →
      ((MultiTreeDepthFirst.BaseNode P tree nodes tot s i).stat n).postponed =
        (s.stat n).postponed) := by
  unfold MultiTreeDepthFirst.BaseNode
  rw [if_neg h]
  simp only []
  refine ⟨?_, ?_, ?_⟩
  · intro q2
    rw [BasePoints_result P μ ρ happly hpruned _ _ _ (List.nodup_range' _ _)]
    simp only [Function.update_same, List.mem_range'_1, Node.covers,
      Node.end_, decide_eq_true_eq, Nat.add_sub_cancel_left]
  · simp only [Function.update_same]
    rw [BasePoints_postponed]
    simp
  · intro n hn
    simp only [Function.update_noteq hn]
    rw [BasePoints_postponed]
    simp [Function.update_noteq hn]

/-- C22: a call of `MultiTreeDepthFirstBase_` on a tuple of `order` nodes.
Count postponed values by `μ` and the result of each point by `ρ`, in such a
way that `ApplyPostponed(postponed, q)` adds the count of the postponed to
the point `q` only, a postponed on which `SetZero` was called counts zero, and
`n_pruned` is not counted.  Then, with respect to the state in which
`NestedLoop` returns, the call adds to every point the counts of the
postponed of the distinct nodes of the tuple whose range contains the point,
each node once however many positions it occupies; and the postponed of every
node of the tuple is left as `SetZero` made it. -/
theorem MultiTreeDepthFirstBase_applies_postponed_once {Info : Type} (P : MultiTreeProblem)
    (NestedLoop : List Nat → MultiTreeState P → MultiTreeState P)
    (tree : Nat → Node Info) (nodes : List Nat) (tot : Nat → ℚ) (s : MultiTreeState P)
    (μ : P.Postponed → ℤ) (ρ : MultiTreeQueryResult P.Data → Nat → ℤ)
    (hlen : nodes.length = P.order)
    (hzero : ∀ p, μ (P.SetZero p) = 0)
    (happly : ∀ p q r q2, ρ (P.ApplyPostponed p q r) q2 = ρ r q2 + if q2 = q then μ p else 0)
    (hpruned : ∀ (r : MultiTreeQueryResult P.Data) (f : Nat → ℚ),
      ρ { n_pruned := f, data := r.data } = ρ r) :
    (∀ q, ρ (MultiTreeDepthFirst.MultiTreeDepthFirstBase_ P NestedLoop tree nodes tot
        s).query_results q =
      ρ (NestedLoop nodes s).query_results q +
        ∑ n ∈ nodes.toFinset.filter (fun n => (tree n).covers q = true),
          μ ((NestedLoop nodes s).stat n).postponed) ∧
    (∀ n ∈ nodes, ∃ p,
      ((MultiTreeDepthFirst.MultiTreeDepthFirstBase_ P NestedLoop tree nodes tot s).stat
        n).postponed = P.SetZero p) := by
  have key : ∀ k, k ≤ nodes.length →
      (∀ q, ρ ((List.range k).foldl (MultiTreeDepthFirst.BaseNode P tree nodes tot)
          (NestedLoop nodes s)).query_results q =
        ρ (NestedLoop nodes s).query_results q +
          ∑ n ∈ (nodes.take k).toFinset, if (tree n).covers q = true then
            μ ((NestedLoop nodes s).stat n).postponed else 0) ∧
      (∀ n ∈ nodes.take k, ∃ p,
        (((List.range k).foldl (MultiTreeDepthFirst.BaseNode P tree nodes tot)
          (NestedLoop nodes s)).stat n).postponed = P.SetZero p) ∧
      (∀ n, n ∉ nodes.take k →
        (((List.range k).foldl (MultiTreeDepthFirst.BaseNode P tree nodes tot)
          (NestedLoop nodes s)).stat n).postponed =
          ((NestedLoop nodes s).stat n).postponed) := by
    intro k
    induction k with
    | zero =>
      intro _
      simp
    | succ k ih =>
      intro hk
      have hk2 : k < nodes.length := by omega
      obtain ⟨i1, i2, i3⟩ := ih (by omega)
      have etake : nodes.take (k + 1) = nodes.take k ++ [nodes.getD k 0] := by
        rw [List.take_succ, List.getD_eq_getElem?_getD, List.getElem?_eq_getElem hk2]
        rfl
      rw [List.range_succ, List.foldl_append, List.foldl_cons, List.foldl_nil, etake]
      generalize (List.range k).foldl (MultiTreeDepthFirst.BaseNode P tree nodes tot)
        (NestedLoop nodes s) = st at i1 i2 i3 ⊢
      by_cases hskip : 0 < k ∧ nodes.getD k 0 = nodes.getD (k - 1) 0
      · have hmem : nodes.getD k 0 ∈ nodes.take k := by
          rw [hskip.2, List.getD_eq_getElem?_getD,
            List.getElem?_eq_getElem (by omega : k - 1 < nodes.length)]
          simp only [Option.getD_some]
          rw [List.mem_take_iff_getElem]
          exact ⟨k - 1, by omega, rfl⟩
        have efin : (nodes.take k ++ [nodes.getD k 0]).toFinset = (nodes.take k).toFinset := by
          ext x
          simp only [List.toFinset_append, List.toFinset_cons, List.toFinset_nil,
            Finset.mem_union, List.mem_toFinset, Finset.mem_insert, Finset.not_mem_empty,
            or_false]
          constructor
          · rintro (h | h)
            · exact h
            · rw [h]; exact hmem
          · exact Or.inl
        have est : MultiTreeDepthFirst.BaseNode P tree nodes tot st k = st := by
          unfold MultiTreeDepthFirst.BaseNode
          rw [if_pos hskip]
        rw [est, efin]
        refine ⟨i1, ?_, ?_⟩
        · intro n hn
          rcases List.mem_append.1 hn with hn | hn
          · exact i2 n hn
          · simp only [List.mem_singleton] at hn
            rw [hn]
            exact i2 _ hmem
        · intro n hn
          exact i3 n (fun h => hn (List.mem_append_left _ h))
      · obtain ⟨p1, p2, p3⟩ :=
          BaseNode_processed P μ ρ happly hpruned tree nodes tot st k hskip
        refine ⟨?_, ?_, ?_⟩
        · intro q
          rw [p1, i1]
          by_cases hmem : nodes.getD k 0 ∈ nodes.take k
          · have efin : (nodes.take k ++ [nodes.getD k 0]).toFinset =
                (nodes.take k).toFinset := by
              ext x
              simp only [List.toFinset_append, List.toFinset_cons, List.toFinset_nil,
                Finset.mem_union, List.mem_toFinset, Finset.mem_insert, Finset.not_mem_empty,
                or_false]
              constructor
              · rintro (h | h)
                · exact h
                · rw [h]; exact hmem
              · exact Or.inl
            obtain ⟨p, hp⟩ := i2 _ hmem
            rw [efin, hp, hzero]
            simp
          · have efin : (nodes.take k ++ [nodes.getD k 0]).toFinset =
                insert (nodes.getD k 0) (nodes.take k).toFinset := by
              ext x
              simp only [List.toFinset_append, List.toFinset_cons, List.toFinset_nil,
                Finset.mem_union, List.mem_toFinset, Finset.mem_insert, Finset.not_mem_empty,
                or_false]
              exact Or.comm
            rw [efin, Finset.sum_insert (by simpa using hmem), i3 _ hmem]
            ring
        · intro n hn
          by_cases hn2 : n = nodes.getD k 0
          · exact ⟨_, by rw [hn2]; exact p2⟩
          · rcases List.mem_append.1 hn with hn | hn
            · obtain ⟨p, hp⟩ := i2 n hn
              exact ⟨p, by rw [p3 n hn2, hp]⟩
            · simp only [List.mem_singleton] at hn
              exact absurd hn hn2
        · intro n hn
          have hn2 : n ≠ nodes.getD k 0 := fun h => hn (by rw [h]; simp)
          rw [p3 n hn2]
          exact i3 n (fun h => hn (List.mem_append_left _ h))
  obtain ⟨k1, k2, _⟩ := key nodes.length (le_refl _)
  rw [List.take_length] at k1 k2
  unfold MultiTreeDepthFirst.MultiTreeDepthFirstBase_
  rw [← hlen]
  refine ⟨?_, k2⟩
  intro q
  rw [k1 q, Finset.sum_filter]

/-- Witness of C22: the tuple (first leaf, second leaf, first leaf) of the
four point tree, in which the first leaf occupies two positions that are not
next to each other. -/
theorem MultiTreeDepthFirstBase_applies_postponed_once_witness :
    (∀ q, (((MultiTreeDepthFirst.MultiTreeDepthFirstBase_ tupleTally (fun _ s => s) toyTree3
        [1, 2, 1] (fun _ => 0) tupleTallyState).query_results.data q : Nat) : ℤ) =
      ((tupleTallyState.query_results.data q : Nat) : ℤ) +
        ∑ n ∈ [1, 2, 1].toFinset.filter (fun n => (toyTree3 n).covers q = true),
          (((tupleTallyState.stat n).postponed : Nat) : ℤ)) ∧
    (∀ n ∈ [1, 2, 1], ∃ p,
      ((MultiTreeDepthFirst.MultiTreeDepthFirstBase_ tupleTally (fun _ s => s) toyTree3
        [1, 2, 1] (fun _ => 0) tupleTallyState).stat n).postponed = tupleTally.SetZero p) :=
  MultiTreeDepthFirstBase_applies_postponed_once tupleTally (fun _ s => s) toyTree3 [1, 2, 1]
    (fun _ => 0) tupleTallyState (fun p => ((p : Nat) : ℤ)) (fun r q => ((r.data q : Nat) : ℤ))
    rfl (fun _ => rfl)
    (fun p q r q2 => by
      by_cases h : q2 = q
      · subst h
        simp [tupleTally]
      · simp [tupleTally, Function.update_noteq h, h])
    (fun _ _ => rfl)

end MultiTreeBase

/-! ## The query loop of BaseCase_ -/

section BaseCaseLoop

variable {G : GNP}

theorem pointEntry_visits (q_i : Nat) (l : List Nat) :
    (l.map (fun r => (Event.VisitPair q_i r : Event G))).filterMap Event.pointEntry = [] := by
  induction l with
  | nil => rfl
  | cons a l _ => simp [Event.pointEntry]

theorem BaseCasePoint_pointEntry (E : Engine G) (q_node_i r_node_i : Nat)
    (unvisited : G.QSummaryResult) (vs : G.PairVisitor × State G) (q_i : Nat) :
    (BaseCasePoint E q_node_i r_node_i unvisited vs q_i).2.log.filterMap Event.pointEntry =
      vs.2.log.filterMap Event.pointEntry ++
        [Sum.inl (q_i, (vs.2.q_mutables_ q_node_i).postponed), Sum.inr q_i] := by
  rw [BaseCasePoint_log, VisitQueryPoint_log]
  simp only [State.emit_log, State.setResult_log, List.filterMap_append, List.filterMap_cons,
    List.filterMap_nil, Event.pointEntry, List.append_assoc]
  split
  · simp [pointEntry_visits, Event.pointEntry]
  · simp

theorem BaseCase_loop_pointEntry (E : Engine G) (q_node_i r_node_i : Nat)
    (unvisited : G.QSummaryResult) (l : List Nat) (vs : G.PairVisitor × State G) :
    (l.foldl (BaseCasePoint E q_node_i r_node_i unvisited) vs).2.log.filterMap
        Event.pointEntry =
      vs.2.log.filterMap Event.pointEntry ++
        l.flatMap (fun q_i =>
          [Sum.inl (q_i, (vs.2.q_mutables_ q_node_i).postponed), Sum.inr q_i]) := by
  induction l generalizing vs with
  | nil => simp
  | cons a l ih =>
    rw [List.foldl_cons, ih, BaseCasePoint_pointEntry]
    simp only [BaseCasePoint_postponed, List.flatMap_cons, List.append_assoc]

theorem BaseCase_loop_postponed (E : Engine G) (q_node_i r_node_i : Nat)
    (unvisited : G.QSummaryResult) (l : List Nat) (vs : G.PairVisitor × State G) (j : Nat) :
    ((l.foldl (BaseCasePoint E q_node_i r_node_i unvisited) vs).2.q_mutables_ j).postponed =
      (vs.2.q_mutables_ j).postponed := by
  induction l generalizing vs with
  | nil => rfl
  | cons a l ih => rw [List.foldl_cons, ih, BaseCasePoint_postponed]

theorem BaseCase_loop_q_results_other (E : Engine G) (q_node_i r_node_i : Nat)
    (unvisited : G.QSummaryResult) (l : List Nat) (vs : G.PairVisitor × State G) (i : Nat)
    (hi : i ∉ l) :
    (l.foldl (BaseCasePoint E q_node_i r_node_i unvisited) vs).2.q_results_ i =
      vs.2.q_results_ i := by
  induction l generalizing vs with
  | nil => rfl
  | cons a l ih =>
    rw [List.foldl_cons, ih _ (fun hh => hi (List.mem_cons_of_mem _ hh)),
      BaseCasePoint_q_results_other _ _ _ _ _ _
        (fun hh => hi (by rw [hh]; exact List.mem_cons_self _ _))]

theorem BaseCasePoint_summary (E : Engine G) (q_node_i r_node_i : Nat)
    (unvisited : G.QSummaryResult) (vs : G.PairVisitor × State G) (q_i : Nat) :
    ((BaseCasePoint E q_node_i r_node_i unvisited vs q_i).2.q_mutables_
        q_node_i).summary_result =
      G.QSummaryResult_Accumulate E.param_
        ((BaseCasePoint E q_node_i r_node_i unvisited vs q_i).2.q_results_ q_i)
        (vs.2.q_mutables_ q_node_i).summary_result := by
  unfold BaseCasePoint
  simp only [State.setSummary_summary_same, State.setSummary_q_results]
  rw [VisitQueryPoint_q_mutables]
  simp

/-- The summary after the query loop of `BaseCase_` over the distinct points
`l`: the final result of each point accumulated once, in the order of `l`. -/
theorem BaseCase_loop_summary (E : Engine G) (q_node_i r_node_i : Nat)
    (unvisited : G.QSummaryResult) (l : List Nat) (hl : l.Nodup)
    (vs : G.PairVisitor × State G) :
    ((l.foldl (BaseCasePoint E q_node_i r_node_i unvisited) vs).2.q_mutables_
        q_node_i).summary_result =
      l.foldl (fun acc q_i => G.QSummaryResult_Accumulate E.param_
          ((l.foldl (BaseCasePoint E q_node_i r_node_i unvisited) vs).2.q_results_ q_i) acc)
        (vs.2.q_mutables_ q_node_i).summary_result := by
  induction l generalizing vs with
  | nil => rfl
  | cons a l ih =>
    have ha : a ∉ l := (List.nodup_cons.1 hl).1
    simp only [List.foldl_cons]
    rw [ih (List.nodup_cons.1 hl).2, BaseCase_loop_q_results_other _ _ _ _ _ _ _ ha,
      BaseCasePoint_summary]

/-- The result that the query loop of `BaseCase_` leaves for a point of the
distinct points `l`: the one the visitor calls leave when they are entered
with the postponed of the node applied to the result the point had before the
loop. -/
theorem BaseCase_loop_result (E : Engine G) (q_node_i r_node_i : Nat)
    (unvisited : G.QSummaryResult) (l : List Nat) (hl : l.Nodup)
    (vs : G.PairVisitor × State G) (q_i : Nat) (hq : q_i ∈ l) :
    ∃ (v : G.PairVisitor) (s0 : State G),
      s0.q_results_ q_i =
        G.QResult_ApplyPostponed E.param_ (vs.2.q_mutables_ q_node_i).postponed
          (E.q_points_ q_i) q_i (vs.2.q_results_ q_i) ∧
      (l.foldl (BaseCasePoint E q_node_i r_node_i unvisited) vs).2.q_results_ q_i =
        (VisitQueryPoint E r_node_i unvisited q_i v s0).2.q_results_ q_i := by
  induction l generalizing vs with
  | nil => simp at hq
  | cons a l ih =>
    obtain ⟨ha, hl2⟩ := List.nodup_cons.1 hl
    rw [List.foldl_cons]
    by_cases h : q_i = a
    · subst h
      rw [BaseCase_loop_q_results_other _ _ _ _ _ _ _ ha]
      refine ⟨vs.1, (vs.2.setResult q_i
        (G.QResult_ApplyPostponed E.param_ (vs.2.q_mutables_ q_node_i).postponed
          (E.q_points_ q_i) q_i (vs.2.q_results_ q_i))).emit
        (.ApplyPostponed q_i (vs.2.q_mutables_ q_node_i).postponed), by simp, ?_⟩
      unfold BaseCasePoint
      simp only [State.setSummary_q_results]
    · have hq2 : q_i ∈ l := by
        rcases List.mem_cons.1 hq with hq | hq
        · exact absurd hq h
        · exact hq
      obtain ⟨v, s0, e1, e2⟩ := ih hl2 (BaseCasePoint E q_node_i r_node_i unvisited vs a) hq2
      refine ⟨v, s0, ?_, e2⟩
      rw [e1, BaseCasePoint_postponed, BaseCasePoint_q_results_other _ _ _ _ _ _ h]

/-- C21: a run of `BaseCase_` on the query node `q_node_i`.  Among the calls
it adds to the log, the calls `q_result->ApplyPostponed` and
`StartVisitingQueryPoint` come in pairs, one pair per point of the range of
the query node in ascending order, `ApplyPostponed` first and with the
postponed the node had on entry; and the result it leaves for a point of the
range is the one the visitor calls leave when they are entered with that
postponed applied to the result the point had on entry.  The summary it
leaves is
`FinishReaccumulate` of the summary obtained from `StartReaccumulate` by
accumulating the final result of every point of the range once, in ascending
order, whatever `StartVisitingQueryPoint` answered.  The postponed of the node
is the one it had on entry with `Reset` applied. -/
theorem BaseCase_point_protocol (E : Engine G) (q_node_i r_node_i : Nat)
    (unvisited : G.QSummaryResult) (s : State G) :
    (BaseCase_ E q_node_i r_node_i unvisited s).log.filterMap Event.pointEntry =
      s.log.filterMap Event.pointEntry ++
        (List.range' (E.q_nodes_ q_node_i).begin (E.q_nodes_ q_node_i).count).flatMap
          (fun q_i => [Sum.inl (q_i, (s.q_mutables_ q_node_i).postponed), Sum.inr q_i]) ∧
    (∀ q_i, (E.q_nodes_ q_node_i).begin ≤ q_i → q_i < (E.q_nodes_ q_node_i).end_ →
      ∃ (v : G.PairVisitor) (s0 : State G),
        s0.q_results_ q_i =
          G.QResult_ApplyPostponed E.param_ (s.q_mutables_ q_node_i).postponed
            (E.q_points_ q_i) q_i (s.q_results_ q_i) ∧
        (BaseCase_ E q_node_i r_node_i unvisited s).q_results_ q_i =
          (VisitQueryPoint E r_node_i unvisited q_i v s0).2.q_results_ q_i) ∧
    ((BaseCase_ E q_node_i r_node_i unvisited s).q_mutables_ q_node_i).summary_result =
      G.QSummaryResult_FinishReaccumulate E.param_ (E.q_nodes_ q_node_i)
        ((List.range' (E.q_nodes_ q_node_i).begin (E.q_nodes_ q_node_i).count).foldl
          (fun acc q_i => G.QSummaryResult_Accumulate E.param_
            ((BaseCase_ E q_node_i r_node_i unvisited s).q_results_ q_i) acc)
          (G.QSummaryResult_StartReaccumulate E.param_ (E.q_nodes_ q_node_i)
            (s.q_mutables_ q_node_i).summary_result)) ∧
    ((BaseCase_ E q_node_i r_node_i unvisited s).q_mutables_ q_node_i).postponed =
      G.QPostponed_Reset E.param_ (s.q_mutables_ q_node_i).postponed := by
  unfold BaseCase_
  simp only [Node.end_sub_begin, State.setPostponed_log, State.setSummary_log,
    State.setPostponed_summary, State.setSummary_summary_same, State.setPostponed_q_results,
    State.setSummary_q_results, State.setPostponed_postponed_same, State.setSummary_postponed]
  refine ⟨?_, ?_, ?_, ?_⟩
  · rw [BaseCase_loop_pointEntry]
    simp [Event.pointEntry]
  · intro q_i h1 h2
    obtain ⟨v, s0, e1, e2⟩ := BaseCase_loop_result E q_node_i r_node_i unvisited
      (List.range' (E.q_nodes_ q_node_i).begin (E.q_nodes_ q_node_i).count)
      (List.nodup_range' _ _)
      (G.PairVisitor_Init E.param_,
        (s.emit (.BaseCase q_node_i r_node_i)).setSummary q_node_i
          (G.QSummaryResult_StartReaccumulate E.param_ (E.q_nodes_ q_node_i)
            ((s.emit (.BaseCase q_node_i r_node_i)).q_mutables_ q_node_i).summary_result))
      q_i (by rw [List.mem_range'_1]; exact ⟨h1, by simpa [Node.end_] using h2⟩)
    refine ⟨v, s0, ?_, e2⟩
    rw [e1]
    simp
  · rw [BaseCase_loop_summary _ _ _ _ _ (List.nodup_range' _ _)]
    simp
  · rw [BaseCase_loop_postponed]
    simp

/-- Witness of C21: the second leaf of the four point tree against a
one-leaf reference tree, at the point `3`. -/
theorem BaseCase_point_protocol_witness :
    ∃ (v : Nat) (s0 : State Toy),
      s0.q_results_ 3 =
        Toy.QResult_ApplyPostponed (toyEngine toyExplore toyTree3 (toyTree1 2) false).param_
          (((toyState toyExplore).q_mutables_ 2).postponed)
          ((toyEngine toyExplore toyTree3 (toyTree1 2) false).q_points_ 3) 3
          ((toyState toyExplore).q_results_ 3) ∧
      (BaseCase_ (toyEngine toyExplore toyTree3 (toyTree1 2) false) 2 0 0
          (toyState toyExplore)).q_results_ 3 =
        (VisitQueryPoint (toyEngine toyExplore toyTree3 (toyTree1 2) false) 0 0 3 v
          s0).2.q_results_ 3 :=
  (BaseCase_point_protocol (toyEngine toyExplore toyTree3 (toyTree1 2) false) 2 0 0
    (toyState toyExplore)).2.1 3 (by decide) (by decide)

end BaseCaseLoop

/-! ## The commit of a pair -/

section PairCommit

variable {G : GNP}

/-- C6: `UndoDelta` with the delta of the pair is among the calls of a `Pair_`
invocation exactly when both the termination test and the extrinsic test let
the pair through; when one of them prunes, `Pair_` returns with the global
result it was entered with, and the calls it made are its entry, the tests and
the prune message only (no `Pair_`, no `BaseCase_`, no `UndoDelta`).  When
both tests let the pair through, the invocation is the base case, the query
split or the reference split run from the state `Pair_committed`, whose global
result is `UndoDelta(delta)` applied to the global result on entry, whose
results are those on entry and whose log is the log on entry followed by the
entry of `Pair_`, the two tests and `UndoDelta`. -/
theorem Pair_undo_delta_iff_committed (E : Engine G) (fuel q_node_i r_node_i : Nat)
    (delta : G.Delta) (unvisited : G.QSummaryResult) (s : State G) :
    (Event.UndoDelta delta ∈
        (Pair_ E (fuel + 1) q_node_i r_node_i delta unvisited s).state.log.drop s.log.length ↔
      ((Pair_termination E q_node_i delta unvisited s).explore = true ∧
        (Pair_extrinsic E q_node_i r_node_i delta unvisited s).explore = true)) ∧
    ((Pair_termination E q_node_i delta unvisited s).explore = false →
      (Pair_ E (fuel + 1) q_node_i r_node_i delta unvisited s).returned = true ∧
      (Pair_ E (fuel + 1) q_node_i r_node_i delta unvisited s).state.global_result_ =
        s.global_result_ ∧
      (Pair_ E (fuel + 1) q_node_i r_node_i delta unvisited s).state.log =
        s.log ++ [Event.Checking q_node_i r_node_i delta unvisited,
          Event.ConsiderQueryTermination q_node_i (s.q_mutables_ q_node_i).postponed
            (Pair_termination E q_node_i delta unvisited s).postponed false,
          Event.TerminationPrune q_node_i r_node_i]) ∧
    ((Pair_termination E q_node_i delta unvisited s).explore = true →
      (Pair_extrinsic E q_node_i r_node_i delta unvisited s).explore = false →
      (Pair_ E (fuel + 1) q_node_i r_node_i delta unvisited s).returned = true ∧
      (Pair_ E (fuel + 1) q_node_i r_node_i delta unvisited s).state.global_result_ =
        s.global_result_ ∧
      (Pair_ E (fuel + 1) q_node_i r_node_i delta unvisited s).state.log =
        s.log ++ [Event.Checking q_node_i r_node_i delta unvisited,
          Event.ConsiderQueryTermination q_node_i (s.q_mutables_ q_node_i).postponed
            (Pair_termination E q_node_i delta unvisited s).postponed true,
          Event.ConsiderPairExtrinsic q_node_i r_node_i
            (Pair_termination E q_node_i delta unvisited s).postponed
            (Pair_extrinsic E q_node_i r_node_i delta unvisited s).postponed false,
          Event.ExtrinsicPrune q_node_i r_node_i]) ∧
    ((Pair_termination E q_node_i delta unvisited s).explore = true →
      (Pair_extrinsic E q_node_i r_node_i delta unvisited s).explore = true →
      (Pair_committed E q_node_i r_node_i delta unvisited s).global_result_ =
        G.GlobalResult_UndoDelta E.param_ delta s.global_result_ ∧
      (Pair_committed E q_node_i r_node_i delta unvisited s).q_results_ = s.q_results_ ∧
      (Pair_committed E q_node_i r_node_i delta unvisited s).log =
        s.log ++ [Event.Checking q_node_i r_node_i delta unvisited,
          Event.ConsiderQueryTermination q_node_i (s.q_mutables_ q_node_i).postponed
            (Pair_termination E q_node_i delta unvisited s).postponed true,
          Event.ConsiderPairExtrinsic q_node_i r_node_i
            (Pair_termination E q_node_i delta unvisited s).postponed
            (Pair_extrinsic E q_node_i r_node_i delta unvisited s).postponed true,
          Event.UndoDelta delta] ∧
      Pair_ E (fuel + 1) q_node_i r_node_i delta unvisited s =
        if ((E.q_nodes_ q_node_i).is_leaf && (E.r_nodes_ r_node_i).is_leaf) = true then
          Outcome.done (BaseCase_ E q_node_i r_node_i unvisited
            (Pair_committed E q_node_i r_node_i delta unvisited s))
        else if ((E.r_nodes_ r_node_i).is_leaf
            || (decide ((E.q_nodes_ q_node_i).count ≥ (E.r_nodes_ r_node_i).count)
              && !(E.q_nodes_ q_node_i).is_leaf)) = true then
          SplitQ E (Pair_ E fuel) q_node_i r_node_i delta unvisited
            (Pair_committed E q_node_i r_node_i delta unvisited s)
        else
          SplitR E (Pair_ E fuel) q_node_i r_node_i unvisited
            (Pair_committed E q_node_i r_node_i delta unvisited s)) := by
  refine ⟨?_, ?_, ?_, ?_⟩
  · cases ht : (Pair_termination E q_node_i delta unvisited s).explore with
    | false => simp [Pair_, PairBody, ht]
    | true =>
      cases hx : (Pair_extrinsic E q_node_i r_node_i delta unvisited s).explore with
      | false => simp [Pair_, PairBody, ht, hx]
      | true =>
        simp only [and_self, iff_true]
        obtain ⟨rest, hrest⟩ := Pair_committed_log E fuel q_node_i r_node_i delta unvisited s ht hx
        rw [hrest]
        simp
  · intro ht
    simp [Pair_, PairBody, ht]
  · intro ht hx
    simp [Pair_, PairBody, ht, hx]
  · intro ht hx
    refine ⟨?_, ?_, ?_, ?_⟩
    · simp [Pair_committed]
    · simp [Pair_committed]
    · simp [Pair_committed, ht, hx]
    · by_cases hl : ((E.q_nodes_ q_node_i).is_leaf && (E.r_nodes_ r_node_i).is_leaf) = true
      · rw [if_pos hl]
        exact Pair_eq_BaseCase E fuel q_node_i r_node_i delta unvisited s ht hx hl
      · rw [if_neg hl]
        have hl2 : ((E.q_nodes_ q_node_i).is_leaf && (E.r_nodes_ r_node_i).is_leaf) =
            false := by
          simpa using hl
        by_cases hq : ((E.r_nodes_ r_node_i).is_leaf
            || (decide ((E.q_nodes_ q_node_i).count ≥ (E.r_nodes_ r_node_i).count)
              && !(E.q_nodes_ q_node_i).is_leaf)) = true
        · rw [if_pos hq]
          exact Pair_eq_SplitQ E fuel q_node_i r_node_i delta unvisited s ⟨ht, hx, hl2, hq⟩
        · rw [if_neg hq]
          have hq2 : ((E.r_nodes_ r_node_i).is_leaf
              || (decide ((E.q_nodes_ q_node_i).count ≥ (E.r_nodes_ r_node_i).count)
                && !(E.q_nodes_ q_node_i).is_leaf)) = false := by
            simpa using hq
          exact Pair_eq_SplitR E fuel q_node_i r_node_i delta unvisited s
            ⟨ht, hx, hl2, hq2⟩

/-- Witness of C6: the extrinsic prune path, and the commit of the pair of
roots entered with global result 10 and delta 7, which leaves 3. -/
theorem Pair_undo_delta_iff_committed_witness :
    (Pair_termination (toyEngine { toyExplore with extrinsic := false }
        toyTree3 toyTree3 false) 0 7 0 (toyState toyExplore)).explore = true ∧
    (Pair_extrinsic (toyEngine { toyExplore with extrinsic := false }
        toyTree3 toyTree3 false) 0 0 7 0 (toyState toyExplore)).explore = false ∧
    (Pair_ (toyEngine { toyExplore with extrinsic := false } toyTree3 toyTree3 false)
        (0 + 1) 0 0 7 0 (toyState toyExplore)).returned = true ∧
    (Pair_ (toyEngine { toyExplore with extrinsic := false } toyTree3 toyTree3 false)
        (0 + 1) 0 0 7 0 (toyState toyExplore)).state.global_result_ =
      (toyState toyExplore).global_result_ ∧
    (Pair_ (toyEngine { toyExplore with extrinsic := false } toyTree3 toyTree3 false)
        (0 + 1) 0 0 7 0 (toyState toyExplore)).state.log =
      (toyState toyExplore).log ++ [Event.Checking 0 0 7 0,
        Event.ConsiderQueryTermination 0 ((toyState toyExplore).q_mutables_ 0).postponed
          (Pair_termination (toyEngine { toyExplore with extrinsic := false }
            toyTree3 toyTree3 false) 0 7 0 (toyState toyExplore)).postponed true,
        Event.ConsiderPairExtrinsic 0 0
          (Pair_termination (toyEngine { toyExplore with extrinsic := false }
            toyTree3 toyTree3 false) 0 7 0 (toyState toyExplore)).postponed
          (Pair_extrinsic (toyEngine { toyExplore with extrinsic := false }
            toyTree3 toyTree3 false) 0 0 7 0 (toyState toyExplore)).postponed false,
        Event.ExtrinsicPrune 0 0] ∧
    (Pair_committed (toyEngine toyExplore toyTree3 toyTree3 false) 0 0 7 0
      ((toyState toyExplore).setGlobal 10)).global_result_ = 3 :=
  have h := (Pair_undo_delta_iff_committed
    (toyEngine { toyExplore with extrinsic := false } toyTree3 toyTree3 false) 0 0 0 7 0
    (toyState toyExplore)).2.2.1 rfl rfl
  ⟨rfl, rfl, h.1, h.2.1, h.2.2,
    ((Pair_undo_delta_iff_committed (toyEngine toyExplore toyTree3 toyTree3 false) 0 0 0 7 0
      ((toyState toyExplore).setGlobal 10)).2.2.2 rfl rfl).1⟩

end PairCommit

/-! ## The query split under a policy that keeps the summary -/

section QuerySplitKeeps

variable {G : GNP}

/-- C16 as stated fails for a policy whose `StartReaccumulate` keeps the
summary it is called on: the same query split (root of the four point tree
against a two point reference leaf, no test pruning), entered once with parent
summary 5 and once with parent summary 100, leaves the parent with summary 13
and 108, while the two children end with the same summaries and postponed in
both runs. -/
theorem Pair_query_split_keeps_parent_summary :
    Pair_splitsQ (toyKeepEngine toyExplore toyTree3 (toyTree1 2) false) 0 0 7 0
      ((toyKeepState toyExplore).setSummary 0 5) ∧
    Pair_splitsQ (toyKeepEngine toyExplore toyTree3 (toyTree1 2) false) 0 0 7 0
      ((toyKeepState toyExplore).setSummary 0 100) ∧
    (Pair_ (toyKeepEngine toyExplore toyTree3 (toyTree1 2) false) 3 0 0 7 0
      ((toyKeepState toyExplore).setSummary 0 5)).returned = true ∧
    (Pair_ (toyKeepEngine toyExplore toyTree3 (toyTree1 2) false) 3 0 0 7 0
      ((toyKeepState toyExplore).setSummary 0 100)).returned = true ∧
    ((Pair_ (toyKeepEngine toyExplore toyTree3 (toyTree1 2) false) 3 0 0 7 0
      ((toyKeepState toyExplore).setSummary 0 5)).state.q_mutables_ 0).summary_result = 13 ∧
    ((Pair_ (toyKeepEngine toyExplore toyTree3 (toyTree1 2) false) 3 0 0 7 0
      ((toyKeepState toyExplore).setSummary 0 100)).state.q_mutables_ 0).summary_result =
      108 ∧
    (Pair_ (toyKeepEngine toyExplore toyTree3 (toyTree1 2) false) 3 0 0 7 0
      ((toyKeepState toyExplore).setSummary 0 5)).state.q_mutables_ 1 =
      { summary_result := 4, postponed := 0 } ∧
    (Pair_ (toyKeepEngine toyExplore toyTree3 (toyTree1 2) false) 3 0 0 7 0
      ((toyKeepState toyExplore).setSummary 0 100)).state.q_mutables_ 1 =
      { summary_result := 4, postponed := 0 } ∧
    (Pair_ (toyKeepEngine toyExplore toyTree3 (toyTree1 2) false) 3 0 0 7 0
      ((toyKeepState toyExplore).setSummary 0 5)).state.q_mutables_ 2 =
      { summary_result := 4, postponed := 0 } ∧
    (Pair_ (toyKeepEngine toyExplore toyTree3 (toyTree1 2) false) 3 0 0 7 0
      ((toyKeepState toyExplore).setSummary 0 100)).state.q_mutables_ 2 =
      { summary_result := 4, postponed := 0 } := by
  refine ⟨⟨rfl, rfl, rfl, rfl⟩, ⟨rfl, rfl, rfl, rfl⟩, ?_, ?_, ?_, ?_, ?_, ?_, ?_, ?_⟩ <;>
    simp [Pair_, PairBody, SplitQ, SplitQChild, Pair_termination, Pair_extrinsic, Pair_mu,
      BaseCase_, BaseCasePoint, VisitQueryPoint, VisitLoop, decr,
      toyKeepEngine, toyKeepState, DoitState, toyTree3, toyTree1, toyNodes, toyLeaf, toySplit,
      toyExplore, Node.child, Node.end_, State.emit, State.setPostponed, State.setSummary,
      State.setGlobal, State.setResult, Function.update, Outcome.andThen, List.range']

end QuerySplitKeeps

end Thor
